import Mathlib

/-!
smallexpr-int: the single-pass integer expression evaluator.

A shallow embedding of `evaluateExprInt` (src/smallexpr-int/smallexpr-int.c) and of the
demonstration callback `callHandler` (src/smallexpr-int/example.c).

Conventions of the embedding.

* A C `int` is an `Int`; arithmetic results are reduced to the 32-bit two's-complement range
  by `wrap32`.  Bitwise operators act on the unsigned 32-bit pattern.
* `opStack` and `valueStack` are the 64-entry arrays of the source, modelled as functions from
  the index to the stored `int`; every access checks the index against the capacity and an
  access outside `0 .. 63` is reported as `Outcome.undefinedBehaviour`.
* The source text is a list of characters; reading at or past its end yields the terminating
  NUL.  The cursor is the pair `i` (the index) and `rest` (the text from `expr + i` on), so
  `inCh` is the first character of `rest`.
* The host callback is a function on an explicit host state: it receives the offset of the
  name inside the source (the C code passes `&expr[offs]`), the name length, the argument
  vector and `argc`, and returns the result together with the new host state.
* One iteration of the outer `for (;;)` is `step`; `run` iterates it.
-/

namespace SmallExpr


/-! ## Machine integers -/

/-- The unsigned 32-bit pattern of an `int`. -/
def toU32 (x : Int) : Nat := (x % 4294967296).toNat

/-- The `int` with a given unsigned 32-bit pattern. -/
def ofU32 (n : Nat) : Int := if n < 2147483648 then (n : Int) else (n : Int) - 4294967296

/-- Reduction to the range of a 32-bit two's-complement `int`. -/
def wrap32 (x : Int) : Int := ofU32 (toU32 x)

/-- C `a & b` on `int`. -/
def band (a b : Int) : Int := ofU32 (toU32 a &&& toU32 b)

/-- C `a | b` on `int`. -/
def bor (a b : Int) : Int := ofU32 (toU32 a ||| toU32 b)

/-- C `a ^ b` on `int`. -/
def bxor (a b : Int) : Int := ofU32 (toU32 a ^^^ toU32 b)

/-- C `(char) x` for a signed 8-bit `char`. -/
def toChar (x : Int) : Int := (x + 128) % 256 - 128

/-- The code of a character constant. -/
abbrev ch (c : Char) : Int := (c.toNat : Int)

/-- C truth value of a condition. -/
abbrev b2i (p : Bool) : Int := if p then 1 else 0

/-- The value returned on failure, `EXPRINT_ERRORVAL = (int)0x80000000`. -/
def EXPR_ERRORVAL : Int := -2147483648

/-! ## State machine constants (the `enum` of the source) -/

abbrev START : Int := 1
abbrev NUM : Int := 2
abbrev IDENT : Int := 4
abbrev PAREN : Int := 8
abbrev CALL : Int := 16
abbrev ASSIGN : Int := 32
abbrev BINOP : Int := 256
abbrev UNOP : Int := 512
/-- `OP = BINOP | UNOP`. -/
abbrev OP : Int := 768
/-- `CAN_LITERAL = START | BINOP | UNOP | PAREN | CALL | ASSIGN`. -/
abbrev CAN_LITERAL : Int := 825
/-- `AFTER_LITERAL = NUM | IDENT`. -/
abbrev AFTER_LITERAL : Int := 6
/-- `CAN_STATEMENT = START | CALL | AFTER_LITERAL`. -/
abbrev CAN_STATEMENT : Int := 23
abbrev IDLE : Int := -1
abbrev FOLDED : Int := -2

/-! ## Character classes and tables -/

/-- C `isalpha` in the "C" locale. -/
def isalpha (c : Int) : Bool := (65 ≤ c && c ≤ 90) || (97 ≤ c && c ≤ 122)

/-- C `isdigit`. -/
def isdigit (c : Int) : Bool := 48 ≤ c && c ≤ 57

/-- The whitespace test of the source: space, tab or newline. -/
def isBlank (c : Int) : Bool := c = ch ' ' || c = ch '\t' || c = ch '\n'

/-- The test of the identifier loop: `isalpha(c) || isdigit(c) || c == '_'`. -/
def isIdentChar (c : Int) : Bool := isalpha c || isdigit c || c = ch '_'

/-- The test of the hexadecimal loop. -/
def isHexChar (c : Int) : Bool :=
  isdigit c || (ch 'a' ≤ c && c ≤ ch 'f') || (ch 'A' ≤ c && c ≤ ch 'F')

/-- The digit value `(inCh + 9 + ((inCh >> 4) & 1) * -9) & 15` of line 220. -/
def hexDigitValue (c : Int) : Int := (c + 9 + ((c / 16) % 2) * (-9)) % 16

/-- Indexing a string constant of the source; the byte after its end is NUL. -/
def strAt (s : String) (k : Int) : Int :=
  match s.toList.get? k.toNat with
  | some c => ch c
  | none => 0

/-- The table `opCharacters`. -/
def opCharacters : String := " U+u!ALl-   N /O%EP&  <G| r >^~*"

/-- The table `opPriorities`. -/
def opPriorities : List Int :=
  [0, 40, 15, 40, 40, 3, 8, 9,
   15, 0, 0, 0, 7, 0, 20, 2,
   20, 7, 30, 6, 0, 0, 8, 8,
   4, 0, 9, 0, 8, 5, 40, 20]

/-- The priority lookup of lines 67-68 and 78-79:
`idx = (c * 1554 >> 9) & 31; opCharacters[idx] == c ? opPriorities[idx] : 0`. -/
def prio (c : Int) : Int :=
  let prioHashIdx := (c * 1554 / 512) % 32
  if strAt opCharacters prioHashIdx = c then opPriorities.getD prioHashIdx.toNat 0 else 0

/-- The table `dualCharOps`. -/
def dualCharOps : List Int :=
  [15420, 15676, 15677, 15678, 15934, 0, 15649,
   9766, 31868, 0, 0, 0, 0, 0, 10794, 0]

/-- The translation string of the two-character operators. -/
def dualCharCodes : String := "lLEGr.NAO.....P."

/-- The test of line 346-347: `inCh` is a binary operator or starts one. -/
def isBinaryStart (c : Int) : Bool :=
  (ch '%' ≤ c && c ≤ ch '/' && strAt "11...11.1.1" (c - ch '%') = ch '1') || c = ch '!' ||
    (ch '<' ≤ c && c ≤ ch '>') || c = ch '^' || c = ch '|'

/-- Lines 353-363: the operator code at `inCh` with look-ahead `nextChar`, and the number of
extra characters it consumed (1 for a two-character operator). -/
def lexOperator (inCh nextChar : Int) : Int × Int :=
  let hashIndex := ((inCh * 8 + nextChar * 7) / 8) % 16
  if dualCharOps.getD hashIndex.toNat 0 = inCh + nextChar * 256 then
    (strAt dualCharCodes hashIndex, 1)
  else (inCh, 0)

/-! ## Machine state and outcomes -/

/-- The host callback `call(name, nameLen, argv, argc)`: host state, offset of `name` in the
source, `nameLen`, the argument vector, `argc`; returns the result and the new host state. -/
abbrev Callback (σ : Type) := σ → Int → Int → List Int → Int → Int × σ

/-- The local variables of `evaluateExprInt`. -/
structure Machine (σ : Type) where
  opStack : Int → Int
  opStackPtr : Int
  valueStack : Int → Int
  valueStackPtr : Int
  state : Int
  lastValue : Int
  /-- The offset `lastIdent - expr`. -/
  lastIdent : Int
  lastIdentLen : Int
  scanningArgs : Int
  argcOpstackPtr : Int
  foldStackArg : Int
  skipCounter : Int
  i : Int
  /-- The text from `expr + i` on. -/
  rest : List Char
  host : σ

/-- The `assert` statements of the source. -/
inductive Assertion where
  /-- `assert(skipCounter >= 0)` (lines 131, 136, 156, 161). -/
  | skipCounterNonneg
  /-- `assert(opStackPtr == 1 && opStack[opStackPtr] == START)` (line 186). -/
  | opStackAtStart
  /-- `assert(valueStackPtr == 0)` (line 187). -/
  | valueStackEmpty
  /-- `assert(opStackPtr >= 5)` (line 413). -/
  | callFrame
  /-- `assert(argCount == 0)` (line 419). -/
  | noArguments
  deriving DecidableEq

/-- How a run of `evaluateExprInt` ends. -/
inductive Outcome (σ : Type) where
  /-- Normal return: the returned `int`, the diagnostic stored in `*error` (`none` is NULL),
  and the final host state. -/
  | ret (value : Int) (error : Option String) (host : σ)
  /-- An array access outside its capacity, a division by zero or `INT_MIN / -1`, or a shift
  by an amount outside `0 .. 31`. -/
  | undefinedBehaviour
  /-- An `assert` of the source failed. -/
  | assertionFailure (which : Assertion)
  /-- The iteration bound of the model was exhausted. -/
  | outOfFuel
  deriving DecidableEq

/-- The result of a primitive operation. -/
inductive Prim where
  | val (v : Int)
  | err (msg : String)
  | undef

/-- Index check for the 64-entry arrays. -/
def inBounds (p : Int) : Bool := 0 ≤ p && p < 64

/-- Array store `a[p] = v`. -/
def store (a : Int → Int) (p v : Int) : Int → Int := fun j => if j = p then v else a j

/-- The character `inCh = expr[i]`. -/
def Machine.inCh {σ : Type} (m : Machine σ) : Int :=
  match m.rest with
  | [] => 0
  | c :: _ => ch c

/-- The character `expr[i + 1]`. -/
def Machine.nextCh {σ : Type} (m : Machine σ) : Int :=
  match m.rest with
  | _ :: c :: _ => ch c
  | _ => 0

/-- Move the cursor: `i += n; inCh = expr[i]`. -/
def Machine.advance {σ : Type} (m : Machine σ) (n : Nat) : Machine σ :=
  { m with i := m.i + n, rest := m.rest.drop n }

/-- The statement `opStack[++opStackPtr] = v`. -/
def Machine.pushOp {σ : Type} (m : Machine σ) (v : Int) : Except (Outcome σ) (Machine σ) :=
  if inBounds (m.opStackPtr + 1) then
    .ok { m with opStack := store m.opStack (m.opStackPtr + 1) v, opStackPtr := m.opStackPtr + 1 }
  else .error .undefinedBehaviour

/-- The statement `valueStack[++valueStackPtr] = v`. -/
def Machine.pushValue {σ : Type} (m : Machine σ) (v : Int) : Except (Outcome σ) (Machine σ) :=
  if inBounds (m.valueStackPtr + 1) then
    .ok { m with valueStack := store m.valueStack (m.valueStackPtr + 1) v,
                 valueStackPtr := m.valueStackPtr + 1 }
  else .error .undefinedBehaviour

/-- The `callError` exit. -/
def callError {σ : Type} (m : Machine σ) : Outcome σ :=
  .ret EXPR_ERRORVAL (some "calling a null function") m.host

/-- An error exit with the given diagnostic. -/
def failWith {σ : Type} (m : Machine σ) (msg : String) : Outcome σ :=
  .ret EXPR_ERRORVAL (some msg) m.host

/-! ## The fold pass (lines 48-167) -/

/-- The loop `for (int p = 0; p < b; p++) res *= p;` of case `P`, run for `n` more
iterations. -/
def powLoop : Nat → Int → Int → Int
  | 0, _, res => res
  | n + 1, p, res => powLoop n (p + 1) (wrap32 (res * p))

/-- The cases of the full-evaluation `switch` that only compute a value from `a` and `b`
(all cases except `=`, `O` and `A`). -/
def primitive (opChar a b : Int) : Prim :=
  if opChar = ch '0' then .val 0
  else if opChar = ch 'u' then .val (wrap32 (-a))
  else if opChar = ch '~' then .val (-a - 1)
  else if opChar = ch '!' then .val (b2i (a = 0))
  else if opChar = ch '+' then .val (wrap32 (a + b))
  else if opChar = ch '-' then .val (wrap32 (a - b))
  else if opChar = ch '*' then .val (wrap32 (a * b))
  else if opChar = ch '/' then
    if b = 0 ∨ (a = -2147483648 ∧ b = -1) then .undef else .val (Int.tdiv a b)
  else if opChar = ch '%' then
    if b = 0 ∨ (a = -2147483648 ∧ b = -1) then .undef else .val (Int.tmod a b)
  else if opChar = ch 'P' then
    if b < 0 then .err "negative powers not supported" else .val (powLoop b.toNat 0 1)
  else if opChar = ch '<' then .val (b2i (a < b))
  else if opChar = ch '>' then .val (b2i (a > b))
  else if opChar = ch 'E' then .val (b2i (a = b))
  else if opChar = ch 'N' then .val (b2i (a ≠ b))
  else if opChar = ch 'L' then .val (b2i (a ≤ b))
  else if opChar = ch 'G' then .val (b2i (a ≥ b))
  else if opChar = ch '|' then .val (bor a b)
  else if opChar = ch '&' then .val (band a b)
  else if opChar = ch '^' then .val (bxor a b)
  else if opChar = ch 'l' then
    if b < 0 ∨ 32 ≤ b then .undef else .val (wrap32 (a * 2 ^ b.toNat))
  else if opChar = ch 'r' then
    if b < 0 ∨ 32 ≤ b then .undef else .val (a / 2 ^ b.toNat)
  else .err "unrecognized operator"

/-- Cases `O` and `A` (identical in both switches): the logical value, the decrement of
`skipCounter`, and the assertion `skipCounter >= 0`. -/
def foldLogical {σ : Type} (m : Machine σ) (isOr : Bool) (a b : Int) :
    Except (Outcome σ) (Machine σ) :=
  let v : Int := if isOr then b2i (a ≠ 0 || b ≠ 0) else b2i (a ≠ 0 && b ≠ 0)
  let dec : Bool := if isOr then a ≠ 0 else a = 0
  let sc := if dec then m.skipCounter - 1 else m.skipCounter
  if sc < 0 then .error (.assertionFailure .skipCounterNonneg)
  else .ok { m with lastValue := v, skipCounter := sc }

/-- The body of the fold loop (lines 83-164) for the operator entry `op` at
`opStack[opStackPtr]`, without the `opStackPtr--` of the loop header. -/
def foldBody {σ : Type} (call : Option (Callback σ)) (m : Machine σ) (op opChar : Int) :
    Except (Outcome σ) (Machine σ) :=
  -- int a = (op & BINOP) ? valueStack[valueStackPtr--] : lastValue;
  if band op BINOP ≠ 0 ∧ ¬ inBounds m.valueStackPtr then .error .undefinedBehaviour else
  let a := if band op BINOP ≠ 0 then m.valueStack m.valueStackPtr else m.lastValue
  let m := if band op BINOP ≠ 0 then { m with valueStackPtr := m.valueStackPtr - 1 } else m
  let b := m.lastValue
  if m.skipCounter = 0 then
    -- full evaluation
    if opChar = ch '=' then
      -- int size = opStack[opStackPtr--]; int offs = opStack[opStackPtr--];
      if ¬ inBounds m.opStackPtr ∨ ¬ inBounds (m.opStackPtr - 1) then
        .error .undefinedBehaviour
      else
        let size := m.opStack m.opStackPtr
        let offs := m.opStack (m.opStackPtr - 1)
        let m := { m with opStackPtr := m.opStackPtr - 2 }
        match call with
        | none => .error (callError m)
        | some f =>
          let r := f m.host offs size [m.lastValue] (-1)
          .ok { m with lastValue := r.1, host := r.2 }
    else if opChar = ch 'O' then foldLogical m true a b
    else if opChar = ch 'A' then foldLogical m false a b
    else
      match primitive opChar a b with
      | .val v => .ok { m with lastValue := v }
      | .err msg => .error (failWith m msg)
      | .undef => .error .undefinedBehaviour
  else
    -- short-circuited evaluation
    if opChar = ch '=' then
      .ok { m with opStackPtr := m.opStackPtr - 2, lastValue := 0 }
    else if opChar = ch 'O' then foldLogical m true a b
    else if opChar = ch 'A' then foldLogical m false a b
    else .ok { m with lastValue := 0 }

/-- What one iteration of the fold loop does. -/
inductive FoldStep (σ : Type) where
  /-- A `break` of lines 72, 76 or 81. -/
  | stop (m : Machine σ)
  /-- The operator was folded and `opStackPtr--` executed. -/
  | next (m : Machine σ)
  /-- The function was left from inside the loop. -/
  | fail (o : Outcome σ)

/-- One iteration of the loop `for (;; opStackPtr--)` of lines 70-165. -/
def foldIter {σ : Type} (call : Option (Callback σ)) (foldOpChar foldPrio : Int)
    (m : Machine σ) : FoldStep σ :=
  if ¬ inBounds m.opStackPtr then .fail .undefinedBehaviour else
  let op := m.opStack m.opStackPtr
  if band op OP = 0 then .stop m else
  let opChar := toChar op
  if opChar = ch 'P' ∧ foldOpChar = ch 'P' then .stop m else
  if prio opChar < foldPrio then .stop m else
  match foldBody call m op opChar with
  | .error o => .fail o
  | .ok m1 => .next { m1 with opStackPtr := m1.opStackPtr - 1 }

/-- The loop `for (;; opStackPtr--)` of lines 70-165.  The first argument bounds the number
of iterations; every iteration lowers `opStackPtr`, so `opStackPtr + 1` iterations reach an
index below the array. -/
def foldLoop {σ : Type} (call : Option (Callback σ)) (foldOpChar foldPrio : Int) :
    Nat → Machine σ → Except (Outcome σ) (Machine σ)
  | 0, _ => .error .undefinedBehaviour
  | n + 1, m =>
    match foldIter call foldOpChar foldPrio m with
    | .stop m1 => .ok m1
    | .fail o => .error o
    | .next m1 => foldLoop call foldOpChar foldPrio n m1

/-- Identifier promotion (lines 49-57). -/
def promote {σ : Type} (call : Option (Callback σ)) (m : Machine σ) :
    Except (Outcome σ) (Machine σ) :=
  if m.state = IDENT then
    match call with
    | none => .error (callError m)
    | some f =>
      if m.skipCounter ≠ 0 then .ok { m with lastValue := 0, state := NUM }
      else
        let r := f m.host m.lastIdent m.lastIdentLen [] 0
        .ok { m with lastValue := r.1, host := r.2, state := NUM }
  else .ok m

/-- The block `if (foldStackArg >= 0) { ... foldStackArg = FOLDED; }` (lines 48-167). -/
def foldPhase {σ : Type} (call : Option (Callback σ)) (m : Machine σ) :
    Except (Outcome σ) (Machine σ) :=
  if 0 ≤ m.foldStackArg then
    match promote call m with
    | .error o => .error o
    | .ok m1 =>
      let foldOpChar := toChar m1.foldStackArg
      match foldLoop call foldOpChar (prio foldOpChar) (m1.opStackPtr + 1).toNat m1 with
      | .error o => .error o
      | .ok m2 => .ok { m2 with foldStackArg := FOLDED }
  else .ok m

/-! ## Lexical scanning loops -/

/-- Number of leading characters of the text that satisfy `p`; the loops
`while (p(inCh)) inCh = expr[++i];` advance the cursor by this amount. -/
def runLength (p : Int → Bool) : List Char → Nat
  | [] => 0
  | c :: cs => if p (ch c) then runLength p cs + 1 else 0

/-- The loop of lines 234-237: `lastValue = lastValue * 10 + (inCh - '0')` over the digits. -/
def scanDec (acc : Int) : List Char → Int
  | [] => acc
  | c :: cs => if isdigit (ch c) then scanDec (wrap32 (acc * 10 + (ch c - ch '0'))) cs else acc

/-- The loop of lines 219-222 over the hexadecimal digits. -/
def scanHex (acc : Int) : List Char → Int
  | [] => acc
  | c :: cs =>
    if isHexChar (ch c) then scanHex (wrap32 (acc * 16 + hexDigitValue (ch c))) cs else acc

/-! ## The token dispatch (lines 169-428) -/

/-- End of expression (lines 170-191). -/
def endOfExpr {σ : Type} (m : Machine σ) : Except (Outcome σ) (Machine σ) :=
  if m.state = START then .error (.ret m.lastValue none m.host)
  else if m.foldStackArg ≠ FOLDED then .ok { m with foldStackArg := 0 }
  else if 1 < m.opStackPtr then .error (failWith m "incomplete expression")
  else if ¬ (m.opStackPtr = 1 ∧ m.opStack 1 = START) then
    .error (.assertionFailure .opStackAtStart)
  else if m.valueStackPtr ≠ 0 then .error (.assertionFailure .valueStackEmpty)
  else .error (.ret m.lastValue none m.host)

/-- The block `if (state & CAN_LITERAL) { ... }` (lines 200-264); `none` when no case of the
block applies and control falls through. -/
def literalBranch {σ : Type} (m : Machine σ) : Option (Except (Outcome σ) (Machine σ)) :=
  let c := m.inCh
  if isalpha c || c = ch '_' then
    -- parse an identifier
    let n := 1 + runLength isIdentChar m.rest.tail
    some (do
      let m1 ← m.pushOp m.state
      pure { m1.advance n with lastIdent := m.i, lastIdentLen := n, state := IDENT })
  else if c = ch '0' && (m.nextCh = ch 'x' || m.nextCh = ch 'X') then
    -- parse a hex number
    let digits := m.rest.drop 2
    some (do
      let m1 ← m.pushOp m.state
      pure { m1.advance (2 + runLength isHexChar digits) with
        lastValue := scanHex 0 digits, state := NUM })
  else if isdigit c then
    -- parse a number
    some (do
      let m1 ← m.pushOp m.state
      pure { m1.advance (1 + runLength isdigit m.rest.tail) with
        lastValue := scanDec (c - ch '0') m.rest.tail, state := NUM })
  else if c = ch '-' || c = ch '~' || c = ch '!' || c = ch '+' then
    -- parse an unary operator
    let code := if c = ch '+' then ch 'U' else if c = ch '-' then ch 'u' else c
    some (do
      let m1 ← m.pushOp m.state
      pure { m1.advance 1 with state := bor code UNOP })
  else if c = ch '(' then
    -- parse a grouped expression in parentheses
    some (do
      let m1 ← m.pushOp m.state
      let m2 ← m1.pushOp m.scanningArgs
      pure { m2.advance 1 with scanningArgs := 0, state := PAREN })
  else none

/-- End of statement (lines 268-283). -/
def statementEnd {σ : Type} (m : Machine σ) : Except (Outcome σ) (Machine σ) :=
  if m.foldStackArg ≠ FOLDED then .ok { m with foldStackArg := 0 }
  else
    let ptr := if m.state ≠ START ∧ m.state ≠ CALL then m.opStackPtr - 1 else m.opStackPtr
    .ok { m.advance 1 with
      foldStackArg := IDLE, opStackPtr := ptr,
      state := if m.scanningArgs ≠ 0 then CALL else START }

/-- Argument separator (lines 288-306). -/
def argumentSeparator {σ : Type} (m : Machine σ) : Except (Outcome σ) (Machine σ) :=
  if m.foldStackArg ≠ FOLDED then .ok { m with foldStackArg := 0 }
  else if ¬ inBounds m.opStackPtr then .error .undefinedBehaviour
  else if m.opStack m.opStackPtr ≠ CALL then
    .error (failWith m "unknown state found at comma")
  else if ¬ inBounds m.argcOpstackPtr then .error .undefinedBehaviour
  else do
    let m1 : Machine σ := { m with
      foldStackArg := IDLE, opStackPtr := m.opStackPtr - 1,
      opStack := store m.opStack m.argcOpstackPtr (wrap32 (m.opStack m.argcOpstackPtr + 1)) }
    let m2 ← m1.pushValue m.lastValue
    pure { m2.advance 1 with state := CALL }

/-- The argument vector `&valueStack[valueStackPtr] + 1 - argCount` of length `argCount`. -/
def argvOf (valueStack : Int → Int) (valueStackPtr argCount : Int) : List Int :=
  (List.range argCount.toNat).map (fun k => valueStack (valueStackPtr + 1 - argCount + k))

/-- Closing parenthesis after a literal (lines 309-343). -/
def closeParen {σ : Type} (call : Option (Callback σ)) (m : Machine σ) :
    Except (Outcome σ) (Machine σ) :=
  if m.foldStackArg ≠ FOLDED then .ok { m with foldStackArg := 0 }
  else if ¬ inBounds m.opStackPtr then .error .undefinedBehaviour
  else
    let p := m.opStackPtr
    if m.opStack p = PAREN then
      -- grouped expression
      if ¬ inBounds (p - 1) then .error .undefinedBehaviour
      else .ok { m.advance 1 with
        foldStackArg := IDLE, opStackPtr := p - 2, scanningArgs := m.opStack (p - 1) }
    else if m.opStack p = CALL ∧ m.scanningArgs ≠ 0 then
      -- function call
      if ¬ inBounds (p - 5) then .error .undefinedBehaviour
      else
        let size := m.opStack (p - 1)
        let offs := m.opStack (p - 2)
        let argCount := wrap32 (m.opStack (p - 3) + 1)
        do
          let m1 ← ({ m with
            foldStackArg := IDLE, opStackPtr := p - 6,
            argcOpstackPtr := m.opStack (p - 4),
            scanningArgs := m.opStack (p - 5) } : Machine σ).pushValue m.lastValue
          match call with
          | none => .error (callError m1)
          | some f =>
            if m1.skipCounter ≠ 0 then
              pure { m1.advance 1 with
                lastValue := 0, state := NUM, valueStackPtr := m1.valueStackPtr - argCount }
            else if m1.valueStackPtr + 1 - argCount < 0 then .error .undefinedBehaviour
            else
              let r := f m1.host offs size (argvOf m1.valueStack m1.valueStackPtr argCount)
                argCount
              pure { m1.advance 1 with
                lastValue := r.1, host := r.2, state := NUM,
                valueStackPtr := m1.valueStackPtr - argCount }
    else .error (failWith m "unexpected parenthesis")

/-- Binary operator, or assignment after an identifier (lines 346-394). -/
def binaryOperator {σ : Type} (m : Machine σ) : Except (Outcome σ) (Machine σ) :=
  let lexed := lexOperator m.inCh m.nextCh
  let op := lexed.1
  let width := (lexed.2 + 1).toNat
  if op = ch '=' ∧ m.state = IDENT then
    -- assignment operator, special case
    do
      let m1 ← m.pushOp m.lastIdent
      let m2 ← m1.pushOp m.lastIdentLen
      pure { m2.advance width with state := bor (ch '=') UNOP }
  else if m.foldStackArg ≠ FOLDED then
    -- foldStackArg = op; i = oldi;
    .ok { m with foldStackArg := op }
  else
    -- short-circuited evaluation for && and ||
    let sc :=
      if op = ch 'A' then (if m.lastValue = 0 then m.skipCounter + 1 else m.skipCounter)
      else if op = ch 'O' then (if m.lastValue ≠ 0 then m.skipCounter + 1 else m.skipCounter)
      else m.skipCounter
    do
      let m1 ← m.pushValue m.lastValue
      pure { m1.advance width with
        foldStackArg := IDLE, skipCounter := sc, state := bor op BINOP }

/-- Opening of a call's argument list (lines 397-408). -/
def callOpen {σ : Type} (m : Machine σ) : Except (Outcome σ) (Machine σ) := do
  let m1 ← m.pushOp m.scanningArgs
  let m2 ← m1.pushOp m.argcOpstackPtr
  let m3 ← m2.pushOp 0
  let m4 ← m3.pushOp m.lastIdent
  let m5 ← m4.pushOp m.lastIdentLen
  pure { m5.advance 1 with argcOpstackPtr := m3.opStackPtr, state := CALL, scanningArgs := 1 }

/-- Closing parenthesis right after the opening of a call or after a separator
(lines 412-425). -/
def callNoArgs {σ : Type} (call : Option (Callback σ)) (m : Machine σ) :
    Except (Outcome σ) (Machine σ) :=
  let p := m.opStackPtr
  if p < 5 then .error (.assertionFailure .callFrame)
  else if ¬ inBounds p then .error .undefinedBehaviour
  else
    let size := m.opStack p
    let offs := m.opStack (p - 1)
    let argCount := m.opStack (p - 2)
    let m1 : Machine σ := { m with
      opStackPtr := p - 5, argcOpstackPtr := m.opStack (p - 3), scanningArgs := m.opStack (p - 4) }
    if argCount ≠ 0 then .error (.assertionFailure .noArguments)
    else
      match call with
      | none => .error (callError m1)
      | some f =>
        if m1.skipCounter ≠ 0 then pure { m1.advance 1 with lastValue := 0, state := NUM }
        else
          let r := f m1.host offs size [] 0
          pure { m1.advance 1 with lastValue := r.1, host := r.2, state := NUM }

/-- The part of the loop body after the fold block (lines 169-428). -/
def dispatch {σ : Type} (call : Option (Callback σ)) (m : Machine σ) :
    Except (Outcome σ) (Machine σ) :=
  let c := m.inCh
  if c = 0 then endOfExpr m
  else if isBlank c then .ok (m.advance (runLength isBlank m.rest))
  else
    match (if band m.state CAN_LITERAL ≠ 0 then literalBranch m else none) with
    | some r => r
    | none =>
      if band m.state CAN_STATEMENT ≠ 0 ∧ c = ch ';' then statementEnd m
      else if band m.state AFTER_LITERAL ≠ 0 ∧ c = ch ',' ∧ m.scanningArgs ≠ 0 then
        argumentSeparator m
      else if band m.state AFTER_LITERAL ≠ 0 ∧ c = ch ')' then closeParen call m
      else if band m.state AFTER_LITERAL ≠ 0 ∧ isBinaryStart c then binaryOperator m
      else if band m.state AFTER_LITERAL ≠ 0 ∧ m.state = IDENT ∧ c = ch '(' then callOpen m
      else if m.state = CALL ∧ c = ch ')' then callNoArgs call m
      else .error (failWith m "syntax error")

/-- One iteration of the outer `for (;;)`: `.ok` is `continue`, `.error` leaves the
function. -/
def step {σ : Type} (call : Option (Callback σ)) (m : Machine σ) :
    Except (Outcome σ) (Machine σ) :=
  match foldPhase call m with
  | .error o => .error o
  | .ok m1 => dispatch call m1

/-- At most `n` iterations of the outer loop. -/
def run {σ : Type} (call : Option (Callback σ)) : Nat → Machine σ → Outcome σ
  | 0, _ => .outOfFuel
  | n + 1, m =>
    match step call m with
    | .error o => o
    | .ok m1 => run call n m1

/-- The variables at the first iteration (lines 17-45).  The entries of `valueStack` above
index 0 are not initialised by the source; they are never read before being written, and
are taken as 0. -/
def initial {σ : Type} (expr : List Char) (host : σ) : Machine σ where
  opStack := store (fun _ => 0) 0 START
  opStackPtr := 0
  valueStack := fun _ => 0
  valueStackPtr := 0
  state := START
  lastValue := 0
  lastIdent := 0
  lastIdentLen := 0
  scanningArgs := 0
  argcOpstackPtr := 0
  foldStackArg := IDLE
  skipCounter := 0
  i := 0
  rest := expr
  host := host

/-- The function `evaluateExprInt(expr, call, error)`.  An iteration that does not move the
cursor only requests a fold, and the next one moves it or returns, so twice the length of the
text plus three iterations are enough for every input. -/
def evaluateExprInt {σ : Type} (expr : List Char) (call : Option (Callback σ)) (host : σ) :
    Outcome σ :=
  run call (2 * expr.length + 3) (initial expr host)

/-! ## The demonstration callback (src/smallexpr-int/example.c) -/

/-- What `callHandler` writes to standard output in one invocation. -/
inductive Printed where
  /-- The branch `print`: the arguments, each as `%d ` and then a newline. -/
  | values (args : List Int)
  /-- The final branch: `Unknown function call (nameLen=..): ` with the name bytes and the
  arguments. -/
  | unknown (nameOffset nameLen : Int) (args : List Int)
  deriving DecidableEq

/-- The state of the host of example.c: the array `vars` and the text written so far. -/
structure Host where
  vars : Int → Int
  out : List Printed

/-- The code of the character `name[k]` of a name that starts at offset `offs` of `expr`. -/
def nameChar (expr : List Char) (offs : Int) (k : Nat) : Int :=
  match (expr.drop (offs.toNat + k)) with
  | [] => 0
  | c :: _ => ch c

/-- The test `strncmp(name, s, n) == 0` for a string constant `s` of length `n`. -/
def nameIs (expr : List Char) (offs : Int) (s : String) : Bool :=
  (List.range s.length).all (fun k => nameChar expr offs k = ch (s.toList.getD k ' '))

/-- The function `callHandler` of example.c, for a run on the source `expr`. -/
def callHandler (expr : List Char) : Callback Host :=
  fun h offs nameLen argv argc =>
    if nameLen = 1 ∧ argc = -1 then
      (argv.headD 0, { h with vars := store h.vars (nameChar expr offs 0) (argv.headD 0) })
    else if nameLen = 1 ∧ argc = 0 then (h.vars (nameChar expr offs 0), h)
    else if nameLen = 5 ∧ nameIs expr offs "print" then
      (0, { h with out := h.out ++ [.values (argv.take argc.toNat)] })
    else if nameLen = 9 ∧ nameIs expr offs "return888" then (888, h)
    else (0, { h with out := h.out ++ [.unknown offs nameLen (argv.take argc.toNat)] })

/-- The initial host of example.c: `vars` is zero-initialised, nothing written. -/
def Host.initial : Host := { vars := fun _ => 0, out := [] }

/-- The observable part of a run with `callHandler`: the returned value, the diagnostic, the
output, and the variables `a` and `b`. -/
def observe : Outcome Host → Option (Int × Option String × List Printed × Int × Int)
  | .ret v e h => some (v, e, h.out, h.vars (ch 'a'), h.vars (ch 'b'))
  | _ => none

/-- One recorded invocation of a callback: name offset, name length, argument vector, argc. -/
abbrev CallRecord := Int × Int × List Int × Int

/-- A callback that records its invocations and always returns `r`. -/
def recorder (r : Int) : Callback (List CallRecord) :=
  fun h offs nameLen argv argc => (r, h ++ [(offs, nameLen, argv, argc)])


/-! ## Literals of the claims -/

/-- A decimal literal: one or more characters `0`-`9`. -/
def IsDecLit (ds : List Char) : Prop := ds ≠ [] ∧ ∀ c ∈ ds, isdigit (ch c) = true

/-- The number a string of decimal digits denotes. -/
def decValue (ds : List Char) : Nat := Nat.ofDigits 10 (ds.reverse.map (fun c => c.toNat - 48))

/-- The binary operator tokens `+ - * / % < > == != <= >= & | ^ << >> && ||`. -/
inductive BinTok where
  | add | sub | mul | div | mod | lt | gt | eq | ne | le | ge
  | bitAnd | bitOr | bitXor | shl | shr | logAnd | logOr
  deriving DecidableEq

/-- The text of a binary operator token. -/
def BinTok.text : BinTok → List Char
  | .add => ['+'] | .sub => ['-'] | .mul => ['*'] | .div => ['/'] | .mod => ['%']
  | .lt => ['<'] | .gt => ['>'] | .eq => ['=', '='] | .ne => ['!', '=']
  | .le => ['<', '='] | .ge => ['>', '='] | .bitAnd => ['&'] | .bitOr => ['|']
  | .bitXor => ['^'] | .shl => ['<', '<'] | .shr => ['>', '>']
  | .logAnd => ['&', '&'] | .logOr => ['|', '|']

/-- The value of the C expression `a op b` on 32-bit two's-complement `int` (where it is
defined: a non-zero divisor, a shift count in `0 .. 31`). -/
def BinTok.cValue (t : BinTok) (a b : Int) : Int :=
  match t with
  | .add => wrap32 (a + b)
  | .sub => wrap32 (a - b)
  | .mul => wrap32 (a * b)
  | .div => Int.tdiv a b
  | .mod => Int.tmod a b
  | .lt => if a < b then 1 else 0
  | .gt => if a > b then 1 else 0
  | .eq => if a = b then 1 else 0
  | .ne => if a ≠ b then 1 else 0
  | .le => if a ≤ b then 1 else 0
  | .ge => if a ≥ b then 1 else 0
  | .bitAnd => Int.land a b
  | .bitOr => Int.lor a b
  | .bitXor => Int.xor a b
  | .shl => wrap32 (a * 2 ^ b.toNat)
  | .shr => a / 2 ^ b.toNat
  | .logAnd => if a ≠ 0 ∧ b ≠ 0 then 1 else 0
  | .logOr => if a ≠ 0 ∨ b ≠ 0 then 1 else 0

/-! ## Auxiliary predicates of the proofs -/

/-- The text ends here or continues with a character that extends neither a number nor an
identifier. -/
def stops : List Char → Bool
  | [] => true
  | c :: _ => !isIdentChar (ch c)

/-- The code of the first character of a text, NUL at its end. -/
def headCode : List Char → Int
  | [] => 0
  | c :: _ => ch c

/-- Side conditions on the first character of a binary operator token: it passes the test
of line 346 and none of the earlier tests of the dispatch. -/
def binStart (c : Int) : Bool :=
  isBinaryStart c && !(c = 0) && !isBlank c && !(c = ch ';') && !(c = ch ',') && !(c = ch ')')

/-- Side conditions on the stack entry `s` of a binary operator with code `c` that is
folded by the primitive switch. -/
def plainBinary (s c : Int) : Bool :=
  !(band s OP = 0) && !(band s BINOP = 0) && !(band s CAN_LITERAL = 0) && toChar s = c &&
    !(c = ch '=') && !(c = ch 'O') && !(c = ch 'A') && !(c = ch 'P') && !(prio c < 0) &&
    decide (0 ≤ c)

/-! ## Hexadecimal literals of the claims -/

/-- The value 0..15 of a hexadecimal digit character `0-9`, `A-F`, `a-f`. -/
def hexDigit (c : Char) : Nat :=
  if c.toNat ≤ 57 then c.toNat - 48 else if c.toNat ≤ 70 then c.toNat - 55 else c.toNat - 87

/-- A string of one or more characters from `0-9`, `a-f`, `A-F`. -/
def IsHexLit (hs : List Char) : Prop :=
  hs ≠ [] ∧ ∀ c ∈ hs, (48 ≤ c.toNat ∧ c.toNat ≤ 57) ∨ (65 ≤ c.toNat ∧ c.toNat ≤ 70) ∨
    (97 ≤ c.toNat ∧ c.toNat ≤ 102)

/-- The base-16 number a string of hexadecimal digits denotes. -/
def hexValue (hs : List Char) : Nat := Nat.ofDigits 16 (hs.reverse.map hexDigit)

/-! ## Identifiers and argument lists of the claims -/

/-- An identifier: a letter or `_` followed by letters, digits and `_`. -/
def IsIdent (fs : List Char) : Prop :=
  ∃ c cs, fs = c :: cs ∧ (isalpha (ch c) = true ∨ c = '_') ∧
    ∀ x ∈ cs, isIdentChar (ch x) = true

/-- The text `v1,v2,...,vn` of an argument list. -/
def argList : List (List Char) → List Char
  | [] => []
  | [d] => d
  | d :: d2 :: ds => d ++ ',' :: argList (d2 :: ds)

/-- Every machine with the given pointers, state and cursor, whose stacks agree with `os` up
to `q` and with `vs` up to `K`, reaches the outcome `o` within `m` iterations. -/
def SkipCont {σ : Type} (cb : Callback σ) (m : Nat) (o : Outcome σ) (os vs : Int → Int)
    (q K s sa ao sc : Int) (r : List Char) (h : σ) : Prop :=
  ∀ (os1 vs1 : Int → Int) (lv li ll i : Int),
    (∀ j, j ≤ q → os1 j = os j) → (∀ j, j ≤ K → vs1 j = vs j) →
    run (some cb) m
      { opStack := os1, opStackPtr := q, valueStack := vs1, valueStackPtr := K, state := s,
        lastValue := lv, lastIdent := li, lastIdentLen := ll, scanningArgs := sa,
        argcOpstackPtr := ao, foldStackArg := IDLE, skipCounter := sc, i := i, rest := r,
        host := h } = o

/-! ## Diagnostics -/

/-- The diagnostic strings of a failed evaluation. -/
def diagnostics : List String :=
  ["calling a null function", "negative powers not supported", "unrecognized operator",
   "incomplete expression", "unknown state found at comma", "unexpected parenthesis",
   "syntax error"]

/-- An outcome that reports a diagnostic carries the sentinel, and the diagnostic is one of
`diagnostics`. -/
def Outcome.allOrNothing {σ : Type} : Outcome σ → Prop
  | .ret v (some msg) _ => v = -2147483648 ∧ msg ∈ diagnostics
  | _ => True

/-! ## The last iteration of a run, and a text followed by `;` -/

/-- The variables at the start of the iteration of the outer loop that leaves the function;
`none` when the bound of the model is reached first. -/
def finalMachine {σ : Type} (call : Option (Callback σ)) : Nat → Machine σ → Option (Machine σ)
  | 0, _ => none
  | n + 1, m =>
    match step call m with
    | .error _ => some m
    | .ok m1 => finalMachine call n m1

/-- The condition on the iteration that leaves the function under which a `;` after the text
is an empty statement: the iteration is outside an argument list (`scanningArgs == 0`), its
`state` admits `;` (`state & CAN_STATEMENT`), and when the state is `START` no fold is pending
and `opStack[opStackPtr]` is not an operator entry. -/
def admitsStatementEnd {σ : Type} (m : Machine σ) : Bool :=
  decide (m.scanningArgs = 0) && decide (band m.state CAN_STATEMENT ≠ 0) &&
    (decide (m.state ≠ START) ||
      (decide (m.foldStackArg = IDLE) && inBounds m.opStackPtr &&
        decide (band (m.opStack m.opStackPtr) OP = 0)))

/-- The run over `expr` leaves the function in an iteration that satisfies
`admitsStatementEnd`. -/
def endsCleanly {σ : Type} (expr : List Char) (call : Option (Callback σ)) (host : σ) : Bool :=
  match finalMachine call (2 * expr.length + 3) (initial expr host) with
  | none => false
  | some m => admitsStatementEnd m

/-- The same variables over the text followed by `;`. -/
def Machine.thenSemicolon {σ : Type} (m : Machine σ) : Machine σ :=
  { m with rest := m.rest ++ [';'] }

/-- The outcome of an iteration, with the text of a continuing machine followed by `;`. -/
def thenSemicolonE {σ : Type} (r : Except (Outcome σ) (Machine σ)) :
    Except (Outcome σ) (Machine σ) :=
  match r with
  | .ok m => .ok m.thenSemicolon
  | .error o => .error o

/-! ## The expressions of the short-circuit claim -/

/-- The unary operator tokens `-`, `~`, `!`, `+`. -/
inductive UnTok where
  | neg | compl | lnot | plus
  deriving DecidableEq

/-- The character of a unary operator token. -/
def UnTok.char : UnTok → Char
  | .neg => '-' | .compl => '~' | .lnot => '!' | .plus => '+'

/-- The operator code the evaluator stores for a unary operator token. -/
def UnTok.code : UnTok → Int
  | .neg => 117 | .compl => 126 | .lnot => 33 | .plus => 85

/-- Expressions: decimal and hexadecimal literals, identifiers, calls, parenthesised
expressions, unary operators, assignments, the binary operators and the power operator
`**`. -/
inductive Ast where
  | lit (digits : List Char)
  | hex (x : Char) (digits : List Char)
  | ident (name : List Char)
  | call (name : List Char) (args : List Ast)
  | group (e : Ast)
  | unary (op : UnTok) (e : Ast)
  | assign (name : List Char) (e : Ast)
  | binary (l : Ast) (op : BinTok) (r : Ast)
  | power (l r : Ast)

mutual
/-- The tokens of an expression, in the order of the source text. -/
def Ast.tokens : Ast → List (List Char)
  | .lit digits => [digits]
  | .hex x digits => ['0' :: x :: digits]
  | .ident name => [name]
  | .call name args => name :: ['('] :: (Ast.argsTokens args ++ [[')']])
  | .group e => ['('] :: (e.tokens ++ [[')']])
  | .unary op e => [op.char] :: e.tokens
  | .assign name e => name :: ['='] :: e.tokens
  | .binary l op r => l.tokens ++ op.text :: r.tokens
  | .power l r => l.tokens ++ ['*', '*'] :: r.tokens
/-- The tokens `e1 , e2 , ... , en` of an argument list. -/
def Ast.argsTokens : List Ast → List (List Char)
  | [] => []
  | [e] => e.tokens
  | e :: e2 :: es => e.tokens ++ [','] :: Ast.argsTokens (e2 :: es)
end

/-- The source text of a list of tokens: each token is written after the blanks that `gaps`
gives for its position (none once `gaps` has ended). -/
def spaced : List (List Char) → List (List Char) → List Char
  | _, [] => []
  | gaps, t :: ts => gaps.headD [] ++ (t ++ spaced gaps.tail ts)

/-- A run of blanks (space, tab, newline) between two tokens; it may be empty. -/
def IsGap (g : List Char) : Prop := ∀ c ∈ g, isBlank (ch c) = true

/-- Every entry is a run of blanks. -/
def Gaps (gaps : List (List Char)) : Prop := ∀ g ∈ gaps, IsGap g

mutual
/-- Well-formedness of an expression: decimal literals are below 2^31, hexadecimal literals
are `0x` or `0X` followed by hexadecimal digits with a value below 2^31, and names are
identifiers. -/
def Ast.WellFormed : Ast → Prop
  | .lit digits => IsDecLit digits ∧ decValue digits < 2147483648
  | .hex x digits => (x = 'x' ∨ x = 'X') ∧ IsHexLit digits ∧ hexValue digits < 2147483648
  | .ident name => IsIdent name
  | .call name args => IsIdent name ∧ Ast.argsWellFormed args
  | .group e => e.WellFormed
  | .unary _ e => e.WellFormed
  | .assign name e => IsIdent name ∧ e.WellFormed
  | .binary l _ r => l.WellFormed ∧ r.WellFormed
  | .power l r => l.WellFormed ∧ r.WellFormed
/-- Well-formedness of every argument. -/
def Ast.argsWellFormed : List Ast → Prop
  | [] => True
  | e :: es => e.WellFormed ∧ Ast.argsWellFormed es
end

mutual
/-- An upper bound of the number of entries of `opStack` that reading the expression needs
above the entries that are there when it starts: one for a literal, an identifier and a unary
operator, two for a pair of parentheses, three for an assignment, six for a call; the
arguments of a call are read one after the other from the same height. -/
def Ast.oload : Ast → Nat
  | .lit _ => 1
  | .hex _ _ => 1
  | .ident _ => 1
  | .call _ args => 6 + Ast.argsOload args
  | .group e => 2 + e.oload
  | .unary _ e => 1 + e.oload
  | .assign _ e => 3 + e.oload
  | .binary l _ r => l.oload + r.oload
  | .power l r => l.oload + r.oload
/-- The bound for the arguments of a call. -/
def Ast.argsOload : List Ast → Nat
  | [] => 0
  | e :: es => max e.oload (Ast.argsOload es)
end

mutual
/-- An upper bound of the number of entries of `valueStack` that reading the expression needs
above the entries that are there when it starts: one for the left operand of each binary
operator and one for each argument of a call that has been read. -/
def Ast.vload : Ast → Nat
  | .lit _ => 0
  | .hex _ _ => 0
  | .ident _ => 0
  | .call _ args => Ast.argsVload args
  | .group e => e.vload
  | .unary _ e => e.vload
  | .assign _ e => e.vload
  | .binary l _ r => l.vload + 1 + r.vload
  | .power l r => l.vload + 1 + r.vload
/-- The bound for the arguments of a call. -/
def Ast.argsVload : List Ast → Nat
  | [] => 0
  | e :: es => max e.vload (1 + Ast.argsVload es)
end

/-- The right operands of the short-circuit claim: an identifier, a call, or a parenthesised
expression. -/
def Ast.IsOperand : Ast → Prop
  | .ident _ => True
  | .call _ _ => True
  | .group _ => True
  | _ => False

/-! ## Operator entries that are waiting on the stacks -/

/-- An operator whose right operand is being read: a binary operator with its operator code
and its left operand, a unary operator with its code, or an assignment. -/
inductive Pend where
  | bin (op a : Int)
  | un (code : Int)
  | asg

/-- The value of `state` that stands for the operator. -/
def Pend.code : Pend → Int
  | .bin op _ => bor op BINOP
  | .un c => bor c UNOP
  | .asg => 573

/-- The operator character of the entry. -/
def Pend.opChar : Pend → Int
  | .bin op _ => op
  | .un c => c
  | .asg => 61

/-- The number of entries of `opStack` the operator occupies once its right operand has
started. -/
def Pend.osize : Pend → Int
  | .asg => 3
  | _ => 1

/-- The number of entries of `opStack` the operator occupies before its right operand
starts. -/
def Pend.pre : Pend → Int
  | .asg => 2
  | _ => 0

/-- The number of entries of `valueStack` the operator occupies. -/
def Pend.vsize : Pend → Int
  | .bin _ _ => 1
  | _ => 0

/-- The amount by which the operator has raised `skipCounter`. -/
def Pend.skip : Pend → Int
  | .bin op a => if (op = 65 ∧ a = 0) ∨ (op = 79 ∧ a ≠ 0) then 1 else 0
  | _ => 0

/-- The operator codes of the binary operators. -/
def binCodes : List Int :=
  [37, 38, 42, 43, 45, 47, 60, 62, 94, 124, 108, 76, 69, 71, 114, 78, 65, 79, 80]

/-- The operator codes of the unary operators. -/
def unCodes : List Int := [85, 117, 126, 33]

/-- The operator code of the entry is one the evaluator produces. -/
def Pend.ok : Pend → Prop
  | .bin op _ => op ∈ binCodes
  | .un c => c ∈ unCodes
  | .asg => True

/-- Total of `osize`. -/
def osum : List Pend → Int
  | [] => 0
  | e :: x => e.osize + osum x

/-- Total of `vsize`. -/
def vsum : List Pend → Int
  | [] => 0
  | e :: x => e.vsize + vsum x

/-- Total of `skip`. -/
def csum : List Pend → Int
  | [] => 0
  | e :: x => e.skip + csum x

/-- The operators (topmost first) lie on `opStack` above the entry at index `b`. -/
def LaidOps (os : Int → Int) (b : Int) : List Pend → Prop
  | [] => True
  | e :: x => os (b + osum (e :: x)) = e.code ∧ LaidOps os b x

/-- The left operands of the binary operators (topmost first) lie on `valueStack` above the
entry at index `k`. -/
def LaidVals (vs : Int → Int) (k : Int) : List Pend → Prop
  | [] => True
  | .bin op a :: x => vs (k + vsum (.bin op a :: x)) = a ∧ LaidVals vs k x
  | _ :: x => LaidVals vs k x

/-- The operators that remain after the fold for an incoming operator with character `foc`
and priority `fp`. -/
def foldTo (foc fp : Int) : List Pend → List Pend
  | [] => []
  | e :: x =>
    if (e.opChar = 80 ∧ foc = 80) ∨ prio e.opChar < fp then e :: x else foldTo foc fp x

/-- `n` iterations of the outer loop take the variables `m` to the variables `m1`. -/
def Advances {σ : Type} (call : Option (Callback σ)) (n : Nat) (m m1 : Machine σ) : Prop :=
  ∀ k, run call (n + k) m = run call k m1

/-- The variables `m1` differ from `m` at most in the stack pointers, the last value and
`skipCounter`. -/
def SameFrame {σ : Type} (m m1 : Machine σ) : Prop :=
  m1.opStack = m.opStack ∧ m1.valueStack = m.valueStack ∧ m1.state = m.state ∧
    m1.lastIdent = m.lastIdent ∧ m1.lastIdentLen = m.lastIdentLen ∧
    m1.scanningArgs = m.scanningArgs ∧ m1.argcOpstackPtr = m.argcOpstackPtr ∧
    m1.foldStackArg = m.foldStackArg ∧ m1.i = m.i ∧ m1.rest = m.rest ∧ m1.host = m.host

/-- The variables `m1` differ from `m` by one more entry on `opStack`, which holds the state
of `m`, and at most in the state, the last value and identifier and the cursor. -/
def PushedState {σ : Type} (m m1 : Machine σ) : Prop :=
  m1.opStackPtr = m.opStackPtr + 1 ∧ m1.opStack (m.opStackPtr + 1) = m.state ∧
    (∀ j, j ≤ m.opStackPtr → m1.opStack j = m.opStack j) ∧
    m1.valueStackPtr = m.valueStackPtr ∧
    (∀ j, j ≤ m.valueStackPtr → m1.valueStack j = m.valueStack j) ∧
    m1.skipCounter = m.skipCounter ∧
    m1.scanningArgs = m.scanningArgs ∧ m1.argcOpstackPtr = m.argcOpstackPtr ∧
    m1.foldStackArg = IDLE ∧ m1.host = m.host

/-- The effect of an operand: `PushedState`, and the state is `NUM` or `IDENT`. -/
def Pushed {σ : Type} (m m1 : Machine σ) : Prop :=
  (m1.state = NUM ∨ m1.state = IDENT) ∧ PushedState m m1

/-- The variables `m` inside the level that was opened with the variables `m0` (after `(`,
after the opening of an argument list, or after an argument separator), when the operators
`x` (topmost first) are waiting on the stacks above the entry that holds the state of
`m0`. -/
def Settled {σ : Type} (m0 : Machine σ) (x : List Pend) (m : Machine σ) : Prop :=
  m.opStackPtr = m0.opStackPtr + 1 + osum x ∧
    m.opStack (m0.opStackPtr + 1) = m0.state ∧
    LaidOps m.opStack (m0.opStackPtr + 1) x ∧
    (∀ j, j ≤ m0.opStackPtr → m.opStack j = m0.opStack j) ∧
    m.valueStackPtr = m0.valueStackPtr + vsum x ∧
    LaidVals m.valueStack m0.valueStackPtr x ∧
    (∀ j, j ≤ m0.valueStackPtr → m.valueStack j = m0.valueStack j) ∧
    m.skipCounter = m0.skipCounter + csum x ∧
    m.scanningArgs = m0.scanningArgs ∧ m.argcOpstackPtr = m0.argcOpstackPtr ∧
    m.foldStackArg = IDLE ∧ m.host = m0.host ∧ (∀ e ∈ x, e.ok)

/-- The variables inside a level when an operand has just been read. -/
def AfterOperand {σ : Type} (m0 : Machine σ) (x : List Pend) (m : Machine σ) : Prop :=
  (m.state = NUM ∨ m.state = IDENT) ∧ Settled m0 x m

/-- The variables `m` inside the level opened with `m0` when an operand is expected: either
nothing of the level has been read (`cur = none`) or the operator `cur` has been read and the
operators `x` are waiting below it. -/
def BeforeOperand {σ : Type} (m0 : Machine σ) (cur : Option Pend) (x : List Pend)
    (m : Machine σ) : Prop :=
  (match cur with
    | none =>
      x = [] ∧ m.state = m0.state ∧ m.opStackPtr = m0.opStackPtr
    | some c =>
      m.state = c.code ∧ m.opStackPtr = m0.opStackPtr + 1 + osum x + c.pre ∧
        m.opStack (m0.opStackPtr + 1) = m0.state) ∧
    LaidOps m.opStack (m0.opStackPtr + 1) x ∧
    (∀ j, j ≤ m0.opStackPtr → m.opStack j = m0.opStack j) ∧
    m.valueStackPtr = m0.valueStackPtr + vsum (cur.toList ++ x) ∧
    LaidVals m.valueStack m0.valueStackPtr (cur.toList ++ x) ∧
    (∀ j, j ≤ m0.valueStackPtr → m.valueStack j = m0.valueStack j) ∧
    m.skipCounter = m0.skipCounter + csum (cur.toList ++ x) ∧
    m.scanningArgs = m0.scanningArgs ∧ m.argcOpstackPtr = m0.argcOpstackPtr ∧
    m.foldStackArg = IDLE ∧ m.host = m0.host ∧ (∀ e ∈ cur.toList ++ x, e.ok)

/-- From the variables `m`, `n` iterations of the outer loop end with an access outside a
stack, whatever follows. -/
def Overflows {σ : Type} (cb : Callback σ) (n : Nat) (m : Machine σ) : Prop :=
  ∀ k, run (some cb) (n + k) m = .undefinedBehaviour

/-- Within `b` iterations the run from the variables `m` reaches variables that satisfy `Q`,
or it ends with an access outside a stack; the latter happens only if the bound `B` fails. -/
def Reads {σ : Type} (cb : Callback σ) (b : Nat) (m : Machine σ) (Q : Machine σ → Prop)
    (B : Prop) : Prop :=
  ∃ n, n ≤ b ∧ ((∃ m1, Advances (some cb) n m m1 ∧ Q m1) ∨ (Overflows cb n m ∧ ¬ B))

/-- While the right operand of `&&` or `||` is skipped, reading the text where an operand
may start leaves one more entry on `opStack` and nothing else, or it leaves a stack.  The
numbers `ol` and `vl` bound the entries the text needs on `opStack` and on `valueStack`. -/
def PushesText {σ : Type} (cb : Callback σ) (text : List Char) (ol vl : Nat) : Prop :=
  ∀ (m : Machine σ) (r : List Char),
    m.foldStackArg = IDLE → band m.state CAN_LITERAL ≠ 0 → 1 ≤ m.skipCounter →
    m.rest = text ++ r → stops r = true →
    0 ≤ m.opStackPtr → m.opStackPtr ≤ 63 → 0 ≤ m.valueStackPtr → m.valueStackPtr ≤ 63 →
    Reads cb (2 * text.length) m
      (fun m1 => Pushed m m1 ∧ m1.rest = r ∧ m1.opStackPtr ≤ 63)
      (m.opStackPtr + ol ≤ 63 ∧ m.valueStackPtr + vl ≤ 63)

/-- While the right operand of `&&` or `||` is skipped, reading the text inside a level leads
from a point where an operand is expected to a point after an operand of the same level, or
it leaves a stack; the latter only beyond the bounds `ol` on `opStack` and `vl` on
`valueStack`. -/
def SkipsText {σ : Type} (cb : Callback σ) (text : List Char) (ol vl : Nat) : Prop :=
  ∀ (m0 m : Machine σ) (cur : Option Pend) (x : List Pend) (r : List Char),
    BeforeOperand m0 cur x m → 1 ≤ m0.skipCounter → band m0.state OP = 0 →
    band m0.state CAN_LITERAL ≠ 0 → 0 ≤ m0.opStackPtr → 0 ≤ m0.valueStackPtr →
    m.rest = text ++ r → stops r = true →
    m.opStackPtr ≤ 63 → m.valueStackPtr ≤ 63 →
    Reads cb (2 * text.length) m
      (fun m1 => ∃ y, AfterOperand m0 y m1 ∧ m1.rest = r ∧
        m1.opStackPtr ≤ 63 ∧ m1.valueStackPtr ≤ 63 ∧
        m1.opStackPtr ≤ m.opStackPtr + ol ∧ m1.valueStackPtr ≤ m.valueStackPtr + vl)
      (m.opStackPtr + ol ≤ 63 ∧ m.valueStackPtr + vl ≤ 63)

/-- The expression `e` is skipped as `SkipsText` describes, whatever blanks stand before its
tokens. -/
def Skips {σ : Type} (cb : Callback σ) (e : Ast) : Prop :=
  ∀ gaps, Gaps gaps → SkipsText cb (spaced gaps e.tokens) e.oload e.vload

/-- The variables `mc` at the start of the argument number `j + 1` of a call that was
reached with the variables `m`: six entries lie on `opStack` above those of `m` (the state of
`m`, the saved `scanningArgs` and `argcOpstackPtr`, the argument counter `j`, the offset and
the length of the name) and `j` values on `valueStack`. -/
def InCall {σ : Type} (m : Machine σ) (j : Int) (mc : Machine σ) : Prop :=
  mc.state = CALL ∧ mc.opStackPtr = m.opStackPtr + 6 ∧
    mc.opStack (m.opStackPtr + 1) = m.state ∧
    mc.opStack (m.opStackPtr + 2) = m.scanningArgs ∧
    mc.opStack (m.opStackPtr + 3) = m.argcOpstackPtr ∧
    mc.opStack (m.opStackPtr + 4) = j ∧
    (∀ i, i ≤ m.opStackPtr → mc.opStack i = m.opStack i) ∧
    mc.valueStackPtr = m.valueStackPtr + j ∧
    (∀ i, i ≤ m.valueStackPtr → mc.valueStack i = m.valueStack i) ∧
    mc.skipCounter = m.skipCounter ∧ mc.scanningArgs = 1 ∧
    mc.argcOpstackPtr = m.opStackPtr + 4 ∧ mc.foldStackArg = IDLE ∧ mc.host = m.host

/-- The operator code the evaluator stores for a binary operator token. -/
def BinTok.code : BinTok → Int
  | .add => 43 | .sub => 45 | .mul => 42 | .div => 47 | .mod => 37
  | .lt => 60 | .gt => 62 | .eq => 69 | .ne => 78 | .le => 76 | .ge => 71
  | .bitAnd => 38 | .bitOr => 124 | .bitXor => 94 | .shl => 108 | .shr => 114
  | .logAnd => 65 | .logOr => 79

/-- The text continues with a character that can follow an operator: a blank, a letter, a
digit, `_`, `(` or a unary operator. -/
def opens (r : List Char) : Bool :=
  isBlank (headCode r) || isIdentChar (headCode r) || headCode r = ch '(' ||
    headCode r = ch '-' || headCode r = ch '~' || headCode r = ch '!' || headCode r = ch '+'

/-- The text is an operator token that the evaluator reads, before the start of an operand,
as the binary operator with the given code. -/
def IsOpToken (t : List Char) (code : Int) : Prop :=
  ∃ c cs, t = c :: cs ∧ binStart (ch c) = true ∧ code ∈ binCodes ∧
    ∀ rest, opens rest = true →
      lexOperator (ch c) (headCode (cs ++ rest)) = (code, (cs.length : Int))

theorem run_succ {σ : Type} (call : Option (Callback σ)) (n : Nat) (m : Machine σ) :
    run call (n + 1) m = match step call m with
      | .error o => o
      | .ok m1 => run call n m1 := rfl

theorem run_mono {σ : Type} (call : Option (Callback σ)) (n k : Nat) (m : Machine σ)
    (o : Outcome σ) (h : run call n m = o) (ho : o ≠ .outOfFuel) : run call (n + k) m = o := by
  induction n generalizing m with
  | zero => simp [run] at h; exact absurd h.symm ho
  | succ n ih =>
    have e : n + 1 + k = (n + k) + 1 := by omega
    rw [e, run_succ]
    rw [run_succ] at h
    cases hs : step call m with
    | error o1 => simpa [hs] using h
    | ok m1 => simp only [hs] at h ⊢; exact ih m1 h

theorem wrap32_of_range (x : Int) (h0 : -2147483648 ≤ x) (h1 : x < 2147483648) :
    wrap32 x = x := by
  unfold wrap32 ofU32 toU32
  split <;> omega

theorem decValue_cons (c : Char) (cs : List Char) :
    decValue (c :: cs) = (c.toNat - 48) * 10 ^ cs.length + decValue cs := by
  simp [decValue, Nat.ofDigits_append]; ring

theorem scanDec_value (ds : List Char) (hds : ∀ c ∈ ds, isdigit (ch c) = true) (acc : Nat)
    (hv : acc * 10 ^ ds.length + decValue ds < 2147483648) :
    scanDec (acc : Int) ds = ((acc * 10 ^ ds.length + decValue ds : Nat) : Int) := by
  induction ds generalizing acc with
  | nil => simp [scanDec, decValue]
  | cons c cs ih =>
    have hc : isdigit (ch c) = true := hds c (by simp)
    have hc2 : 48 ≤ c.toNat ∧ c.toNat ≤ 57 := by
      simp [isdigit, ch] at hc; omega
    rw [decValue_cons] at hv
    have key : (acc * 10 + (c.toNat - 48)) * 10 ^ cs.length + decValue cs
        = acc * 10 ^ (c :: cs).length + decValue (c :: cs) := by
      rw [decValue_cons, List.length_cons, pow_succ]; ring
    have hpos : 1 ≤ 10 ^ cs.length := Nat.one_le_pow _ _ (by norm_num)
    have hb : acc * 10 + (c.toNat - 48) < 2147483648 := by
      have : acc * 10 + (c.toNat - 48) ≤ (acc * 10 + (c.toNat - 48)) * 10 ^ cs.length :=
        Nat.le_mul_of_pos_right _ hpos
      rw [List.length_cons, pow_succ] at hv
      nlinarith
    have hw : wrap32 ((acc : Int) * 10 + (ch c - ch '0')) = ((acc * 10 + (c.toNat - 48) : Nat) : Int) := by
      rw [wrap32_of_range] <;> simp [ch] <;> omega
    simp only [scanDec, hc, if_true, hw]
    rw [ih (fun x hx => hds x (by simp [hx])) _ (by rw [key, decValue_cons]; exact hv), key]


theorem not_digit_of_stops (r : List Char) (hr : stops r = true) :
    runLength isdigit r = 0 ∧ ∀ acc, scanDec acc r = acc := by
  cases r with
  | nil => simp [runLength, scanDec]
  | cons c cs =>
    have h : isdigit (ch c) = false := by
      simp only [stops, isIdentChar, Bool.not_eq_true', Bool.or_eq_false_iff] at hr
      exact hr.1.2
    simp [runLength, scanDec, h]

theorem runLength_digits_append (ds r : List Char) (hds : ∀ c ∈ ds, isdigit (ch c) = true)
    (hr : stops r = true) : runLength isdigit (ds ++ r) = ds.length := by
  induction ds with
  | nil => simpa using (not_digit_of_stops r hr).1
  | cons c cs ih =>
    have hc := hds c (by simp)
    simp [runLength, hc, ih (fun x hx => hds x (by simp [hx]))]

theorem scanDec_append_stop (ds r : List Char) (hds : ∀ c ∈ ds, isdigit (ch c) = true)
    (hr : stops r = true) (acc : Int) : scanDec acc (ds ++ r) = scanDec acc ds := by
  induction ds generalizing acc with
  | nil => simpa [scanDec] using (not_digit_of_stops r hr).2 acc
  | cons c cs ih =>
    have hc := hds c (by simp)
    simp [scanDec, hc, ih (fun x hx => hds x (by simp [hx]))]

theorem isdigit_ch (c : Char) : isdigit (ch c) = true ↔ 48 ≤ c.toNat ∧ c.toNat ≤ 57 := by
  simp only [isdigit, ch, Bool.and_eq_true, decide_eq_true_eq]; omega

theorem stops_cons (x : Char) (xs : List Char) (h : stops (x :: xs) = true) :
    ¬ (48 ≤ x.toNat ∧ x.toNat ≤ 57) ∧ ¬ (65 ≤ x.toNat ∧ x.toNat ≤ 90) ∧
      ¬ (97 ≤ x.toNat ∧ x.toNat ≤ 122) ∧ x.toNat ≠ 95 := by
  simp only [stops, isIdentChar, isalpha, isdigit, ch, Bool.not_eq_true',
    Bool.or_eq_false_iff, Bool.and_eq_false_iff, decide_eq_false_iff_not, Char.reduceToNat,
    Nat.cast_ofNat] at h
  omega

theorem literalBranch_dec {σ : Type} (m : Machine σ) (ds r : List Char)
    (hrest : m.rest = ds ++ r)
    (hlit : IsDecLit ds) (hv : decValue ds < 2147483648) (hr : stops r = true) :
    literalBranch m = some (do
      let m1 ← m.pushOp m.state
      pure { m1 with i := m1.i + ds.length, rest := r, lastValue := decValue ds, state := NUM }) := by
  obtain ⟨hne, hds⟩ := hlit
  cases ds with
  | nil => exact absurd rfl hne
  | cons c cs =>
    have hc : isdigit (ch c) = true := hds c (by simp)
    have hcs : ∀ x ∈ cs, isdigit (ch x) = true := fun x hx => hds x (by simp [hx])
    have hc2 := (isdigit_ch c).1 hc
    have hval : scanDec (ch c - ch '0') (cs ++ r) = (decValue (c :: cs) : Int) := by
      rw [scanDec_append_stop cs r hcs hr]
      have e : (ch c - ch '0') = (((c.toNat - 48 : Nat)) : Int) := by simp [ch]; omega
      rw [e, scanDec_value cs hcs _ (by rw [← decValue_cons]; exact hv), decValue_cons]
    have hnc : m.nextCh ≠ ch 'x' ∧ m.nextCh ≠ ch 'X' := by
      simp only [Machine.nextCh, hrest, List.cons_append]
      cases cs with
      | nil =>
        cases r with
        | nil => simp [ch]
        | cons x xs =>
          have := stops_cons x xs hr
          simp only [List.nil_append, ch, Char.reduceToNat, Nat.cast_ofNat]; omega
      | cons x xs =>
        have hx := (isdigit_ch x).1 (hcs x (by simp))
        simp only [List.cons_append, ch, Char.reduceToNat, Nat.cast_ofNat]; omega
    have hlen := runLength_digits_append cs r hcs hr
    have hin : m.inCh = ch c := by simp [Machine.inCh, hrest]
    have h3 : ¬ ((isalpha (ch c) || decide (ch c = ch '_')) = true) := by
      simp [isalpha, ch]; omega
    have h4 : ¬ ((decide (ch c = ch '0') && (decide (m.nextCh = ch 'x') ||
        decide (m.nextCh = ch 'X'))) = true) := by
      simp [hnc.1, hnc.2]
    have htail : m.rest.tail = cs ++ r := by simp [hrest]
    unfold literalBranch
    simp only [hin]
    rw [if_neg h3, if_neg h4, if_pos hc, htail, hval, hlen]
    congr 1
    cases hp : m.pushOp m.state with
    | error o => rfl
    | ok m1 =>
      have hr1 : m1.rest = m.rest := by
        unfold Machine.pushOp at hp; split at hp <;> simp at hp; rw [← hp]
      simp only [bind, Except.bind, pure, Except.pure, Machine.advance, hr1, hrest]
      simp [Nat.add_comm]

theorem step_dec {σ : Type} (call : Option (Callback σ)) (m : Machine σ) (ds r : List Char)
    (hrest : m.rest = ds ++ r)
    (hlit : IsDecLit ds) (hv : decValue ds < 2147483648) (hr : stops r = true)
    (hfsa : m.foldStackArg < 0) (hst : band m.state CAN_LITERAL ≠ 0)
    (hb : inBounds (m.opStackPtr + 1) = true) :
    step call m = .ok { m with
      opStack := store m.opStack (m.opStackPtr + 1) m.state, opStackPtr := m.opStackPtr + 1,
      i := m.i + ds.length, rest := r, lastValue := decValue ds, state := NUM } := by
  have hfold : ¬ (0 ≤ m.foldStackArg) := by omega
  have hlb := literalBranch_dec m ds r hrest hlit hv hr
  obtain ⟨hne, hds⟩ := hlit
  cases ds with
  | nil => exact absurd rfl hne
  | cons c cs =>
    have hc2 := (isdigit_ch c).1 (hds c (by simp))
    have hin : m.inCh = ch c := by simp [Machine.inCh, hrest]
    have h1 : ¬ (ch c = 0) := by simp only [ch]; omega
    have h2 : isBlank (ch c) = false := by simp [isBlank, ch]; omega
    unfold step foldPhase
    simp only [hfold, if_false]
    unfold dispatch
    simp only [hin, h1, h2, hst, hlb, if_false, if_true, ne_eq, not_false_eq_true,
      Bool.false_eq_true, Machine.pushOp, hb, bind, Except.bind, pure, Except.pure]

theorem inCh_eq {σ : Type} (m : Machine σ) : m.inCh = headCode m.rest := by
  unfold Machine.inCh headCode; cases m.rest <;> rfl

theorem nextCh_eq {σ : Type} (m : Machine σ) (c : Char) (r : List Char) (h : m.rest = c :: r) :
    m.nextCh = headCode r := by
  unfold Machine.nextCh headCode; rw [h]; cases r <;> rfl

theorem foldPhase_idle {σ : Type} (call : Option (Callback σ)) (m : Machine σ)
    (h : m.foldStackArg < 0) : foldPhase call m = .ok m := by
  unfold foldPhase; rw [if_neg (by omega)]

theorem step_idle {σ : Type} (call : Option (Callback σ)) (m : Machine σ)
    (h : m.foldStackArg < 0) : step call m = dispatch call m := by
  unfold step; rw [foldPhase_idle call m h]

theorem band_NUM : band NUM CAN_LITERAL = 0 ∧ band NUM CAN_STATEMENT ≠ 0 ∧
    band NUM AFTER_LITERAL ≠ 0 := by decide!

theorem dispatch_end {σ : Type} (call : Option (Callback σ)) (m : Machine σ)
    (h : m.rest = []) : dispatch call m = endOfExpr m := by
  unfold dispatch
  have : m.inCh = 0 := by rw [inCh_eq, h]; rfl
  simp only [this, if_true]

theorem dispatch_blank {σ : Type} (call : Option (Callback σ)) (m : Machine σ) (c : Char)
    (r : List Char) (hrest : m.rest = c :: r) (hc : isBlank (ch c) = true)
    (hr : runLength isBlank r = 0) :
    dispatch call m = .ok { m with i := m.i + 1, rest := r } := by
  have hin : m.inCh = ch c := by rw [inCh_eq, hrest]; rfl
  have h0 : ¬ (ch c = 0) := by
    intro h; rw [h] at hc; revert hc; decide
  unfold dispatch
  simp only [hin, h0, hc, if_true, if_false]
  have : runLength isBlank m.rest = 1 := by rw [hrest]; simp [runLength, hc, hr]
  rw [this]
  simp [Machine.advance, hrest]

theorem step_blank {σ : Type} (call : Option (Callback σ)) (m : Machine σ) (c : Char)
    (r : List Char) (hrest : m.rest = c :: r) (hc : isBlank (ch c) = true)
    (hr : runLength isBlank r = 0) (hfsa : m.foldStackArg = IDLE) :
    step call m = .ok { m with i := m.i + 1, rest := r } := by
  rw [step_idle call m (by rw [hfsa]; decide), dispatch_blank call m c r hrest hc hr]

/-- After a literal, at a character that is neither NUL nor blank, the dispatch reduces to
the tests of the `CAN_STATEMENT` and `AFTER_LITERAL` blocks. -/
theorem dispatch_num {σ : Type} (call : Option (Callback σ)) (m : Machine σ)
    (hst : m.state = NUM) (hc0 : m.inCh ≠ 0) (hb : isBlank m.inCh = false) :
    dispatch call m =
      if m.inCh = ch ';' then statementEnd m
      else if m.inCh = ch ',' ∧ m.scanningArgs ≠ 0 then argumentSeparator m
      else if m.inCh = ch ')' then closeParen call m
      else if isBinaryStart m.inCh = true then binaryOperator m
      else .error (failWith m "syntax error") := by
  obtain ⟨h1, h2, h3⟩ := band_NUM
  have hi : ¬ (NUM = IDENT) := by decide
  have hcall : ¬ (NUM = CALL) := by decide
  unfold dispatch
  simp only [hc0, hb, hst, h1, h2, h3, hi, hcall, if_false, ne_eq, not_true_eq_false,
    not_false_eq_true, true_and, false_and, Bool.false_eq_true]

theorem binStart_facts (c : Int) (h : binStart c = true) :
    isBinaryStart c = true ∧ c ≠ 0 ∧ isBlank c = false ∧ c ≠ ch ';' ∧ c ≠ ch ',' ∧ c ≠ ch ')' := by
  unfold binStart at h
  simp only [Bool.and_eq_true, Bool.not_eq_true', decide_eq_false_iff_not] at h
  obtain ⟨⟨⟨⟨⟨a, b⟩, c1⟩, d⟩, e⟩, f⟩ := h
  exact ⟨a, b, c1, d, e, f⟩

theorem dispatch_binop {σ : Type} (call : Option (Callback σ)) (m : Machine σ) (c : Char)
    (r : List Char) (hrest : m.rest = c :: r) (hst : m.state = NUM)
    (hcls : binStart (ch c) = true) : dispatch call m = binaryOperator m := by
  have hin : m.inCh = ch c := by rw [inCh_eq, hrest]; rfl
  obtain ⟨h1, h2, h3, h4, h5, h6⟩ := binStart_facts _ hcls
  rw [dispatch_num call m hst (by rw [hin]; exact h2) (by rw [hin]; exact h3)]
  simp only [hin, h1, h4, h5, h6, if_false, if_true, false_and]

theorem step_binop_request {σ : Type} (call : Option (Callback σ)) (m : Machine σ) (c : Char)
    (r : List Char) (op w : Int) (hrest : m.rest = c :: r) (hst : m.state = NUM)
    (hfsa : m.foldStackArg = IDLE) (hcls : binStart (ch c) = true)
    (hlex : lexOperator (ch c) (headCode r) = (op, w)) :
    step call m = .ok { m with foldStackArg := op } := by
  have hin : m.inCh = ch c := by rw [inCh_eq, hrest]; rfl
  rw [step_idle call m (by rw [hfsa]; decide), dispatch_binop call m c r hrest hst hcls]
  unfold binaryOperator
  have hi : ¬ (NUM = IDENT) := by decide
  have hf : IDLE ≠ FOLDED := by decide
  simp only [hin, nextCh_eq m c r hrest, hlex, hst, hfsa, hi, hf, and_false, if_false, ne_eq,
    not_false_eq_true, if_true]

theorem dispatch_binop_shift {σ : Type} (call : Option (Callback σ)) (m : Machine σ) (c : Char)
    (r : List Char) (op w : Int) (hrest : m.rest = c :: r) (hst : m.state = NUM)
    (hfsa : m.foldStackArg = FOLDED) (hcls : binStart (ch c) = true)
    (hlex : lexOperator (ch c) (headCode r) = (op, w))
    (hv : inBounds (m.valueStackPtr + 1) = true) :
    dispatch call m = .ok { m with
      valueStack := store m.valueStack (m.valueStackPtr + 1) m.lastValue,
      valueStackPtr := m.valueStackPtr + 1,
      i := m.i + ((w + 1).toNat : Nat), rest := m.rest.drop (w + 1).toNat,
      foldStackArg := IDLE,
      skipCounter :=
        if op = ch 'A' then (if m.lastValue = 0 then m.skipCounter + 1 else m.skipCounter)
        else if op = ch 'O' then (if m.lastValue ≠ 0 then m.skipCounter + 1 else m.skipCounter)
        else m.skipCounter,
      state := bor op BINOP } := by
  have hin : m.inCh = ch c := by rw [inCh_eq, hrest]; rfl
  rw [dispatch_binop call m c r hrest hst hcls]
  unfold binaryOperator
  have hi : ¬ (NUM = IDENT) := by decide
  simp only [hin, nextCh_eq m c r hrest, hlex, hst, hfsa, hi, and_false, if_false, ne_eq,
    not_true_eq_false, Machine.pushValue, hv, if_true, bind, Except.bind, pure, Except.pure,
    Machine.advance]

theorem step_fold {σ : Type} (call : Option (Callback σ)) (m m2 : Machine σ) (k : Nat)
    (h0 : 0 ≤ m.foldStackArg) (hst : m.state ≠ IDENT)
    (hk : (m.opStackPtr + 1).toNat = k)
    (hloop : foldLoop call (toChar m.foldStackArg) (prio (toChar m.foldStackArg)) k m = .ok m2) :
    step call m = dispatch call { m2 with foldStackArg := FOLDED } := by
  unfold step foldPhase promote
  simp only [h0, hst, if_true, if_false, hk, hloop]

theorem foldLoop_succ {σ : Type} (call : Option (Callback σ)) (foc fp : Int) (n : Nat)
    (m : Machine σ) :
    foldLoop call foc fp (n + 1) m =
      match foldIter call foc fp m with
      | .stop m1 => .ok m1
      | .fail o => .error o
      | .next m1 => foldLoop call foc fp n m1 := rfl

theorem foldLoop_stop {σ : Type} (call : Option (Callback σ)) (foc fp : Int) (n : Nat)
    (m : Machine σ) (s : Int) (hb : inBounds m.opStackPtr = true)
    (hs : m.opStack m.opStackPtr = s) (hop : band s OP = 0) :
    foldLoop call foc fp (n + 1) m = .ok m := by
  rw [foldLoop_succ]
  unfold foldIter
  simp only [hb, hs, hop, not_true_eq_false, if_false, if_true]

theorem foldLoop_stop_prio {σ : Type} (call : Option (Callback σ)) (foc fp : Int) (n : Nat)
    (m : Machine σ) (s : Int) (hb : inBounds m.opStackPtr = true)
    (hs : m.opStack m.opStackPtr = s) (hprio : prio (toChar s) < fp) :
    foldLoop call foc fp (n + 1) m = .ok m := by
  rw [foldLoop_succ]
  unfold foldIter
  simp only [hb, hs, hprio, not_true_eq_false, if_false, if_true, ite_self]

theorem foldLoop_prim {σ : Type} (call : Option (Callback σ)) (foc fp : Int) (n : Nat)
    (m : Machine σ) (s c v : Int)
    (hb : inBounds m.opStackPtr = true) (hop : m.opStack m.opStackPtr = s)
    (hgood : plainBinary s c = true) (hprio : ¬ (prio c < fp))
    (hvb : inBounds m.valueStackPtr = true) (hsc : m.skipCounter = 0)
    (hprim : primitive c (m.valueStack m.valueStackPtr) m.lastValue = .val v) :
    foldLoop call foc fp (n + 1) m =
      foldLoop call foc fp n { m with
        valueStackPtr := m.valueStackPtr - 1, lastValue := v, opStackPtr := m.opStackPtr - 1 } := by
  unfold plainBinary at hgood
  simp only [Bool.and_eq_true, Bool.not_eq_true', decide_eq_false_iff_not,
    decide_eq_true_eq] at hgood
  obtain ⟨⟨⟨⟨⟨⟨⟨⟨⟨g1, g2⟩, g3⟩, g4⟩, g5⟩, g6⟩, g7⟩, g8⟩, g9⟩, g10⟩ := hgood
  rw [foldLoop_succ]
  unfold foldIter
  simp only [hb, hop, g1, g4, g8, not_true_eq_false, if_false, false_and, hprio]
  unfold foldBody
  simp only [g2, hvb, hsc, g5, g6, g7, hprim, ne_eq, not_false_eq_true, not_true_eq_false,
    and_false, if_false, if_true]

theorem run_step {σ : Type} (call : Option (Callback σ)) (n : Nat) (m m1 : Machine σ)
    (h : step call m = .ok m1) : run call (n + 1) m = run call n m1 := by
  rw [run_succ, h]

theorem run_done {σ : Type} (call : Option (Callback σ)) (n : Nat) (m : Machine σ)
    (o : Outcome σ) (h : step call m = .error o) : run call (n + 1) m = o := by
  rw [run_succ, h]

theorem evaluate_of_run {σ : Type} (expr : List Char) (call : Option (Callback σ)) (host : σ)
    (n : Nat) (o : Outcome σ) (hn : n ≤ 2 * expr.length + 3)
    (h : run call n (initial expr host) = o) (ho : o ≠ .outOfFuel) :
    evaluateExprInt expr call host = o := by
  unfold evaluateExprInt
  obtain ⟨k, hk⟩ : ∃ k, 2 * expr.length + 3 = n + k := ⟨2 * expr.length + 3 - n, by omega⟩
  rw [hk]
  exact run_mono call n k _ o h ho

theorem step_end_request {σ : Type} (call : Option (Callback σ)) (m : Machine σ)
    (hrest : m.rest = []) (hst : m.state = NUM) (hfsa : m.foldStackArg = IDLE) :
    step call m = .ok { m with foldStackArg := 0 } := by
  rw [step_idle call m (by rw [hfsa]; decide), dispatch_end call m hrest]
  unfold endOfExpr
  have h1 : ¬ (NUM = START) := by decide
  have h2 : IDLE ≠ FOLDED := by decide
  simp only [hst, hfsa, h1, h2, if_false, ne_eq, not_false_eq_true, if_true]

theorem dispatch_end_return {σ : Type} (call : Option (Callback σ)) (m : Machine σ)
    (hrest : m.rest = []) (hst : m.state = NUM) (hfsa : m.foldStackArg = FOLDED)
    (hp : m.opStackPtr = 1) (hs : m.opStack 1 = START) (hv : m.valueStackPtr = 0) :
    dispatch call m = .error (.ret m.lastValue none m.host) := by
  rw [dispatch_end call m hrest]
  unfold endOfExpr
  have h1 : ¬ (NUM = START) := by decide
  simp only [hst, hfsa, hp, hs, hv, h1, if_false, ne_eq, not_true_eq_false, lt_self_iff_false,
    and_self]

theorem step_dec2 {σ : Type} (call : Option (Callback σ)) (m : Machine σ) (ds r : List Char)
    (st p : Int) (hrest : m.rest = ds ++ r) (hlit : IsDecLit ds) (hv : decValue ds < 2147483648)
    (hr : stops r = true) (hfsa : m.foldStackArg = IDLE) (hst : m.state = st)
    (hcl : band st CAN_LITERAL ≠ 0) (hp : m.opStackPtr = p) (hb : inBounds (p + 1) = true) :
    step call m = .ok { m with
      opStack := store m.opStack (p + 1) st, opStackPtr := p + 1,
      i := m.i + ds.length, rest := r, lastValue := decValue ds, state := NUM } := by
  subst hst hp
  exact step_dec call m ds r hrest hlit hv hr (by rw [hfsa]; decide) hcl hb

theorem allOrNothing_failWith {σ : Type} (m : Machine σ) (msg : String)
    (h : msg ∈ diagnostics) : (failWith m msg).allOrNothing := ⟨rfl, h⟩

theorem allOrNothing_callError {σ : Type} (m : Machine σ) : (callError m).allOrNothing :=
  ⟨rfl, by decide⟩

theorem prim_ite (c : Prop) [Decidable c] (x y : Prim)
    (hx : ∀ msg, x = .err msg → msg ∈ diagnostics)
    (hy : ∀ msg, y = .err msg → msg ∈ diagnostics) :
    ∀ msg, (if c then x else y) = .err msg → msg ∈ diagnostics := by
  split <;> assumption

theorem prim_val (v : Int) : ∀ msg, Prim.val v = .err msg → msg ∈ diagnostics := by
  intro msg h; cases h

theorem prim_undef : ∀ msg, Prim.undef = .err msg → msg ∈ diagnostics := by
  intro msg h; cases h

theorem prim_err (s : String) (hs : s ∈ diagnostics) :
    ∀ msg, Prim.err s = .err msg → msg ∈ diagnostics := by
  intro msg h; cases h; exact hs

theorem primitive_err (op a b : Int) : ∀ msg, primitive op a b = .err msg → msg ∈ diagnostics := by
  unfold primitive
  repeat first
    | exact prim_val _
    | exact prim_undef
    | exact prim_err _ (by decide)
    | apply prim_ite

theorem eok_ok {σ α : Type} (a : α) :
    ∀ o : Outcome σ, (Except.ok a : Except (Outcome σ) α) = .error o → o.allOrNothing := by
  intro o h; cases h

theorem eok_error {σ α : Type} (e : Outcome σ) (he : e.allOrNothing) :
    ∀ o : Outcome σ, (Except.error e : Except (Outcome σ) α) = .error o → o.allOrNothing := by
  intro o h; cases h; exact he

theorem eok_ite {σ α : Type} (c : Prop) [Decidable c] (x y : Except (Outcome σ) α)
    (hx : ∀ o, x = .error o → o.allOrNothing) (hy : ∀ o, y = .error o → o.allOrNothing) :
    ∀ o, (if c then x else y) = .error o → o.allOrNothing := by
  split <;> assumption

theorem eok_bind {σ α β : Type} (x : Except (Outcome σ) α) (f : α → Except (Outcome σ) β)
    (hx : ∀ o, x = .error o → o.allOrNothing)
    (hf : ∀ a o, f a = .error o → o.allOrNothing) :
    ∀ o, (x >>= f) = .error o → o.allOrNothing := by
  intro o h
  cases x with
  | error e =>
    have : e = o := by simpa [bind, Except.bind] using h
    exact this ▸ hx e rfl
  | ok a => exact hf a o h

theorem eok_pure {σ α : Type} (a : α) :
    ∀ o : Outcome σ, (pure a : Except (Outcome σ) α) = .error o → o.allOrNothing := by
  intro o h; cases h

theorem eok_pushOp {σ : Type} (m : Machine σ) (v : Int) :
    ∀ o, m.pushOp v = .error o → o.allOrNothing := by
  unfold Machine.pushOp
  exact eok_ite _ _ _ (eok_ok _) (eok_error _ trivial)

theorem eok_pushValue {σ : Type} (m : Machine σ) (v : Int) :
    ∀ o, m.pushValue v = .error o → o.allOrNothing := by
  unfold Machine.pushValue
  exact eok_ite _ _ _ (eok_ok _) (eok_error _ trivial)

theorem eok_foldLogical {σ : Type} (m : Machine σ) (isOr : Bool) (a b : Int) :
    ∀ o, foldLogical m isOr a b = .error o → o.allOrNothing := by
  unfold foldLogical
  exact eok_ite _ _ _ (eok_error _ trivial) (eok_ok _)

theorem eok_foldBody {σ : Type} (call : Option (Callback σ)) (m : Machine σ) (op c : Int) :
    ∀ o, foldBody call m op c = .error o → o.allOrNothing := by
  unfold foldBody
  dsimp only
  refine eok_ite _ _ _ (eok_error _ trivial) (eok_ite _ _ _ (eok_ite _ _ _ (eok_ite _ _ _
    (eok_error _ trivial) ?_) (eok_ite _ _ _ (eok_foldLogical _ _ _ _)
    (eok_ite _ _ _ (eok_foldLogical _ _ _ _) ?_))) (eok_ite _ _ _ (eok_ok _)
    (eok_ite _ _ _ (eok_foldLogical _ _ _ _) (eok_ite _ _ _ (eok_foldLogical _ _ _ _)
    (eok_ok _)))))
  · cases call with
    | none => exact eok_error _ (allOrNothing_callError _)
    | some f => exact eok_ok _
  · intro o h
    split at h
    · cases h
    · cases h; exact allOrNothing_failWith _ _ (primitive_err _ _ _ _ (by assumption))
    · cases h; trivial

theorem foldIter_fail {σ : Type} (call : Option (Callback σ)) (foc fp : Int) (m : Machine σ)
    (o : Outcome σ) (h : foldIter call foc fp m = .fail o) : o.allOrNothing := by
  unfold foldIter at h
  dsimp only at h
  split_ifs at h
  all_goals first
    | (cases h; trivial)
    | cases h
    | skip
  split at h
  · rename_i o1 heq
    injection h with h
    subst h
    exact eok_foldBody _ _ _ _ _ heq
  · cases h

theorem foldLoop_error {σ : Type} (call : Option (Callback σ)) (foc fp : Int) (n : Nat) :
    ∀ (m : Machine σ) o, foldLoop call foc fp n m = .error o → o.allOrNothing := by
  induction n with
  | zero => intro m o h; cases h; trivial
  | succ n ih =>
    intro m o h
    rw [foldLoop] at h
    split at h
    · cases h
    · rename_i o1 heq
      cases h
      exact foldIter_fail _ _ _ _ _ heq
    · exact ih _ _ h

theorem eok_promote {σ : Type} (call : Option (Callback σ)) (m : Machine σ) :
    ∀ o, promote call m = .error o → o.allOrNothing := by
  unfold promote
  refine eok_ite _ _ _ ?_ (eok_ok _)
  cases call with
  | none => exact eok_error _ (allOrNothing_callError _)
  | some f => exact eok_ite _ _ _ (eok_ok _) (eok_ok _)

theorem eok_foldPhase {σ : Type} (call : Option (Callback σ)) (m : Machine σ) :
    ∀ o, foldPhase call m = .error o → o.allOrNothing := by
  unfold foldPhase
  refine eok_ite _ _ _ ?_ (eok_ok _)
  intro o h
  split at h
  · rename_i o1 heq
    cases h; exact eok_promote _ _ _ heq
  · rename_i m1 heq
    dsimp only at h
    split at h
    · rename_i o2 heq2
      cases h; exact foldLoop_error _ _ _ _ _ _ heq2
    · cases h

theorem eok_endOfExpr {σ : Type} (m : Machine σ) :
    ∀ o, endOfExpr m = .error o → o.allOrNothing := by
  unfold endOfExpr
  exact eok_ite _ _ _ (eok_error _ trivial) (eok_ite _ _ _ (eok_ok _) (eok_ite _ _ _
    (eok_error _ (allOrNothing_failWith _ _ (by decide))) (eok_ite _ _ _ (eok_error _ trivial)
    (eok_ite _ _ _ (eok_error _ trivial) (eok_error _ trivial)))))

theorem eok_statementEnd {σ : Type} (m : Machine σ) :
    ∀ o, statementEnd m = .error o → o.allOrNothing := by
  unfold statementEnd
  exact eok_ite _ _ _ (eok_ok _) (eok_ok _)

theorem eok_argumentSeparator {σ : Type} (m : Machine σ) :
    ∀ o, argumentSeparator m = .error o → o.allOrNothing := by
  unfold argumentSeparator
  exact eok_ite _ _ _ (eok_ok _) (eok_ite _ _ _ (eok_error _ trivial) (eok_ite _ _ _
    (eok_error _ (allOrNothing_failWith _ _ (by decide))) (eok_ite _ _ _ (eok_error _ trivial)
    (eok_bind _ _ (eok_pushValue _ _) (fun _ => eok_pure _)))))

theorem eok_closeParen {σ : Type} (call : Option (Callback σ)) (m : Machine σ) :
    ∀ o, closeParen call m = .error o → o.allOrNothing := by
  unfold closeParen
  dsimp only
  refine eok_ite _ _ _ (eok_ok _) (eok_ite _ _ _ (eok_error _ trivial) (eok_ite _ _ _
    (eok_ite _ _ _ (eok_error _ trivial) (eok_ok _)) (eok_ite _ _ _ (eok_ite _ _ _
    (eok_error _ trivial) (eok_bind _ _ (eok_pushValue _ _) ?_))
    (eok_error _ (allOrNothing_failWith _ _ (by decide))))))
  intro m1
  cases call with
  | none => exact eok_error _ (allOrNothing_callError _)
  | some f =>
    exact eok_ite _ _ _ (eok_pure _) (eok_ite _ _ _ (eok_error _ trivial) (eok_pure _))

theorem eok_binaryOperator {σ : Type} (m : Machine σ) :
    ∀ o, binaryOperator m = .error o → o.allOrNothing := by
  unfold binaryOperator
  dsimp only
  exact eok_ite _ _ _ (eok_bind _ _ (eok_pushOp _ _) (fun _ => eok_bind _ _ (eok_pushOp _ _)
    (fun _ => eok_pure _))) (eok_ite _ _ _ (eok_ok _) (eok_bind _ _ (eok_pushValue _ _)
    (fun _ => eok_pure _)))

theorem eok_callOpen {σ : Type} (m : Machine σ) :
    ∀ o, callOpen m = .error o → o.allOrNothing := by
  unfold callOpen
  exact eok_bind _ _ (eok_pushOp _ _) (fun _ => eok_bind _ _ (eok_pushOp _ _)
    (fun _ => eok_bind _ _ (eok_pushOp _ _) (fun _ => eok_bind _ _ (eok_pushOp _ _)
    (fun _ => eok_bind _ _ (eok_pushOp _ _) (fun _ => eok_pure _)))))

theorem eok_callNoArgs {σ : Type} (call : Option (Callback σ)) (m : Machine σ) :
    ∀ o, callNoArgs call m = .error o → o.allOrNothing := by
  unfold callNoArgs
  dsimp only
  refine eok_ite _ _ _ (eok_error _ trivial) (eok_ite _ _ _ (eok_error _ trivial)
    (eok_ite _ _ _ (eok_error _ trivial) ?_))
  cases call with
  | none => exact eok_error _ (allOrNothing_callError _)
  | some f => exact eok_ite _ _ _ (eok_pure _) (eok_pure _)

theorem literalBranch_error {σ : Type} (m : Machine σ) (r : Except (Outcome σ) (Machine σ))
    (h : literalBranch m = some r) : ∀ o, r = .error o → o.allOrNothing := by
  unfold literalBranch at h
  dsimp only at h
  split_ifs at h
  all_goals
    injection h with h
    subst h
    first
      | exact eok_bind _ _ (eok_pushOp _ _) (fun _ => eok_pure _)
      | exact eok_bind _ _ (eok_pushOp _ _) (fun _ => eok_bind _ _ (eok_pushOp _ _)
          (fun _ => eok_pure _))

theorem eok_dispatch {σ : Type} (call : Option (Callback σ)) (m : Machine σ) :
    ∀ o, dispatch call m = .error o → o.allOrNothing := by
  unfold dispatch
  dsimp only
  refine eok_ite _ _ _ (eok_endOfExpr _) (eok_ite _ _ _ (eok_ok _) ?_)
  intro o h
  split at h
  · rename_i r heq
    split_ifs at heq
    exact literalBranch_error m r heq o h
  · exact eok_ite _ _ _ (eok_statementEnd _) (eok_ite _ _ _ (eok_argumentSeparator _)
      (eok_ite _ _ _ (eok_closeParen _ _) (eok_ite _ _ _ (eok_binaryOperator _)
      (eok_ite _ _ _ (eok_callOpen _) (eok_ite _ _ _ (eok_callNoArgs _ _)
      (eok_error _ (allOrNothing_failWith _ _ (by decide)))))))) o h

theorem eok_step {σ : Type} (call : Option (Callback σ)) (m : Machine σ) :
    ∀ o, step call m = .error o → o.allOrNothing := by
  unfold step
  intro o h
  split at h
  · rename_i o1 heq
    cases h; exact eok_foldPhase _ _ _ heq
  · exact eok_dispatch _ _ _ h

theorem run_allOrNothing {σ : Type} (call : Option (Callback σ)) (n : Nat) :
    ∀ m : Machine σ, (run call n m).allOrNothing := by
  induction n with
  | zero => intro m; trivial
  | succ n ih =>
    intro m
    rw [run]
    split
    · rename_i o heq
      exact eok_step _ _ _ heq
    · exact ih _

/-- C11: for every source, callback and host state on which `evaluateExprInt` returns, the
diagnostic is null, or it is one of the seven strings of `diagnostics` and the returned value
is the sentinel -2147483648. -/
theorem C11_error_reporting_all_or_nothing {σ : Type} (expr : List Char)
    (call : Option (Callback σ)) (host : σ) (v : Int) (e : Option String) (h : σ)
    (hret : evaluateExprInt expr call host = .ret v e h) :
    e = none ∨ (v = -2147483648 ∧ ∃ msg ∈ diagnostics, e = some msg) := by
  have hw := run_allOrNothing call (2 * expr.length + 3) (initial expr host)
  unfold evaluateExprInt at hret
  rw [hret] at hw
  cases e with
  | none => exact Or.inl rfl
  | some msg => exact Or.inr ⟨hw.1, msg, hw.2, rfl⟩

/-- Witness of C11: `1 + + 2` with no callback returns the sentinel and the diagnostic
`unrecognized operator`. -/
theorem C11_error_reporting_all_or_nothing_witness :
    evaluateExprInt (σ := Unit) "1 + + 2".toList none () =
        .ret (-2147483648) (some "unrecognized operator") () ∧
      ((some "unrecognized operator" : Option String) = none ∨
        ((-2147483648 : Int) = -2147483648 ∧
          ∃ msg ∈ diagnostics, some "unrecognized operator" = some msg)) :=
  ⟨by decide!, C11_error_reporting_all_or_nothing "1 + + 2".toList none ()
    (-2147483648) (some "unrecognized operator") () (by decide!)⟩

theorem nat_and_eq (a b : Nat) : a &&& b = a ^^^ (a ||| b) ^^^ b := by
  apply Nat.eq_of_testBit_eq
  intro i
  simp only [Nat.testBit_and, Nat.testBit_xor, Nat.testBit_or]
  cases a.testBit i <;> cases b.testBit i <;> rfl

theorem store_apply (a : Int → Int) (p v j : Int) : store a p v j = if j = p then v else a j := rfl

attribute [simp] step foldPhase promote foldLoop foldIter foldBody foldLogical dispatch
  endOfExpr literalBranch statementEnd argumentSeparator closeParen binaryOperator callOpen
  callNoArgs Machine.inCh Machine.nextCh Machine.advance Machine.pushOp Machine.pushValue
  runLength store_apply band bor toU32 ofU32 nat_and_eq toChar prio strAt opCharacters
  opPriorities lexOperator dualCharOps dualCharCodes isBinaryStart isBlank isalpha isdigit
  inBounds failWith callError START NUM IDENT PAREN CALL ASSIGN BINOP UNOP OP CAN_LITERAL
  AFTER_LITERAL CAN_STATEMENT IDLE FOLDED ch b2i EXPR_ERRORVAL

theorem plainBinary_facts (s c : Int) (h : plainBinary s c = true) :
    band s OP ≠ 0 ∧ band s BINOP ≠ 0 ∧ band s CAN_LITERAL ≠ 0 ∧ toChar s = c ∧ c ≠ ch '=' ∧
      c ≠ ch 'O' ∧ c ≠ ch 'A' ∧ c ≠ ch 'P' ∧ ¬ (prio c < 0) ∧ 0 ≤ c := by
  unfold plainBinary at h
  simp only [Bool.and_eq_true, Bool.not_eq_true', decide_eq_false_iff_not,
    decide_eq_true_eq] at h
  obtain ⟨⟨⟨⟨⟨⟨⟨⟨⟨g1, g2⟩, g3⟩, g4⟩, g5⟩, g6⟩, g7⟩, g8⟩, g9⟩, g10⟩ := h
  exact ⟨g1, g2, g3, g4, g5, g6, g7, g8, g9, g10⟩

theorem isDecLit_length (ds : List Char) (h : IsDecLit ds) : 1 ≤ ds.length := by
  obtain ⟨hne, _⟩ := h
  cases ds with
  | nil => exact absurd rfl hne
  | cons c cs => simp

theorem isDecLit_notBlank (ds : List Char) (h : IsDecLit ds) : runLength isBlank ds = 0 := by
  obtain ⟨hne, hds⟩ := h
  cases ds with
  | nil => exact absurd rfl hne
  | cons c cs =>
    have hc := (isdigit_ch c).1 (hds c (by simp))
    have : isBlank (ch c) = false := by
      simp only [isBlank, ch, Char.reduceToNat, Nat.cast_ofNat, Bool.or_eq_false_iff,
        decide_eq_false_iff_not]
      omega
    unfold runLength
    rw [this]; rfl

theorem binStart_notBlank (c : Char) (r : List Char) (h : binStart (ch c) = true) :
    runLength isBlank (c :: r) = 0 := by
  have := (binStart_facts _ h).2.2.1
  unfold runLength
  rw [this]; rfl

/-- The machine after `a op b` has been read and the final fold requested. -/
theorem binary_head {σ : Type} (call : Option (Callback σ)) (h : σ) (da db : List Char)
    (c : Char) (r : List Char) (op w : Int) (n : Nat)
    (ha : IsDecLit da) (hb : IsDecLit db)
    (hav : decValue da < 2147483648) (hbv : decValue db < 2147483648)
    (hcls : binStart (ch c) = true) (hlex : lexOperator (ch c) (headCode r) = (op, w))
    (hdrop : (c :: r).drop (w + 1).toNat = ' ' :: db)
    (hcl : band (bor op BINOP) CAN_LITERAL ≠ 0) (h0 : 0 ≤ op) :
    run call (n + 7) (initial (da ++ ' ' :: c :: r) h) = run call n
      { opStack := store (store (store (fun _ => 0) 0 START) (0 + 1) START) (0 + 1 + 1)
          (bor op BINOP),
        opStackPtr := 0 + 1 + 1,
        valueStack := store (fun _ => 0) (0 + 1) (decValue da), valueStackPtr := 0 + 1,
        state := NUM, lastValue := decValue db, lastIdent := 0, lastIdentLen := 0,
        scanningArgs := 0, argcOpstackPtr := 0, foldStackArg := 0,
        skipCounter :=
          if op = ch 'A' then (if (decValue da : Int) = 0 then 0 + 1 else 0)
          else if op = ch 'O' then (if (decValue da : Int) ≠ 0 then 0 + 1 else 0)
          else 0,
        i := 0 + da.length + 1 + ((w + 1).toNat : Nat) + 1 + db.length, rest := [],
        host := h } := by
  unfold initial
  rw [run_step _ _ _ _ (step_dec2 call _ da (' ' :: c :: r) START 0 rfl ha hav rfl rfl rfl
    (by decide) rfl (by decide))]
  dsimp only
  rw [run_step _ _ _ _ (step_blank call _ ' ' (c :: r) rfl rfl (binStart_notBlank c r hcls)
    rfl)]
  dsimp only
  rw [run_step _ _ _ _ (step_binop_request call _ c r op w rfl rfl rfl hcls hlex)]
  dsimp only
  rw [run_succ, step_fold call _ _ 2 h0 (by dsimp only; decide) (by dsimp only; decide)
    (foldLoop_stop call _ _ 1 _ START (by dsimp only; decide) (by simp [store]) (by decide))]
  dsimp only
  rw [dispatch_binop_shift call _ c r op w rfl rfl rfl hcls hlex (by dsimp only; decide)]
  dsimp only
  rw [hdrop]
  rw [run_step _ _ _ _ (step_blank call _ ' ' db rfl rfl (isDecLit_notBlank db hb) rfl)]
  dsimp only
  rw [run_step _ _ _ _ (step_dec2 call _ db [] (bor op BINOP) (0 + 1) (List.append_nil db).symm
    hb hbv rfl rfl rfl hcl rfl (by decide))]
  dsimp only
  rw [run_step _ _ _ _ (step_end_request call _ rfl rfl rfl)]

theorem binary_length (da : List Char) (c : Char) (r : List Char) (ha : IsDecLit da) :
    8 ≤ 2 * (da ++ ' ' :: c :: r).length + 3 := by
  have hla := isDecLit_length da ha
  simp only [List.length_append, List.length_cons]; omega

theorem eval_binary {σ : Type} (call : Option (Callback σ)) (h : σ) (da db : List Char)
    (c : Char) (r : List Char) (op w v : Int)
    (ha : IsDecLit da) (hb : IsDecLit db)
    (hav : decValue da < 2147483648) (hbv : decValue db < 2147483648)
    (hcls : binStart (ch c) = true) (hlex : lexOperator (ch c) (headCode r) = (op, w))
    (hdrop : (c :: r).drop (w + 1).toNat = ' ' :: db)
    (hgood : plainBinary (bor op BINOP) op = true)
    (hprim : primitive op (decValue da) (decValue db) = .val v) :
    evaluateExprInt (da ++ ' ' :: c :: r) call h = .ret v none h := by
  obtain ⟨g1, g2, g3, g4, g5, g6, g7, g8, g9, g10⟩ := plainBinary_facts _ _ hgood
  apply evaluate_of_run _ _ _ 8 _ (binary_length da c r ha) _ (by simp)
  rw [binary_head call h da db c r op w 1 ha hb hav hbv hcls hlex hdrop g3 g10]
  rw [if_neg g7, if_neg g6]
  have hp0 : ¬ (prio op < prio (toChar 0)) := by
    have : prio (toChar 0) = 0 := by decide
    rw [this]; exact g9
  rw [run_done _ _ _ (.ret v none h)]
  rw [step_fold call _ _ 3 (by dsimp only; decide) (by dsimp only; decide) (by dsimp only; decide)
    (by
      dsimp only
      rw [foldLoop_prim call _ _ 2 _ (bor op BINOP) op v (by dsimp only; decide)
        (by simp [store]) hgood hp0 (by dsimp only; decide) rfl (by simpa [store] using hprim)]
      dsimp only
      exact foldLoop_stop call _ _ 1 _ START (by dsimp only; decide) (by simp [store])
        (by decide))]
  dsimp only
  rw [dispatch_end_return call _ rfl rfl rfl (by dsimp only; decide) (by simp [store])
    (by dsimp only; decide)]

theorem foldBody_logical {σ : Type} (call : Option (Callback σ)) (m : Machine σ) (s c : Int)
    (isOr : Bool) (h2 : band s BINOP ≠ 0) (hc : c = if isOr then ch 'O' else ch 'A')
    (hvb : inBounds m.valueStackPtr = true) :
    foldBody call m s c =
      foldLogical { m with valueStackPtr := m.valueStackPtr - 1 } isOr
        (m.valueStack m.valueStackPtr) m.lastValue := by
  have hne : c ≠ ch '=' := by rw [hc]; cases isOr <;> decide
  unfold foldBody
  rw [if_neg (by simp only [hvb, not_true_eq_false, and_false, not_false_eq_true])]
  simp only [h2, ne_eq, not_false_eq_true, if_true, hne, if_false]
  cases isOr with
  | true =>
    have e : c = ch 'O' := hc
    simp only [e, if_true, ite_self]
  | false =>
    have e : c = ch 'A' := hc
    have e2 : ¬ (ch 'A' = ch 'O') := by decide
    simp only [e, e2, if_true, if_false, ite_self]

theorem foldLoop_logical {σ : Type} (call : Option (Callback σ)) (foc fp : Int) (n : Nat)
    (m : Machine σ) (s : Int) (isOr : Bool) (sc : Int)
    (hb : inBounds m.opStackPtr = true) (hop : m.opStack m.opStackPtr = s)
    (h1 : band s OP ≠ 0) (h2 : band s BINOP ≠ 0)
    (hc : toChar s = if isOr then ch 'O' else ch 'A') (hprio : ¬ (prio (toChar s) < fp))
    (hvb : inBounds m.valueStackPtr = true)
    (hsc : sc = if (if isOr then decide (m.valueStack m.valueStackPtr ≠ 0)
        else decide (m.valueStack m.valueStackPtr = 0)) = true
      then m.skipCounter - 1 else m.skipCounter)
    (hnn : ¬ (sc < 0)) :
    foldLoop call foc fp (n + 1) m =
      foldLoop call foc fp n { m with
        valueStackPtr := m.valueStackPtr - 1,
        lastValue := if isOr then b2i (m.valueStack m.valueStackPtr ≠ 0 || m.lastValue ≠ 0)
          else b2i (m.valueStack m.valueStackPtr ≠ 0 && m.lastValue ≠ 0),
        skipCounter := sc, opStackPtr := m.opStackPtr - 1 } := by
  have hP : ¬ (toChar s = ch 'P' ∧ foc = ch 'P') := by
    rw [hc]; cases isOr <;> simp
  rw [foldLoop_succ]
  unfold foldIter
  simp only [hb, hop, h1, hP, hprio, not_true_eq_false, if_false]
  rw [foldBody_logical call m s _ isOr h2 hc hvb]
  unfold foldLogical
  simp only [← hsc, hnn, if_false]

theorem eval_logical {σ : Type} (call : Option (Callback σ)) (h : σ) (da db : List Char)
    (c : Char) (r : List Char) (op w : Int) (isOr : Bool)
    (ha : IsDecLit da) (hb : IsDecLit db)
    (hav : decValue da < 2147483648) (hbv : decValue db < 2147483648)
    (hcls : binStart (ch c) = true) (hlex : lexOperator (ch c) (headCode r) = (op, w))
    (hdrop : (c :: r).drop (w + 1).toNat = ' ' :: db)
    (hop : op = if isOr then ch 'O' else ch 'A') :
    evaluateExprInt (da ++ ' ' :: c :: r) call h =
      .ret (if isOr then b2i ((decValue da : Int) ≠ 0 || (decValue db : Int) ≠ 0)
        else b2i ((decValue da : Int) ≠ 0 && (decValue db : Int) ≠ 0)) none h := by
  have facts : band (bor op BINOP) OP ≠ 0 ∧ band (bor op BINOP) BINOP ≠ 0 ∧
      band (bor op BINOP) CAN_LITERAL ≠ 0 ∧ toChar (bor op BINOP) = op ∧
      ¬ (prio op < prio (toChar 0)) ∧ 0 ≤ op := by
    rw [hop]; cases isOr <;> decide
  obtain ⟨g1, g2, g3, g4, g9, g10⟩ := facts
  apply evaluate_of_run _ _ _ 8 _ (binary_length da c r ha) _ (by simp)
  rw [binary_head call h da db c r op w 1 ha hb hav hbv hcls hlex hdrop g3 g10]
  rw [run_done _ _ _ (.ret _ none h)]
  rw [step_fold call _ _ 3 (by dsimp only; decide) (by dsimp only; decide) (by dsimp only; decide)
    (by
      dsimp only
      rw [foldLoop_logical call _ _ 2 _ (bor op BINOP) isOr 0 (by dsimp only; decide)
        (by simp [store]) g1 g2 (by rw [g4]; exact hop) (by rw [g4]; exact g9)
        (by dsimp only; decide)
        (by
          dsimp only
          rw [hop]
          cases isOr <;> by_cases hz : (decValue da : Int) = 0 <;> simp [store, hz])
        (by decide)]
      dsimp only
      exact foldLoop_stop call _ _ 1 _ START (by dsimp only; decide) (by simp [store])
        (by decide))]
  dsimp only
  rw [dispatch_end_return call _ rfl rfl rfl (by dsimp only; decide) (by simp [store])
    (by dsimp only; decide)]
  simp [store]

theorem toU32_natCast (a : Nat) (ha : a < 2147483648) : toU32 (a : Int) = a := by
  unfold toU32; omega

theorem ofU32_small (n : Nat) (h : n < 2147483648) : ofU32 n = (n : Int) := by
  unfold ofU32; rw [if_pos h]

theorem band_natCast (a b : Nat) (ha : a < 2147483648) (hb : b < 2147483648) :
    band (a : Int) (b : Int) = Int.land a b := by
  unfold band
  rw [toU32_natCast a ha, toU32_natCast b hb, ofU32_small _ (lt_of_le_of_lt Nat.and_le_left ha)]
  rfl

theorem bor_natCast (a b : Nat) (ha : a < 2147483648) (hb : b < 2147483648) :
    bor (a : Int) (b : Int) = Int.lor a b := by
  unfold bor
  rw [toU32_natCast a ha, toU32_natCast b hb,
    ofU32_small _ (Nat.or_lt_two_pow (n := 31) ha hb)]
  rfl

theorem bxor_natCast (a b : Nat) (ha : a < 2147483648) (hb : b < 2147483648) :
    bxor (a : Int) (b : Int) = Int.xor a b := by
  unfold bxor
  rw [toU32_natCast a ha, toU32_natCast b hb,
    ofU32_small _ (Nat.xor_lt_two_pow (n := 31) ha hb)]
  rfl

/-- C1: with no callback, `a op b` for decimal literals `a`, `b` below 2^31 and each of the
eighteen binary operator tokens (a non-zero `b` for `/` and `%`, `b < 32` for the shifts)
returns the value of the C `int` expression `a op b` and a null diagnostic. -/
theorem C1_binary_operator_value (t : BinTok) (da db : List Char)
    (ha : IsDecLit da) (hb : IsDecLit db)
    (hav : decValue da < 2147483648) (hbv : decValue db < 2147483648)
    (hdiv : t = .div ∨ t = .mod → decValue db ≠ 0)
    (hshift : t = .shl ∨ t = .shr → decValue db < 32) :
    evaluateExprInt (σ := Unit) (da ++ ' ' :: (t.text ++ ' ' :: db)) none () =
      .ret (t.cValue (decValue da) (decValue db)) none () := by
  cases t with
  | add =>
    exact eval_binary none () da db '+' (' ' :: db) 43 0 _ ha hb hav hbv (by decide)
      (show lexOperator (ch '+') (ch ' ') = _ by decide) rfl (by decide)
      (by simp [primitive, BinTok.cValue])
  | sub =>
    exact eval_binary none () da db '-' (' ' :: db) 45 0 _ ha hb hav hbv (by decide)
      (show lexOperator (ch '-') (ch ' ') = _ by decide) rfl (by decide)
      (by simp [primitive, BinTok.cValue])
  | mul =>
    exact eval_binary none () da db '*' (' ' :: db) 42 0 _ ha hb hav hbv (by decide)
      (show lexOperator (ch '*') (ch ' ') = _ by decide) rfl (by decide)
      (by simp [primitive, BinTok.cValue])
  | lt =>
    exact eval_binary none () da db '<' (' ' :: db) 60 0 _ ha hb hav hbv (by decide)
      (show lexOperator (ch '<') (ch ' ') = _ by decide) rfl (by decide)
      (by simp [primitive, BinTok.cValue])
  | gt =>
    exact eval_binary none () da db '>' (' ' :: db) 62 0 _ ha hb hav hbv (by decide)
      (show lexOperator (ch '>') (ch ' ') = _ by decide) rfl (by decide)
      (by simp [primitive, BinTok.cValue])
  | eq =>
    exact eval_binary none () da db '=' ('=' :: ' ' :: db) 69 1 _ ha hb hav hbv (by decide)
      (show lexOperator (ch '=') (ch '=') = _ by decide) rfl (by decide)
      (by simp [primitive, BinTok.cValue])
  | ne =>
    exact eval_binary none () da db '!' ('=' :: ' ' :: db) 78 1 _ ha hb hav hbv (by decide)
      (show lexOperator (ch '!') (ch '=') = _ by decide) rfl (by decide)
      (by simp [primitive, BinTok.cValue])
  | le =>
    exact eval_binary none () da db '<' ('=' :: ' ' :: db) 76 1 _ ha hb hav hbv (by decide)
      (show lexOperator (ch '<') (ch '=') = _ by decide) rfl (by decide)
      (by simp [primitive, BinTok.cValue])
  | ge =>
    exact eval_binary none () da db '>' ('=' :: ' ' :: db) 71 1 _ ha hb hav hbv (by decide)
      (show lexOperator (ch '>') (ch '=') = _ by decide) rfl (by decide)
      (by simp [primitive, BinTok.cValue])
  | div =>
    have hb0 : (decValue db : Int) ≠ 0 := by
      have := hdiv (Or.inl rfl); exact_mod_cast this
    have hn : ¬ ((decValue db : Int) = 0 ∨ ((decValue da : Int) = -2147483648 ∧
        (decValue db : Int) = -1)) := by omega
    exact eval_binary none () da db '/' (' ' :: db) 47 0 _ ha hb hav hbv (by decide)
      (show lexOperator (ch '/') (ch ' ') = _ by decide) rfl (by decide)
      (by simp [primitive, BinTok.cValue, hn, hdiv (Or.inl rfl)])
  | mod =>
    have hb0 : (decValue db : Int) ≠ 0 := by
      have := hdiv (Or.inr rfl); exact_mod_cast this
    have hn : ¬ ((decValue db : Int) = 0 ∨ ((decValue da : Int) = -2147483648 ∧
        (decValue db : Int) = -1)) := by omega
    exact eval_binary none () da db '%' (' ' :: db) 37 0 _ ha hb hav hbv (by decide)
      (show lexOperator (ch '%') (ch ' ') = _ by decide) rfl (by decide)
      (by simp [primitive, BinTok.cValue, hn, hdiv (Or.inr rfl)])
  | bitAnd =>
    exact eval_binary none () da db '&' (' ' :: db) 38 0 _ ha hb hav hbv (by decide)
      (show lexOperator (ch '&') (ch ' ') = _ by decide) rfl (by decide)
      (by simp [primitive, BinTok.cValue, band_natCast _ _ hav hbv, -band])
  | bitOr =>
    exact eval_binary none () da db '|' (' ' :: db) 124 0 _ ha hb hav hbv (by decide)
      (show lexOperator (ch '|') (ch ' ') = _ by decide) rfl (by decide)
      (by simp [primitive, BinTok.cValue, bor_natCast _ _ hav hbv, -bor])
  | bitXor =>
    exact eval_binary none () da db '^' (' ' :: db) 94 0 _ ha hb hav hbv (by decide)
      (show lexOperator (ch '^') (ch ' ') = _ by decide) rfl (by decide)
      (by simp [primitive, BinTok.cValue, bxor_natCast _ _ hav hbv])
  | shl =>
    have hs := hshift (Or.inl rfl)
    have hn : ¬ ((decValue db : Int) < 0 ∨ 32 ≤ (decValue db : Int)) := by omega
    exact eval_binary none () da db '<' ('<' :: ' ' :: db) 108 1 _ ha hb hav hbv (by decide)
      (show lexOperator (ch '<') (ch '<') = _ by decide) rfl (by decide)
      (by simp [primitive, BinTok.cValue, hn, hs])
  | shr =>
    have hs := hshift (Or.inr rfl)
    have hn : ¬ ((decValue db : Int) < 0 ∨ 32 ≤ (decValue db : Int)) := by omega
    exact eval_binary none () da db '>' ('>' :: ' ' :: db) 114 1 _ ha hb hav hbv (by decide)
      (show lexOperator (ch '>') (ch '>') = _ by decide) rfl (by decide)
      (by simp [primitive, BinTok.cValue, hn, hs])
  | logAnd =>
    have := eval_logical none () da db '&' ('&' :: ' ' :: db) 65 1 false ha hb hav hbv
      (by decide) (show lexOperator (ch '&') (ch '&') = _ by decide) rfl rfl
    rw [show BinTok.logAnd.text = ['&', '&'] from rfl]
    rw [List.cons_append, List.cons_append, List.nil_append, this]
    by_cases h1 : (decValue da : Int) = 0 <;> by_cases h2 : (decValue db : Int) = 0 <;>
      simp [BinTok.cValue, h1, h2]
  | logOr =>
    have := eval_logical none () da db '|' ('|' :: ' ' :: db) 79 1 true ha hb hav hbv
      (by decide) (show lexOperator (ch '|') (ch '|') = _ by decide) rfl rfl
    rw [show BinTok.logOr.text = ['|', '|'] from rfl]
    rw [List.cons_append, List.cons_append, List.nil_append, this]
    by_cases h1 : (decValue da : Int) = 0 <;> by_cases h2 : (decValue db : Int) = 0 <;>
      simp [BinTok.cValue, h1, h2]

/-- Witness of C1: `17 ^ 18` is the bitwise exclusive or, 3. -/
theorem C1_binary_operator_value_witness :
    evaluateExprInt (σ := Unit) ("17".toList ++ ' ' :: (BinTok.bitXor.text ++ ' ' :: "18".toList))
      none () = .ret (BinTok.bitXor.cValue (decValue "17".toList) (decValue "18".toList)) none () :=
  C1_binary_operator_value .bitXor "17".toList "18".toList ⟨by decide, by decide⟩
    ⟨by decide, by decide⟩ (by decide) (by decide) (by decide) (by decide)

theorem isDecLit_notBlank_append (ds r : List Char) (h : IsDecLit ds) :
    runLength isBlank (ds ++ r) = 0 := by
  obtain ⟨hne, hds⟩ := h
  cases ds with
  | nil => exact absurd rfl hne
  | cons c cs =>
    have hc := (isdigit_ch c).1 (hds c (by simp))
    have : isBlank (ch c) = false := by
      simp only [isBlank, ch, Char.reduceToNat, Nat.cast_ofNat, Bool.or_eq_false_iff,
        decide_eq_false_iff_not]
      omega
    rw [List.cons_append]
    unfold runLength
    rw [this]; rfl

theorem three_length (da db dc : List Char) (c1 c2 c3 c4 c5 c6 : Char) :
    14 ≤ 2 * (da ++ c1 :: c2 :: c3 :: (db ++ c4 :: c5 :: c6 :: dc)).length + 3 := by
  simp only [List.length_append, List.length_cons]; omega

theorem chain_mul_add {σ : Type} (call : Option (Callback σ)) (h : σ) (da db dc : List Char)
    (ha : IsDecLit da) (hb : IsDecLit db) (hc : IsDecLit dc)
    (hav : decValue da < 2147483648) (hbv : decValue db < 2147483648)
    (hcv : decValue dc < 2147483648) (v1 v2 : Int)
    (h1 : primitive 42 (decValue da) (decValue db) = .val v1)
    (h2 : primitive 43 v1 (decValue dc) = .val v2) :
    evaluateExprInt (da ++ ' ' :: '*' :: ' ' :: (db ++ ' ' :: '+' :: ' ' :: dc)) call h = .ret v2 none h := by
  apply evaluate_of_run _ _ _ 14 _ (three_length da db dc _ _ _ _ _ _) _ (by simp)
  unfold initial
  rw [run_step _ _ _ _ (step_dec2 call _ da (' ' :: '*' :: ' ' :: (db ++ ' ' :: '+' :: ' ' :: dc))
    START 0 rfl ha hav rfl rfl rfl (by decide) rfl (by decide))]
  dsimp only
  rw [run_succ]; simp
  rw [run_succ]; simp
  rw [run_succ]; simp
  rw [run_succ]; simp [isDecLit_notBlank_append db _ hb]
  rw [run_step _ _ _ _ (step_dec2 call _ db (' ' :: '+' :: ' ' :: dc)
    298 1 rfl hb hbv rfl rfl rfl (by decide) rfl (by decide))]
  dsimp only
  rw [run_succ]; simp
  rw [run_succ]; simp
  rw [run_succ, step_fold call _ _ 3 (by dsimp only; decide) (by dsimp only; decide)
    (by dsimp only; decide)
    (by
      dsimp only
      rw [foldLoop_prim call _ _ 2 _ 298 42 v1 (by dsimp only; decide)
        (by simp [store]) (by decide) (by decide) (by dsimp only; decide) rfl
        (by simpa [store] using h1)]
      dsimp only
      exact foldLoop_stop call _ _ 1 _ START (by dsimp only; decide) (by simp [store])
        (by decide))]
  simp
  rw [run_succ]; simp [isDecLit_notBlank dc hc]
  rw [run_step _ _ _ _ (step_dec2 call _ dc []
    299 1 (List.append_nil dc).symm hc hcv rfl rfl rfl (by decide) rfl (by decide))]
  dsimp only
  rw [run_succ]; simp
  rw [run_succ, step_fold call _ _ 3 (by dsimp only; decide) (by dsimp only; decide)
    (by dsimp only; decide)
    (by
      dsimp only
      rw [foldLoop_prim call _ _ 2 _ 299 43 v2 (by dsimp only; decide)
        (by simp [store]) (by decide) (by decide) (by dsimp only; decide) rfl
        (by simpa [store] using h2)]
      dsimp only
      exact foldLoop_stop call _ _ 1 _ START (by dsimp only; decide) (by simp [store])
        (by decide))]
  simp

theorem chain_add_mul {σ : Type} (call : Option (Callback σ)) (h : σ) (da db dc : List Char)
    (ha : IsDecLit da) (hb : IsDecLit db) (hc : IsDecLit dc)
    (hav : decValue da < 2147483648) (hbv : decValue db < 2147483648)
    (hcv : decValue dc < 2147483648) (v1 v2 : Int)
    (h1 : primitive 42 (decValue db) (decValue dc) = .val v1)
    (h2 : primitive 43 (decValue da) v1 = .val v2) :
    evaluateExprInt (da ++ ' ' :: '+' :: ' ' :: (db ++ ' ' :: '*' :: ' ' :: dc)) call h = .ret v2 none h := by
  apply evaluate_of_run _ _ _ 14 _ (three_length da db dc _ _ _ _ _ _) _ (by simp)
  unfold initial
  rw [run_step _ _ _ _ (step_dec2 call _ da (' ' :: '+' :: ' ' :: (db ++ ' ' :: '*' :: ' ' :: dc))
    START 0 rfl ha hav rfl rfl rfl (by decide) rfl (by decide))]
  dsimp only
  rw [run_succ]; simp
  rw [run_succ]; simp
  rw [run_succ]; simp
  rw [run_succ]; simp [isDecLit_notBlank_append db _ hb]
  rw [run_step _ _ _ _ (step_dec2 call _ db (' ' :: '*' :: ' ' :: dc)
    299 1 rfl hb hbv rfl rfl rfl (by decide) rfl (by decide))]
  dsimp only
  rw [run_succ]; simp
  rw [run_succ]; simp
  rw [run_succ, step_fold call _ _ 3 (by dsimp only; decide) (by dsimp only; decide)
    (by dsimp only; decide)
    (foldLoop_stop_prio call _ _ 2 _ 299 (by dsimp only; decide) (by simp [store])
      (by dsimp only; decide))]
  simp
  rw [run_succ]; simp [isDecLit_notBlank dc hc]
  rw [run_step _ _ _ _ (step_dec2 call _ dc []
    298 2 (List.append_nil dc).symm hc hcv rfl rfl rfl (by decide) rfl (by decide))]
  dsimp only
  rw [run_succ]; simp
  rw [run_succ, step_fold call _ _ 4 (by dsimp only; decide) (by dsimp only; decide)
    (by dsimp only; decide)
    (by
      dsimp only
      rw [foldLoop_prim call _ _ 3 _ 298 42 v1 (by dsimp only; decide)
        (by simp [store]) (by decide) (by decide) (by dsimp only; decide) rfl
        (by simpa [store] using h1)]
      dsimp only
      rw [foldLoop_prim call _ _ 2 _ 299 43 v2 (by dsimp only; decide)
        (by simp [store]) (by decide) (by decide) (by dsimp only; decide) rfl
        (by simpa [store] using h2)]
      dsimp only
      exact foldLoop_stop call _ _ 1 _ START (by dsimp only; decide) (by simp [store])
        (by decide))]
  simp

theorem chain_sub_sub {σ : Type} (call : Option (Callback σ)) (h : σ) (da db dc : List Char)
    (ha : IsDecLit da) (hb : IsDecLit db) (hc : IsDecLit dc)
    (hav : decValue da < 2147483648) (hbv : decValue db < 2147483648)
    (hcv : decValue dc < 2147483648) (v1 v2 : Int)
    (h1 : primitive 45 (decValue da) (decValue db) = .val v1)
    (h2 : primitive 45 v1 (decValue dc) = .val v2) :
    evaluateExprInt (da ++ ' ' :: '-' :: ' ' :: (db ++ ' ' :: '-' :: ' ' :: dc)) call h = .ret v2 none h := by
  apply evaluate_of_run _ _ _ 14 _ (three_length da db dc _ _ _ _ _ _) _ (by simp)
  unfold initial
  rw [run_step _ _ _ _ (step_dec2 call _ da (' ' :: '-' :: ' ' :: (db ++ ' ' :: '-' :: ' ' :: dc))
    START 0 rfl ha hav rfl rfl rfl (by decide) rfl (by decide))]
  dsimp only
  rw [run_succ]; simp
  rw [run_succ]; simp
  rw [run_succ]; simp
  rw [run_succ]; simp [isDecLit_notBlank_append db _ hb]
  rw [run_step _ _ _ _ (step_dec2 call _ db (' ' :: '-' :: ' ' :: dc)
    301 1 rfl hb hbv rfl rfl rfl (by decide) rfl (by decide))]
  dsimp only
  rw [run_succ]; simp
  rw [run_succ]; simp
  rw [run_succ, step_fold call _ _ 3 (by dsimp only; decide) (by dsimp only; decide)
    (by dsimp only; decide)
    (by
      dsimp only
      rw [foldLoop_prim call _ _ 2 _ 301 45 v1 (by dsimp only; decide)
        (by simp [store]) (by decide) (by decide) (by dsimp only; decide) rfl
        (by simpa [store] using h1)]
      dsimp only
      exact foldLoop_stop call _ _ 1 _ START (by dsimp only; decide) (by simp [store])
        (by decide))]
  simp
  rw [run_succ]; simp [isDecLit_notBlank dc hc]
  rw [run_step _ _ _ _ (step_dec2 call _ dc []
    301 1 (List.append_nil dc).symm hc hcv rfl rfl rfl (by decide) rfl (by decide))]
  dsimp only
  rw [run_succ]; simp
  rw [run_succ, step_fold call _ _ 3 (by dsimp only; decide) (by dsimp only; decide)
    (by dsimp only; decide)
    (by
      dsimp only
      rw [foldLoop_prim call _ _ 2 _ 301 45 v2 (by dsimp only; decide)
        (by simp [store]) (by decide) (by decide) (by dsimp only; decide) rfl
        (by simpa [store] using h2)]
      dsimp only
      exact foldLoop_stop call _ _ 1 _ START (by dsimp only; decide) (by simp [store])
        (by decide))]
  simp

theorem chain_div_div {σ : Type} (call : Option (Callback σ)) (h : σ) (da db dc : List Char)
    (ha : IsDecLit da) (hb : IsDecLit db) (hc : IsDecLit dc)
    (hav : decValue da < 2147483648) (hbv : decValue db < 2147483648)
    (hcv : decValue dc < 2147483648) (v1 v2 : Int)
    (h1 : primitive 47 (decValue da) (decValue db) = .val v1)
    (h2 : primitive 47 v1 (decValue dc) = .val v2) :
    evaluateExprInt (da ++ ' ' :: '/' :: ' ' :: (db ++ ' ' :: '/' :: ' ' :: dc)) call h = .ret v2 none h := by
  apply evaluate_of_run _ _ _ 14 _ (three_length da db dc _ _ _ _ _ _) _ (by simp)
  unfold initial
  rw [run_step _ _ _ _ (step_dec2 call _ da (' ' :: '/' :: ' ' :: (db ++ ' ' :: '/' :: ' ' :: dc))
    START 0 rfl ha hav rfl rfl rfl (by decide) rfl (by decide))]
  dsimp only
  rw [run_succ]; simp
  rw [run_succ]; simp
  rw [run_succ]; simp
  rw [run_succ]; simp [isDecLit_notBlank_append db _ hb]
  rw [run_step _ _ _ _ (step_dec2 call _ db (' ' :: '/' :: ' ' :: dc)
    303 1 rfl hb hbv rfl rfl rfl (by decide) rfl (by decide))]
  dsimp only
  rw [run_succ]; simp
  rw [run_succ]; simp
  rw [run_succ, step_fold call _ _ 3 (by dsimp only; decide) (by dsimp only; decide)
    (by dsimp only; decide)
    (by
      dsimp only
      rw [foldLoop_prim call _ _ 2 _ 303 47 v1 (by dsimp only; decide)
        (by simp [store]) (by decide) (by decide) (by dsimp only; decide) rfl
        (by simpa [store] using h1)]
      dsimp only
      exact foldLoop_stop call _ _ 1 _ START (by dsimp only; decide) (by simp [store])
        (by decide))]
  simp
  rw [run_succ]; simp [isDecLit_notBlank dc hc]
  rw [run_step _ _ _ _ (step_dec2 call _ dc []
    303 1 (List.append_nil dc).symm hc hcv rfl rfl rfl (by decide) rfl (by decide))]
  dsimp only
  rw [run_succ]; simp
  rw [run_succ, step_fold call _ _ 3 (by dsimp only; decide) (by dsimp only; decide)
    (by dsimp only; decide)
    (by
      dsimp only
      rw [foldLoop_prim call _ _ 2 _ 303 47 v2 (by dsimp only; decide)
        (by simp [store]) (by decide) (by decide) (by dsimp only; decide) rfl
        (by simpa [store] using h2)]
      dsimp only
      exact foldLoop_stop call _ _ 1 _ START (by dsimp only; decide) (by simp [store])
        (by decide))]
  simp

theorem chain_div_mul {σ : Type} (call : Option (Callback σ)) (h : σ) (da db dc : List Char)
    (ha : IsDecLit da) (hb : IsDecLit db) (hc : IsDecLit dc)
    (hav : decValue da < 2147483648) (hbv : decValue db < 2147483648)
    (hcv : decValue dc < 2147483648) (v1 v2 : Int)
    (h1 : primitive 47 (decValue da) (decValue db) = .val v1)
    (h2 : primitive 42 v1 (decValue dc) = .val v2) :
    evaluateExprInt (da ++ ' ' :: '/' :: ' ' :: (db ++ ' ' :: '*' :: ' ' :: dc)) call h = .ret v2 none h := by
  apply evaluate_of_run _ _ _ 14 _ (three_length da db dc _ _ _ _ _ _) _ (by simp)
  unfold initial
  rw [run_step _ _ _ _ (step_dec2 call _ da (' ' :: '/' :: ' ' :: (db ++ ' ' :: '*' :: ' ' :: dc))
    START 0 rfl ha hav rfl rfl rfl (by decide) rfl (by decide))]
  dsimp only
  rw [run_succ]; simp
  rw [run_succ]; simp
  rw [run_succ]; simp
  rw [run_succ]; simp [isDecLit_notBlank_append db _ hb]
  rw [run_step _ _ _ _ (step_dec2 call _ db (' ' :: '*' :: ' ' :: dc)
    303 1 rfl hb hbv rfl rfl rfl (by decide) rfl (by decide))]
  dsimp only
  rw [run_succ]; simp
  rw [run_succ]; simp
  rw [run_succ, step_fold call _ _ 3 (by dsimp only; decide) (by dsimp only; decide)
    (by dsimp only; decide)
    (by
      dsimp only
      rw [foldLoop_prim call _ _ 2 _ 303 47 v1 (by dsimp only; decide)
        (by simp [store]) (by decide) (by decide) (by dsimp only; decide) rfl
        (by simpa [store] using h1)]
      dsimp only
      exact foldLoop_stop call _ _ 1 _ START (by dsimp only; decide) (by simp [store])
        (by decide))]
  simp
  rw [run_succ]; simp [isDecLit_notBlank dc hc]
  rw [run_step _ _ _ _ (step_dec2 call _ dc []
    298 1 (List.append_nil dc).symm hc hcv rfl rfl rfl (by decide) rfl (by decide))]
  dsimp only
  rw [run_succ]; simp
  rw [run_succ, step_fold call _ _ 3 (by dsimp only; decide) (by dsimp only; decide)
    (by dsimp only; decide)
    (by
      dsimp only
      rw [foldLoop_prim call _ _ 2 _ 298 42 v2 (by dsimp only; decide)
        (by simp [store]) (by decide) (by decide) (by dsimp only; decide) rfl
        (by simpa [store] using h2)]
      dsimp only
      exact foldLoop_stop call _ _ 1 _ START (by dsimp only; decide) (by simp [store])
        (by decide))]
  simp

theorem wrap32_add_left (x y : Int) : wrap32 (wrap32 x + y) = wrap32 (x + y) := by
  unfold wrap32 ofU32 toU32
  split_ifs <;> omega

theorem wrap32_add_right (x y : Int) : wrap32 (x + wrap32 y) = wrap32 (x + y) := by
  unfold wrap32 ofU32 toU32
  split_ifs <;> omega

theorem primitive_add (a b : Int) : primitive 43 a b = .val (wrap32 (a + b)) := rfl

theorem primitive_sub (a b : Int) : primitive 45 a b = .val (wrap32 (a - b)) := rfl

theorem primitive_mul (a b : Int) : primitive 42 a b = .val (wrap32 (a * b)) := rfl

theorem primitive_div (a : Int) (b : Nat) (hb : b ≠ 0) :
    primitive 47 a b = .val (Int.tdiv a b) := by
  have hn : ¬ ((b : Int) = 0 ∨ (a = -2147483648 ∧ (b : Int) = -1)) := by omega
  simp [primitive, hn, hb]

/-- C2: with no callback, for decimal literals `a`, `b`, `c` below 2^31, `a * b + c` returns
`a*b + c` and `a + b * c` returns `a + b*c`, reduced to 32 bits, with a null diagnostic. -/
theorem C2_multiplication_binds_tighter (da db dc : List Char)
    (ha : IsDecLit da) (hb : IsDecLit db) (hc : IsDecLit dc)
    (hav : decValue da < 2147483648) (hbv : decValue db < 2147483648)
    (hcv : decValue dc < 2147483648) :
    evaluateExprInt (σ := Unit) (da ++ ' ' :: '*' :: ' ' :: (db ++ ' ' :: '+' :: ' ' :: dc))
        none () = .ret (wrap32 (decValue da * decValue db + decValue dc)) none () ∧
      evaluateExprInt (σ := Unit) (da ++ ' ' :: '+' :: ' ' :: (db ++ ' ' :: '*' :: ' ' :: dc))
        none () = .ret (wrap32 (decValue da + decValue db * decValue dc)) none () := by
  constructor
  · rw [← wrap32_add_left]
    exact chain_mul_add none () da db dc ha hb hc hav hbv hcv _ _ (primitive_mul _ _)
      (primitive_add _ _)
  · rw [← wrap32_add_right]
    exact chain_add_mul none () da db dc ha hb hc hav hbv hcv _ _ (primitive_mul _ _)
      (primitive_add _ _)

/-- Witness of C2: `16 * 17 + 18` and `16 + 17 * 18`. -/
theorem C2_multiplication_binds_tighter_witness :
    wrap32 (decValue "16".toList * decValue "17".toList + decValue "18".toList) = 290 ∧
    evaluateExprInt (σ := Unit)
        ("16".toList ++ ' ' :: '*' :: ' ' :: ("17".toList ++ ' ' :: '+' :: ' ' :: "18".toList))
        none () = .ret (wrap32 (decValue "16".toList * decValue "17".toList +
          decValue "18".toList)) none () ∧
      evaluateExprInt (σ := Unit)
        ("16".toList ++ ' ' :: '+' :: ' ' :: ("17".toList ++ ' ' :: '*' :: ' ' :: "18".toList))
        none () = .ret (wrap32 (decValue "16".toList + decValue "17".toList *
          decValue "18".toList)) none () :=
  ⟨by decide!, C2_multiplication_binds_tighter "16".toList "17".toList "18".toList
    ⟨by decide, by decide⟩ ⟨by decide, by decide⟩ ⟨by decide, by decide⟩ (by decide) (by decide)
    (by decide)⟩

/-- C3: with no callback, for decimal literals `a`, `b`, `c` below 2^31, `a - b - c` returns
`(a - b) - c` reduced to 32 bits, and for non-zero `b` (and `c` where it divides) `a / b / c`
returns `(a / b) / c` and `a / b * c` returns `(a / b) * c` reduced to 32 bits, the division
truncating as in C; the three tests of the source return 1. -/
theorem C3_equal_priority_associates_left (da db dc : List Char)
    (ha : IsDecLit da) (hb : IsDecLit db) (hc : IsDecLit dc)
    (hav : decValue da < 2147483648) (hbv : decValue db < 2147483648)
    (hcv : decValue dc < 2147483648) :
    evaluateExprInt (σ := Unit) (da ++ ' ' :: '-' :: ' ' :: (db ++ ' ' :: '-' :: ' ' :: dc))
        none () = .ret (wrap32 ((decValue da : Int) - decValue db - decValue dc)) none () ∧
      (decValue db ≠ 0 → decValue dc ≠ 0 →
        evaluateExprInt (σ := Unit)
          (da ++ ' ' :: '/' :: ' ' :: (db ++ ' ' :: '/' :: ' ' :: dc)) none () =
          .ret (Int.tdiv (Int.tdiv (decValue da) (decValue db)) (decValue dc)) none ()) ∧
      (decValue db ≠ 0 →
        evaluateExprInt (σ := Unit)
          (da ++ ' ' :: '/' :: ' ' :: (db ++ ' ' :: '*' :: ' ' :: dc)) none () =
          .ret (wrap32 (Int.tdiv (decValue da) (decValue db) * decValue dc)) none ()) ∧
      evaluateExprInt (σ := Unit) "(5 - 5 - 5) == -5".toList none () = .ret 1 none () ∧
      evaluateExprInt (σ := Unit) "(100 / 2 / 2) == 25".toList none () = .ret 1 none () ∧
      evaluateExprInt (σ := Unit) "(100 / 2 * 2) == 100".toList none () = .ret 1 none () := by
  refine ⟨?_, ?_, ?_, by decide!, by decide!, by decide!⟩
  · have hw : wrap32 ((decValue da : Int) - decValue db - decValue dc) =
        wrap32 (wrap32 (decValue da - decValue db) - decValue dc) := by
      rw [sub_eq_add_neg, sub_eq_add_neg (wrap32 _), wrap32_add_left]
    rw [hw]
    exact chain_sub_sub none () da db dc ha hb hc hav hbv hcv _ _ (primitive_sub _ _)
      (primitive_sub _ _)
  · intro hb0 hc0
    exact chain_div_div none () da db dc ha hb hc hav hbv hcv _ _ (primitive_div _ _ hb0)
      (primitive_div _ _ hc0)
  · intro hb0
    exact chain_div_mul none () da db dc ha hb hc hav hbv hcv _ _ (primitive_div _ _ hb0)
      (primitive_mul _ _)

/-- Witness of C3: the literals 100, 2, 2. -/
theorem C3_equal_priority_associates_left_witness :
    evaluateExprInt (σ := Unit)
        ("100".toList ++ ' ' :: '/' :: ' ' :: ("2".toList ++ ' ' :: '/' :: ' ' :: "2".toList))
        none () =
      .ret (Int.tdiv (Int.tdiv (decValue "100".toList) (decValue "2".toList))
        (decValue "2".toList)) none () :=
  (C3_equal_priority_associates_left "100".toList "2".toList "2".toList
    ⟨by decide, by decide⟩ ⟨by decide, by decide⟩ ⟨by decide, by decide⟩ (by decide) (by decide)
    (by decide)).2.1 (by decide) (by decide)

theorem three_length2 (da db dc : List Char) (c1 c2 c3 c4 c5 c6 c7 c8 : Char) :
    14 ≤ 2 * (da ++ c1 :: c2 :: c3 :: c4 :: (db ++ c5 :: c6 :: c7 :: c8 :: dc)).length + 3 := by
  simp only [List.length_append, List.length_cons]; omega

theorem chain_or_and {σ : Type} (call : Option (Callback σ)) (h : σ) (da db dc : List Char)
    (ha : IsDecLit da) (hb : IsDecLit db) (hc : IsDecLit dc)
    (hav : decValue da < 2147483648) (hbv : decValue db < 2147483648)
    (hcv : decValue dc < 2147483648) :
    evaluateExprInt (da ++ ' ' :: '|' :: '|' :: ' ' :: (db ++ ' ' :: '&' :: '&' :: ' ' :: dc))
        call h =
      .ret (if decValue da ≠ 0 ∨ (decValue db ≠ 0 ∧ decValue dc ≠ 0) then 1 else 0) none h := by
  apply evaluate_of_run _ _ _ 14 _ (three_length2 da db dc _ _ _ _ _ _ _ _) _ (by simp)
  unfold initial
  rw [run_step _ _ _ _ (step_dec2 call _ da
    (' ' :: '|' :: '|' :: ' ' :: (db ++ ' ' :: '&' :: '&' :: ' ' :: dc))
    START 0 rfl ha hav rfl rfl rfl (by decide) rfl (by decide))]
  dsimp only
  rw [run_succ]; simp
  rw [run_succ]; simp
  rw [run_succ]; simp
  rw [run_succ]; simp [isDecLit_notBlank_append db _ hb]
  rw [run_step _ _ _ _ (step_dec2 call _ db (' ' :: '&' :: '&' :: ' ' :: dc)
    335 1 rfl hb hbv rfl rfl rfl (by decide) rfl (by decide))]
  dsimp only
  rw [run_succ]; simp
  rw [run_succ]; simp
  rw [run_succ, step_fold call _ _ 3 (by dsimp only; decide) (by dsimp only; decide)
    (by dsimp only; decide)
    (foldLoop_stop_prio call _ _ 2 _ 335 (by dsimp only; decide) (by simp [store])
      (by dsimp only; decide))]
  simp
  rw [run_succ]; simp [isDecLit_notBlank dc hc]
  rw [run_step _ _ _ _ (step_dec2 call _ dc []
    321 2 (List.append_nil dc).symm hc hcv rfl rfl rfl (by decide) rfl (by decide))]
  dsimp only
  rw [run_succ]; simp
  rw [run_succ, step_fold call _ _ 4 (by dsimp only; decide) (by dsimp only; decide)
    (by dsimp only; decide)
    (by
      dsimp only
      rw [foldLoop_logical call _ _ 3 _ 321 false _ (by dsimp only; decide) (by simp [store])
        (by decide) (by decide) (by decide) (by decide) (by dsimp only; decide) rfl
        (by simp [store]; split_ifs <;> omega)]
      dsimp only
      rw [foldLoop_logical call _ _ 2 _ 335 true _ (by dsimp only; decide) (by simp [store])
        (by decide) (by decide) (by decide) (by decide) (by dsimp only; decide) rfl
        (by simp [store]; split_ifs <;> omega)]
      dsimp only
      exact foldLoop_stop call _ _ 1 _ START (by dsimp only; decide) (by simp [store])
        (by decide))]
  simp [store]

/-- C4: with no callback, for decimal literals `a`, `b`, `c` below 2^31, `a || b && c` returns
the C value of `a || (b && c)`, 1 or 0, with a null diagnostic; `1 || 1 && 0` returns 1 and
`1 && 0 && 1` returns 0. -/
theorem C4_or_binds_weaker_than_and (da db dc : List Char)
    (ha : IsDecLit da) (hb : IsDecLit db) (hc : IsDecLit dc)
    (hav : decValue da < 2147483648) (hbv : decValue db < 2147483648)
    (hcv : decValue dc < 2147483648) :
    evaluateExprInt (σ := Unit)
        (da ++ ' ' :: '|' :: '|' :: ' ' :: (db ++ ' ' :: '&' :: '&' :: ' ' :: dc)) none () =
        .ret (if decValue da ≠ 0 ∨ (decValue db ≠ 0 ∧ decValue dc ≠ 0) then 1 else 0) none () ∧
      evaluateExprInt (σ := Unit) "1 || 1 && 0".toList none () = .ret 1 none () ∧
      evaluateExprInt (σ := Unit) "1 && 0 && 1".toList none () = .ret 0 none () :=
  ⟨chain_or_and none () da db dc ha hb hc hav hbv hcv, by decide!, by decide!⟩

/-- Witness of C4: the literals 0, 7 and 0, where the right operand of `&&` is skipped. -/
theorem C4_or_binds_weaker_than_and_witness :
    evaluateExprInt (σ := Unit)
        ("0".toList ++ ' ' :: '|' :: '|' :: ' ' :: ("7".toList ++ ' ' :: '&' :: '&' :: ' ' ::
          "0".toList)) none () =
      .ret (if decValue "0".toList ≠ 0 ∨ (decValue "7".toList ≠ 0 ∧ decValue "0".toList ≠ 0)
        then 1 else 0) none () :=
  (C4_or_binds_weaker_than_and "0".toList "7".toList "0".toList
    ⟨by decide, by decide⟩ ⟨by decide, by decide⟩ ⟨by decide, by decide⟩ (by decide) (by decide)
    (by decide)).1

theorem hexValue_cons (c : Char) (cs : List Char) :
    hexValue (c :: cs) = hexDigit c * 16 ^ cs.length + hexValue cs := by
  simp [hexValue, Nat.ofDigits_append]; ring

theorem hexChar_facts (c : Char)
    (hc : (48 ≤ c.toNat ∧ c.toNat ≤ 57) ∨ (65 ≤ c.toNat ∧ c.toNat ≤ 70) ∨
      (97 ≤ c.toNat ∧ c.toNat ≤ 102)) :
    isHexChar (ch c) = true ∧ hexDigitValue (ch c) = (hexDigit c : Int) ∧ hexDigit c < 16 := by
  refine ⟨?_, ?_, ?_⟩
  · simp only [isHexChar, isdigit, ch, Char.reduceToNat, Nat.cast_ofNat, Bool.or_eq_true,
      Bool.and_eq_true, decide_eq_true_eq]
    omega
  · unfold hexDigitValue hexDigit ch
    split_ifs <;> omega
  · unfold hexDigit
    split_ifs <;> omega

theorem scanHex_value (hs : List Char)
    (hhs : ∀ c ∈ hs, (48 ≤ c.toNat ∧ c.toNat ≤ 57) ∨ (65 ≤ c.toNat ∧ c.toNat ≤ 70) ∨
      (97 ≤ c.toNat ∧ c.toNat ≤ 102)) (acc : Nat)
    (hv : acc * 16 ^ hs.length + hexValue hs < 2147483648) :
    scanHex (acc : Int) hs = ((acc * 16 ^ hs.length + hexValue hs : Nat) : Int) := by
  induction hs generalizing acc with
  | nil => simp [scanHex, hexValue]
  | cons c cs ih =>
    obtain ⟨hc, hd, hlt⟩ := hexChar_facts c (hhs c (by simp))
    rw [hexValue_cons] at hv
    have key : (acc * 16 + hexDigit c) * 16 ^ cs.length + hexValue cs
        = acc * 16 ^ (c :: cs).length + hexValue (c :: cs) := by
      rw [hexValue_cons, List.length_cons, pow_succ]; ring
    have hpos : 1 ≤ 16 ^ cs.length := Nat.one_le_pow _ _ (by norm_num)
    have hb : acc * 16 + hexDigit c < 2147483648 := by
      have : acc * 16 + hexDigit c ≤ (acc * 16 + hexDigit c) * 16 ^ cs.length :=
        Nat.le_mul_of_pos_right _ hpos
      rw [List.length_cons, pow_succ] at hv
      nlinarith
    have hw : wrap32 ((acc : Int) * 16 + hexDigitValue (ch c)) =
        ((acc * 16 + hexDigit c : Nat) : Int) := by
      rw [hd, wrap32_of_range] <;> push_cast <;> omega
    simp only [scanHex, hc, if_true, hw]
    rw [ih (fun x hx => hhs x (by simp [hx])) _ (by rw [key, hexValue_cons]; exact hv), key]

theorem runLength_hex (hs : List Char)
    (hhs : ∀ c ∈ hs, (48 ≤ c.toNat ∧ c.toNat ≤ 57) ∨ (65 ≤ c.toNat ∧ c.toNat ≤ 70) ∨
      (97 ≤ c.toNat ∧ c.toNat ≤ 102)) : runLength isHexChar hs = hs.length := by
  induction hs with
  | nil => rfl
  | cons c cs ih =>
    have hc := (hexChar_facts c (hhs c (by simp))).1
    unfold runLength
    rw [if_pos hc, ih (fun x hx => hhs x (by simp [hx]))]
    rfl

theorem chain_hex {σ : Type} (call : Option (Callback σ)) (h : σ) (x : Char) (hs : List Char)
    (hx : x = 'x' ∨ x = 'X') (hlit : IsHexLit hs) (hv : hexValue hs < 2147483648) :
    evaluateExprInt ('0' :: x :: hs) call h = .ret (hexValue hs) none h := by
  obtain ⟨hne, hhs⟩ := hlit
  have hval : scanHex 0 hs = (hexValue hs : Int) := by
    have := scanHex_value hs hhs 0 (by simpa using hv)
    simpa using this
  have hlen := runLength_hex hs hhs
  have hd : ∀ a b : Char, List.drop (2 + hs.length) (a :: b :: hs) = [] := by
    intro a b
    apply List.drop_eq_nil_of_le
    simp only [List.length_cons]; omega
  apply evaluate_of_run _ _ _ 3 _ (by simp) _ (by simp)
  unfold initial
  rcases hx with rfl | rfl
  · rw [run_succ]; simp [hval, hlen, hd]
    rw [run_succ]; simp
    rw [run_succ]; simp
  · rw [run_succ]; simp [hval, hlen, hd]
    rw [run_succ]; simp
    rw [run_succ]; simp

/-- C5: with no callback, for every non-empty string `h` of characters `0-9`, `a-f`, `A-F`
whose base-16 value is below 2^31, `0x` followed by `h` and `0X` followed by `h` return that
value with a null diagnostic. -/
theorem C5_hex_literal_value (hs : List Char) (hlit : IsHexLit hs)
    (hv : hexValue hs < 2147483648) :
    evaluateExprInt (σ := Unit) ('0' :: 'x' :: hs) none () = .ret (hexValue hs) none () ∧
      evaluateExprInt (σ := Unit) ('0' :: 'X' :: hs) none () = .ret (hexValue hs) none () :=
  ⟨chain_hex none () 'x' hs (Or.inl rfl) hlit hv, chain_hex none () 'X' hs (Or.inr rfl) hlit hv⟩

/-- Witness of C5: `0x07012ABD` is 117516989, and so is `0X07012abd`. -/
theorem C5_hex_literal_value_witness :
    hexValue "07012ABD".toList = 117516989 ∧ hexValue "07012abd".toList = 117516989 ∧
      evaluateExprInt (σ := Unit) ('0' :: 'x' :: "07012ABD".toList) none () =
        .ret (hexValue "07012ABD".toList) none () ∧
      evaluateExprInt (σ := Unit) ('0' :: 'X' :: "07012ABD".toList) none () =
        .ret (hexValue "07012ABD".toList) none () :=
  ⟨by decide, by decide,
    C5_hex_literal_value "07012ABD".toList ⟨by decide, by decide⟩ (by decide)⟩

theorem step_fold_err {σ : Type} (call : Option (Callback σ)) (m : Machine σ) (k : Nat)
    (o : Outcome σ) (h0 : 0 ≤ m.foldStackArg) (hst : m.state ≠ IDENT)
    (hk : (m.opStackPtr + 1).toNat = k)
    (hloop : foldLoop call (toChar m.foldStackArg) (prio (toChar m.foldStackArg)) k m =
      .error o) :
    step call m = .error o := by
  unfold step foldPhase promote
  simp only [h0, hst, if_true, if_false, hk, hloop]

theorem foldLoop_next {σ : Type} (call : Option (Callback σ)) (foc fp : Int) (n : Nat)
    (m : Machine σ) (s c : Int) (hb : inBounds m.opStackPtr = true)
    (hop : m.opStack m.opStackPtr = s) (h1 : band s OP ≠ 0) (hc : toChar s = c)
    (hP : ¬ (c = ch 'P' ∧ foc = ch 'P')) (hprio : ¬ (prio c < fp)) :
    foldLoop call foc fp (n + 1) m =
      match foldBody call m s c with
      | .error o => .error o
      | .ok m1 => foldLoop call foc fp n { m1 with opStackPtr := m1.opStackPtr - 1 } := by
  rw [foldLoop_succ]
  unfold foldIter
  simp only [hb, hop, h1, hc, hP, hprio, not_true_eq_false, if_false]
  cases foldBody call m s c <;> rfl

theorem step_literal {σ : Type} (call : Option (Callback σ)) (m : Machine σ)
    (hfsa : m.foldStackArg = IDLE) (hc : m.inCh ≠ 0) (hb : isBlank m.inCh = false)
    (hs : band m.state CAN_LITERAL ≠ 0) (hl : literalBranch m ≠ none) :
    step call m = (literalBranch m).getD (.error .undefinedBehaviour) := by
  rw [step_idle call m (by rw [hfsa]; decide)]
  unfold dispatch
  simp only [hc, hb, hs, if_false, if_true, ne_eq, not_false_eq_true, Bool.false_eq_true]
  cases hlb : literalBranch m with
  | none => exact absurd hlb hl
  | some r => rfl

theorem step_foldLoop {σ : Type} (call : Option (Callback σ)) (m : Machine σ) (k : Nat)
    (h0 : 0 ≤ m.foldStackArg) (hst : m.state ≠ IDENT) (hk : (m.opStackPtr + 1).toNat = k) :
    step call m =
      match foldLoop call (toChar m.foldStackArg) (prio (toChar m.foldStackArg)) k m with
      | .error o => .error o
      | .ok m2 => dispatch call { m2 with foldStackArg := FOLDED } := by
  unfold step foldPhase promote
  simp only [h0, hst, if_true, if_false, hk]
  cases foldLoop call (toChar m.foldStackArg) (prio (toChar m.foldStackArg)) k m <;> rfl

theorem foldLoop_stop_pow {σ : Type} (call : Option (Callback σ)) (foc fp : Int) (n : Nat)
    (m : Machine σ) (s : Int) (hb : inBounds m.opStackPtr = true)
    (hs : m.opStack m.opStackPtr = s) (hP : toChar s = ch 'P' ∧ foc = ch 'P') :
    foldLoop call foc fp (n + 1) m = .ok m := by
  rw [foldLoop_succ]
  unfold foldIter
  simp only [hb, hs, hP, not_true_eq_false, if_false, if_true, and_self, ite_self]

theorem chain_pow_neg {σ : Type} (call : Option (Callback σ)) (h : σ) (da dn : List Char)
    (ha : IsDecLit da) (hn : IsDecLit dn)
    (hav : decValue da < 2147483648) (hnv : decValue dn < 2147483648)
    (hpos : decValue dn ≠ 0) :
    evaluateExprInt (da ++ ' ' :: '*' :: '*' :: ' ' :: '-' :: dn) call h =
      .ret EXPR_ERRORVAL (some "negative powers not supported") h := by
  have hlen : 9 ≤ 2 * (da ++ ' ' :: '*' :: '*' :: ' ' :: '-' :: dn).length + 3 := by
    simp only [List.length_append, List.length_cons]; omega
  have hneg : wrap32 (-(decValue dn : Int)) = -(decValue dn : Int) :=
    wrap32_of_range _ (by omega) (by omega)
  apply evaluate_of_run _ _ _ 9 _ hlen _ (by simp)
  unfold initial
  rw [run_step _ _ _ _ (step_dec2 call _ da (' ' :: '*' :: '*' :: ' ' :: '-' :: dn)
    START 0 rfl ha hav rfl rfl rfl (by decide) rfl (by decide))]
  dsimp only
  rw [run_succ]; simp
  rw [run_succ]; simp
  rw [run_succ]; simp
  rw [run_succ]; simp
  rw [run_succ, step_literal call _ rfl (by simp) (by simp) (by simp) (by simp)]; simp
  rw [run_step _ _ _ _ (step_dec2 call _ dn []
    629 2 (List.append_nil dn).symm hn hnv rfl rfl rfl (by decide) rfl (by decide))]
  dsimp only
  rw [run_succ]; simp
  refine run_done call 0 _ _ (step_fold_err call _ 4 _ (by dsimp only; decide)
    (by dsimp only; decide) (by dsimp only; decide) ?_)
  dsimp only
  rw [foldLoop_next call _ _ 3 _ 629 117 (by dsimp only; decide) (by simp [store]) (by decide)
    (by decide) (by decide) (by decide)]
  simp [-foldLoop, primitive, hneg]
  rw [foldLoop_next call _ _ 2 _ 336 80 (by dsimp only; decide) (by simp [store]) (by decide)
    (by decide) (by decide) (by decide)]
  simp [-foldLoop, primitive, hneg, Nat.pos_of_ne_zero hpos]

theorem chain_pow_pow {σ : Type} (call : Option (Callback σ)) (h : σ) (da db dc : List Char)
    (ha : IsDecLit da) (hb : IsDecLit db) (hc : IsDecLit dc)
    (hav : decValue da < 2147483648) (hbv : decValue db < 2147483648)
    (hcv : decValue dc < 2147483648) (v1 v2 : Int)
    (h1 : primitive 80 (decValue db) (decValue dc) = .val v1)
    (h2 : primitive 80 (decValue da) v1 = .val v2) :
    evaluateExprInt (da ++ ' ' :: '*' :: '*' :: ' ' :: (db ++ ' ' :: '*' :: '*' :: ' ' :: dc))
      call h = .ret v2 none h := by
  apply evaluate_of_run _ _ _ 14 _ (three_length2 da db dc _ _ _ _ _ _ _ _) _ (by simp)
  unfold initial
  rw [run_step _ _ _ _ (step_dec2 call _ da
    (' ' :: '*' :: '*' :: ' ' :: (db ++ ' ' :: '*' :: '*' :: ' ' :: dc))
    START 0 rfl ha hav rfl rfl rfl (by decide) rfl (by decide))]
  dsimp only
  rw [run_succ]; simp
  rw [run_succ]; simp
  rw [run_succ]; simp
  rw [run_succ]; simp [isDecLit_notBlank_append db _ hb]
  rw [run_step _ _ _ _ (step_dec2 call _ db (' ' :: '*' :: '*' :: ' ' :: dc)
    336 1 rfl hb hbv rfl rfl rfl (by decide) rfl (by decide))]
  dsimp only
  rw [run_succ]; simp
  rw [run_succ]; simp
  rw [run_succ, step_foldLoop call _ 3 (by dsimp only; decide) (by dsimp only; decide)
    (by dsimp only; decide)]
  dsimp only
  generalize hfl : foldLoop call _ _ 3 _ = fl
  rw [foldLoop_stop_pow call _ _ 2 _ 336 (by dsimp only; decide) (by simp [store])
    (by decide)] at hfl
  subst hfl
  simp
  rw [run_succ]; simp [isDecLit_notBlank dc hc]
  rw [run_step _ _ _ _ (step_dec2 call _ dc []
    336 2 (List.append_nil dc).symm hc hcv rfl rfl rfl (by decide) rfl (by decide))]
  dsimp only
  rw [run_succ]; simp
  rw [run_succ, step_foldLoop call _ 4 (by dsimp only; decide) (by dsimp only; decide)
    (by dsimp only; decide)]
  dsimp only
  generalize hfl : foldLoop call _ _ 4 _ = fl
  rw [foldLoop_next call _ _ 3 _ 336 80 (by dsimp only; decide) (by simp [store]) (by decide)
    (by decide) (by decide) (by decide)] at hfl
  simp [-foldLoop, store, h1] at hfl
  rw [foldLoop_next call _ _ 2 _ 336 80 (by dsimp only; decide) (by simp [store]) (by decide)
    (by decide) (by decide) (by decide)] at hfl
  simp [-foldLoop, store, h2] at hfl
  rw [foldLoop_stop call _ _ 1 _ START (by dsimp only; decide) (by simp [store])
    (by decide)] at hfl
  subst hfl
  simp


theorem chain_pow_paren {σ : Type} (call : Option (Callback σ)) (h : σ) (da db dc : List Char)
    (ha : IsDecLit da) (hb : IsDecLit db) (hc : IsDecLit dc)
    (hav : decValue da < 2147483648) (hbv : decValue db < 2147483648)
    (hcv : decValue dc < 2147483648) (v1 v2 : Int)
    (h1 : primitive 80 (decValue db) (decValue dc) = .val v1)
    (h2 : primitive 80 (decValue da) v1 = .val v2) :
    evaluateExprInt (da ++ ' ' :: '*' :: '*' :: ' ' :: '(' ::
      (db ++ ' ' :: '*' :: '*' :: ' ' :: (dc ++ [')']))) call h = .ret v2 none h := by
  have hlen : 16 ≤ 2 * (da ++ ' ' :: '*' :: '*' :: ' ' :: '(' ::
      (db ++ ' ' :: '*' :: '*' :: ' ' :: (dc ++ [')']))).length + 3 := by
    simp only [List.length_append, List.length_cons]; omega
  apply evaluate_of_run _ _ _ 16 _ hlen _ (by simp)
  unfold initial
  rw [run_step _ _ _ _ (step_dec2 call _ da
    (' ' :: '*' :: '*' :: ' ' :: '(' :: (db ++ ' ' :: '*' :: '*' :: ' ' :: (dc ++ [')'])))
    START 0 rfl ha hav rfl rfl rfl (by decide) rfl (by decide))]
  dsimp only
  rw [run_succ]; simp
  rw [run_succ]; simp
  rw [run_succ]; simp
  rw [run_succ]; simp
  rw [run_succ, step_literal call _ rfl (by simp) (by simp) (by simp) (by simp)]
  simp [bind, Except.bind, pure, Except.pure, Functor.map, Except.map]
  rw [run_step _ _ _ _ (step_dec2 call _ db (' ' :: '*' :: '*' :: ' ' :: (dc ++ [')']))
    8 3 rfl hb hbv rfl rfl rfl (by decide) rfl (by decide))]
  dsimp only
  rw [run_succ]; simp
  rw [run_succ]; simp
  rw [run_succ]; simp
  rw [run_succ]; simp [isDecLit_notBlank_append dc _ hc]
  rw [run_step _ _ _ _ (step_dec2 call _ dc [')']
    336 4 rfl hc hcv rfl rfl rfl (by decide) rfl (by decide))]
  dsimp only
  rw [run_succ]; simp
  rw [run_succ, step_foldLoop call _ 6 (by dsimp only; decide) (by dsimp only; decide)
    (by dsimp only; decide)]
  dsimp only
  generalize hfl : foldLoop call _ _ 6 _ = fl
  rw [foldLoop_next call _ _ 5 _ 336 80 (by dsimp only; decide) (by simp [store]) (by decide)
    (by decide) (by decide) (by decide)] at hfl
  simp [-foldLoop, store, h1] at hfl
  rw [foldLoop_stop call _ _ 4 _ 8 (by dsimp only; decide) (by simp [store])
    (by decide)] at hfl
  subst hfl
  simp
  rw [run_succ]; simp
  rw [run_succ, step_foldLoop call _ 3 (by dsimp only; decide) (by dsimp only; decide)
    (by dsimp only; decide)]
  dsimp only
  generalize hfl : foldLoop call _ _ 3 _ = fl
  rw [foldLoop_next call _ _ 2 _ 336 80 (by dsimp only; decide) (by simp [store]) (by decide)
    (by decide) (by decide) (by decide)] at hfl
  simp [-foldLoop, store, h2] at hfl
  rw [foldLoop_stop call _ _ 1 _ START (by dsimp only; decide) (by simp [store])
    (by decide)] at hfl
  subst hfl
  simp

theorem powLoop_zero_res (n : Nat) (p : Int) : powLoop n p 0 = 0 := by
  induction n generalizing p with
  | zero => rfl
  | succ n ih =>
    have : wrap32 (0 * p) = 0 := by rw [zero_mul]; rfl
    rw [powLoop, this, ih]

theorem powLoop_nonneg (n : Nat) : 0 ≤ powLoop n 0 1 := by
  cases n with
  | zero => decide
  | succ n =>
    have : wrap32 (1 * 0) = 0 := rfl
    rw [powLoop, this, powLoop_zero_res]

theorem primitive_pow (a b : Int) (hb : 0 ≤ b) :
    primitive 80 a b = .val (powLoop b.toNat 0 1) := by
  simp [primitive, not_lt.mpr hb]

/-- C15: with no callback, for decimal literals `a`, `b`, `c` below 2^31, `a ** b ** c` and
`a ** (b ** c)` give the same result, the value and null diagnostic of the outer power applied
to the value of `b ** c`. -/
theorem C15_power_is_right_associative (da db dc : List Char)
    (ha : IsDecLit da) (hb : IsDecLit db) (hc : IsDecLit dc)
    (hav : decValue da < 2147483648) (hbv : decValue db < 2147483648)
    (hcv : decValue dc < 2147483648) :
    evaluateExprInt (σ := Unit)
        (da ++ ' ' :: '*' :: '*' :: ' ' :: (db ++ ' ' :: '*' :: '*' :: ' ' :: dc)) none () =
      evaluateExprInt (σ := Unit) (da ++ ' ' :: '*' :: '*' :: ' ' :: '(' ::
        (db ++ ' ' :: '*' :: '*' :: ' ' :: (dc ++ [')']))) none () ∧
    evaluateExprInt (σ := Unit) (da ++ ' ' :: '*' :: '*' :: ' ' :: '(' ::
        (db ++ ' ' :: '*' :: '*' :: ' ' :: (dc ++ [')']))) none () =
      .ret (powLoop (powLoop (decValue dc) 0 1).toNat 0 1) none () := by
  have h1 : primitive 80 (decValue db) (decValue dc) = .val (powLoop (decValue dc) 0 1) := by
    have := primitive_pow (decValue db) (decValue dc) (by omega)
    simpa using this
  have h2 := primitive_pow (decValue da) (powLoop (decValue dc) 0 1) (powLoop_nonneg _)
  rw [chain_pow_pow none () da db dc ha hb hc hav hbv hcv _ _ h1 h2,
    chain_pow_paren none () da db dc ha hb hc hav hbv hcv _ _ h1 h2]
  exact ⟨rfl, rfl⟩

/-- Witness of C15: `2 ** 3 ** 2` against `2 ** (3 ** 2)`. -/
theorem C15_power_is_right_associative_witness :
    evaluateExprInt (σ := Unit)
        ("2".toList ++ ' ' :: '*' :: '*' :: ' ' :: ("3".toList ++ ' ' :: '*' :: '*' :: ' ' ::
          "2".toList)) none () =
      evaluateExprInt (σ := Unit) ("2".toList ++ ' ' :: '*' :: '*' :: ' ' :: '(' ::
        ("3".toList ++ ' ' :: '*' :: '*' :: ' ' :: ("2".toList ++ [')']))) none () :=
  (C15_power_is_right_associative "2".toList "3".toList "2".toList
    ⟨by decide, by decide⟩ ⟨by decide, by decide⟩ ⟨by decide, by decide⟩ (by decide) (by decide)
    (by decide)).1

/-- C16: with no callback, for a decimal literal `a` and a decimal literal `n` with
`1 <= n`, both below 2^31, `a ** -n` returns the sentinel -2147483648 with the diagnostic
`negative powers not supported`. -/
theorem C16_negative_exponent_is_an_error (da dn : List Char)
    (ha : IsDecLit da) (hn : IsDecLit dn)
    (hav : decValue da < 2147483648) (hnv : decValue dn < 2147483648)
    (hpos : 1 ≤ decValue dn) :
    evaluateExprInt (σ := Unit) (da ++ ' ' :: '*' :: '*' :: ' ' :: '-' :: dn) none () =
      .ret (-2147483648) (some "negative powers not supported") () :=
  chain_pow_neg none () da dn ha hn hav hnv (by omega)

/-- Witness of C16: `2 ** -1`. -/
theorem C16_negative_exponent_is_an_error_witness :
    evaluateExprInt (σ := Unit) ("2".toList ++ ' ' :: '*' :: '*' :: ' ' :: '-' :: "1".toList)
      none () = .ret (-2147483648) (some "negative powers not supported") () :=
  C16_negative_exponent_is_an_error "2".toList "1".toList ⟨by decide, by decide⟩
    ⟨by decide, by decide⟩ (by decide) (by decide) (by decide)

theorem chain_literal_semicolon {σ : Type} (call : Option (Callback σ)) (h : σ)
    (da : List Char) (ha : IsDecLit da) (hav : decValue da < 2147483648) :
    evaluateExprInt (da ++ [';']) call h = .ret (decValue da) none h := by
  have hlen : 4 ≤ 2 * (da ++ [';']).length + 3 := by
    have := isDecLit_length da ha
    simp only [List.length_append, List.length_cons, List.length_nil]; omega
  apply evaluate_of_run _ _ _ 4 _ hlen _ (by simp)
  unfold initial
  rw [run_step _ _ _ _ (step_dec2 call _ da [';']
    START 0 rfl ha hav rfl rfl rfl (by decide) rfl (by decide))]
  dsimp only
  rw [run_succ]; simp
  rw [run_succ]; simp
  rw [run_succ]; simp

theorem chain_comma {σ : Type} (call : Option (Callback σ)) (h : σ)
    (da db : List Char) (ha : IsDecLit da) (hav : decValue da < 2147483648) :
    evaluateExprInt (da ++ ',' :: ' ' :: db) call h =
      .ret EXPR_ERRORVAL (some "syntax error") h := by
  have hlen : 2 ≤ 2 * (da ++ ',' :: ' ' :: db).length + 3 := by omega
  apply evaluate_of_run _ _ _ 2 _ hlen _ (by simp)
  unfold initial
  rw [run_step _ _ _ _ (step_dec2 call _ da (',' :: ' ' :: db)
    START 0 rfl ha hav rfl rfl rfl (by decide) rfl (by decide))]
  dsimp only
  rw [run_succ]; simp

theorem chain_paren_comma {σ : Type} (call : Option (Callback σ)) (h : σ)
    (da db : List Char) (ha : IsDecLit da) (hav : decValue da < 2147483648) :
    evaluateExprInt ('(' :: (da ++ ',' :: ' ' :: (db ++ [')']))) call h =
      .ret EXPR_ERRORVAL (some "syntax error") h := by
  have hlen : 3 ≤ 2 * ('(' :: (da ++ ',' :: ' ' :: (db ++ [')']))).length + 3 := by omega
  apply evaluate_of_run _ _ _ 3 _ hlen _ (by simp)
  unfold initial
  rw [run_succ, step_literal call _ rfl (by simp) (by simp) (by simp) (by simp)]
  simp [bind, Except.bind, pure, Except.pure, Functor.map, Except.map]
  rw [run_step _ _ _ _ (step_dec2 call _ da (',' :: ' ' :: (db ++ [')']))
    8 2 rfl ha hav rfl rfl rfl (by decide) rfl (by decide))]
  dsimp only
  rw [run_succ]; simp

/-- C17 (amended): with no callback, for decimal literals `a`, `b` with `a` below 2^31, the
inputs `a, b` and `(a, b)` return the sentinel with the diagnostic `syntax error`. -/
theorem C17_comma_outside_call_diagnostic (da db : List Char) (ha : IsDecLit da)
    (hav : decValue da < 2147483648) :
    evaluateExprInt (σ := Unit) (da ++ ',' :: ' ' :: db) none () =
        .ret (-2147483648) (some "syntax error") () ∧
      evaluateExprInt (σ := Unit) ('(' :: (da ++ ',' :: ' ' :: (db ++ [')']))) none () =
        .ret (-2147483648) (some "syntax error") () :=
  ⟨chain_comma none () da db ha hav, chain_paren_comma none () da db ha hav⟩

/-- Witness of C17 (amended): `1, 2` and `(1, 2)`. -/
theorem C17_comma_outside_call_diagnostic_witness :
    evaluateExprInt (σ := Unit) ("1".toList ++ ',' :: ' ' :: "2".toList) none () =
        .ret (-2147483648) (some "syntax error") () ∧
      evaluateExprInt (σ := Unit) ('(' :: ("1".toList ++ ',' :: ' ' :: ("2".toList ++ [')'])))
        none () = .ret (-2147483648) (some "syntax error") () :=
  C17_comma_outside_call_diagnostic "1".toList "2".toList ⟨by decide, by decide⟩ (by decide)

/-- One argument followed by a comma, inside a call frame. -/
theorem arg_step {σ : Type} (call : Option (Callback σ)) (h : σ) (n : Nat)
    (os vs : Int → Int) (k last li ll sc i : Int) (d r : List Char)
    (hd : IsDecLit d) (hv : decValue d < 2147483648) (hk0 : 0 ≤ k) (hk : k < 63) :
    run call (n + 3)
      { opStack := os, opStackPtr := 6, valueStack := vs, valueStackPtr := k, state := CALL,
        lastValue := last, lastIdent := li, lastIdentLen := ll, scanningArgs := 1,
        argcOpstackPtr := 4, foldStackArg := IDLE, skipCounter := sc, i := i,
        rest := d ++ ',' :: r, host := h } =
    run call n
      { opStack := store (store os 7 CALL) 4 (wrap32 (os 4 + 1)), opStackPtr := 6,
        valueStack := store vs (k + 1) (decValue d), valueStackPtr := k + 1, state := CALL,
        lastValue := decValue d, lastIdent := li, lastIdentLen := ll, scanningArgs := 1,
        argcOpstackPtr := 4, foldStackArg := IDLE, skipCounter := sc, i := i + d.length + 1,
        rest := r, host := h } := by
  rw [run_step _ _ _ _ (step_dec2 call _ d (',' :: r) CALL 6 rfl hd hv rfl rfl rfl (by decide)
    rfl (by decide))]
  dsimp only
  rw [run_succ]; simp
  rw [run_succ, step_foldLoop call _ 8 (by dsimp only; decide) (by dsimp only; decide)
    (by dsimp only; decide)]
  dsimp only
  generalize hfl : foldLoop call _ _ 8 _ = fl
  rw [foldLoop_stop call _ _ 7 _ CALL (by dsimp only; decide) (by simp [store])
    (by decide)] at hfl
  subst hfl
  have hb : k + 1 < 64 := by omega
  have hb0 : 0 ≤ k + 1 := by omega
  simp [store, hb, hb0, bind, Except.bind, pure, Except.pure]

/-- The last argument, the closing parenthesis and the end of the input. -/
theorem arg_last {σ : Type} (f : Callback σ) (h : σ)
    (os vs : Int → Int) (k last li ll i : Int) (d : List Char)
    (hd : IsDecLit d) (hv : decValue d < 2147483648) (hk0 : 0 ≤ k) (hk : k < 63)
    (hos4 : os 4 = k) (hos1 : os 1 = START) :
    run (some f) 5
      { opStack := os, opStackPtr := 6, valueStack := vs, valueStackPtr := k, state := CALL,
        lastValue := last, lastIdent := li, lastIdentLen := ll, scanningArgs := 1,
        argcOpstackPtr := 4, foldStackArg := IDLE, skipCounter := 0, i := i,
        rest := d ++ [')'], host := h } =
    .ret (f h (os 5) (os 6) (argvOf (store vs (k + 1) (decValue d)) (k + 1) (k + 1)) (k + 1)).1
      none
      (f h (os 5) (os 6) (argvOf (store vs (k + 1) (decValue d)) (k + 1) (k + 1)) (k + 1)).2 := by
  have hw : wrap32 (k + 1) = k + 1 := wrap32_of_range _ (by omega) (by omega)
  rw [run_step _ _ _ _ (step_dec2 (some f) _ d [')'] CALL 6 rfl hd hv rfl rfl rfl (by decide)
    rfl (by decide))]
  dsimp only
  rw [run_succ]; simp
  rw [run_succ, step_foldLoop (some f) _ 8 (by dsimp only; decide) (by dsimp only; decide)
    (by dsimp only; decide)]
  dsimp only
  generalize hfl : foldLoop (some f) _ _ 8 _ = fl
  rw [foldLoop_stop (some f) _ _ 7 _ CALL (by dsimp only; decide) (by simp [store])
    (by decide)] at hfl
  subst hfl
  have hb : k + 1 < 64 := by omega
  have hb0 : 0 ≤ k + 1 := by omega
  simp [store, hb, hb0, bind, Except.bind, pure, Except.pure, hos4, hos1, hw]
  rw [run_succ]; simp
  rw [run_succ, step_foldLoop (some f) _ 2 (by dsimp only; decide) (by dsimp only; decide)
    (by dsimp only; decide)]
  dsimp only
  generalize hfl : foldLoop (some f) _ _ 2 _ = fl
  rw [foldLoop_stop (some f) _ _ 1 _ START (by dsimp only; decide) (by simp [store, hos1])
    (by decide)] at hfl
  subst hfl
  simp [store, hos1]

theorem runLength_ident (cs r : List Char) (hcs : ∀ x ∈ cs, isIdentChar (ch x) = true)
    (hr : stops r = true) : runLength isIdentChar (cs ++ r) = cs.length := by
  induction cs with
  | nil =>
    cases r with
    | nil => rfl
    | cons x xs =>
      have hx : isIdentChar (ch x) = false := by simpa [stops] using hr
      simp only [List.nil_append, List.length_nil]
      unfold runLength
      rw [hx]; rfl
  | cons c cs ih =>
    have hc := hcs c (by simp)
    rw [List.cons_append]
    unfold runLength
    rw [if_pos hc, ih (fun x hx => hcs x (by simp [hx]))]
    rfl

theorem ident_head (c : Char) (hc : isalpha (ch c) = true ∨ c = '_') :
    ((65 ≤ c.toNat ∧ c.toNat ≤ 90 ∨ 97 ≤ c.toNat ∧ c.toNat ≤ 122) ∨ (c.toNat : Int) = 95) ∧
      ch c ≠ 0 ∧ isBlank (ch c) = false := by
  have h2 : (65 ≤ c.toNat ∧ c.toNat ≤ 90 ∨ 97 ≤ c.toNat ∧ c.toNat ≤ 122) ∨ c.toNat = 95 := by
    rcases hc with hc | rfl
    · simp only [isalpha, ch, Bool.or_eq_true, Bool.and_eq_true, decide_eq_true_eq] at hc
      omega
    · right; decide
  refine ⟨?_, ?_, ?_⟩
  · omega
  · simp only [ch]; omega
  · simp only [isBlank, ch, Char.reduceToNat, Nat.cast_ofNat, Bool.or_eq_false_iff,
      decide_eq_false_iff_not]
    omega

/-- The identifier and the opening parenthesis of a call at the start of the input. -/
theorem call_head {σ : Type} (call : Option (Callback σ)) (h : σ) (n : Nat)
    (c : Char) (cs r : List Char) (hc : isalpha (ch c) = true ∨ c = '_')
    (hcs : ∀ x ∈ cs, isIdentChar (ch x) = true) :
    run call (n + 2) (initial (c :: cs ++ '(' :: r) h) =
    run call n
      { opStack := store (store (store (store (store (store (store (fun _ => 0) 0 START) 1 START)
          2 0) 3 0) 4 0) 5 0) 6 (1 + cs.length),
        opStackPtr := 6, valueStack := fun _ => 0, valueStackPtr := 0, state := CALL,
        lastValue := 0, lastIdent := 0, lastIdentLen := 1 + cs.length, scanningArgs := 1,
        argcOpstackPtr := 4, foldStackArg := IDLE, skipCounter := 0, i := 1 + cs.length + 1,
        rest := r, host := h } := by
  obtain ⟨h1, h2, h3⟩ := ident_head c hc
  have hlen := runLength_ident cs ('(' :: r) hcs rfl
  unfold initial
  rw [run_succ, step_literal call _ rfl (by simpa using h2) (by simpa using h3) (by simp)
    (by simp [literalBranch, h1])]
  have hdrop : List.drop (1 + cs.length) (c :: (cs ++ '(' :: r)) = '(' :: r := by
    rw [Nat.add_comm, List.drop_succ_cons, List.drop_left]
  simp [literalBranch, h1, hlen, hdrop, bind, Except.bind, pure, Except.pure]
  rw [run_succ]; simp [bind, Except.bind, pure, Except.pure]

theorem argv_snoc (vs : Int → Int) (K : Nat) (v : Int) :
    (List.range (K + 1)).map (fun j : Nat => store vs ((K : Int) + 1) v (1 + (j : Int))) =
      (List.range K).map (fun j : Nat => vs (1 + (j : Int))) ++ [v] := by
  rw [List.range_succ, List.map_append]
  congr 1
  · apply List.map_congr_left
    intro j hj
    have hj2 : j < K := List.mem_range.mp hj
    have : (1 + (j : Int)) ≠ (K : Int) + 1 := by omega
    simp [store, this]
  · simp [store, add_comm]

theorem argvOf_full (vs : Int → Int) (K : Nat) :
    argvOf vs ((K : Int) + 1) ((K : Int) + 1) =
      (List.range (K + 1)).map (fun j : Nat => vs (1 + (j : Int))) := by
  unfold argvOf
  have h1 : ((K : Int) + 1).toNat = K + 1 := by omega
  rw [h1]
  simp only [bind_pure_comp, List.map_eq_map, List.map_map]
  apply List.map_congr_left
  intro j _
  simp only [Function.comp]
  congr 1
  omega

/-- The arguments of a call from the first argument to the end of the input. -/
theorem args_run {σ : Type} (f : Callback σ) (h : σ) (li ll : Int) (ds : List (List Char)) :
    ∀ (d : List Char) (os vs : Int → Int) (K : Nat) (last i : Int),
      (∀ x ∈ d :: ds, IsDecLit x ∧ decValue x < 2147483648) → K + ds.length < 63 →
      os 4 = K → os 1 = START →
      run (some f) (3 * ds.length + 5)
        { opStack := os, opStackPtr := 6, valueStack := vs, valueStackPtr := K, state := CALL,
          lastValue := last, lastIdent := li, lastIdentLen := ll, scanningArgs := 1,
          argcOpstackPtr := 4, foldStackArg := IDLE, skipCounter := 0, i := i,
          rest := argList (d :: ds) ++ [')'], host := h } =
      .ret (f h (os 5) (os 6) ((List.range K).map (fun j : Nat => vs (1 + (j : Int))) ++
          (d :: ds).map (fun x => (decValue x : Int))) ((K + ds.length + 1 : Nat) : Int)).1
        none
        (f h (os 5) (os 6) ((List.range K).map (fun j : Nat => vs (1 + (j : Int))) ++
          (d :: ds).map (fun x => (decValue x : Int))) ((K + ds.length + 1 : Nat) : Int)).2 := by
  induction ds with
  | nil =>
    intro d os vs K last i hall hK hos4 hos1
    obtain ⟨hd, hv⟩ := hall d (by simp)
    have := arg_last f h os vs K last li ll i d hd hv (by omega) (by omega) hos4 hos1
    rw [argvOf_full, argv_snoc] at this
    simpa [argList] using this
  | cons d2 ds ih =>
    intro d os vs K last i hall hK hos4 hos1
    obtain ⟨hd, hv⟩ := hall d (by simp)
    have hK2 : K + 1 + ds.length < 63 := by simp only [List.length_cons] at hK; omega
    have hw : wrap32 (os 4 + 1) = ((K + 1 : Nat) : Int) := by
      rw [hos4, wrap32_of_range _ (by omega) (by omega)]; push_cast; rfl
    have e1 : 3 * (d2 :: ds).length + 5 = (3 * ds.length + 5) + 3 := by
      simp only [List.length_cons]; omega
    have e2 : argList (d :: d2 :: ds) ++ [')'] = d ++ ',' :: (argList (d2 :: ds) ++ [')']) := by
      simp [argList]
    rw [e1, e2, arg_step (some f) h _ os vs K last li ll 0 i d _ hd hv (by omega) (by omega)]
    have := ih d2 (store (store os 7 CALL) 4 (wrap32 (os 4 + 1)))
      (store vs ((K : Int) + 1) (decValue d)) (K + 1) (decValue d) (i + d.length + 1)
      (fun x hx => hall x (by simp at hx ⊢; tauto)) hK2 (by simp [store, hw]) (by simp [store, hos1])
    rw [Nat.cast_add, Nat.cast_one] at this
    rw [this, argv_snoc]
    have e3 : K + 1 + ds.length + 1 = K + (d2 :: ds).length + 1 := by
      simp only [List.length_cons]; omega
    simp [store, e3]

theorem argList_length (ds : List (List Char)) :
    ∀ d : List Char, (∀ x ∈ d :: ds, IsDecLit x ∧ decValue x < 2147483648) →
      2 * ds.length + 1 ≤ (argList (d :: ds)).length := by
  induction ds with
  | nil =>
    intro d hall
    have := isDecLit_length d (hall d (by simp)).1
    simpa [argList] using this
  | cons d2 ds ih =>
    intro d hall
    have h1 := isDecLit_length d (hall d (by simp)).1
    have h2 := ih d2 (fun x hx => hall x (by simp at hx ⊢; tauto))
    simp only [argList, List.length_append, List.length_cons] at h2 ⊢
    omega

theorem chain_call {σ : Type} (cb : Callback σ) (h : σ) (fs d : List Char)
    (ds : List (List Char)) (hid : IsIdent fs)
    (hall : ∀ x ∈ d :: ds, IsDecLit x ∧ decValue x < 2147483648) (hn : ds.length + 1 ≤ 63) :
    evaluateExprInt (fs ++ '(' :: (argList (d :: ds) ++ [')'])) (some cb) h =
      .ret (cb h 0 fs.length ((d :: ds).map (fun x => (decValue x : Int)))
          ((ds.length + 1 : Nat) : Int)).1 none
        (cb h 0 fs.length ((d :: ds).map (fun x => (decValue x : Int)))
          ((ds.length + 1 : Nat) : Int)).2 := by
  obtain ⟨c, cs, rfl, hc, hcs⟩ := hid
  have hlen := argList_length ds d hall
  have hfuel : (3 * ds.length + 5) + 2 ≤
      2 * (c :: cs ++ '(' :: (argList (d :: ds) ++ [')'])).length + 3 := by
    simp only [List.length_append, List.length_cons, List.length_nil]; omega
  apply evaluate_of_run _ _ _ _ _ hfuel _ (by simp)
  rw [call_head (some cb) h _ c cs _ hc hcs]
  have := args_run cb h 0 (1 + cs.length) ds d
    (store (store (store (store (store (store (store (fun _ => 0) 0 START) 1 START)
      2 0) 3 0) 4 0) 5 0) 6 (1 + cs.length))
    (fun _ => 0) 0 0 (1 + cs.length + 1) hall
    (by omega) (by simp [store]) (by simp [store])
  rw [Nat.cast_zero] at this
  rw [this]
  simp [store, add_comm]

theorem chain_call_empty {σ : Type} (cb : Callback σ) (h : σ) (fs : List Char)
    (hid : IsIdent fs) :
    evaluateExprInt (fs ++ ['(', ')']) (some cb) h =
      .ret (cb h 0 fs.length [] 0).1 none (cb h 0 fs.length [] 0).2 := by
  obtain ⟨c, cs, rfl, hc, hcs⟩ := hid
  have hfuel : 3 + 2 ≤ 2 * (c :: cs ++ ['(', ')']).length + 3 := by
    simp only [List.length_append, List.length_cons, List.length_nil]; omega
  apply evaluate_of_run _ _ _ _ _ hfuel _ (by simp)
  rw [call_head (some cb) h _ c cs _ hc hcs]
  rw [run_succ]; simp [store, bind, Except.bind, pure, Except.pure]
  rw [run_succ]; simp
  rw [run_succ, step_foldLoop (some cb) _ 2 (by dsimp only; decide) (by dsimp only; decide)
    (by dsimp only; decide)]
  dsimp only
  generalize hfl : foldLoop (some cb) _ _ 2 _ = fl
  rw [foldLoop_stop (some cb) _ _ 1 _ START (by dsimp only; decide) (by simp [store])
    (by decide)] at hfl
  subst hfl
  simp [store, add_comm]

/-- C8: for every callback `cb`, host state, identifier `f` and decimal literals `v1 .. vn`
below 2^31 with `1 <= n <= 63`, `f(v1,...,vn)` returns the result of the single invocation
`cb(name at offset 0 with the length of f, argv = [v1, ..., vn], argc = n)` on the initial
host state, with a null diagnostic, and `f()` returns the result of the single invocation
with an empty argument vector and `argc = 0`; in `f(g(1,2),3)` the recording callback sees
`g` with `[1, 2]`, then `f` with `argc = 2`. -/
theorem C8_call_marshalling {σ : Type} (cb : Callback σ) (h : σ) (fs d : List Char)
    (ds : List (List Char)) (hid : IsIdent fs)
    (hall : ∀ x ∈ d :: ds, IsDecLit x ∧ decValue x < 2147483648) (hn : ds.length + 1 ≤ 63) :
    evaluateExprInt (fs ++ '(' :: (argList (d :: ds) ++ [')'])) (some cb) h =
        .ret (cb h 0 fs.length ((d :: ds).map (fun x => (decValue x : Int)))
            ((ds.length + 1 : Nat) : Int)).1 none
          (cb h 0 fs.length ((d :: ds).map (fun x => (decValue x : Int)))
            ((ds.length + 1 : Nat) : Int)).2 ∧
      evaluateExprInt (fs ++ ['(', ')']) (some cb) h =
        .ret (cb h 0 fs.length [] 0).1 none (cb h 0 fs.length [] 0).2 ∧
      evaluateExprInt "f(g(1,2),3)".toList (some (recorder 7)) [] =
        .ret 7 none [(2, 1, [1, 2], 2), (0, 1, [7, 3], 2)] :=
  ⟨chain_call cb h fs d ds hid hall hn, chain_call_empty cb h fs hid, by decide!⟩

/-- Witness of C8: `print(1,2,3)` with the recording callback that returns 7. -/
theorem C8_call_marshalling_witness :
    evaluateExprInt ("print".toList ++ '(' :: (argList ["1".toList, "2".toList, "3".toList] ++
        [')'])) (some (recorder 7)) [] =
      .ret (recorder 7 [] 0 ("print".toList).length
          (["1".toList, "2".toList, "3".toList].map (fun x => (decValue x : Int)))
          ((2 + 1 : Nat) : Int)).1 none
        (recorder 7 [] 0 ("print".toList).length
          (["1".toList, "2".toList, "3".toList].map (fun x => (decValue x : Int)))
          ((2 + 1 : Nat) : Int)).2 :=
  (C8_call_marshalling (recorder 7) [] "print".toList "1".toList ["2".toList, "3".toList]
    ⟨'p', "rint".toList, rfl, Or.inl (by decide), by decide⟩
    (by
      intro x hx
      simp only [List.mem_cons, List.mem_singleton, List.not_mem_nil, or_false] at hx
      rcases hx with rfl | rfl | rfl <;> exact ⟨⟨by decide, by decide⟩, by decide⟩)
    (by decide)).1

theorem step_foldLoop_promote {σ : Type} (f : Callback σ) (m : Machine σ) (k : Nat)
    (h0 : 0 ≤ m.foldStackArg) (hst : m.state = IDENT) (hsc : m.skipCounter ≠ 0)
    (hk : (m.opStackPtr + 1).toNat = k) :
    step (some f) m =
      match foldLoop (some f) (toChar m.foldStackArg) (prio (toChar m.foldStackArg)) k
          { m with lastValue := 0, state := NUM } with
      | .error o => .error o
      | .ok m2 => dispatch (some f) { m2 with foldStackArg := FOLDED } := by
  unfold step foldPhase promote
  simp only [h0, hst, hsc, if_true, ne_eq, not_false_eq_true, hk]
  cases foldLoop (some f) (toChar m.foldStackArg) (prio (toChar m.foldStackArg)) k
    { m with lastValue := 0, state := NUM } <;> rfl

/-- The end of the input after the skipped right operand. -/
theorem tail_cont {σ : Type} (cb : Callback σ) (h : σ) (isOr : Bool) (s : Int)
    (hs : s = NUM ∨ s = IDENT) (os vs : Int → Int) (sa ao : Int)
    (hos2 : os 2 = if isOr then 335 else 321) (hos1 : os 1 = START)
    (hvs1 : vs 1 = if isOr then 1 else 0) :
    SkipCont cb 2 (.ret (if isOr then 1 else 0) none h) os vs 2 1 s sa ao 1 [] h := by
  intro os1 vs1 lv li ll i hos hvs
  have e2 : os1 2 = if isOr then 335 else 321 := by rw [hos 2 (by decide), hos2]
  have e1 : os1 1 = 1 := by rw [hos 1 (by decide), hos1]
  have ev : vs1 1 = if isOr then 1 else 0 := by rw [hvs 1 (by decide), hvs1]
  rcases hs with rfl | rfl
  · rw [run_succ]; simp
    rw [run_succ, step_foldLoop (some cb) _ 3 (by dsimp only; decide) (by dsimp only; decide)
      (by dsimp only; decide)]
    dsimp only
    generalize hfl : foldLoop (some cb) _ _ 3 _ = fl
    cases isOr
    · rw [foldLoop_next (some cb) _ _ 2 _ 321 65 (by dsimp only; decide) (by simpa using e2)
        (by decide) (by decide) (by decide) (by decide)] at hfl
      simp [-foldLoop, ev] at hfl
      rw [foldLoop_stop (some cb) _ _ 1 _ START (by dsimp only; decide) (by simpa using e1)
        (by decide)] at hfl
      subst hfl
      simp [e1]
    · rw [foldLoop_next (some cb) _ _ 2 _ 335 79 (by dsimp only; decide) (by simpa using e2)
        (by decide) (by decide) (by decide) (by decide)] at hfl
      simp [-foldLoop, ev] at hfl
      rw [foldLoop_stop (some cb) _ _ 1 _ START (by dsimp only; decide) (by simpa using e1)
        (by decide)] at hfl
      subst hfl
      simp [e1]
  · rw [run_succ]; simp
    rw [run_succ, step_foldLoop_promote cb _ 3 (by dsimp only; decide) rfl
      (by dsimp only; decide) (by dsimp only; decide)]
    dsimp only
    generalize hfl : foldLoop (some cb) _ _ 3 _ = fl
    cases isOr
    · rw [foldLoop_next (some cb) _ _ 2 _ 321 65 (by dsimp only; decide) (by simpa using e2)
        (by decide) (by decide) (by decide) (by decide)] at hfl
      simp [-foldLoop, ev] at hfl
      rw [foldLoop_stop (some cb) _ _ 1 _ START (by dsimp only; decide) (by simpa using e1)
        (by decide)] at hfl
      subst hfl
      simp [e1]
    · rw [foldLoop_next (some cb) _ _ 2 _ 335 79 (by dsimp only; decide) (by simpa using e2)
        (by decide) (by decide) (by decide) (by decide)] at hfl
      simp [-foldLoop, ev] at hfl
      rw [foldLoop_stop (some cb) _ _ 1 _ START (by dsimp only; decide) (by simpa using e1)
        (by decide)] at hfl
      subst hfl
      simp [e1]

theorem powLoop_from_zero (n : Nat) : powLoop n 0 1 = if n = 0 then 1 else 0 := by
  cases n with
  | zero => rfl
  | succ n =>
    have : wrap32 (1 * 0) = 0 := rfl
    rw [powLoop, this, powLoop_zero_res]
    simp

theorem chain_pow {σ : Type} (call : Option (Callback σ)) (h : σ) (da db : List Char)
    (ha : IsDecLit da) (hb : IsDecLit db)
    (hav : decValue da < 2147483648) (hbv : decValue db < 2147483648) :
    evaluateExprInt (da ++ ' ' :: '*' :: '*' :: ' ' :: db) call h =
      .ret (if decValue db = 0 then 1 else 0) none h := by
  have hlen : 8 ≤ 2 * (da ++ ' ' :: '*' :: '*' :: ' ' :: db).length + 3 := by
    simp only [List.length_append, List.length_cons]; omega
  have hp : primitive 80 (decValue da) (decValue db) =
      .val (if decValue db = 0 then 1 else 0) := by
    have := primitive_pow (decValue da) (decValue db) (by omega)
    rw [this, Int.toNat_ofNat, powLoop_from_zero]
  apply evaluate_of_run _ _ _ 8 _ hlen _ (by simp)
  unfold initial
  rw [run_step _ _ _ _ (step_dec2 call _ da (' ' :: '*' :: '*' :: ' ' :: db)
    START 0 rfl ha hav rfl rfl rfl (by decide) rfl (by decide))]
  dsimp only
  rw [run_succ]; simp
  rw [run_succ]; simp
  rw [run_succ]; simp
  rw [run_succ]; simp [isDecLit_notBlank db hb]
  rw [run_step _ _ _ _ (step_dec2 call _ db []
    336 1 (List.append_nil db).symm hb hbv rfl rfl rfl (by decide) rfl (by decide))]
  dsimp only
  rw [run_succ]; simp
  rw [run_succ, step_foldLoop call _ 3 (by dsimp only; decide) (by dsimp only; decide)
    (by dsimp only; decide)]
  dsimp only
  generalize hfl : foldLoop call _ _ 3 _ = fl
  rw [foldLoop_next call _ _ 2 _ 336 80 (by dsimp only; decide) (by simp [store]) (by decide)
    (by decide) (by decide) (by decide)] at hfl
  simp [-foldLoop, store, hp] at hfl
  rw [foldLoop_stop call _ _ 1 _ START (by dsimp only; decide) (by simp [store])
    (by decide)] at hfl
  subst hfl
  simp

/-- C21 (counterexample): `2 ** 5` returns 0, not 4! = 24, and `2 ** 1` returns 0, not
0! = 1. -/
theorem C21_power_of_two_is_zero :
    evaluateExprInt (σ := Unit) "2 ** 5".toList none () = .ret 0 none () ∧
      evaluateExprInt (σ := Unit) "2 ** 1".toList none () = .ret 0 none () := by
  decide!

/-- C21 (amended): with no callback, for decimal literals `a`, `b` below 2^31, `a ** b`
returns 0 when `1 <= b` and 1 when `b` is 0, with a null diagnostic: the loop of case `P`
multiplies the result by the counter, which starts at 0. -/
theorem C21_power_value (da db : List Char) (ha : IsDecLit da) (hb : IsDecLit db)
    (hav : decValue da < 2147483648) (hbv : decValue db < 2147483648) :
    (1 ≤ decValue db →
        evaluateExprInt (σ := Unit) (da ++ ' ' :: '*' :: '*' :: ' ' :: db) none () =
          .ret 0 none ()) ∧
      (decValue db = 0 →
        evaluateExprInt (σ := Unit) (da ++ ' ' :: '*' :: '*' :: ' ' :: db) none () =
          .ret 1 none ()) := by
  have hc := chain_pow (σ := Unit) none () da db ha hb hav hbv
  constructor
  · intro h1
    rw [hc, if_neg (by omega)]
  · intro h0
    rw [hc, if_pos h0]

/-- Witness of C21 (amended): `7 ** 3` returns 0. -/
theorem C21_power_value_witness :
    evaluateExprInt (σ := Unit) ("7".toList ++ ' ' :: '*' :: '*' :: ' ' :: "3".toList)
      none () = .ret 0 none () :=
  (C21_power_value "7".toList "3".toList ⟨by decide, by decide⟩ ⟨by decide, by decide⟩
    (by decide) (by decide)).1 (by decide)

theorem foldLogical_semi {σ : Type} (m : Machine σ) (isOr : Bool) (a b : Int) :
    foldLogical m.thenSemicolon isOr a b = thenSemicolonE (foldLogical m isOr a b) := by
  unfold foldLogical
  simp only [Machine.thenSemicolon]
  split_ifs <;> rfl

theorem tse_ite {σ : Type} (c : Prop) [Decidable c] (x y : Except (Outcome σ) (Machine σ)) :
    thenSemicolonE (if c then x else y) = if c then thenSemicolonE x else thenSemicolonE y := by
  split_ifs <;> rfl

theorem foldBody_semi {σ : Type} (call : Option (Callback σ)) (m : Machine σ) (op c : Int) :
    foldBody call m.thenSemicolon op c = thenSemicolonE (foldBody call m op c) := by
  unfold foldBody
  by_cases hb : band op BINOP ≠ 0
  · simp only [hb, if_pos, not_false_eq_true, true_and, ne_eq, if_true]
    simp only [tse_ite, foldLogical_semi]
    simp only [Machine.thenSemicolon]
    split_ifs <;>
      first | rfl | (unfold foldLogical; dsimp only; split_ifs <;> rfl) | (cases call <;> rfl) |
        (cases primitive c _ _ <;> rfl)
  · simp only [hb, if_neg, not_false_eq_true, false_and, ne_eq, if_false]
    simp only [tse_ite, ← foldLogical_semi]
    have e1 : m.thenSemicolon.skipCounter = m.skipCounter := rfl
    have e2 : m.thenSemicolon.opStackPtr = m.opStackPtr := rfl
    have e3 : m.thenSemicolon.lastValue = m.lastValue := rfl
    simp only [e1, e2, e3]
    split_ifs <;> first | rfl | (cases call <;> rfl) | (cases primitive c _ _ <;> rfl)

theorem foldIter_semi {σ : Type} (call : Option (Callback σ)) (foc fp : Int) (m : Machine σ) :
    foldIter call foc fp m.thenSemicolon =
      match foldIter call foc fp m with
      | .stop m1 => .stop m1.thenSemicolon
      | .next m1 => .next m1.thenSemicolon
      | .fail o => .fail o := by
  unfold foldIter
  have e1 : m.thenSemicolon.opStackPtr = m.opStackPtr := rfl
  have e2 : m.thenSemicolon.opStack = m.opStack := rfl
  simp only [foldBody_semi, e1, e2]
  split_ifs <;> first | rfl | (cases foldBody call m _ _ <;> rfl)

theorem foldLoop_semi {σ : Type} (call : Option (Callback σ)) (foc fp : Int) :
    ∀ (n : Nat) (m : Machine σ), foldLoop call foc fp n m.thenSemicolon =
      thenSemicolonE (foldLoop call foc fp n m) := by
  intro n
  induction n with
  | zero => intro m; rfl
  | succ n ih =>
    intro m
    unfold foldLoop
    rw [foldIter_semi]
    cases foldIter call foc fp m with
    | stop m1 => rfl
    | fail o => rfl
    | next m1 => exact ih m1

theorem promote_semi {σ : Type} (call : Option (Callback σ)) (m : Machine σ) :
    promote call m.thenSemicolon = thenSemicolonE (promote call m) := by
  unfold promote
  simp only [Machine.thenSemicolon]
  split_ifs <;> first | rfl | (cases call <;> rfl)

theorem foldPhase_semi {σ : Type} (call : Option (Callback σ)) (m : Machine σ) :
    foldPhase call m.thenSemicolon = thenSemicolonE (foldPhase call m) := by
  unfold foldPhase
  rw [promote_semi]
  have e1 : m.thenSemicolon.foldStackArg = m.foldStackArg := rfl
  simp only [e1]
  split_ifs
  · cases promote call m with
    | error o => rfl
    | ok m1 =>
      simp only [thenSemicolonE]
      rw [foldLoop_semi]
      have e2 : m1.thenSemicolon.foldStackArg = m1.foldStackArg := rfl
      have e3 : m1.thenSemicolon.opStackPtr = m1.opStackPtr := rfl
      simp only [e2, e3]
      cases foldLoop call _ _ _ m1 <;> rfl
  · rfl

theorem runLength_le (p : Int → Bool) : ∀ r : List Char, runLength p r ≤ r.length := by
  intro r
  induction r with
  | nil => simp [runLength]
  | cons c cs ih =>
    unfold runLength
    split_ifs
    · simp only [List.length_cons]; omega
    · omega

theorem runLength_semi (p : Int → Bool) (hp : p (ch ';') = false) :
    ∀ r : List Char, runLength p (r ++ [';']) = runLength p r := by
  intro r
  induction r with
  | nil => simp only [List.nil_append, runLength, hp]; rfl
  | cons c cs ih =>
    simp only [List.cons_append]
    unfold runLength
    rw [ih]

theorem scanDec_semi : ∀ (r : List Char) (acc : Int), scanDec acc (r ++ [';']) = scanDec acc r := by
  intro r
  induction r with
  | nil => intro acc; rfl
  | cons c cs ih =>
    intro acc
    simp only [List.cons_append]
    unfold scanDec
    rw [ih]

theorem scanHex_semi : ∀ (r : List Char) (acc : Int), scanHex acc (r ++ [';']) = scanHex acc r := by
  intro r
  induction r with
  | nil => intro acc; rfl
  | cons c cs ih =>
    intro acc
    simp only [List.cons_append]
    unfold scanHex
    rw [ih]

theorem advance_semi {σ : Type} (m : Machine σ) (n : Nat) (h : n ≤ m.rest.length) :
    m.thenSemicolon.advance n = (m.advance n).thenSemicolon := by
  simp only [Machine.advance, Machine.thenSemicolon, List.drop_append_of_le_length h]

theorem pushOp_semi {σ : Type} (m : Machine σ) (v : Int) :
    m.thenSemicolon.pushOp v = thenSemicolonE (m.pushOp v) := by
  unfold Machine.pushOp
  simp only [Machine.thenSemicolon]
  split_ifs <;> rfl

theorem pushValue_semi {σ : Type} (m : Machine σ) (v : Int) :
    m.thenSemicolon.pushValue v = thenSemicolonE (m.pushValue v) := by
  unfold Machine.pushValue
  simp only [Machine.thenSemicolon]
  split_ifs <;> rfl

theorem pushOp_rest {σ : Type} (m m1 : Machine σ) (v : Int) (h : m.pushOp v = .ok m1) :
    m1.rest = m.rest := by
  unfold Machine.pushOp at h
  split_ifs at h
  cases h
  rfl

theorem pushValue_rest {σ : Type} (m m1 : Machine σ) (v : Int) (h : m.pushValue v = .ok m1) :
    m1.rest = m.rest := by
  unfold Machine.pushValue at h
  split_ifs at h
  cases h
  rfl

theorem tse_bind {σ : Type} (x : Except (Outcome σ) (Machine σ))
    (f g : Machine σ → Except (Outcome σ) (Machine σ))
    (h : ∀ m1, x = .ok m1 → g m1.thenSemicolon = thenSemicolonE (f m1)) :
    (thenSemicolonE x >>= g) = thenSemicolonE (x >>= f) := by
  cases x with
  | error o => rfl
  | ok m1 => exact h m1 rfl

theorem endOfExpr_semi {σ : Type} (m : Machine σ) :
    endOfExpr m.thenSemicolon = thenSemicolonE (endOfExpr m) := by
  unfold endOfExpr
  simp only [Machine.thenSemicolon]
  split_ifs <;> rfl

theorem inCh_semi {σ : Type} (m : Machine σ) (h : m.rest ≠ []) :
    m.thenSemicolon.inCh = m.inCh := by
  unfold Machine.inCh Machine.thenSemicolon
  cases hr : m.rest with
  | nil => exact absurd hr h
  | cons c r => rfl

theorem tail_semi {σ : Type} (m : Machine σ) (h : m.rest ≠ []) :
    m.thenSemicolon.rest.tail = m.rest.tail ++ [';'] := by
  unfold Machine.thenSemicolon
  cases hr : m.rest with
  | nil => exact absurd hr h
  | cons c r => rfl

theorem rest_length_pos {σ : Type} (m : Machine σ) (h : m.rest ≠ []) : 1 ≤ m.rest.length := by
  cases hr : m.rest with
  | nil => exact absurd hr h
  | cons c r => simp

theorem tail_length {σ : Type} (m : Machine σ) (h : m.rest ≠ []) :
    m.rest.tail.length + 1 = m.rest.length := by
  cases hr : m.rest with
  | nil => exact absurd hr h
  | cons c r => simp

theorem statementEnd_semi {σ : Type} (m : Machine σ) (h : m.rest ≠ []) :
    statementEnd m.thenSemicolon = thenSemicolonE (statementEnd m) := by
  unfold statementEnd
  rw [advance_semi m 1 (rest_length_pos m h)]
  have e1 : m.thenSemicolon.foldStackArg = m.foldStackArg := rfl
  have e2 : m.thenSemicolon.state = m.state := rfl
  have e3 : m.thenSemicolon.opStackPtr = m.opStackPtr := rfl
  have e4 : m.thenSemicolon.scanningArgs = m.scanningArgs := rfl
  simp only [e1, e2, e3, e4]
  split_ifs <;> rfl

theorem argumentSeparator_semi {σ : Type} (m : Machine σ) (h : m.rest ≠ []) :
    argumentSeparator m.thenSemicolon = thenSemicolonE (argumentSeparator m) := by
  unfold argumentSeparator
  have e1 : m.thenSemicolon.foldStackArg = m.foldStackArg := rfl
  have e3 : m.thenSemicolon.opStackPtr = m.opStackPtr := rfl
  have e4 : m.thenSemicolon.opStack = m.opStack := rfl
  have e5 : m.thenSemicolon.argcOpstackPtr = m.argcOpstackPtr := rfl
  have e6 : m.thenSemicolon.lastValue = m.lastValue := rfl
  simp only [e1, e3, e4, e5, e6, tse_ite]
  split_ifs
  any_goals rfl
  have := pushValue_semi { m with
    foldStackArg := IDLE, opStackPtr := m.opStackPtr - 1,
    opStack := store m.opStack m.argcOpstackPtr (wrap32 (m.opStack m.argcOpstackPtr + 1)) }
    m.lastValue
  simp only [Machine.thenSemicolon] at this ⊢
  rw [this]
  apply tse_bind
  intro m1 h1
  have hr := pushValue_rest _ _ _ h1
  have hl : 1 ≤ m1.rest.length := by rw [hr]; exact rest_length_pos m h
  have := advance_semi m1 1 hl
  simp only [Machine.thenSemicolon] at this ⊢
  show Except.ok _ = thenSemicolonE (Except.ok _)
  rw [this]
  rfl

theorem ok_advance_semi {σ : Type} (m1 : Machine σ) (n : Nat) (hl : n ≤ m1.rest.length)
    (f : Machine σ → Machine σ)
    (hf : ∀ x : Machine σ, f x.thenSemicolon = (f x).thenSemicolon) :
    (Except.ok (f (m1.thenSemicolon.advance n)) : Except (Outcome σ) (Machine σ)) =
      thenSemicolonE (Except.ok (f (m1.advance n))) := by
  rw [advance_semi m1 n hl, hf]
  rfl

theorem closeParen_semi {σ : Type} (call : Option (Callback σ)) (m : Machine σ)
    (h : m.rest ≠ []) :
    closeParen call m.thenSemicolon = thenSemicolonE (closeParen call m) := by
  unfold closeParen
  have e1 : m.thenSemicolon.foldStackArg = m.foldStackArg := rfl
  have e3 : m.thenSemicolon.opStackPtr = m.opStackPtr := rfl
  have e4 : m.thenSemicolon.opStack = m.opStack := rfl
  have e5 : m.thenSemicolon.scanningArgs = m.scanningArgs := rfl
  have e6 : m.thenSemicolon.lastValue = m.lastValue := rfl
  simp only [e1, e3, e4, e5, e6, tse_ite]
  split_ifs
  any_goals rfl
  · exact ok_advance_semi m 1 (rest_length_pos m h)
      (fun x => { x with foldStackArg := IDLE, opStackPtr := m.opStackPtr - 2,
                         scanningArgs := m.opStack (m.opStackPtr - 1) }) (fun _ => rfl)
  · have := pushValue_semi { m with
      foldStackArg := IDLE, opStackPtr := m.opStackPtr - 6,
      argcOpstackPtr := m.opStack (m.opStackPtr - 4),
      scanningArgs := m.opStack (m.opStackPtr - 5) } m.lastValue
    simp only [Machine.thenSemicolon] at this ⊢
    rw [this]
    apply tse_bind
    intro m1 h1
    have hr := pushValue_rest _ _ _ h1
    have hl : 1 ≤ m1.rest.length := by rw [hr]; exact rest_length_pos m h
    have ha := advance_semi m1 1 hl
    have e7 : m1.thenSemicolon.skipCounter = m1.skipCounter := rfl
    have e8 : m1.thenSemicolon.valueStackPtr = m1.valueStackPtr := rfl
    cases call with
    | none => rfl
    | some f =>
      simp only [tse_ite, ha, e7, e8]
      split_ifs <;> rfl

theorem callNoArgs_semi {σ : Type} (call : Option (Callback σ)) (m : Machine σ)
    (h : m.rest ≠ []) :
    callNoArgs call m.thenSemicolon = thenSemicolonE (callNoArgs call m) := by
  unfold callNoArgs
  have e3 : m.thenSemicolon.opStackPtr = m.opStackPtr := rfl
  have e4 : m.thenSemicolon.opStack = m.opStack := rfl
  have e5 : m.thenSemicolon.skipCounter = m.skipCounter := rfl
  have e6 : m.thenSemicolon.host = m.host := rfl
  have hl := rest_length_pos m h
  simp only [e3, e4, e5, e6, tse_ite]
  cases call with
  | none => split_ifs <;> rfl
  | some f =>
    dsimp only
    split_ifs
    any_goals rfl
    · exact ok_advance_semi { m with
        opStackPtr := m.opStackPtr - 5, argcOpstackPtr := m.opStack (m.opStackPtr - 3),
        scanningArgs := m.opStack (m.opStackPtr - 4) } 1 hl
        (fun x => { x with lastValue := 0, state := NUM }) (fun _ => rfl)
    · exact ok_advance_semi { m with
        opStackPtr := m.opStackPtr - 5, argcOpstackPtr := m.opStack (m.opStackPtr - 3),
        scanningArgs := m.opStack (m.opStackPtr - 4) } 1 hl
        (fun x => { x with
          lastValue := (f m.host (m.opStack (m.opStackPtr - 1)) (m.opStack m.opStackPtr) [] 0).1,
          host := (f m.host (m.opStack (m.opStackPtr - 1)) (m.opStack m.opStackPtr) [] 0).2,
          state := NUM }) (fun _ => rfl)

theorem pushOp_bind_semi {σ : Type} (m : Machine σ) (v : Int)
    (f g : Machine σ → Except (Outcome σ) (Machine σ))
    (h : ∀ m1, m1.rest = m.rest → g m1.thenSemicolon = thenSemicolonE (f m1)) :
    (m.thenSemicolon.pushOp v >>= g) = thenSemicolonE (m.pushOp v >>= f) := by
  rw [pushOp_semi]
  apply tse_bind
  intro m1 h1
  exact h m1 (pushOp_rest _ _ _ h1)

theorem callOpen_semi {σ : Type} (m : Machine σ) (h : m.rest ≠ []) :
    callOpen m.thenSemicolon = thenSemicolonE (callOpen m) := by
  unfold callOpen
  have e1 : m.thenSemicolon.scanningArgs = m.scanningArgs := rfl
  have e2 : m.thenSemicolon.argcOpstackPtr = m.argcOpstackPtr := rfl
  have e3 : m.thenSemicolon.lastIdent = m.lastIdent := rfl
  have e4 : m.thenSemicolon.lastIdentLen = m.lastIdentLen := rfl
  simp only [e1, e2, e3, e4]
  apply pushOp_bind_semi; intro m1 h1
  apply pushOp_bind_semi; intro m2 h2
  apply pushOp_bind_semi; intro m3 h3
  apply pushOp_bind_semi; intro m4 h4
  apply pushOp_bind_semi; intro m5 h5
  have hl : 1 ≤ m5.rest.length := by
    rw [h5, h4, h3, h2, h1]; exact rest_length_pos m h
  exact ok_advance_semi m5 1 hl
    (fun x => { x with argcOpstackPtr := m3.opStackPtr, state := CALL, scanningArgs := 1 })
    (fun _ => rfl)

theorem isBinaryStart_range (x : Int) (h : isBinaryStart x = true) :
    x = 33 ∨ (37 ≤ x ∧ x ≤ 47) ∨ (60 ≤ x ∧ x ≤ 62) ∨ x = 94 ∨ x = 124 := by
  unfold isBinaryStart at h
  simp only [Bool.or_eq_true, Bool.and_eq_true, decide_eq_true_eq, ch, Char.reduceToNat,
    Nat.cast_ofNat] at h
  omega

theorem lexOperator_single (x : Int) (h : isBinaryStart x = true) :
    lexOperator x 0 = (x, 0) ∧ lexOperator x (ch ';') = (x, 0) := by
  rcases isBinaryStart_range x h with h | ⟨h1, h2⟩ | ⟨h1, h2⟩ | h | h
  · subst h; decide
  · interval_cases x <;> decide
  · interval_cases x <;> decide
  · subst h; decide
  · subst h; decide

theorem lexOperator_width (x y : Int) : (lexOperator x y).2 = 0 ∨ (lexOperator x y).2 = 1 := by
  unfold lexOperator
  dsimp only
  split_ifs
  · right; rfl
  · left; rfl

theorem lex_semi {σ : Type} (m : Machine σ) (h : m.rest ≠ [])
    (hb : isBinaryStart m.inCh = true) :
    lexOperator m.thenSemicolon.inCh m.thenSemicolon.nextCh = lexOperator m.inCh m.nextCh ∧
      ((lexOperator m.inCh m.nextCh).2 + 1).toNat ≤ m.rest.length := by
  rw [inCh_semi m h]
  rcases hr : m.rest with _ | ⟨c, _ | ⟨d, r⟩⟩
  · exact absurd hr h
  · have h1 : m.nextCh = 0 := by unfold Machine.nextCh; rw [hr]
    have h2 : m.thenSemicolon.nextCh = ch ';' := by
      unfold Machine.nextCh Machine.thenSemicolon; rw [hr]; rfl
    have := lexOperator_single m.inCh hb
    rw [h1, h2, this.1, this.2]
    exact ⟨rfl, by simp⟩
  · have h1 : m.thenSemicolon.nextCh = m.nextCh := by
      unfold Machine.nextCh Machine.thenSemicolon; rw [hr]; rfl
    rw [h1]
    refine ⟨rfl, ?_⟩
    rcases lexOperator_width m.inCh m.nextCh with hw | hw <;> rw [hw] <;> simp

theorem binaryOperator_semi {σ : Type} (m : Machine σ) (h : m.rest ≠ [])
    (hb : isBinaryStart m.inCh = true) :
    binaryOperator m.thenSemicolon = thenSemicolonE (binaryOperator m) := by
  obtain ⟨hlex, hw⟩ := lex_semi m h hb
  unfold binaryOperator
  have e1 : m.thenSemicolon.state = m.state := rfl
  have e2 : m.thenSemicolon.foldStackArg = m.foldStackArg := rfl
  have e3 : m.thenSemicolon.lastValue = m.lastValue := rfl
  have e4 : m.thenSemicolon.skipCounter = m.skipCounter := rfl
  have e5 : m.thenSemicolon.lastIdent = m.lastIdent := rfl
  have e6 : m.thenSemicolon.lastIdentLen = m.lastIdentLen := rfl
  simp only [hlex, e1, e2, e3, e4, e5, e6, tse_ite]
  split_ifs
  any_goals rfl
  all_goals first
    | (apply pushOp_bind_semi; intro m1 h1
       apply pushOp_bind_semi; intro m2 h2
       exact ok_advance_semi m2 _ (by rw [h2, h1]; exact hw)
        (fun x => { x with state := bor (ch '=') UNOP }) (fun _ => rfl))
    | (rw [pushValue_semi]
       apply tse_bind
       intro m1 h1
       have hr := pushValue_rest _ _ _ h1
       exact ok_advance_semi m1 _ (by rw [hr]; exact hw)
        (fun x => { x with foldStackArg := IDLE, skipCounter := _, state := _ }) (fun _ => rfl))

theorem hexTest_semi {σ : Type} (m : Machine σ) (h : m.rest ≠ []) :
    (m.thenSemicolon.nextCh = ch 'x' || m.thenSemicolon.nextCh = ch 'X') =
      (m.nextCh = ch 'x' || m.nextCh = ch 'X') ∧
    ((m.nextCh = ch 'x' || m.nextCh = ch 'X') = true → 2 ≤ m.rest.length) := by
  rcases hr : m.rest with _ | ⟨c, _ | ⟨d, r⟩⟩
  · exact absurd hr h
  · have h1 : m.nextCh = 0 := by unfold Machine.nextCh; rw [hr]
    have h2 : m.thenSemicolon.nextCh = ch ';' := by
      unfold Machine.nextCh Machine.thenSemicolon; rw [hr]; rfl
    rw [h1, h2]
    exact ⟨by decide, fun hh => absurd hh (by decide)⟩
  · have h1 : m.thenSemicolon.nextCh = m.nextCh := by
      unfold Machine.nextCh Machine.thenSemicolon; rw [hr]; rfl
    rw [h1]
    exact ⟨rfl, fun _ => by simp⟩

theorem literalBranch_semi {σ : Type} (m : Machine σ) (h : m.rest ≠ []) :
    literalBranch m.thenSemicolon = (literalBranch m).map thenSemicolonE := by
  obtain ⟨hx, hx2⟩ := hexTest_semi m h
  have hl := tail_length m h
  have e1 : m.thenSemicolon.state = m.state := rfl
  have e2 : m.thenSemicolon.i = m.i := rfl
  have e3 : m.thenSemicolon.scanningArgs = m.scanningArgs := rfl
  have e4 : m.thenSemicolon.rest = m.rest ++ [';'] := rfl
  unfold literalBranch
  simp only [inCh_semi m h, tail_semi m h, hx, e1, e2, e3,
    runLength_semi isIdentChar (by decide), runLength_semi isdigit (by decide), scanDec_semi]
  by_cases c1 : (isalpha m.inCh || decide (m.inCh = ch '_')) = true
  · simp only [c1, if_true, Option.map_some']
    congr 1
    apply pushOp_bind_semi; intro m1 h1
    exact ok_advance_semi m1 _
      (by rw [h1]; have := runLength_le isIdentChar m.rest.tail; omega)
      (fun x => { x with lastIdent := m.i, lastIdentLen := _, state := IDENT }) (fun _ => rfl)
  simp only [c1, if_false, Bool.false_eq_true]
  by_cases c2 : (decide (m.inCh = ch '0') &&
      (decide (m.nextCh = ch 'x') || decide (m.nextCh = ch 'X'))) = true
  · have hlen : 2 ≤ m.rest.length := by
      simp only [Bool.and_eq_true] at c2
      exact hx2 c2.2
    have hd : List.drop 2 (m.rest ++ [';']) = List.drop 2 m.rest ++ [';'] :=
      List.drop_append_of_le_length hlen
    simp only [c2, if_true, Option.map_some', e4, hd, runLength_semi isHexChar (by decide),
      scanHex_semi]
    congr 1
    apply pushOp_bind_semi; intro m1 h1
    exact ok_advance_semi m1 _
      (by rw [h1]
          have := runLength_le isHexChar (List.drop 2 m.rest)
          simp only [List.length_drop] at this
          omega)
      (fun x => { x with lastValue := _, state := NUM }) (fun _ => rfl)
  simp only [c2, if_false, Bool.false_eq_true]
  by_cases c3 : isdigit m.inCh = true
  · simp only [c3, if_true, Option.map_some']
    congr 1
    apply pushOp_bind_semi; intro m1 h1
    exact ok_advance_semi m1 _
      (by rw [h1]; have := runLength_le isdigit m.rest.tail; omega)
      (fun x => { x with lastValue := _, state := NUM }) (fun _ => rfl)
  simp only [c3, if_false, Bool.false_eq_true]
  by_cases c4 : (decide (m.inCh = ch '-') || decide (m.inCh = ch '~') ||
      decide (m.inCh = ch '!') || decide (m.inCh = ch '+')) = true
  · simp only [c4, if_true, Option.map_some']
    congr 1
    apply pushOp_bind_semi; intro m1 h1
    exact ok_advance_semi m1 _ (by rw [h1]; omega)
      (fun x => { x with state := _ }) (fun _ => rfl)
  simp only [c4, if_false, Bool.false_eq_true]
  by_cases c5 : m.inCh = ch '('
  · simp only [c5, if_true, Option.map_some']
    congr 1
    apply pushOp_bind_semi; intro m1 h1
    apply pushOp_bind_semi; intro m2 h2
    exact ok_advance_semi m2 _ (by rw [h2, h1]; omega)
      (fun x => { x with scanningArgs := 0, state := PAREN }) (fun _ => rfl)
  simp only [c5, if_false, Option.map_none']

theorem dispatch_semi {σ : Type} (call : Option (Callback σ)) (m : Machine σ)
    (h : m.rest ≠ []) :
    dispatch call m.thenSemicolon = thenSemicolonE (dispatch call m) := by
  have e1 : m.thenSemicolon.state = m.state := rfl
  have e3 : m.thenSemicolon.scanningArgs = m.scanningArgs := rfl
  have e4 : m.thenSemicolon.rest = m.rest ++ [';'] := rfl
  unfold dispatch
  simp only [inCh_semi m h, e1, e3, e4, runLength_semi isBlank (by decide),
    literalBranch_semi m h, endOfExpr_semi, statementEnd_semi m h, argumentSeparator_semi m h,
    closeParen_semi call m h, callOpen_semi m h, callNoArgs_semi call m h]
  by_cases c0 : m.inCh = 0
  · simp only [c0, if_true]
  simp only [c0, if_false]
  by_cases c1 : isBlank m.inCh = true
  · simp only [c1, if_true]
    have := advance_semi m (runLength isBlank m.rest) (runLength_le _ _)
    rw [this]
    rfl
  simp only [c1, if_false, Bool.false_eq_true]
  by_cases c2 : band m.state CAN_LITERAL ≠ 0
  · simp only [c2, if_true, ne_eq, not_false_eq_true]
    cases literalBranch m with
    | some r => rfl
    | none =>
      simp only [Option.map_none', tse_ite]
      split_ifs
      any_goals rfl
      exact binaryOperator_semi m h (by tauto)
  · simp only [c2, if_false, ne_eq, not_true_eq_false, not_false_eq_true, tse_ite]
    split_ifs
    any_goals rfl
    exact binaryOperator_semi m h (by tauto)

theorem foldLogical_keeps {σ : Type} (m m1 : Machine σ) (isOr : Bool) (a b : Int)
    (h : foldLogical m isOr a b = .ok m1) :
    m1.rest = m.rest ∧ m1.scanningArgs = m.scanningArgs ∧ m1.state = m.state ∧
      m1.foldStackArg = m.foldStackArg := by
  unfold foldLogical at h
  dsimp only at h
  split_ifs at h <;> cases h <;> exact ⟨rfl, rfl, rfl, rfl⟩

theorem foldBody_keeps {σ : Type} (call : Option (Callback σ)) (m m1 : Machine σ) (op c : Int)
    (h : foldBody call m op c = .ok m1) :
    m1.rest = m.rest ∧ m1.scanningArgs = m.scanningArgs ∧ m1.state = m.state ∧
      m1.foldStackArg = m.foldStackArg := by
  unfold foldBody at h
  by_cases hb : band op BINOP ≠ 0
  · simp only [hb, if_pos, not_false_eq_true, true_and, ne_eq, if_true] at h
    split_ifs at h
    all_goals first
      | (have hk := foldLogical_keeps _ _ _ _ _ h; exact hk)
      | (cases h; exact ⟨rfl, rfl, rfl, rfl⟩)
      | (cases call with
         | none => cases h
         | some f => cases h; exact ⟨rfl, rfl, rfl, rfl⟩)
      | (cases hp : primitive c (m.valueStack m.valueStackPtr) m.lastValue with
         | val v => rw [hp] at h; cases h; exact ⟨rfl, rfl, rfl, rfl⟩
         | err msg => rw [hp] at h; cases h
         | undef => rw [hp] at h; cases h)
  · simp only [hb, if_neg, not_false_eq_true, false_and, ne_eq, if_false] at h
    split_ifs at h
    all_goals first
      | (have hk := foldLogical_keeps _ _ _ _ _ h; exact hk)
      | (cases h; exact ⟨rfl, rfl, rfl, rfl⟩)
      | (cases call with
         | none => cases h
         | some f => cases h; exact ⟨rfl, rfl, rfl, rfl⟩)
      | (cases hp : primitive c m.lastValue m.lastValue with
         | val v => rw [hp] at h; cases h; exact ⟨rfl, rfl, rfl, rfl⟩
         | err msg => rw [hp] at h; cases h
         | undef => rw [hp] at h; cases h)

theorem foldLoop_keeps {σ : Type} (call : Option (Callback σ)) (foc fp : Int) :
    ∀ (n : Nat) (m m1 : Machine σ), foldLoop call foc fp n m = .ok m1 →
      m1.rest = m.rest ∧ m1.scanningArgs = m.scanningArgs ∧ m1.state = m.state ∧
        m1.foldStackArg = m.foldStackArg := by
  intro n
  induction n with
  | zero => intro m m1 h; cases h
  | succ n ih =>
    intro m m1 h
    unfold foldLoop at h
    cases hi : foldIter call foc fp m with
    | stop m2 =>
      rw [hi] at h
      cases h
      unfold foldIter at hi
      dsimp only at hi
      split_ifs at hi
      all_goals first
        | (cases hi; exact ⟨rfl, rfl, rfl, rfl⟩)
        | (cases hb : foldBody call m (m.opStack m.opStackPtr)
              (toChar (m.opStack m.opStackPtr)) <;> rw [hb] at hi <;> cases hi)
    | fail o => rw [hi] at h; cases h
    | next m2 =>
      rw [hi] at h
      unfold foldIter at hi
      dsimp only at hi
      split_ifs at hi
      cases hb : foldBody call m (m.opStack m.opStackPtr) (toChar (m.opStack m.opStackPtr)) with
      | error o => rw [hb] at hi; cases hi
      | ok m3 =>
        rw [hb] at hi
        cases hi
        obtain ⟨k1, k2, k3, k4⟩ := foldBody_keeps call m m3 _ _ hb
        obtain ⟨j1, j2, j3, j4⟩ := ih _ m1 h
        exact ⟨j1.trans k1, j2.trans k2, j3.trans k3, j4.trans k4⟩

theorem promote_keeps {σ : Type} (call : Option (Callback σ)) (m m2 : Machine σ)
    (hp : promote call m = .ok m2) :
    m2.rest = m.rest ∧ m2.scanningArgs = m.scanningArgs ∧
      (m2.state = m.state ∨ (m.state = IDENT ∧ m2.state = NUM)) := by
  unfold promote at hp
  by_cases hs : m.state = IDENT
  · simp only [hs, if_true] at hp
    cases call with
    | none => cases hp
    | some f =>
      dsimp only at hp
      split_ifs at hp <;> cases hp <;> exact ⟨rfl, rfl, Or.inr ⟨hs, rfl⟩⟩
  · simp only [hs, if_false] at hp
    cases hp
    exact ⟨rfl, rfl, Or.inl rfl⟩

theorem foldPhase_keeps {σ : Type} (call : Option (Callback σ)) (m m1 : Machine σ)
    (h : foldPhase call m = .ok m1) :
    m1.rest = m.rest ∧ m1.scanningArgs = m.scanningArgs ∧
      (m1.state = m.state ∨ (m.state = IDENT ∧ m1.state = NUM)) ∧
      (m.foldStackArg < 0 → m1 = m) ∧ (0 ≤ m.foldStackArg → m1.foldStackArg = FOLDED) := by
  unfold foldPhase at h
  by_cases h0 : 0 ≤ m.foldStackArg
  · simp only [h0, if_true] at h
    cases hp : promote call m with
    | error o => rw [hp] at h; cases h
    | ok m2 =>
      rw [hp] at h
      dsimp only at h
      have hk := promote_keeps call m m2 hp
      cases hl : foldLoop call (toChar m2.foldStackArg) (prio (toChar m2.foldStackArg))
          (m2.opStackPtr + 1).toNat m2 with
      | error o => rw [hl] at h; cases h
      | ok m3 =>
        rw [hl] at h
        cases h
        obtain ⟨j1, j2, j3, _⟩ := foldLoop_keeps call _ _ _ m2 m3 hl
        refine ⟨j1.trans hk.1, j2.trans hk.2.1, ?_, fun hh => absurd h0 (by omega), fun _ => rfl⟩
        rcases hk.2.2 with hh | ⟨hh1, hh2⟩
        · exact Or.inl (j3.trans hh)
        · exact Or.inr ⟨hh1, j3.trans hh2⟩
  · simp only [h0, if_false] at h
    cases h
    exact ⟨rfl, rfl, Or.inl rfl, fun _ => rfl, fun hh => absurd hh h0⟩

theorem step_semi {σ : Type} (call : Option (Callback σ)) (m : Machine σ)
    (h : m.rest ≠ []) :
    step call m.thenSemicolon = thenSemicolonE (step call m) := by
  unfold step
  rw [foldPhase_semi]
  cases hf : foldPhase call m with
  | error o => rfl
  | ok m1 =>
    have hr : m1.rest = m.rest := (foldPhase_keeps call m m1 hf).1
    exact dispatch_semi call m1 (by rw [hr]; exact h)

theorem literalBranch_semicolon {σ : Type} (m : Machine σ) (r : List Char)
    (h : m.rest = ';' :: r) : literalBranch m = none := by
  have hc : m.inCh = 59 := by unfold Machine.inCh; rw [h]; rfl
  unfold literalBranch
  simp only [hc]
  rfl

theorem dispatch_semicolon {σ : Type} (call : Option (Callback σ)) (m : Machine σ)
    (r : List Char) (h : m.rest = ';' :: r) (hs : band m.state CAN_STATEMENT ≠ 0) :
    dispatch call m = statementEnd m := by
  have hc : m.inCh = 59 := by unfold Machine.inCh; rw [h]; rfl
  have hl := literalBranch_semicolon m r h
  unfold dispatch
  simp only [hc, hl, ite_self]
  have h1 : ((59 : Int) = 0) = False := by decide
  have h2 : isBlank 59 = false := by decide
  have h3 : ((59 : Int) = ch ';') = True := by decide
  simp only [h1, h2, h3, if_false, and_true, Bool.false_eq_true]
  rw [if_pos hs]

theorem dispatch_nil {σ : Type} (call : Option (Callback σ)) (m : Machine σ)
    (h : m.rest = []) : dispatch call m = endOfExpr m := by
  have hc : m.inCh = 0 := by unfold Machine.inCh; rw [h]
  unfold dispatch
  simp only [hc, if_true]

theorem step_of_foldPhase {σ : Type} (call : Option (Callback σ)) (m mF : Machine σ)
    (hF : foldPhase call m = .ok mF) : step call m = dispatch call mF := by
  unfold step
  rw [hF]

theorem step_idle_dispatch {σ : Type} (call : Option (Callback σ)) (m : Machine σ)
    (h : m.foldStackArg < 0) : step call m = dispatch call m := by
  apply step_of_foldPhase
  unfold foldPhase
  rw [if_neg (by omega)]

theorem semicolon_folded {σ : Type} (call : Option (Callback σ)) (mF : Machine σ)
    (hrest : mF.rest = []) (hs : band mF.state CAN_STATEMENT ≠ 0)
    (hf : mF.foldStackArg = FOLDED) (hsa : mF.scanningArgs = 0) :
    ∃ M3, dispatch call mF.thenSemicolon = .ok M3 ∧
      step call M3 = .error (.ret mF.lastValue none mF.host) := by
  have hr : mF.thenSemicolon.rest = [';'] := by
    show mF.rest ++ [';'] = [';']
    rw [hrest]; rfl
  rw [dispatch_semicolon call _ [] hr hs]
  unfold statementEnd
  have e1 : mF.thenSemicolon.foldStackArg = FOLDED := hf
  have e2 : mF.thenSemicolon.scanningArgs = 0 := hsa
  simp only [e1, e2, ne_eq, not_true_eq_false, if_false, if_true]
  refine ⟨_, rfl, ?_⟩
  rw [step_idle_dispatch _ _ (by show (IDLE : Int) < 0; decide)]
  rw [dispatch_nil _ _ (by show List.drop 1 mF.thenSemicolon.rest = []; rw [hr]; rfl)]
  rfl

theorem end_request_semi {σ : Type} (call : Option (Callback σ)) (m mF : Machine σ)
    (hrest : m.rest = []) (hF : foldPhase call m = .ok mF)
    (hs : band mF.state CAN_STATEMENT ≠ 0) (hf : mF.foldStackArg ≠ FOLDED) :
    step call m.thenSemicolon =
      .ok ({ mF with foldStackArg := 0 } : Machine σ).thenSemicolon := by
  have hF2 : foldPhase call m.thenSemicolon = .ok mF.thenSemicolon := by
    rw [foldPhase_semi, hF]; rfl
  rw [step_of_foldPhase call _ _ hF2]
  have hr : mF.thenSemicolon.rest = [';'] := by
    show mF.rest ++ [';'] = [';']
    rw [(foldPhase_keeps call m mF hF).1, hrest]; rfl
  rw [dispatch_semicolon call _ [] hr hs]
  unfold statementEnd
  have e1 : mF.thenSemicolon.foldStackArg ≠ FOLDED := hf
  rw [if_pos e1]
  rfl

theorem end_folded_semi {σ : Type} (call : Option (Callback σ)) (m mF : Machine σ)
    (hrest : m.rest = []) (hF : foldPhase call m = .ok mF)
    (hs : band mF.state CAN_STATEMENT ≠ 0) (hf : mF.foldStackArg = FOLDED)
    (hsa : mF.scanningArgs = 0) :
    ∃ M3, step call m.thenSemicolon = .ok M3 ∧
      step call M3 = .error (.ret mF.lastValue none mF.host) := by
  have hF2 : foldPhase call m.thenSemicolon = .ok mF.thenSemicolon := by
    rw [foldPhase_semi, hF]; rfl
  rw [step_of_foldPhase call _ _ hF2]
  exact semicolon_folded call mF (by rw [(foldPhase_keeps call m mF hF).1, hrest]) hs hf hsa

theorem run_of_two {σ : Type} (call : Option (Callback σ)) (m M3 : Machine σ) (o : Outcome σ)
    (n : Nat) (h1 : step call m = .ok M3) (h2 : step call M3 = .error o) :
    run call (n + 2) m = o := by
  rw [run_succ, h1]
  dsimp only
  rw [run_succ, h2]

theorem end_start_semi {σ : Type} (call : Option (Callback σ)) (m : Machine σ)
    (hrest : m.rest = []) (hst : m.state = START) (hf : m.foldStackArg = IDLE)
    (hsa : m.scanningArgs = 0) (hb : inBounds m.opStackPtr = true)
    (htop : band (m.opStack m.opStackPtr) OP = 0) (n : Nat) :
    run call (n + 3) m.thenSemicolon = .ret m.lastValue none m.host := by
  have hs : band m.state CAN_STATEMENT ≠ 0 := by rw [hst]; decide
  have h1 := end_request_semi call m m hrest
    (by unfold foldPhase; rw [if_neg (by rw [hf]; decide)]) hs (by rw [hf]; decide)
  rw [run_succ, h1]
  dsimp only
  have hF : foldPhase call ({ m with foldStackArg := 0 } : Machine σ) =
      .ok { m with foldStackArg := FOLDED } := by
    unfold foldPhase
    simp only [le_refl, if_true]
    have hp : promote call ({ m with foldStackArg := 0 } : Machine σ) =
        .ok { m with foldStackArg := 0 } := by
      unfold promote
      rw [if_neg (by show ¬ m.state = IDENT; rw [hst]; decide)]
    rw [hp]
    dsimp only
    have hk : (m.opStackPtr + 1).toNat = (m.opStackPtr + 1).toNat - 1 + 1 := by
      unfold inBounds at hb
      simp only [Bool.and_eq_true, decide_eq_true_eq] at hb
      omega
    rw [hk]
    unfold foldLoop foldIter
    dsimp only
    rw [if_neg (by rw [hb]; decide), if_pos htop]
  obtain ⟨M3, h2, h3⟩ := end_folded_semi call ({ m with foldStackArg := 0 } : Machine σ)
    { m with foldStackArg := FOLDED } hrest hF hs rfl hsa
  exact run_of_two call _ M3 _ n h2 h3

theorem admits_spec {σ : Type} (m : Machine σ) (h : admitsStatementEnd m = true) :
    m.scanningArgs = 0 ∧ band m.state CAN_STATEMENT ≠ 0 ∧
      (m.state = START → m.foldStackArg = IDLE ∧ inBounds m.opStackPtr = true ∧
        band (m.opStack m.opStackPtr) OP = 0) := by
  unfold admitsStatementEnd at h
  simp only [Bool.and_eq_true, Bool.or_eq_true, decide_eq_true_eq] at h
  obtain ⟨⟨h1, h2⟩, h3⟩ := h
  refine ⟨h1, h2, fun hs => ?_⟩
  rcases h3 with h3 | ⟨⟨h4, h5⟩, h6⟩
  · exact absurd hs h3
  · exact ⟨h4, h5, h6⟩

theorem endOfExpr_folded {σ : Type} (m : Machine σ) (hs : m.state ≠ START)
    (hf : m.foldStackArg = FOLDED) :
    ∃ X, endOfExpr m = .error X ∧
      ∀ v h1, X = .ret v none h1 → v = m.lastValue ∧ h1 = m.host := by
  unfold endOfExpr
  rw [if_neg hs, if_neg (by rw [hf]; decide)]
  split_ifs
  all_goals exact ⟨_, rfl, fun v h1 hx => by
    first | (cases hx; done) | (cases hx; exact ⟨rfl, rfl⟩)⟩

theorem state_admits {σ : Type} (m mF : Machine σ)
    (hk : mF.state = m.state ∨ (m.state = IDENT ∧ mF.state = NUM))
    (h : band m.state CAN_STATEMENT ≠ 0) : band mF.state CAN_STATEMENT ≠ 0 := by
  rcases hk with hk | ⟨_, hk⟩
  · rw [hk]; exact h
  · rw [hk]; decide

theorem state_not_start {σ : Type} (m mF : Machine σ)
    (hk : mF.state = m.state ∨ (m.state = IDENT ∧ mF.state = NUM))
    (h : m.state ≠ START) : mF.state ≠ START := by
  rcases hk with hk | ⟨_, hk⟩
  · rw [hk]; exact h
  · rw [hk]; decide

theorem finalMachine_error {σ : Type} (call : Option (Callback σ)) (n : Nat) (m : Machine σ)
    (o : Outcome σ) (h : step call m = .error o) : finalMachine call (n + 1) m = some m := by
  unfold finalMachine
  rw [h]

theorem finalMachine_ok {σ : Type} (call : Option (Callback σ)) (n : Nat) (m m1 : Machine σ)
    (h : step call m = .ok m1) : finalMachine call (n + 1) m = finalMachine call n m1 := by
  conv => lhs; unfold finalMachine
  rw [h]

theorem run_error {σ : Type} (call : Option (Callback σ)) (n : Nat) (m : Machine σ)
    (o : Outcome σ) (h : step call m = .error o) : run call (n + 1) m = o := by
  rw [run_succ, h]

theorem run_ok {σ : Type} (call : Option (Callback σ)) (n : Nat) (m m1 : Machine σ)
    (h : step call m = .ok m1) : run call (n + 1) m = run call n m1 := by
  rw [run_succ, h]

theorem run_end_semi {σ : Type} (call : Option (Callback σ)) (n : Nat) (m : Machine σ)
    (v : Int) (h1 : σ) (hrest : m.rest = [])
    (hrun : run call (n + 1) m = .ret v none h1)
    (hfin : ∃ mf, finalMachine call (n + 1) m = some mf ∧ admitsStatementEnd mf = true) :
    run call (n + 3) m.thenSemicolon = .ret v none h1 := by
  cases hF : foldPhase call m with
  | error o =>
    have hs : step call m = .error o := by unfold step; rw [hF]
    have hs2 : step call m.thenSemicolon = .error o := by
      unfold step; rw [foldPhase_semi, hF]; rfl
    rw [run_error call n m o hs] at hrun
    rw [run_error call (n + 2) _ o hs2]
    exact hrun
  | ok mF =>
    obtain ⟨k1, k2, k3, k4, k5⟩ := foldPhase_keeps call m mF hF
    have hs : step call m = endOfExpr mF := by
      rw [step_of_foldPhase call m mF hF, dispatch_nil call mF (by rw [k1, hrest])]
    by_cases hst : mF.state = START
    · have he : endOfExpr mF = .error (.ret mF.lastValue none mF.host) := by
        unfold endOfExpr; rw [if_pos hst]
      rw [he] at hs
      rw [run_error call n m _ hs] at hrun
      obtain ⟨mf, hmf, hadm⟩ := hfin
      rw [finalMachine_error call n m _ hs] at hmf
      cases hmf
      obtain ⟨a1, a2, a3⟩ := admits_spec m hadm
      have hms : m.state = START := by
        rcases k3 with k3 | ⟨_, k3⟩
        · rw [← k3]; exact hst
        · rw [k3] at hst; exact absurd hst (by decide)
      obtain ⟨b1, b2, b3⟩ := a3 hms
      have hmm : mF = m := k4 (by rw [b1]; decide)
      rw [hmm] at hrun
      rw [end_start_semi call m hrest hms b1 a1 b2 b3 n]
      exact hrun
    · by_cases hfd : mF.foldStackArg = FOLDED
      · obtain ⟨X, hX, hXv⟩ := endOfExpr_folded mF hst hfd
        rw [hX] at hs
        rw [run_error call n m _ hs] at hrun
        obtain ⟨mf, hmf, hadm⟩ := hfin
        rw [finalMachine_error call n m _ hs] at hmf
        cases hmf
        obtain ⟨a1, a2, _⟩ := admits_spec m hadm
        obtain ⟨e1, e2⟩ := hXv v h1 hrun
        obtain ⟨M3, s1, s2⟩ := end_folded_semi call m mF hrest hF (state_admits m mF k3 a2) hfd
          (by rw [k2]; exact a1)
        rw [run_of_two call _ M3 _ (n + 1) s1 s2, e1, e2]
      · have he : endOfExpr mF = .ok { mF with foldStackArg := 0 } := by
          unfold endOfExpr; rw [if_neg hst, if_pos hfd]
        rw [he] at hs
        rw [run_ok call n m _ hs] at hrun
        obtain ⟨mf, hmf, hadm⟩ := hfin
        rw [finalMachine_ok call n m _ hs] at hmf
        cases n with
        | zero => cases hrun
        | succ k =>
          have hr1 : ({ mF with foldStackArg := 0 } : Machine σ).rest = [] := by
            show mF.rest = []; rw [k1, hrest]
          cases hG : foldPhase call ({ mF with foldStackArg := 0 } : Machine σ) with
          | error o =>
            have hs1 : step call ({ mF with foldStackArg := 0 } : Machine σ) = .error o := by
              unfold step; rw [hG]
            rw [finalMachine_error call k _ _ hs1] at hmf
            cases hmf
            obtain ⟨a1, a2, _⟩ := admits_spec _ hadm
            rw [run_error call k _ o hs1] at hrun
            have t1 := end_request_semi call m mF hrest hF a2 hfd
            have t2 : step call ({ mF with foldStackArg := 0 } : Machine σ).thenSemicolon =
                .error o := by
              unfold step; rw [foldPhase_semi, hG]; rfl
            rw [run_ok call (k + 3) _ _ t1, run_error call (k + 2) _ o t2]
            exact hrun
          | ok mG =>
            obtain ⟨g1, g2, g3, g4, g5⟩ := foldPhase_keeps call _ mG hG
            have hgf : mG.foldStackArg = FOLDED := g5 (le_refl _)
            have hgs : mG.state ≠ START := state_not_start _ mG g3 hst
            obtain ⟨X, hX, hXv⟩ := endOfExpr_folded mG hgs hgf
            have hs1 : step call ({ mF with foldStackArg := 0 } : Machine σ) = .error X := by
              rw [step_of_foldPhase call _ mG hG, dispatch_nil call mG (by rw [g1]; exact hr1),
                hX]
            rw [finalMachine_error call k _ _ hs1] at hmf
            cases hmf
            obtain ⟨a1, a2, _⟩ := admits_spec _ hadm
            rw [run_error call k _ X hs1] at hrun
            obtain ⟨e1, e2⟩ := hXv v h1 hrun
            have t1 := end_request_semi call m mF hrest hF a2 hfd
            obtain ⟨M3, s1, s2⟩ := end_folded_semi call _ mG hr1 hG (state_admits _ mG g3 a2)
              hgf (by rw [g2]; exact a1)
            rw [run_ok call (k + 3) _ _ t1, run_of_two call _ M3 _ (k + 1) s1 s2, e1, e2]

theorem run_semi {σ : Type} (call : Option (Callback σ)) :
    ∀ (n : Nat) (m : Machine σ) (v : Int) (h1 : σ), run call n m = .ret v none h1 →
      (∃ mf, finalMachine call n m = some mf ∧ admitsStatementEnd mf = true) →
      run call (n + 2) m.thenSemicolon = .ret v none h1 := by
  intro n
  induction n with
  | zero => intro m v h1 hrun; cases hrun
  | succ n ih =>
    intro m v h1 hrun hfin
    by_cases hrest : m.rest = []
    · exact run_end_semi call n m v h1 hrest hrun hfin
    · have hsemi := step_semi call m hrest
      cases hs : step call m with
      | error o =>
        rw [hs] at hsemi
        rw [run_error call n m o hs] at hrun
        rw [run_error call (n + 2) _ o hsemi]
        exact hrun
      | ok m1 =>
        rw [hs] at hsemi
        rw [run_ok call n m m1 hs] at hrun
        rw [finalMachine_ok call n m m1 hs] at hfin
        rw [run_ok call (n + 2) _ _ hsemi]
        exact ih m1 v h1 hrun hfin

theorem evaluate_semi {σ : Type} (expr : List Char) (call : Option (Callback σ)) (host : σ)
    (v : Int) (h1 : σ) (hs : evaluateExprInt expr call host = .ret v none h1)
    (hc : endsCleanly expr call host = true) :
    evaluateExprInt (expr ++ [';']) call host = .ret v none h1 := by
  unfold evaluateExprInt at hs ⊢
  unfold endsCleanly at hc
  have hfin : ∃ mf, finalMachine call (2 * expr.length + 3) (initial expr host) = some mf ∧
      admitsStatementEnd mf = true := by
    cases hf : finalMachine call (2 * expr.length + 3) (initial expr host) with
    | none => rw [hf] at hc; cases hc
    | some mf => rw [hf] at hc; exact ⟨mf, rfl, hc⟩
  have := run_semi call _ _ v h1 hs hfin
  have hl : 2 * (expr ++ [';']).length + 3 = 2 * expr.length + 3 + 2 := by
    simp only [List.length_append, List.length_singleton]; ring
  rw [hl]
  exact this

/-- C14 (amended): the empty input returns 0, and a `;` after a source keeps its result: for
every source, callback and host state, if the source evaluates successfully to `v` and the
iteration that returns is outside an argument list, in a state that admits `;`, and (when
that state is `START`) with no operator entry on top of the operator stack, then the source
followed by `;` returns the same `v`, the last stored value, with a null diagnostic and the
same final host state. -/
theorem C14_empty_statement_returns_last_value {σ : Type} (expr : List Char)
    (call : Option (Callback σ)) (host : σ) (v : Int) (h1 : σ)
    (hs : evaluateExprInt expr call host = .ret v none h1)
    (hc : endsCleanly expr call host = true) :
    evaluateExprInt ([] : List Char) call host = .ret 0 none host ∧
      evaluateExprInt (expr ++ [';']) call host = .ret v none h1 :=
  ⟨rfl, evaluate_semi expr call host v h1 hs hc⟩

/-- Witness of C14 (amended): `f(1,2);` with the recording callback returns the result 7 of
the call. -/
theorem C14_empty_statement_returns_last_value_witness :
    evaluateExprInt ([] : List Char) (some (recorder 7)) [] = .ret 0 none [] ∧
      evaluateExprInt ("f(1,2)".toList ++ [';']) (some (recorder 7)) [] =
        .ret 7 none [⟨0, 1, [1, 2], 2⟩] :=
  C14_empty_statement_returns_last_value "f(1,2)".toList (some (recorder 7)) []
    7 [⟨0, 1, [1, 2], 2⟩] (by decide!) (by decide!)

/-- The sources `5`, `5;`, `1 + 2`, `x` and `a = 3` end in an iteration that admits a
statement end. -/
theorem endsCleanly_examples :
    endsCleanly (σ := Unit) "5".toList none () = true ∧
      endsCleanly (σ := Unit) "5;".toList none () = true ∧
      endsCleanly (σ := Unit) "1 + 2".toList none () = true ∧
      endsCleanly "x".toList (some (recorder 7)) [] = true ∧
      endsCleanly "a = 3".toList (some (recorder 7)) [] = true := by
  decide!

theorem advances_refl {σ : Type} (call : Option (Callback σ)) (m : Machine σ) :
    Advances call 0 m m := by
  intro k; rw [Nat.zero_add]

theorem advances_trans {σ : Type} (call : Option (Callback σ)) (n1 n2 : Nat)
    (m m1 m2 : Machine σ) (h1 : Advances call n1 m m1) (h2 : Advances call n2 m1 m2) :
    Advances call (n1 + n2) m m2 := by
  intro k
  rw [Nat.add_assoc, h1 (n2 + k), h2 k]

theorem advances_step {σ : Type} (call : Option (Callback σ)) (m m1 : Machine σ)
    (h : step call m = .ok m1) : Advances call 1 m m1 := by
  intro k
  rw [Nat.add_comm, run_step call k m m1 h]

theorem osize_pos (e : Pend) : 1 ≤ e.osize := by cases e <;> simp [Pend.osize]

theorem vsize_nonneg (e : Pend) : 0 ≤ e.vsize := by cases e <;> simp [Pend.vsize]

theorem skip_nonneg (e : Pend) : 0 ≤ e.skip := by
  cases e with
  | bin op a => simp only [Pend.skip]; split_ifs <;> decide
  | un c => simp [Pend.skip]
  | asg => simp [Pend.skip]

theorem osum_nonneg : ∀ x : List Pend, 0 ≤ osum x
  | [] => le_refl _
  | e :: x => by
    have := osum_nonneg x
    have := osize_pos e
    unfold osum; omega

theorem vsum_nonneg : ∀ x : List Pend, 0 ≤ vsum x
  | [] => le_refl _
  | e :: x => by
    have := vsum_nonneg x
    have := vsize_nonneg e
    unfold vsum; omega

theorem csum_nonneg : ∀ x : List Pend, 0 ≤ csum x
  | [] => le_refl _
  | e :: x => by
    have := csum_nonneg x
    have := skip_nonneg e
    unfold csum; omega

theorem binCode_facts (op : Int) (h : op ∈ binCodes) :
    band (bor op BINOP) OP ≠ 0 ∧ band (bor op BINOP) BINOP ≠ 0 ∧ toChar (bor op BINOP) = op ∧
      op ≠ 61 ∧ band (bor op BINOP) CAN_LITERAL ≠ 0 ∧ ¬ prio op < 0 ∧
      bor op BINOP ≠ IDENT ∧ bor op BINOP ≠ START := by
  simp only [binCodes, List.mem_cons, List.mem_singleton, List.not_mem_nil, or_false] at h
  rcases h with h | h | h | h | h | h | h | h | h | h | h | h | h | h | h | h | h | h | h <;>
    subst h <;> decide

theorem unCode_facts (c : Int) (h : c ∈ unCodes) :
    band (bor c UNOP) OP ≠ 0 ∧ band (bor c UNOP) BINOP = 0 ∧ toChar (bor c UNOP) = c ∧
      c ≠ 61 ∧ c ≠ 79 ∧ c ≠ 65 ∧ band (bor c UNOP) CAN_LITERAL ≠ 0 ∧ ¬ prio c < 0 ∧
      bor c UNOP ≠ IDENT ∧ bor c UNOP ≠ START ∧ c ≠ 80 := by
  simp only [unCodes, List.mem_cons, List.mem_singleton, List.not_mem_nil, or_false] at h
  rcases h with h | h | h | h <;> subst h <;> decide

theorem asg_facts :
    band 573 OP ≠ 0 ∧ band 573 BINOP = 0 ∧ toChar 573 = 61 ∧ band 573 CAN_LITERAL ≠ 0 ∧
      ¬ prio 61 < 0 := by
  decide

theorem pend_code_facts (e : Pend) (h : e.ok) :
    band e.code OP ≠ 0 ∧ toChar e.code = e.opChar ∧ band e.code CAN_LITERAL ≠ 0 ∧
      ¬ prio e.opChar < 0 ∧ e.code ≠ IDENT ∧ e.code ≠ START := by
  cases e with
  | bin op a =>
    obtain ⟨h1, h2, h3, h4, h5, h6, h7, h8⟩ := binCode_facts op h
    exact ⟨h1, h3, h5, h6, h7, h8⟩
  | un c =>
    obtain ⟨h1, h2, h3, h4, h5, h6, h7, h8, h9, h10, _⟩ := unCode_facts c h
    exact ⟨h1, h3, h7, h8, h9, h10⟩
  | asg => decide

theorem skip_or (a : Int) : (Pend.bin 79 a).skip = if a ≠ 0 then 1 else 0 := by
  simp only [Pend.skip, show ((79 : Int) = 65) = False from by decide, false_and, false_or,
    true_and]

theorem skip_and (a : Int) : (Pend.bin 65 a).skip = if a = 0 then 1 else 0 := by
  simp only [Pend.skip, show ((65 : Int) = 79) = False from by decide, false_and, or_false,
    true_and]

theorem skip_other (op a : Int) (h1 : op ≠ 65) (h2 : op ≠ 79) : (Pend.bin op a).skip = 0 := by
  simp only [Pend.skip, h1, h2, false_and, or_self, if_false]

theorem foldLogical_or {σ : Type} (m : Machine σ) (a b : Int)
    (h : 1 ≤ m.skipCounter - (Pend.bin 79 a).skip) :
    foldLogical m true a b = .ok { m with
      lastValue := b2i (a ≠ 0 || b ≠ 0), skipCounter := m.skipCounter - (Pend.bin 79 a).skip } := by
  rw [skip_or] at h ⊢
  unfold foldLogical
  by_cases ha : a = 0
  · subst ha
    simp only [ne_eq, not_true_eq_false, if_false, sub_zero, decide_False, if_true,
      Bool.false_eq_true] at h ⊢
    rw [if_neg (by omega)]
  · simp only [ha, ne_eq, not_false_eq_true, if_true, decide_True] at h ⊢
    rw [if_neg (by omega)]

theorem foldLogical_and {σ : Type} (m : Machine σ) (a b : Int)
    (h : 1 ≤ m.skipCounter - (Pend.bin 65 a).skip) :
    foldLogical m false a b = .ok { m with
      lastValue := b2i (a ≠ 0 && b ≠ 0), skipCounter := m.skipCounter - (Pend.bin 65 a).skip } := by
  rw [skip_and] at h ⊢
  unfold foldLogical
  by_cases ha : a = 0
  · subst ha
    simp only [if_true, decide_True, Bool.false_eq_true, if_false] at h ⊢
    rw [if_neg (by omega)]
  · simp only [ha, if_false, decide_False, sub_zero, Bool.false_eq_true] at h ⊢
    rw [if_neg (by omega)]

/-- The fold of one waiting operator while `skipCounter` is not zero. -/
theorem foldBody_pending {σ : Type} (cb : Callback σ) (m : Machine σ) (e : Pend) (hok : e.ok)
    (hv : e.vsize = 1 → inBounds m.valueStackPtr = true)
    (ha : ∀ op a, e = .bin op a → m.valueStack m.valueStackPtr = a)
    (hsc : 1 ≤ m.skipCounter - e.skip) :
    ∃ lv, foldBody (some cb) m e.code e.opChar =
      .ok { m with
        opStackPtr := m.opStackPtr + 1 - e.osize, valueStackPtr := m.valueStackPtr - e.vsize,
        lastValue := lv, skipCounter := m.skipCounter - e.skip } := by
  have hs0 := skip_nonneg e
  have hsc0 : m.skipCounter ≠ 0 := by omega
  cases e with
  | bin op a =>
    obtain ⟨h1, h2, h3, h4, h5, h6, h7, h8⟩ := binCode_facts op hok
    have hvb := hv rfl
    have hav := ha op a rfl
    have e0 : ¬ (op = ch '=') := h4
    unfold foldBody
    simp only [Pend.code, Pend.opChar, Pend.osize, Pend.vsize, h2, hvb, hsc0, e0,
      ne_eq, not_false_eq_true, not_true_eq_false, and_false, if_false, if_true, hav,
      add_sub_cancel_right]
    by_cases hO : op = 79
    · subst hO
      rw [if_pos (by decide)]
      exact ⟨_, foldLogical_or _ a _ hsc⟩
    · by_cases hA : op = 65
      · subst hA
        rw [if_neg (by decide), if_pos (by decide)]
        exact ⟨_, foldLogical_and _ a _ hsc⟩
      · rw [if_neg (show ¬ op = ch 'O' from hO), if_neg (show ¬ op = ch 'A' from hA),
          skip_other op a hA hO]
        exact ⟨0, by simp only [sub_zero]⟩
  | un c =>
    obtain ⟨h1, h2, h3, h4, h5, h6, h7, h8, h9, h10, _⟩ := unCode_facts c hok
    unfold foldBody
    have e0 : ¬ (c = ch '=') := h4
    have e1 : ¬ (c = ch 'O') := h5
    have e2 : ¬ (c = ch 'A') := h6
    simp only [Pend.code, Pend.opChar, Pend.osize, Pend.vsize, Pend.skip, h2, hsc0, e0, e1, e2,
      ne_eq, not_false_eq_true, not_true_eq_false, false_and, if_false, if_true,
      add_sub_cancel_right, sub_zero]
    exact ⟨_, rfl⟩
  | asg =>
    unfold foldBody
    simp only [Pend.code, Pend.opChar, Pend.osize, Pend.vsize, Pend.skip, asg_facts.2.1, hsc0,
      show ((61 : Int) = ch '=') = True from by decide,
      ne_eq, not_false_eq_true, not_true_eq_false, false_and, if_false, if_true, sub_zero]
    refine ⟨0, ?_⟩
    have : m.opStackPtr - 2 = m.opStackPtr + 1 - 3 := by omega
    rw [this]

theorem osum_ge_length : ∀ x : List Pend, (x.length : Int) ≤ osum x
  | [] => le_refl _
  | e :: x => by
    have := osum_ge_length x
    have := osize_pos e
    simp only [List.length_cons, Nat.cast_add, Nat.cast_one, osum]
    omega

theorem inBounds_of {p : Int} (h0 : 0 ≤ p) (h1 : p ≤ 63) : inBounds p = true := by
  unfold inBounds
  simp only [Bool.and_eq_true, decide_eq_true_eq]
  omega

/-- The fold loop over the waiting operators while `skipCounter` stays positive: the
operators above the first one that stops the fold are removed. -/
theorem foldLoop_pending {σ : Type} (cb : Callback σ) (foc fp : Int) :
    ∀ (x : List Pend) (m : Machine σ) (b k sc0 : Int) (n : Nat),
      (∀ e ∈ x, e.ok) → LaidOps m.opStack b x → LaidVals m.valueStack k x →
      m.opStackPtr = b + osum x → m.valueStackPtr = k + vsum x →
      m.skipCounter = sc0 + csum x → 1 ≤ sc0 → band (m.opStack b) OP = 0 →
      0 ≤ b → b + osum x ≤ 63 → 0 ≤ k → k + vsum x ≤ 63 → x.length < n →
      ∃ m1, foldLoop (some cb) foc fp n m = .ok m1 ∧
        m1.opStackPtr = b + osum (foldTo foc fp x) ∧
        m1.valueStackPtr = k + vsum (foldTo foc fp x) ∧
        m1.skipCounter = sc0 + csum (foldTo foc fp x) ∧ SameFrame m m1 := by
  intro x
  induction x with
  | nil =>
    intro m b k sc0 n _ _ _ hp hk hs _ hbase hb0 hb1 _ _ hn
    obtain ⟨n1, rfl⟩ : ∃ n1, n = n1 + 1 := ⟨n - 1, by simp only [List.length_nil] at hn; omega⟩
    simp only [osum, add_zero] at hp hb1
    refine ⟨m, ?_, ?_, ?_, ?_, ?_⟩
    · exact foldLoop_stop (some cb) foc fp n1 m (m.opStack b) (by rw [hp]; exact inBounds_of hb0 hb1)
        (by rw [hp]) hbase
    · simpa only [foldTo, osum, add_zero] using hp
    · simpa only [foldTo] using hk
    · simpa only [foldTo] using hs
    · exact ⟨rfl, rfl, rfl, rfl, rfl, rfl, rfl, rfl, rfl, rfl, rfl⟩
  | cons e x ih =>
    intro m b k sc0 n hok hlo hlv hp hk hs hsc0 hbase hb0 hb1 hk0 hk1 hn
    obtain ⟨n1, rfl⟩ : ∃ n1, n = n1 + 1 := ⟨n - 1, by simp only [List.length_cons] at hn; omega⟩
    have heok := hok e (List.mem_cons_self _ _)
    obtain ⟨c1, c2, c3, c4, c5, c6⟩ := pend_code_facts e heok
    have hx0 := osum_nonneg x
    have hv0 := vsum_nonneg x
    have hc0 := csum_nonneg x
    have hos := osize_pos e
    have hvs := vsize_nonneg e
    have hoe : osum (e :: x) = e.osize + osum x := rfl
    have hve : vsum (e :: x) = e.vsize + vsum x := rfl
    have hce : csum (e :: x) = e.skip + csum x := rfl
    have hinb : inBounds m.opStackPtr = true := by
      rw [hp]; exact inBounds_of (by omega) hb1
    have hcode : m.opStack m.opStackPtr = e.code := by rw [hp]; exact hlo.1
    by_cases hstop : (e.opChar = 80 ∧ foc = 80) ∨ prio e.opChar < fp
    · have hft : foldTo foc fp (e :: x) = e :: x := by
        simp only [foldTo, hstop, if_true]
      rw [hft]
      refine ⟨m, ?_, hp, hk, hs, ⟨rfl, rfl, rfl, rfl, rfl, rfl, rfl, rfl, rfl, rfl, rfl⟩⟩
      rcases hstop with hP | hpr
      · exact foldLoop_stop_pow (some cb) foc fp n1 m e.code hinb hcode
          (by rw [c2]; exact hP)
      · exact foldLoop_stop_prio (some cb) foc fp n1 m e.code hinb hcode
          (by rw [c2]; exact hpr)
    · have hft : foldTo foc fp (e :: x) = foldTo foc fp x := by
        simp only [foldTo, hstop, if_false]
      rw [hft]
      have hP : ¬ (e.opChar = ch 'P' ∧ foc = ch 'P') := fun h => hstop (Or.inl h)
      have hpr : ¬ (prio e.opChar < fp) := fun h => hstop (Or.inr h)
      rw [foldLoop_next (some cb) foc fp n1 m e.code e.opChar hinb hcode c1 c2 hP hpr]
      obtain ⟨lv, hfb⟩ := foldBody_pending cb m e heok
        (fun hv1 => by rw [hk]; exact inBounds_of (by omega) hk1)
        (fun op a he => by
          subst he
          rw [hk]; exact hlv.1)
        (by rw [hs]; omega)
      rw [hfb]
      dsimp only
      obtain ⟨m1, g1, g2, g3, g4, g5⟩ := ih
        ({ m with
          opStackPtr := m.opStackPtr + 1 - e.osize - 1,
          valueStackPtr := m.valueStackPtr - e.vsize,
          lastValue := lv, skipCounter := m.skipCounter - e.skip } : Machine σ) b k sc0 n1
        (fun e1 h1 => hok e1 (List.mem_cons_of_mem _ h1)) hlo.2
        (by cases e <;> first | exact hlv.2 | exact hlv)
        (by show m.opStackPtr + 1 - e.osize - 1 = b + osum x; omega)
        (by show m.valueStackPtr - e.vsize = k + vsum x; omega)
        (by show m.skipCounter - e.skip = sc0 + csum x; omega)
        hsc0 hbase hb0 (by omega) hk0 (by omega)
        (by simp only [List.length_cons] at hn; omega)
      exact ⟨m1, g1, g2, g3, g4, g5⟩

theorem laidOps_congr (os os1 : Int → Int) (b : Int) :
    ∀ x : List Pend, (∀ j, j ≤ b + osum x → os1 j = os j) → LaidOps os b x → LaidOps os1 b x
  | [], _, _ => trivial
  | e :: x, h, hl => by
    have h1 := osize_pos e
    have hoe : osum (e :: x) = e.osize + osum x := rfl
    refine ⟨?_, laidOps_congr os os1 b x (fun j hj => h j (by omega)) hl.2⟩
    rw [h _ (le_refl _)]
    exact hl.1

theorem laidVals_congr (vs vs1 : Int → Int) (k : Int) :
    ∀ x : List Pend, (∀ j, j ≤ k + vsum x → vs1 j = vs j) → LaidVals vs k x → LaidVals vs1 k x
  | [], _, _ => trivial
  | .bin op a :: x, h, hl => by
    have hve : vsum (.bin op a :: x) = 1 + vsum x := rfl
    refine ⟨?_, laidVals_congr vs vs1 k x (fun j hj => h j (by omega)) hl.2⟩
    rw [h _ (le_refl _)]
    exact hl.1
  | .un c :: x, h, hl => by
    have hve : vsum (.un c :: x) = 0 + vsum x := rfl
    exact laidVals_congr vs vs1 k x (fun j hj => h j (by omega)) hl
  | .asg :: x, h, hl => by
    have hve : vsum (.asg :: x) = 0 + vsum x := rfl
    exact laidVals_congr vs vs1 k x (fun j hj => h j (by omega)) hl

/-- The fold block after an operand, while the right operand of `&&` or `||` is skipped. -/
theorem foldPhase_pending {σ : Type} (cb : Callback σ) (m0 m : Machine σ) (x : List Pend)
    (f : Int) (hf0 : 0 ≤ f) (hA : AfterOperand m0 x m) (hsc : 1 ≤ m0.skipCounter)
    (hbase : band m0.state OP = 0) (hq : 0 ≤ m0.opStackPtr + 1) (hp : m.opStackPtr ≤ 63)
    (hk : 0 ≤ m0.valueStackPtr) (hv : m.valueStackPtr ≤ 63) :
    ∃ m1, foldPhase (some cb) { m with foldStackArg := f } = .ok m1 ∧
      m1.state = NUM ∧ m1.foldStackArg = FOLDED ∧
      m1.opStackPtr = m0.opStackPtr + 1 + osum (foldTo (toChar f) (prio (toChar f)) x) ∧
      m1.valueStackPtr = m0.valueStackPtr + vsum (foldTo (toChar f) (prio (toChar f)) x) ∧
      m1.skipCounter = m0.skipCounter + csum (foldTo (toChar f) (prio (toChar f)) x) ∧
      m1.opStack = m.opStack ∧ m1.valueStack = m.valueStack ∧
      m1.scanningArgs = m.scanningArgs ∧ m1.argcOpstackPtr = m.argcOpstackPtr ∧
      m1.rest = m.rest ∧ m1.host = m.host := by
  obtain ⟨a1, a2, a3, a4, a5, a6, a7, a8, a9, a10, a11, a12, a13, a14⟩ := hA
  have hc0 := csum_nonneg x
  have hscm : m.skipCounter ≠ 0 := by omega
  -- promotion
  have hprom : ∃ lv, promote (some cb) ({ m with foldStackArg := f } : Machine σ) =
      .ok { m with foldStackArg := f, lastValue := lv, state := NUM } := by
    unfold promote
    rcases a1 with a1 | a1
    · refine ⟨m.lastValue, ?_⟩
      have : ¬ (({ m with foldStackArg := f } : Machine σ).state = IDENT) := by
        show ¬ m.state = IDENT
        rw [a1]; decide
      rw [if_neg this]
      congr 1
      cases m
      simp only at a1
      subst a1
      rfl
    · refine ⟨0, ?_⟩
      have : ({ m with foldStackArg := f } : Machine σ).state = IDENT := a1
      rw [if_pos this]
      simp only [hscm, ne_eq, not_false_eq_true, if_true]
  obtain ⟨lv, hprom⟩ := hprom
  unfold foldPhase
  rw [if_pos (show 0 ≤ ({ m with foldStackArg := f } : Machine σ).foldStackArg from hf0), hprom]
  dsimp only
  have hlen := osum_ge_length x
  obtain ⟨m1, g1, g2, g3, g4, g5⟩ := foldLoop_pending cb (toChar f) (prio (toChar f)) x
    ({ m with foldStackArg := f, lastValue := lv, state := NUM } : Machine σ)
    (m0.opStackPtr + 1) m0.valueStackPtr m0.skipCounter (m.opStackPtr + 1).toNat
    a14 a4 a7 a2 a6 a9 hsc (by show band (m.opStack (m0.opStackPtr + 1)) OP = 0; rw [a3]; exact hbase)
    hq (by rw [← a2]; exact hp) hk (by rw [← a6]; exact hv)
    (by have := osum_nonneg x; omega)
  rw [g1]
  obtain ⟨s1, s2, s3, s4, s5, s6, s7, s8, s9, s10, s11⟩ := g5
  exact ⟨_, rfl, s3, rfl, g2, g3, g4, s1, s2, s6, s7, s10, s11⟩

theorem osize_pre (c : Pend) : c.osize = c.pre + 1 := by cases c <;> rfl

theorem pre_nonneg (c : Pend) : 0 ≤ c.pre := by cases c <;> simp [Pend.pre]

theorem before_facts {σ : Type} (m0 m : Machine σ) (cur : Option Pend) (x : List Pend)
    (h : BeforeOperand m0 cur x m) (hcl : band m0.state CAN_LITERAL ≠ 0) :
    band m.state CAN_LITERAL ≠ 0 ∧ m0.opStackPtr ≤ m.opStackPtr ∧
      m0.valueStackPtr ≤ m.valueStackPtr ∧ m0.skipCounter ≤ m.skipCounter := by
  obtain ⟨a1, a2, a3, a4, a5, a6, a7, a8, a9, a10, a11, a12⟩ := h
  have h1 := vsum_nonneg (cur.toList ++ x)
  have h2 := csum_nonneg (cur.toList ++ x)
  have h3 := osum_nonneg x
  cases cur with
  | none =>
    obtain ⟨b1, b2, b3⟩ := a1
    refine ⟨by rw [b2]; exact hcl, by omega, by omega, by omega⟩
  | some c =>
    obtain ⟨b1, b2, b3⟩ := a1
    have hok := a12 c (by simp)
    have := pre_nonneg c
    refine ⟨by rw [b1]; exact (pend_code_facts c hok).2.2.1, by omega, by omega, by omega⟩

/-- The start of an operand turns a point where an operand is expected into a point where
the operators read so far are waiting. -/
theorem before_push {σ : Type} (m0 m m1 : Machine σ) (cur : Option Pend) (x : List Pend)
    (h : BeforeOperand m0 cur x m) (hp : PushedState m m1) :
    Settled m0 (cur.toList ++ x) m1 := by
  obtain ⟨a1, a2, a3, a4, a5, a6, a7, a8, a9, a10, a11, a12⟩ := h
  obtain ⟨p1, p2, p3, p4, p5, p6, p7, p8, p9, p10⟩ := hp
  have h3 := osum_nonneg x
  have h4 := vsum_nonneg (cur.toList ++ x)
  cases cur with
  | none =>
    obtain ⟨b1, b2, b3⟩ := a1
    subst b1
    simp only [Option.toList, List.nil_append] at a4 a5 a7 a12 ⊢
    have hv0 : vsum ([] : List Pend) = 0 := rfl
    refine ⟨?_, ?_, trivial, ?_, ?_, trivial, ?_, ?_, ?_, ?_, p9, ?_, a12⟩
    · rw [p1, b3]; simp only [osum, add_zero]
    · rw [← b3, p2, b2]
    · intro j hj; rw [p3 j (by omega), a3 j hj]
    · rw [p4, a4]
    · intro j hj; rw [p5 j (by omega), a6 j hj]
    · rw [p6, a7]
    · rw [p7, a8]
    · rw [p8, a9]
    · rw [p10, a11]
  | some c =>
    obtain ⟨b1, b2, b3⟩ := a1
    have hpre := pre_nonneg c
    have hop := osize_pre c
    have hoe : osum (c :: x) = c.osize + osum x := rfl
    simp only [Option.toList, List.singleton_append] at a4 a5 a7 a12 ⊢
    have hv1 := vsum_nonneg (c :: x)
    refine ⟨?_, ?_, ⟨?_, ?_⟩, ?_, ?_, ?_, ?_, ?_, ?_, ?_, p9, ?_, a12⟩
    · rw [p1, b2]; omega
    · rw [p3 _ (by omega), b3]
    · have : m0.opStackPtr + 1 + osum (c :: x) = m.opStackPtr + 1 := by omega
      rw [this, p2, b1]
    · exact laidOps_congr m.opStack m1.opStack _ x (fun j hj => p3 j (by omega)) a2
    · intro j hj; rw [p3 j (by omega), a3 j hj]
    · rw [p4, a4]
    · exact laidVals_congr m.valueStack m1.valueStack _ _ (fun j hj => p5 j (by omega)) a5
    · intro j hj; rw [p5 j (by omega), a6 j hj]
    · rw [p6, a7]
    · rw [p7, a8]
    · rw [p8, a9]
    · rw [p10, a11]

/-! ### Reading within a budget of iterations -/

theorem reads_done {σ : Type} (cb : Callback σ) (m : Machine σ) (Q : Machine σ → Prop)
    (B : Prop) (h : Q m) : Reads cb 0 m Q B :=
  ⟨0, le_refl _, Or.inl ⟨m, advances_refl _ _, h⟩⟩

theorem reads_step {σ : Type} (cb : Callback σ) (b : Nat) (m m1 : Machine σ)
    (Q : Machine σ → Prop) (B : Prop) (hs : step (some cb) m = .ok m1)
    (h : Reads cb b m1 Q B) : Reads cb (1 + b) m Q B := by
  obtain ⟨n, hn, h⟩ := h
  refine ⟨1 + n, by omega, ?_⟩
  rcases h with ⟨m2, ha, hq⟩ | ⟨ho, hb⟩
  · exact Or.inl ⟨m2, advances_trans _ 1 n _ _ _ (advances_step _ _ _ hs) ha, hq⟩
  · refine Or.inr ⟨fun k => ?_, hb⟩
    rw [Nat.add_assoc, advances_step _ _ _ hs (n + k)]
    exact ho k

theorem reads_fail {σ : Type} (cb : Callback σ) (b : Nat) (m : Machine σ)
    (Q : Machine σ → Prop) (B : Prop) (hs : step (some cb) m = .error .undefinedBehaviour)
    (hb : ¬ B) : Reads cb (1 + b) m Q B :=
  ⟨1, by omega, Or.inr ⟨fun k => by rw [Nat.add_comm, run_done _ k m _ hs], hb⟩⟩

theorem reads_trans {σ : Type} (cb : Callback σ) (b1 b2 : Nat) (m : Machine σ)
    (Q1 Q : Machine σ → Prop) (B1 B : Prop) (h1 : Reads cb b1 m Q1 B1) (hB : B → B1)
    (h2 : ∀ m1, Q1 m1 → Reads cb b2 m1 Q B) : Reads cb (b1 + b2) m Q B := by
  obtain ⟨n1, hn1, h1⟩ := h1
  rcases h1 with ⟨m1, ha, hq⟩ | ⟨ho, hb⟩
  · obtain ⟨n2, hn2, h2⟩ := h2 m1 hq
    refine ⟨n1 + n2, by omega, ?_⟩
    rcases h2 with ⟨m2, ha2, hq2⟩ | ⟨ho2, hb2⟩
    · exact Or.inl ⟨m2, advances_trans _ n1 n2 _ _ _ ha ha2, hq2⟩
    · refine Or.inr ⟨fun k => ?_, hb2⟩
      rw [Nat.add_assoc, ha (n2 + k)]
      exact ho2 k
  · exact ⟨n1, by omega, Or.inr ⟨ho, fun h => hb (hB h)⟩⟩

theorem reads_mono {σ : Type} (cb : Callback σ) (b b1 : Nat) (m : Machine σ)
    (Q : Machine σ → Prop) (B : Prop) (h : Reads cb b m Q B) (hb : b ≤ b1) :
    Reads cb b1 m Q B := by
  obtain ⟨n, hn, h⟩ := h
  exact ⟨n, by omega, h⟩

theorem reads_weaken {σ : Type} (cb : Callback σ) (b : Nat) (m : Machine σ)
    (Q1 Q : Machine σ → Prop) (B1 B : Prop) (h : Reads cb b m Q1 B1)
    (hQ : ∀ m1, Q1 m1 → Q m1) (hB : B → B1) : Reads cb b m Q B := by
  obtain ⟨n, hn, h⟩ := h
  refine ⟨n, hn, ?_⟩
  rcases h with ⟨m1, ha, hq⟩ | ⟨ho, hb⟩
  · exact Or.inl ⟨m1, ha, hQ m1 hq⟩
  · exact Or.inr ⟨ho, fun h => hb (hB h)⟩

/-! ### Blanks between tokens -/

theorem runLength_gap (g r : List Char) (hg : IsGap g) (hr : runLength isBlank r = 0) :
    runLength isBlank (g ++ r) = g.length := by
  induction g with
  | nil => exact hr
  | cons c g ih =>
    have hc : isBlank (ch c) = true := hg c (List.mem_cons_self _ _)
    have := ih (fun x hx => hg x (List.mem_cons_of_mem _ hx))
    rw [List.cons_append, List.length_cons]
    unfold runLength
    rw [if_pos hc, this]

/-- The step that passes a run of blanks. -/
theorem step_gap {σ : Type} (call : Option (Callback σ)) (m : Machine σ) (c : Char)
    (g r : List Char) (hrest : m.rest = c :: g ++ r) (hg : IsGap (c :: g))
    (hr : runLength isBlank r = 0) (hfsa : m.foldStackArg = IDLE) :
    step call m = .ok { m with i := m.i + ((g.length + 1 : Nat) : Int), rest := r } := by
  have hc : isBlank (ch c) = true := hg c (List.mem_cons_self _ _)
  have hin : m.inCh = ch c := by rw [inCh_eq, hrest]; rfl
  have h0 : ¬ (ch c = 0) := by
    intro h; rw [h] at hc; revert hc; decide
  have hlen : runLength isBlank m.rest = g.length + 1 := by
    rw [hrest]
    exact runLength_gap (c :: g) r hg hr
  rw [step_idle call m (by rw [hfsa]; decide)]
  unfold dispatch
  simp only [hin, h0, hc, if_true, if_false, hlen, Machine.advance]
  rw [hrest]
  have : List.drop (g.length + 1) (c :: g ++ r) = r := by
    rw [List.cons_append, List.drop_succ_cons, List.drop_left]
  rw [this]

/-- Blanks before a token cost at most one iteration and change only the cursor. -/
theorem reads_gap {σ : Type} (cb : Callback σ) (b : Nat) (m : Machine σ) (g r : List Char)
    (Q : Machine σ → Prop) (B : Prop) (hg : IsGap g) (hr : runLength isBlank r = 0)
    (hrest : m.rest = g ++ r) (hfsa : m.foldStackArg = IDLE)
    (h : ∀ i, Reads cb b ({ m with i := i, rest := r } : Machine σ) Q B) :
    Reads cb (g.length + b) m Q B := by
  cases g with
  | nil =>
    have hm : ({ m with i := m.i, rest := r } : Machine σ) = m := by
      cases m
      simp only [List.nil_append] at hrest
      subst hrest
      rfl
    have := h m.i
    rw [hm] at this
    exact reads_mono cb _ _ m Q B this (by omega)
  | cons c g =>
    have hs := step_gap (some cb) m c g r hrest hg hr hfsa
    exact reads_mono cb _ _ m Q B (reads_step cb b m _ Q B hs (h _))
      (by simp only [List.length_cons]; omega)

/-- An operand that leaves one more entry on `opStack` is skipped inside every level. -/
theorem skips_of_pushes {σ : Type} (cb : Callback σ) (text : List Char) (ol vl : Nat)
    (hl : 1 ≤ ol) (h : PushesText cb text ol vl) : SkipsText cb text ol vl := by
  intro m0 m cur x r hB hsc hbase hcl hq hk hrest hstop hp hv
  obtain ⟨f1, f2, f3, f4⟩ := before_facts m0 m cur x hB hcl
  refine reads_weaken cb _ m _ _ _ _
    (h m r hB.2.2.2.2.2.2.2.2.2.1 f1 (by omega) hrest hstop (by omega) hp (by omega) hv)
    ?_ (fun hb => hb)
  rintro m1 ⟨⟨hst, hpush⟩, hr, hp1⟩
  refine ⟨cur.toList ++ x, ⟨hst, before_push m0 m m1 cur x hB hpush⟩, hr, hp1, ?_, ?_, ?_⟩
  · rw [hpush.2.2.2.1]; exact hv
  · rw [hpush.1]
    omega
  · rw [hpush.2.2.2.1]; omega

/-- Blanks before a skipped text. -/
theorem skips_lead {σ : Type} (cb : Callback σ) (g text : List Char) (ol vl : Nat)
    (hg : IsGap g) (hh : ∀ r, runLength isBlank (text ++ r) = 0)
    (h : SkipsText cb text ol vl) : SkipsText cb (g ++ text) ol vl := by
  intro m0 m cur x r hB hsc hbase hcl hq hk hrest hstop hp hv
  rw [List.append_assoc] at hrest
  refine reads_mono cb _ _ m _ _
    (reads_gap cb (2 * text.length) m g (text ++ r) _ _ hg (hh r) hrest
      hB.2.2.2.2.2.2.2.2.2.1 (fun i => ?_))
    (by simp only [List.length_append]; omega)
  exact h m0 ({ m with i := i, rest := text ++ r } : Machine σ) cur x r hB hsc hbase hcl hq hk
    rfl hstop hp hv

/-- Blanks before an operand. -/
theorem pushes_lead {σ : Type} (cb : Callback σ) (g text : List Char) (ol vl : Nat)
    (hg : IsGap g) (hh : ∀ r, runLength isBlank (text ++ r) = 0)
    (h : PushesText cb text ol vl) : PushesText cb (g ++ text) ol vl := by
  intro m r hfsa hcl hsc hrest hstop hp0 hp hv0 hv
  rw [List.append_assoc] at hrest
  refine reads_mono cb _ _ m _ _
    (reads_gap cb (2 * text.length) m g (text ++ r) _ _ hg (hh r) hrest hfsa (fun i => ?_))
    (by simp only [List.length_append]; omega)
  exact h ({ m with i := i, rest := text ++ r } : Machine σ) r hfsa hcl hsc rfl hstop hp0 hp
    hv0 hv

theorem inCh_cons {σ : Type} (m : Machine σ) (c : Char) (r : List Char) (h : m.rest = c :: r) :
    m.inCh = ch c := by
  unfold Machine.inCh; rw [h]

/-- The step that reads an identifier where an operand may start. -/
theorem step_ident {σ : Type} (call : Option (Callback σ)) (m : Machine σ) (c : Char)
    (cs r : List Char) (hrest : m.rest = c :: cs ++ r)
    (hc : isalpha (ch c) = true ∨ c = '_') (hcs : ∀ x ∈ cs, isIdentChar (ch x) = true)
    (hr : stops r = true) (hfsa : m.foldStackArg = IDLE) (hcl : band m.state CAN_LITERAL ≠ 0)
    (hb : inBounds (m.opStackPtr + 1) = true) :
    step call m = .ok { m with
      opStack := store m.opStack (m.opStackPtr + 1) m.state, opStackPtr := m.opStackPtr + 1,
      i := m.i + ((1 + cs.length : Nat) : Int), rest := r, lastIdent := m.i,
      lastIdentLen := ((1 + cs.length : Nat) : Int), state := IDENT } := by
  obtain ⟨h1, h2, h3⟩ := ident_head c hc
  have hin := inCh_cons m c (cs ++ r) hrest
  have hlen := runLength_ident cs r hcs hr
  have hdrop : List.drop (1 + cs.length) (c :: (cs ++ r)) = r := by
    rw [Nat.add_comm, List.drop_succ_cons, List.drop_left]
  have hal : (isalpha m.inCh || decide (m.inCh = ch '_')) = true := by
    rw [hin]
    rcases hc with hc | hc
    · rw [hc]; rfl
    · subst hc; decide
  have hlb : literalBranch m = some (do
      let m1 ← m.pushOp m.state
      pure { m1.advance (1 + runLength isIdentChar m.rest.tail) with
        lastIdent := m.i, lastIdentLen := ((1 + runLength isIdentChar m.rest.tail : Nat) : Int),
        state := IDENT }) := by
    unfold literalBranch
    simp only [hal, if_true]
  rw [step_literal call m hfsa (by rw [hin]; exact h2) (by rw [hin]; exact h3) hcl
    (by rw [hlb]; exact Option.some_ne_none _), hlb]
  simp only [Option.getD_some, Machine.pushOp, hb, if_true, bind, Except.bind, pure,
    Except.pure, Machine.advance, hrest, List.cons_append, List.tail_cons, hlen, hdrop]

theorem pushed_store {σ : Type} (m m1 : Machine σ)
    (h1 : m1.opStack = store m.opStack (m.opStackPtr + 1) m.state)
    (h2 : m1.opStackPtr = m.opStackPtr + 1) (h3 : m1.valueStack = m.valueStack)
    (h4 : m1.valueStackPtr = m.valueStackPtr) (h5 : m1.skipCounter = m.skipCounter)
    (h6 : m1.scanningArgs = m.scanningArgs) (h7 : m1.argcOpstackPtr = m.argcOpstackPtr)
    (h8 : m1.foldStackArg = IDLE) (h9 : m1.host = m.host) : PushedState m m1 := by
  refine ⟨h2, ?_, ?_, h4, ?_, h5, h6, h7, h8, h9⟩
  · rw [h1]; simp only [store, if_true]
  · intro j hj
    rw [h1]
    simp only [store]
    rw [if_neg (by omega)]
  · intro j _; rw [h3]

theorem isDecLit_length_pos (ds : List Char) (h : IsDecLit ds) : 1 ≤ ds.length := by
  obtain ⟨hne, _⟩ := h
  cases ds with
  | nil => exact absurd rfl hne
  | cons c cs => simp

theorem inBounds_over {p : Int} (h : 63 < p) : inBounds p = false := by
  unfold inBounds
  simp only [Bool.and_eq_false_iff, decide_eq_false_iff_not]
  omega

/-- A step of the literal block whose first statement stores the state beyond the end of
`opStack`. -/
theorem step_literal_over {σ : Type} (call : Option (Callback σ)) (m : Machine σ)
    (k : Machine σ → Except (Outcome σ) (Machine σ))
    (hfsa : m.foldStackArg = IDLE) (hc : m.inCh ≠ 0) (hb : isBlank m.inCh = false)
    (hs : band m.state CAN_LITERAL ≠ 0)
    (hl : literalBranch m = some (m.pushOp m.state >>= k)) (ho : 63 < m.opStackPtr + 1) :
    step call m = .error .undefinedBehaviour := by
  rw [step_literal call m hfsa hc hb hs (by rw [hl]; exact Option.some_ne_none _), hl]
  simp only [Option.getD_some, Machine.pushOp, inBounds_over ho, bind, Except.bind,
    Bool.false_eq_true, if_false]

theorem literalBranch_ident {σ : Type} (m : Machine σ) (c : Char) (r : List Char)
    (hrest : m.rest = c :: r) (hc : isalpha (ch c) = true ∨ c = '_') :
    literalBranch m = some (m.pushOp m.state >>= fun m1 =>
      pure { m1.advance (1 + runLength isIdentChar m.rest.tail) with
        lastIdent := m.i, lastIdentLen := ((1 + runLength isIdentChar m.rest.tail : Nat) : Int),
        state := IDENT }) := by
  have hin := inCh_cons m c r hrest
  have hal : (isalpha m.inCh || decide (m.inCh = ch '_')) = true := by
    rw [hin]
    rcases hc with hc | hc
    · rw [hc]; rfl
    · subst hc; decide
  unfold literalBranch
  simp only [hal, if_true]

/-- Reads one token where an operand may start: the step stores the state on `opStack`, or
there is no room for it. -/
theorem reads_token {σ : Type} (cb : Callback σ) (m m1 : Machine σ) (len ol vl : Nat)
    (r : List Char) (hlen : 1 ≤ len) (hol : 1 ≤ ol) (hp0 : 0 ≤ m.opStackPtr)
    (hok : inBounds (m.opStackPtr + 1) = true → step (some cb) m = .ok m1)
    (hover : 63 < m.opStackPtr + 1 → step (some cb) m = .error .undefinedBehaviour)
    (hst : m1.state = NUM ∨ m1.state = IDENT) (hP : PushedState m m1) (hr : m1.rest = r) :
    Reads cb (2 * len) m (fun m2 => Pushed m m2 ∧ m2.rest = r ∧ m2.opStackPtr ≤ 63)
      (m.opStackPtr + ol ≤ 63 ∧ m.valueStackPtr + vl ≤ 63) := by
  by_cases hb : m.opStackPtr + 1 ≤ 63
  · refine reads_mono cb (1 + 0) _ m _ _
      (reads_step cb 0 m m1 _ _ (hok (inBounds_of (by omega) hb))
        (reads_done cb m1 _ _ ⟨⟨hst, hP⟩, hr, ?_⟩)) (by omega)
    rw [hP.1]; exact hb
  · exact reads_mono cb (1 + 0) _ m _ _
      (reads_fail cb 0 m _ _ (hover (by omega)) (fun h => by
        have := h.1
        omega)) (by omega)

/-- A decimal literal is an operand. -/
theorem pushes_lit {σ : Type} (cb : Callback σ) (ds : List Char) (hw : (Ast.lit ds).WellFormed) :
    PushesText cb ds 1 0 := by
  intro m r hfsa hcl hsc hrest hstop hp0 hp hv0 hv
  have hlb := literalBranch_dec m ds r hrest hw.1 hw.2 hstop
  have hne : ds ≠ [] := hw.1.1
  obtain ⟨c, cs, rfl⟩ := List.exists_cons_of_ne_nil hne
  have hc2 := (isdigit_ch c).1 (hw.1.2 c (List.mem_cons_self _ _))
  have hin : m.inCh = ch c := inCh_cons m c (cs ++ r) hrest
  refine reads_token cb m _ _ 1 0 r (isDecLit_length_pos _ hw.1) (le_refl _) hp0
    (fun hb => step_dec2 (some cb) m (c :: cs) r m.state m.opStackPtr hrest hw.1 hw.2 hstop hfsa
      rfl hcl rfl hb)
    (fun ho => step_literal_over (some cb) m _ hfsa (by rw [hin]; simp only [ch]; omega)
      (by rw [hin]; simp only [isBlank, ch, Char.reduceToNat, Nat.cast_ofNat,
            Bool.or_eq_false_iff, decide_eq_false_iff_not]; omega) hcl hlb ho)
    (Or.inl rfl) (pushed_store m _ rfl rfl rfl rfl rfl rfl rfl hfsa rfl) rfl

theorem not_hex_of_stops (r : List Char) (hr : stops r = true) :
    runLength isHexChar r = 0 ∧ ∀ acc, scanHex acc r = acc := by
  cases r with
  | nil => exact ⟨rfl, fun _ => rfl⟩
  | cons c cs =>
    obtain ⟨h1, h2, h3, h4⟩ := stops_cons c cs hr
    have h : isHexChar (ch c) = false := by
      simp only [isHexChar, isdigit, ch, Char.reduceToNat, Nat.cast_ofNat, Bool.or_eq_false_iff,
        Bool.and_eq_false_iff, decide_eq_false_iff_not]
      omega
    refine ⟨?_, fun acc => ?_⟩
    · unfold runLength; rw [h]; rfl
    · unfold scanHex; rw [h]; rfl

theorem runLength_hex_append (hs r : List Char)
    (hhs : ∀ c ∈ hs, (48 ≤ c.toNat ∧ c.toNat ≤ 57) ∨ (65 ≤ c.toNat ∧ c.toNat ≤ 70) ∨
      (97 ≤ c.toNat ∧ c.toNat ≤ 102)) (hr : stops r = true) :
    runLength isHexChar (hs ++ r) = hs.length := by
  induction hs with
  | nil => exact (not_hex_of_stops r hr).1
  | cons c cs ih =>
    have hc := (hexChar_facts c (hhs c (by simp))).1
    rw [List.cons_append, List.length_cons]
    unfold runLength
    rw [if_pos hc, ih (fun x hx => hhs x (by simp [hx]))]

theorem scanHex_append_stop (hs r : List Char)
    (hhs : ∀ c ∈ hs, (48 ≤ c.toNat ∧ c.toNat ≤ 57) ∨ (65 ≤ c.toNat ∧ c.toNat ≤ 70) ∨
      (97 ≤ c.toNat ∧ c.toNat ≤ 102)) (hr : stops r = true) (acc : Int) :
    scanHex acc (hs ++ r) = scanHex acc hs := by
  induction hs generalizing acc with
  | nil => exact (not_hex_of_stops r hr).2 acc
  | cons c cs ih =>
    have hc := (hexChar_facts c (hhs c (by simp))).1
    rw [List.cons_append]
    unfold scanHex
    rw [if_pos hc, if_pos hc, ih (fun x hx => hhs x (by simp [hx]))]

theorem literalBranch_hex {σ : Type} (m : Machine σ) (x : Char) (hs r : List Char)
    (hrest : m.rest = '0' :: x :: hs ++ r) (hx : x = 'x' ∨ x = 'X') (hlit : IsHexLit hs)
    (hv : hexValue hs < 2147483648) (hr : stops r = true) :
    literalBranch m = some (m.pushOp m.state >>= fun m1 =>
      pure { m1 with i := m1.i + ((2 + hs.length : Nat) : Int), rest := r,
                     lastValue := hexValue hs, state := NUM }) := by
  obtain ⟨hne, hhs⟩ := hlit
  have hin : m.inCh = ch '0' := inCh_cons m '0' _ hrest
  have hnx : m.nextCh = ch x := by unfold Machine.nextCh; rw [hrest]; rfl
  have hval : scanHex 0 (hs ++ r) = (hexValue hs : Int) := by
    rw [scanHex_append_stop hs r hhs hr]
    have := scanHex_value hs hhs 0 (by simpa using hv)
    simpa using this
  have hlen := runLength_hex_append hs r hhs hr
  have hd : List.drop 2 m.rest = hs ++ r := by rw [hrest]; rfl
  have hd2 : List.drop (2 + hs.length) m.rest = r := by
    rw [hrest, Nat.add_comm, List.cons_append, List.cons_append, List.drop_succ_cons,
      List.drop_succ_cons, List.drop_left]
  have hcond : (decide (m.inCh = ch '0') &&
      (decide (m.nextCh = ch 'x') || decide (m.nextCh = ch 'X'))) = true := by
    rw [hin, hnx]
    rcases hx with rfl | rfl <;> decide
  have hal : (isalpha m.inCh || decide (m.inCh = ch '_')) = false := by
    rw [hin]; decide
  unfold literalBranch
  simp only [hal, hcond, if_true, Bool.false_eq_true, if_false, hd, hlen, hval, Machine.pushOp,
    Machine.advance, hd2]
  congr 1
  by_cases hb : inBounds (m.opStackPtr + 1) = true
  · simp only [hb, if_true, bind, Except.bind, pure, Except.pure, hd2]
  · simp only [hb, if_false, bind, Except.bind, Bool.false_eq_true]

/-- The step that reads a hexadecimal literal where an operand may start. -/
theorem step_hex {σ : Type} (call : Option (Callback σ)) (m : Machine σ) (x : Char)
    (hs r : List Char) (hrest : m.rest = '0' :: x :: hs ++ r) (hx : x = 'x' ∨ x = 'X')
    (hlit : IsHexLit hs) (hv : hexValue hs < 2147483648) (hr : stops r = true)
    (hfsa : m.foldStackArg = IDLE) (hcl : band m.state CAN_LITERAL ≠ 0)
    (hb : inBounds (m.opStackPtr + 1) = true) :
    step call m = .ok { m with
      opStack := store m.opStack (m.opStackPtr + 1) m.state, opStackPtr := m.opStackPtr + 1,
      i := m.i + ((2 + hs.length : Nat) : Int), rest := r, lastValue := hexValue hs,
      state := NUM } := by
  have hin : m.inCh = ch '0' := inCh_cons m '0' _ hrest
  have hlb := literalBranch_hex m x hs r hrest hx hlit hv hr
  rw [step_literal call m hfsa (by rw [hin]; decide) (by rw [hin]; decide) hcl
    (by rw [hlb]; exact Option.some_ne_none _), hlb]
  simp only [Option.getD_some, Machine.pushOp, hb, if_true, bind, Except.bind, pure,
    Except.pure]

/-- A hexadecimal literal is an operand. -/
theorem pushes_hex {σ : Type} (cb : Callback σ) (x : Char) (hs : List Char)
    (hw : (Ast.hex x hs).WellFormed) : PushesText cb ('0' :: x :: hs) 1 0 := by
  intro m r hfsa hcl hsc hrest hstop hp0 hp hv0 hv
  obtain ⟨hx, hlit, hval⟩ := hw
  have hin : m.inCh = ch '0' := inCh_cons m '0' _ hrest
  refine reads_token cb m _ _ 1 0 r (by simp only [List.length_cons]; omega) (le_refl _) hp0
    (fun hb => step_hex (some cb) m x hs r hrest hx hlit hval hstop hfsa hcl hb)
    (fun ho => step_literal_over (some cb) m _ hfsa (by rw [hin]; decide)
      (by rw [hin]; decide) hcl (literalBranch_hex m x hs r hrest hx hlit hval hstop) ho)
    (Or.inl rfl) (pushed_store m _ rfl rfl rfl rfl rfl rfl rfl hfsa rfl) rfl

/-- An identifier is an operand. -/
theorem pushes_ident {σ : Type} (cb : Callback σ) (name : List Char) (hw : IsIdent name) :
    PushesText cb name 1 0 := by
  intro m r hfsa hcl hsc hrest hstop hp0 hp hv0 hv
  obtain ⟨c, cs, rfl, hc, hcs⟩ := hw
  obtain ⟨h1, h2, h3⟩ := ident_head c hc
  have hin : m.inCh = ch c := inCh_cons m c (cs ++ r) hrest
  refine reads_token cb m _ _ 1 0 r (by simp only [List.length_cons]; omega) (le_refl _) hp0
    (fun hb => step_ident (some cb) m c cs r hrest hc hcs hstop hfsa hcl hb)
    (fun ho => step_literal_over (some cb) m _ hfsa (by rw [hin]; exact h2)
      (by rw [hin]; exact h3) hcl (literalBranch_ident m c (cs ++ r) hrest hc) ho)
    (Or.inr rfl) (pushed_store m _ rfl rfl rfl rfl rfl rfl rfl hfsa rfl) rfl

theorem literalBranch_unary {σ : Type} (m : Machine σ) (op : UnTok) (r : List Char)
    (hrest : m.rest = op.char :: r) :
    literalBranch m = some (m.pushOp m.state >>= fun m1 =>
      pure { m1.advance 1 with state := bor op.code UNOP }) := by
  have hin := inCh_cons m op.char r hrest
  unfold literalBranch
  rw [hin]
  cases op <;> rfl

/-- The step that reads a unary operator where an operand may start. -/
theorem step_unary {σ : Type} (call : Option (Callback σ)) (m : Machine σ) (op : UnTok)
    (r : List Char) (hrest : m.rest = op.char :: r)
    (hfsa : m.foldStackArg = IDLE) (hcl : band m.state CAN_LITERAL ≠ 0)
    (hb : inBounds (m.opStackPtr + 1) = true) :
    step call m = .ok { m with
      opStack := store m.opStack (m.opStackPtr + 1) m.state, opStackPtr := m.opStackPtr + 1,
      i := m.i + 1, rest := r, state := bor op.code UNOP } := by
  have hin := inCh_cons m op.char r hrest
  have hlb := literalBranch_unary m op r hrest
  rw [step_literal call m hfsa (by rw [hin]; cases op <;> decide)
    (by rw [hin]; cases op <;> decide) hcl (by rw [hlb]; exact Option.some_ne_none _), hlb]
  simp only [Option.getD_some, Machine.pushOp, hb, if_true, bind, Except.bind, pure,
    Except.pure, Machine.advance, hrest, List.drop_succ_cons, List.drop_zero, Nat.cast_one]

theorem step_unary_over {σ : Type} (call : Option (Callback σ)) (m : Machine σ) (op : UnTok)
    (r : List Char) (hrest : m.rest = op.char :: r)
    (hfsa : m.foldStackArg = IDLE) (hcl : band m.state CAN_LITERAL ≠ 0)
    (ho : 63 < m.opStackPtr + 1) : step call m = .error .undefinedBehaviour := by
  have hin := inCh_cons m op.char r hrest
  exact step_literal_over call m _ hfsa (by rw [hin]; cases op <;> decide)
    (by rw [hin]; cases op <;> decide) hcl (literalBranch_unary m op r hrest) ho

theorem literalBranch_open {σ : Type} (m : Machine σ) (r : List Char)
    (hrest : m.rest = '(' :: r) :
    literalBranch m = some (m.pushOp m.state >>= fun m1 =>
      m1.pushOp m.scanningArgs >>= fun m2 =>
      pure { m2.advance 1 with scanningArgs := 0, state := PAREN }) := by
  have hin := inCh_cons m '(' r hrest
  unfold literalBranch
  rw [hin]
  rfl

/-- The step that reads `(` where an operand may start. -/
theorem step_open {σ : Type} (call : Option (Callback σ)) (m : Machine σ)
    (r : List Char) (hrest : m.rest = '(' :: r)
    (hfsa : m.foldStackArg = IDLE) (hcl : band m.state CAN_LITERAL ≠ 0)
    (hb1 : inBounds (m.opStackPtr + 1) = true) (hb2 : inBounds (m.opStackPtr + 1 + 1) = true) :
    step call m = .ok { m with
      opStack := store (store m.opStack (m.opStackPtr + 1) m.state) (m.opStackPtr + 1 + 1)
        m.scanningArgs,
      opStackPtr := m.opStackPtr + 1 + 1,
      i := m.i + 1, rest := r, scanningArgs := 0, state := PAREN } := by
  have hin := inCh_cons m '(' r hrest
  have hlb := literalBranch_open m r hrest
  rw [step_literal call m hfsa (by rw [hin]; decide)
    (by rw [hin]; decide) hcl (by rw [hlb]; exact Option.some_ne_none _), hlb]
  simp only [Option.getD_some, Machine.pushOp, hb1, hb2, if_true, bind, Except.bind, pure,
    Except.pure, Machine.advance, hrest, List.drop_succ_cons, List.drop_zero, Nat.cast_one]

theorem step_open_over {σ : Type} (call : Option (Callback σ)) (m : Machine σ)
    (r : List Char) (hrest : m.rest = '(' :: r)
    (hfsa : m.foldStackArg = IDLE) (hcl : band m.state CAN_LITERAL ≠ 0)
    (ho : 63 < m.opStackPtr + 1 + 1) : step call m = .error .undefinedBehaviour := by
  have hin := inCh_cons m '(' r hrest
  have hlb := literalBranch_open m r hrest
  rw [step_literal call m hfsa (by rw [hin]; decide)
    (by rw [hin]; decide) hcl (by rw [hlb]; exact Option.some_ne_none _), hlb]
  by_cases hb : inBounds (m.opStackPtr + 1) = true
  · simp only [Option.getD_some, Machine.pushOp, hb, inBounds_over ho, if_true, bind,
      Except.bind, Bool.false_eq_true, if_false]
  · simp only [Option.getD_some, Machine.pushOp, hb, bind, Except.bind, Bool.false_eq_true,
      if_false]

theorem band_IDENT : band IDENT CAN_LITERAL = 0 ∧ band IDENT CAN_STATEMENT ≠ 0 ∧
    band IDENT AFTER_LITERAL ≠ 0 := by decide

/-- After an identifier, at a character that is neither NUL nor blank, the dispatch reduces
to the tests of the `CAN_STATEMENT` and `AFTER_LITERAL` blocks. -/
theorem dispatch_ident {σ : Type} (call : Option (Callback σ)) (m : Machine σ)
    (hst : m.state = IDENT) (hc0 : m.inCh ≠ 0) (hb : isBlank m.inCh = false) :
    dispatch call m =
      if m.inCh = ch ';' then statementEnd m
      else if m.inCh = ch ',' ∧ m.scanningArgs ≠ 0 then argumentSeparator m
      else if m.inCh = ch ')' then closeParen call m
      else if isBinaryStart m.inCh = true then binaryOperator m
      else if m.inCh = ch '(' then callOpen m
      else .error (failWith m "syntax error") := by
  obtain ⟨h1, h2, h3⟩ := band_IDENT
  have hcall : ¬ (IDENT = CALL) := by decide
  unfold dispatch
  simp only [hc0, hb, hst, h1, h2, h3, hcall, if_false, ne_eq, not_true_eq_false,
    not_false_eq_true, true_and, false_and, Bool.false_eq_true]

/-- The dispatch after an operand, in state `NUM` or `IDENT`, at a character that is none of
NUL, blank, `;` and `(`. -/
theorem dispatch_after {σ : Type} (call : Option (Callback σ)) (m : Machine σ)
    (hst : m.state = NUM ∨ m.state = IDENT) (hc0 : m.inCh ≠ 0) (hb : isBlank m.inCh = false)
    (h1 : m.inCh ≠ ch ';') (h2 : m.inCh ≠ ch '(') :
    dispatch call m =
      if m.inCh = ch ',' ∧ m.scanningArgs ≠ 0 then argumentSeparator m
      else if m.inCh = ch ')' then closeParen call m
      else if isBinaryStart m.inCh = true then binaryOperator m
      else .error (failWith m "syntax error") := by
  rcases hst with hst | hst
  · rw [dispatch_num call m hst hc0 hb, if_neg h1]
  · rw [dispatch_ident call m hst hc0 hb, if_neg h1]
    simp only [h2, if_false]

/-! ### The character after an operator -/

/-- A character that can follow an operator completes no two-character operator. -/
theorem opens_facts (r : List Char) (h : opens r = true) :
    headCode r ≠ 60 ∧ headCode r ≠ 61 ∧ headCode r ≠ 62 ∧ headCode r ≠ 38 ∧
      headCode r ≠ 124 ∧ headCode r ≠ 42 := by
  unfold opens at h
  generalize headCode r = k at h
  refine ⟨?_, ?_, ?_, ?_, ?_, ?_⟩ <;> (intro hk; subst hk; revert h; decide)

theorem dual_values (k : Nat) :
    dualCharOps.getD k 0 ∈
      [0, 15420, 15676, 15677, 15678, 15934, 15649, 9766, 31868, 10794] := by
  have h : ∀ j : Nat, j < 16 → dualCharOps.getD j 0 ∈
      [0, 15420, 15676, 15677, 15678, 15934, 15649, 9766, 31868, 10794] := by decide
  by_cases hk : k < 16
  · exact h k hk
  · have hlen : dualCharOps.length ≤ k := by
      have : dualCharOps.length = 16 := rfl
      omega
    rw [List.getD_eq_default _ _ hlen]
    decide

/-- Before a character that completes no two-character operator, an operator character is
read as a one-character operator. -/
theorem lex_single (c nxt : Int) (hc0 : 0 < c) (hc1 : c < 256)
    (h1 : nxt ≠ 60) (h2 : nxt ≠ 61) (h3 : nxt ≠ 62) (h4 : nxt ≠ 38) (h5 : nxt ≠ 124)
    (h6 : nxt ≠ 42) : lexOperator c nxt = (c, 0) := by
  unfold lexOperator
  have hv := dual_values (((c * 8 + nxt * 7) / 8) % 16).toNat
  simp only [List.mem_cons, List.mem_singleton, List.not_mem_nil, or_false] at hv
  rw [if_neg]
  intro he
  rw [he] at hv
  omega

theorem lex_opens (c : Int) (r : List Char) (hc0 : 0 < c) (hc1 : c < 256)
    (h : opens r = true) : lexOperator c (headCode r) = (c, 0) := by
  obtain ⟨h1, h2, h3, h4, h5, h6⟩ := opens_facts r h
  exact lex_single c _ hc0 hc1 h1 h2 h3 h4 h5 h6

theorem assign_dispatch {σ : Type} (call : Option (Callback σ)) (m : Machine σ)
    (r : List Char) (hrest : m.rest = '=' :: r) (hst : m.state = IDENT)
    (hfsa : m.foldStackArg = IDLE) (ho : opens r = true) :
    step call m = (m.pushOp m.lastIdent >>= fun m1 => m1.pushOp m.lastIdentLen >>= fun m2 =>
      pure { m2.advance 1 with state := 573 }) := by
  have hin := inCh_cons m '=' r hrest
  have hnx : m.nextCh = headCode r := nextCh_eq m '=' r hrest
  rw [step_idle_dispatch call m (by rw [hfsa]; decide),
    dispatch_after call m (Or.inr hst) (by rw [hin]; decide) (by rw [hin]; decide)
      (by rw [hin]; decide) (by rw [hin]; decide)]
  rw [hin]
  rw [if_neg (fun h => absurd h.1 (by decide)), if_neg (by decide), if_pos (by decide)]
  unfold binaryOperator
  rw [hin, hnx, lex_opens (ch '=') r (by decide) (by decide) ho]
  simp only [hst, show ((ch '=' : Int) = ch '=') = True from eq_self _, and_self, if_true,
    show ((0 : Int) + 1).toNat = 1 from by decide]
  rfl

/-- The step that reads `=` after an identifier. -/
theorem step_assign {σ : Type} (call : Option (Callback σ)) (m : Machine σ)
    (r : List Char) (hrest : m.rest = '=' :: r) (hst : m.state = IDENT)
    (hfsa : m.foldStackArg = IDLE) (ho : opens r = true)
    (hb1 : inBounds (m.opStackPtr + 1) = true) (hb2 : inBounds (m.opStackPtr + 1 + 1) = true) :
    step call m = .ok { m with
      opStack := store (store m.opStack (m.opStackPtr + 1) m.lastIdent) (m.opStackPtr + 1 + 1)
        m.lastIdentLen,
      opStackPtr := m.opStackPtr + 1 + 1,
      i := m.i + 1, rest := r, state := 573 } := by
  rw [assign_dispatch call m r hrest hst hfsa ho]
  simp only [Machine.pushOp, hb1, hb2, if_true, bind, Except.bind, pure,
    Except.pure, Machine.advance, hrest, List.drop_succ_cons, List.drop_zero, Nat.cast_one]

theorem step_assign_over {σ : Type} (call : Option (Callback σ)) (m : Machine σ)
    (r : List Char) (hrest : m.rest = '=' :: r) (hst : m.state = IDENT)
    (hfsa : m.foldStackArg = IDLE) (ho : opens r = true)
    (hov : 63 < m.opStackPtr + 1 + 1) : step call m = .error .undefinedBehaviour := by
  rw [assign_dispatch call m r hrest hst hfsa ho]
  by_cases hb : inBounds (m.opStackPtr + 1) = true
  · simp only [Machine.pushOp, hb, inBounds_over hov, if_true, bind,
      Except.bind, Bool.false_eq_true, if_false]
  · simp only [Machine.pushOp, hb, bind, Except.bind, Bool.false_eq_true, if_false]

theorem laidOps_foldTo (os : Int → Int) (b foc fp : Int) :
    ∀ x : List Pend, LaidOps os b x → LaidOps os b (foldTo foc fp x)
  | [], h => h
  | e :: x, h => by
    unfold foldTo
    split_ifs
    · exact h
    · exact laidOps_foldTo os b foc fp x h.2

theorem laidVals_tail (vs : Int → Int) (k : Int) (e : Pend) (x : List Pend)
    (h : LaidVals vs k (e :: x)) : LaidVals vs k x := by
  cases e with
  | bin op a => exact h.2
  | un c => exact h
  | asg => exact h

theorem laidVals_foldTo (vs : Int → Int) (k foc fp : Int) :
    ∀ x : List Pend, LaidVals vs k x → LaidVals vs k (foldTo foc fp x)
  | [], h => h
  | e :: x, h => by
    unfold foldTo
    split_ifs
    · exact h
    · exact laidVals_foldTo vs k foc fp x (laidVals_tail vs k e x h)

theorem ok_foldTo (foc fp : Int) :
    ∀ x : List Pend, (∀ e ∈ x, e.ok) → ∀ e ∈ foldTo foc fp x, e.ok
  | [], h => h
  | e :: x, h => by
    unfold foldTo
    split_ifs
    · exact h
    · exact ok_foldTo foc fp x (fun e1 h1 => h e1 (List.mem_cons_of_mem _ h1))

theorem osum_foldTo (foc fp : Int) : ∀ x : List Pend, osum (foldTo foc fp x) ≤ osum x
  | [] => le_refl _
  | e :: x => by
    have := osum_foldTo foc fp x
    have := osize_pos e
    have hoe : osum (e :: x) = e.osize + osum x := rfl
    unfold foldTo
    split_ifs
    · exact le_refl _
    · omega

theorem vsum_foldTo (foc fp : Int) : ∀ x : List Pend, vsum (foldTo foc fp x) ≤ vsum x
  | [] => le_refl _
  | e :: x => by
    have := vsum_foldTo foc fp x
    have := vsize_nonneg e
    have hoe : vsum (e :: x) = e.vsize + vsum x := rfl
    unfold foldTo
    split_ifs
    · exact le_refl _
    · omega

/-- A fold with the priority 0 of `)`, `,`, `;` and of the end of the text removes every
waiting operator. -/
theorem foldTo_zero : ∀ x : List Pend, (∀ e ∈ x, e.ok) → foldTo (toChar 0) (prio (toChar 0)) x = []
  | [], _ => rfl
  | e :: x, h => by
    have hok := h e (List.mem_cons_self _ _)
    have hp := (pend_code_facts e hok).2.2.2.1
    unfold foldTo
    have h0 : prio (toChar 0) = 0 := by decide
    have h1 : toChar 0 ≠ 80 := by decide
    rw [if_neg (by
      rw [h0]
      intro hh
      rcases hh with hh | hh
      · exact h1 hh.2
      · exact hp hh)]
    exact foldTo_zero x (fun e1 h1 => h e1 (List.mem_cons_of_mem _ h1))

/-- The point after an operator has been read, built from the point where the operators
below it were waiting. -/
theorem before_of_settled {σ : Type} (m0 m1 m2 : Machine σ) (x : List Pend) (c : Pend)
    (hS : Settled m0 x m1) (hok : c.ok) (h1 : m2.state = c.code)
    (h2 : m2.opStackPtr = m1.opStackPtr + c.pre)
    (h3 : ∀ j, j ≤ m1.opStackPtr → m2.opStack j = m1.opStack j)
    (h4 : m2.valueStackPtr = m1.valueStackPtr + c.vsize)
    (h5 : ∀ j, j ≤ m1.valueStackPtr → m2.valueStack j = m1.valueStack j)
    (h5b : ∀ op a, c = .bin op a → m2.valueStack (m1.valueStackPtr + 1) = a)
    (h6 : m2.skipCounter = m1.skipCounter + c.skip)
    (h7 : m2.scanningArgs = m1.scanningArgs) (h8 : m2.argcOpstackPtr = m1.argcOpstackPtr)
    (h9 : m2.foldStackArg = IDLE) (h10 : m2.host = m1.host) :
    BeforeOperand m0 (some c) x m2 := by
  obtain ⟨a1, a2, a3, a4, a5, a6, a7, a8, a9, a10, a11, a12, a13⟩ := hS
  have ho := osum_nonneg x
  have hv := vsum_nonneg x
  have hve : vsum (c :: x) = c.vsize + vsum x := rfl
  have hce : csum (c :: x) = c.skip + csum x := rfl
  simp only [BeforeOperand, Option.toList, List.singleton_append]
  refine ⟨⟨h1, ?_, ?_⟩, ?_, ?_, ?_, ?_, ?_, ?_, ?_, ?_, h9, ?_, ?_⟩
  · rw [h2, a1]
  · rw [h3 _ (by omega), a2]
  · exact laidOps_congr m1.opStack m2.opStack _ x (fun j hj => h3 j (by omega)) a3
  · intro j hj; rw [h3 j (by omega), a4 j hj]
  · rw [h4, a5, hve]; omega
  · have hl := laidVals_congr m1.valueStack m2.valueStack _ x (fun j hj => h5 j (by omega)) a6
    cases c with
    | bin op a =>
      refine ⟨?_, hl⟩
      have : m0.valueStackPtr + vsum (Pend.bin op a :: x) = m1.valueStackPtr + 1 := by
        rw [hve, a5]; simp only [Pend.vsize]; omega
      rw [this]
      exact h5b op a rfl
    | un c => exact hl
    | asg => exact hl
  · intro j hj; rw [h5 j (by omega), a7 j hj]
  · rw [h6, a8, hce]; omega
  · rw [h7, a9]
  · rw [h8, a10]
  · rw [h10, a12]
  · intro e he
    rcases List.mem_cons.1 he with he | he
    · rw [he]; exact hok
    · exact a13 e he

theorem unTok_ok (op : UnTok) : (Pend.un op.code).ok := by
  cases op <;> (show _ ∈ unCodes; decide)

/-- A unary operator before a skipped expression. -/
theorem skips_unary {σ : Type} (cb : Callback σ) (text : List Char) (ol vl : Nat) (op : UnTok)
    (h : SkipsText cb text ol vl) : SkipsText cb (op.char :: text) (1 + ol) vl := by
  intro m0 m cur x r hB hsc hbase hcl hq hk hrest hstop hp hv
  obtain ⟨f1, f2, f3, f4⟩ := before_facts m0 m cur x hB hcl
  have hfsa := hB.2.2.2.2.2.2.2.2.2.1
  by_cases hb1 : m.opStackPtr + 1 ≤ 63
  · have hb : inBounds (m.opStackPtr + 1) = true := inBounds_of (by omega) hb1
    have hstep := step_unary (some cb) m op (text ++ r) hrest hfsa f1 hb
    have hS := before_push m0 m ({ m with
        opStack := store m.opStack (m.opStackPtr + 1) m.state, opStackPtr := m.opStackPtr + 1,
        i := m.i + 1, rest := text ++ r, state := bor op.code UNOP } : Machine σ) cur x hB
      (pushed_store m _ rfl rfl rfl rfl rfl rfl rfl hfsa rfl)
    have hB2 := before_of_settled m0 _ ({ m with
        opStack := store m.opStack (m.opStackPtr + 1) m.state, opStackPtr := m.opStackPtr + 1,
        i := m.i + 1, rest := text ++ r, state := bor op.code UNOP } : Machine σ)
      (cur.toList ++ x) (.un op.code) hS (unTok_ok op) rfl
      (by simp only [Pend.pre, add_zero]) (fun _ _ => rfl)
      (by simp only [Pend.vsize, add_zero]) (fun _ _ => rfl) (fun _ _ hh => by cases hh)
      (by simp only [Pend.skip, add_zero]) rfl rfl hfsa rfl
    have hrd := h m0 _ _ _ r hB2 hsc hbase hcl hq hk rfl hstop
      (show m.opStackPtr + 1 ≤ 63 from hb1) hv
    refine reads_mono cb (1 + 2 * text.length) _ m _ _
      (reads_step cb _ m _ _ _ hstep (reads_weaken cb _ _ _ _ _ _ hrd ?_ ?_))
      (by simp only [List.length_cons]; omega)
    · rintro m2 ⟨y, hA, hr, hp2, hv2, hp3, hv3⟩
      refine ⟨y, hA, hr, hp2, hv2, ?_, hv3⟩
      have : m2.opStackPtr ≤ m.opStackPtr + 1 + (ol : Int) := hp3
      push_cast; omega
    · rintro ⟨b1, b2⟩
      refine ⟨?_, b2⟩
      show m.opStackPtr + 1 + (ol : Int) ≤ 63
      push_cast at b1; omega
  · exact reads_mono cb (1 + 0) _ m _ _
      (reads_fail cb 0 m _ _ (step_unary_over (some cb) m op (text ++ r) hrest hfsa f1
        (by omega)) (fun hB => by
          have := hB.1
          push_cast at this
          omega))
      (by simp only [List.length_cons]; omega)

theorem binCode_char (op : Int) (h : op ∈ binCodes) : toChar op = op ∧ 0 ≤ op := by
  simp only [binCodes, List.mem_cons, List.mem_singleton, List.not_mem_nil, or_false] at h
  rcases h with h | h | h | h | h | h | h | h | h | h | h | h | h | h | h | h | h | h | h <;>
    subst h <;> decide

theorem notBlank_eq (r : List Char) : runLength isBlank ('=' :: r) = 0 := rfl

/-- Blanks, or else a text at which a number or an identifier ends, end a number or an
identifier. -/
theorem stops_gap (g r : List Char) (hg : IsGap g) (hr : stops r = true) :
    stops (g ++ r) = true := by
  cases g with
  | nil => exact hr
  | cons c g =>
    have hc : isBlank (ch c) = true := hg c (List.mem_cons_self _ _)
    have hk : ∀ k : Int, isBlank k = true → isIdentChar k = false := by
      intro k hk
      simp only [isBlank, ch, Char.reduceToNat, Nat.cast_ofNat, Bool.or_eq_true,
        decide_eq_true_eq] at hk
      rcases hk with (hk | hk) | hk <;> subst hk <;> decide
    show (!isIdentChar (ch c)) = true
    rw [hk _ hc]; rfl

/-- The step that reads `name = ` up to the assigned expression. -/
theorem skips_assign {σ : Type} (cb : Callback σ) (name g text : List Char) (ol vl : Nat)
    (hn : IsIdent name) (hg : IsGap g) (hh : ∀ r, opens (text ++ r) = true)
    (h : SkipsText cb text ol vl) :
    SkipsText cb (name ++ (g ++ '=' :: text)) (3 + ol) vl := by
  intro m0 m cur x r hB hsc hbase hcl hq hk hrest hstop hp hv
  obtain ⟨c, cs, rfl, hc, hcs⟩ := hn
  obtain ⟨f1, f2, f3, f4⟩ := before_facts m0 m cur x hB hcl
  obtain ⟨i1, i2, i3⟩ := ident_head c hc
  have hfsa := hB.2.2.2.2.2.2.2.2.2.1
  have hrest1 : m.rest = c :: cs ++ (g ++ '=' :: (text ++ r)) := by
    rw [hrest]; simp only [List.append_assoc, List.cons_append]
  have hin : m.inCh = ch c := inCh_cons m c _ hrest1
  have hst1 : stops (g ++ '=' :: (text ++ r)) = true := stops_gap g _ hg rfl
  by_cases hb1 : m.opStackPtr + 1 ≤ 63
  swap
  · exact reads_mono cb (1 + 0) _ m _ _
      (reads_fail cb 0 m _ _ (step_literal_over (some cb) m _ hfsa (by rw [hin]; exact i2)
        (by rw [hin]; exact i3) f1 (literalBranch_ident m c _ hrest1 hc) (by omega))
        (fun hB => by
          have := hB.1
          push_cast at this
          omega))
      (by simp only [List.length_cons, List.length_append]; omega)
  have s1 := step_ident (some cb) m c cs _ hrest1 hc hcs hst1 hfsa f1
    (inBounds_of (by omega) hb1)
  generalize hm1 : ({ m with
      opStack := store m.opStack (m.opStackPtr + 1) m.state, opStackPtr := m.opStackPtr + 1,
      i := m.i + ((1 + cs.length : Nat) : Int), rest := g ++ '=' :: (text ++ r),
      lastIdent := m.i, lastIdentLen := ((1 + cs.length : Nat) : Int),
      state := IDENT } : Machine σ) = m1 at s1
  have e1 : m1.rest = g ++ '=' :: (text ++ r) := by rw [← hm1]
  have e2 : m1.foldStackArg = IDLE := by rw [← hm1]; exact hfsa
  have e3 : m1.state = IDENT := by rw [← hm1]
  have e4 : m1.opStackPtr = m.opStackPtr + 1 := by rw [← hm1]
  have hP : PushedState m m1 := by
    rw [← hm1]; exact pushed_store m _ rfl rfl rfl rfl rfl rfl rfl hfsa rfl
  have hS := before_push m0 m m1 cur x hB hP
  refine reads_mono cb (1 + (g.length + (1 + 2 * text.length))) _ m _ _
    (reads_step cb _ m m1 _ _ s1
      (reads_gap cb _ m1 g _ _ _ hg (notBlank_eq _) e1 e2 (fun i => ?_)))
    (by simp only [List.length_cons, List.length_append]; omega)
  by_cases hb2 : m1.opStackPtr + 1 + 1 ≤ 63
  swap
  · exact reads_fail cb _ _ _ _
      (step_assign_over (some cb) ({ m1 with i := i, rest := '=' :: (text ++ r) } : Machine σ)
        (text ++ r) rfl e3 e2 (hh r) (by show 63 < m1.opStackPtr + 1 + 1; omega))
      (fun hB => by
        have := hB.1
        push_cast at this
        omega)
  have s3 := step_assign (some cb) ({ m1 with i := i, rest := '=' :: (text ++ r) } : Machine σ)
    (text ++ r) rfl e3 e2 (hh r)
    (by show inBounds (m1.opStackPtr + 1) = true; exact inBounds_of (by omega) (by omega))
    (by show inBounds (m1.opStackPtr + 1 + 1) = true; exact inBounds_of (by omega) hb2)
  dsimp only at s3
  have hB2 := before_of_settled m0 m1 ({ m1 with
      opStack := store (store m1.opStack (m1.opStackPtr + 1) m1.lastIdent)
        (m1.opStackPtr + 1 + 1) m1.lastIdentLen,
      opStackPtr := m1.opStackPtr + 1 + 1, i := i + 1, rest := text ++ r,
      state := 573 } : Machine σ) (cur.toList ++ x) .asg hS trivial rfl
    (by simp only [Pend.pre]; omega)
    (fun j hj => by
      show store (store m1.opStack (m1.opStackPtr + 1) m1.lastIdent) (m1.opStackPtr + 1 + 1)
        m1.lastIdentLen j = m1.opStack j
      simp only [store]
      rw [if_neg (by omega), if_neg (by omega)])
    (by simp only [Pend.vsize, add_zero]) (fun _ _ => rfl) (fun _ _ hh => by cases hh)
    (by simp only [Pend.skip, add_zero]) rfl rfl e2 rfl
  have hrd := h m0 _ _ _ r hB2 hsc hbase hcl hq hk rfl hstop
    (show m1.opStackPtr + 1 + 1 ≤ 63 from hb2)
    (show m1.valueStackPtr ≤ 63 by rw [hP.2.2.2.1]; exact hv)
  refine reads_step cb _ _ _ _ _ s3 (reads_weaken cb _ _ _ _ _ _ hrd ?_ ?_)
  · rintro m2 ⟨y, hA, hr, hp2, hv2, hp3, hv3⟩
    refine ⟨y, hA, hr, hp2, hv2, ?_, ?_⟩
    · have : m2.opStackPtr ≤ m1.opStackPtr + 1 + 1 + (ol : Int) := hp3
      push_cast; omega
    · have : m2.valueStackPtr ≤ m1.valueStackPtr + (vl : Int) := hv3
      rw [hP.2.2.2.1] at this
      exact this
  · rintro ⟨b1, b2⟩
    refine ⟨?_, ?_⟩
    · show m1.opStackPtr + 1 + 1 + (ol : Int) ≤ 63
      push_cast at b1; omega
    · show m1.valueStackPtr + (vl : Int) ≤ 63
      rw [hP.2.2.2.1]; exact b2

/-- The request of a fold at a binary operator after an operand. -/
theorem step_request {σ : Type} (call : Option (Callback σ)) (m : Machine σ) (c : Char)
    (r : List Char) (op w : Int) (hrest : m.rest = c :: r)
    (hst : m.state = NUM ∨ m.state = IDENT)
    (hfsa : m.foldStackArg = IDLE) (hcls : binStart (ch c) = true)
    (hlex : lexOperator (ch c) (headCode r) = (op, w)) (hop : op ≠ 61) :
    step call m = .ok { m with foldStackArg := op } := by
  have hin : m.inCh = ch c := inCh_cons m c r hrest
  obtain ⟨h1, h2, h3, h4, h5, h6⟩ := binStart_facts _ hcls
  have h7 : ch c ≠ ch '(' := by
    intro hh; rw [hh] at h1; revert h1; decide
  rw [step_idle_dispatch call m (by rw [hfsa]; decide),
    dispatch_after call m hst (by rw [hin]; exact h2) (by rw [hin]; exact h3)
      (by rw [hin]; exact h4) (by rw [hin]; exact h7)]
  rw [hin, if_neg (fun hh => h5 hh.1), if_neg h6, if_pos h1]
  unfold binaryOperator
  have hf : IDLE ≠ FOLDED := by decide
  have hop2 : ¬ (op = ch '=') := hop
  simp only [hin, nextCh_eq m c r hrest, hlex, hfsa, hf, hop2, false_and, if_false, ne_eq,
    not_false_eq_true, if_true]

theorem skip_shift (op lv sc : Int) :
    (if op = ch 'A' then (if lv = 0 then sc + 1 else sc)
      else if op = ch 'O' then (if lv ≠ 0 then sc + 1 else sc) else sc) =
      sc + (Pend.bin op lv).skip := by
  simp only [Pend.skip, ch, Char.reduceToNat, Nat.cast_ofNat]
  by_cases hA : op = 65
  · subst hA
    by_cases hl : lv = 0
    · simp [hl]
    · simp [hl]
  · by_cases hO : op = 79
    · subst hO
      by_cases hl : lv = 0
      · simp [hl]
      · simp [hl]
    · simp [hA, hO]

theorem binStart_stops (c : Char) (r : List Char) (h : binStart (ch c) = true) :
    stops (c :: r) = true := by
  have h1 := (binStart_facts _ h).1
  unfold isBinaryStart at h1
  simp only [Bool.or_eq_true, Bool.and_eq_true, decide_eq_true_eq, ch, Char.reduceToNat,
    Nat.cast_ofNat] at h1
  simp only [stops, isIdentChar, isalpha, isdigit, ch, Char.reduceToNat, Nat.cast_ofNat,
    Bool.not_eq_true', Bool.or_eq_false_iff, Bool.and_eq_false_iff, decide_eq_false_iff_not]
  rcases h1 with (((⟨⟨h1, h2⟩, _⟩ | h1) | ⟨h1, h2⟩) | h1) | h1 <;> omega

/-- The dispatch at a binary operator after the fold, when `valueStack` is full. -/
theorem dispatch_binop_shift_over {σ : Type} (call : Option (Callback σ)) (m : Machine σ)
    (c : Char) (r : List Char) (op w : Int) (hrest : m.rest = c :: r) (hst : m.state = NUM)
    (hfsa : m.foldStackArg = FOLDED) (hcls : binStart (ch c) = true)
    (hlex : lexOperator (ch c) (headCode r) = (op, w))
    (hv : 63 < m.valueStackPtr + 1) :
    dispatch call m = .error .undefinedBehaviour := by
  have hin : m.inCh = ch c := by rw [inCh_eq, hrest]; rfl
  rw [dispatch_binop call m c r hrest hst hcls]
  unfold binaryOperator
  have hi : ¬ (NUM = IDENT) := by decide
  simp only [hin, nextCh_eq m c r hrest, hlex, hst, hfsa, hi, and_false, if_false, ne_eq,
    not_true_eq_false, Machine.pushValue, inBounds_over hv, bind, Except.bind,
    Bool.false_eq_true]

/-- A binary operator between two skipped expressions. -/
theorem skips_binop {σ : Type} (cb : Callback σ) (lt g t rt : List Char) (ll lv rl rv : Nat)
    (code : Int) (ht : IsOpToken t code) (hg : IsGap g) (hh : ∀ r, opens (rt ++ r) = true)
    (hl : SkipsText cb lt ll lv) (hr : SkipsText cb rt rl rv) :
    SkipsText cb (lt ++ (g ++ (t ++ rt))) (ll + rl) (lv + 1 + rv) := by
  intro m0 m cur x r hB hsc hbase hcl hq hk hrest hstop hp hv
  obtain ⟨c, cs, rfl, hbs, hcode, hlex⟩ := ht
  obtain ⟨f1, f2, f3, f4⟩ := before_facts m0 m cur x hB hcl
  have hrest1 : m.rest = lt ++ (g ++ (c :: (cs ++ (rt ++ r)))) := by
    rw [hrest]; simp only [List.append_assoc, List.cons_append]
  have hrd1 := hl m0 m cur x _ hB hsc hbase hcl hq hk hrest1
    (stops_gap g _ hg (binStart_stops c _ hbs)) hp hv
  obtain ⟨k1, k2⟩ := binCode_char code hcode
  obtain ⟨b1, b2, b3, b4, b5, b6, b7, b8⟩ := binCode_facts code hcode
  refine reads_mono cb (2 * lt.length + (g.length + (1 + (1 + 2 * rt.length)))) _ m _ _
    (reads_trans cb _ _ m _ _ _ _ hrd1
      (fun hb => ⟨by have := hb.1; push_cast at this; omega,
        by have := hb.2; push_cast at this; omega⟩) ?_)
    (by simp only [List.length_cons, List.length_append]; omega)
  rintro m1 ⟨y, ⟨hst, hS⟩, hr1, hp1, hv1, hp1b, hv1b⟩
  have hS' := hS
  obtain ⟨a1, a2, a3, a4, a5, a6, a7, a8, a9, a10, a11, a12, a13⟩ := hS'
  have hoy := osum_nonneg y
  have hvy := vsum_nonneg y
  refine reads_gap cb _ m1 g _ _ _ hg (binStart_notBlank c _ hbs) hr1 a11 (fun i => ?_)
  -- the request
  have s2 := step_request (some cb) ({ m1 with
      i := i, rest := c :: (cs ++ (rt ++ r)) } : Machine σ) c _ code cs.length rfl hst a11 hbs
    (hlex _ (hh r)) b4
  dsimp only at s2
  refine reads_step cb _ _ _ _ _ s2 ?_
  -- the fold
  have hA2 : AfterOperand m0 y ({ m1 with
      i := i, rest := c :: (cs ++ (rt ++ r)) } : Machine σ) :=
    ⟨hst, a1, a2, a3, a4, a5, a6, a7, a8, a9, a10, a11, a12, a13⟩
  obtain ⟨mf, g0, g1, g2, g3, g4, g5, g6, g7, g8, g9, g10, g11⟩ :=
    foldPhase_pending cb m0 _ y code k2 hA2 hsc hbase (by omega)
      (by show m1.opStackPtr ≤ 63; omega) hk (by show m1.valueStackPtr ≤ 63; omega)
  rw [k1] at g3 g4 g5
  have hfo := osum_foldTo code (prio code) y
  have hfv := vsum_foldTo code (prio code) y
  have hfo0 := osum_nonneg (foldTo code (prio code) y)
  have hfv0 := vsum_nonneg (foldTo code (prio code) y)
  have g10' : mf.rest = c :: (cs ++ (rt ++ r)) := g10
  by_cases hvb1 : mf.valueStackPtr + 1 ≤ 63
  swap
  · have s3a := dispatch_binop_shift_over (some cb) mf c _ code cs.length g10' g1 g2 hbs
      (hlex _ (hh r)) (by omega)
    have s3 : step (some cb) ({ m1 with
        i := i, rest := c :: (cs ++ (rt ++ r)),
        foldStackArg := code } : Machine σ) = _ :=
      (step_of_foldPhase (some cb) _ mf g0).trans s3a
    exact reads_fail cb _ _ _ _ s3 (fun hb => by
      have := hb.2
      push_cast at this
      omega)
  have hvb : inBounds (mf.valueStackPtr + 1) = true := inBounds_of (by omega) hvb1
  have s3a := dispatch_binop_shift (some cb) mf c _ code cs.length g10' g1 g2 hbs
    (hlex _ (hh r)) hvb
  have s3 : step (some cb) ({ m1 with
      i := i, rest := c :: (cs ++ (rt ++ r)),
      foldStackArg := code } : Machine σ) = _ :=
    (step_of_foldPhase (some cb) _ mf g0).trans s3a
  have hdrop : List.drop ((cs.length : Int) + 1).toNat mf.rest = rt ++ r := by
    rw [g10']
    have : ((cs.length : Int) + 1).toNat = cs.length + 1 := by omega
    rw [this, List.drop_succ_cons, List.drop_left]
  rw [hdrop, skip_shift] at s3
  refine reads_step cb _ _ _ _ _ s3 ?_
  -- the point before the right operand
  have hSf : Settled m0 (foldTo code (prio code) y) ({ mf with foldStackArg := IDLE }) := by
    refine ⟨g3, ?_, ?_, ?_, g4, ?_, ?_, g5, ?_, ?_, rfl, ?_, ok_foldTo _ _ y a13⟩
    · show mf.opStack _ = _; rw [g6]; exact a2
    · show LaidOps mf.opStack _ _; rw [g6]; exact laidOps_foldTo _ _ _ _ y a3
    · intro j hj; show mf.opStack j = _; rw [g6]; exact a4 j hj
    · show LaidVals mf.valueStack _ _; rw [g7]; exact laidVals_foldTo _ _ _ _ y a6
    · intro j hj; show mf.valueStack j = _; rw [g7]; exact a7 j hj
    · show mf.scanningArgs = _; rw [g8]; exact a9
    · show mf.argcOpstackPtr = _; rw [g9]; exact a10
    · show mf.host = _; rw [g11]; exact a12
  have hB2 := before_of_settled m0 _ ({ mf with
      valueStack := store mf.valueStack (mf.valueStackPtr + 1) mf.lastValue,
      valueStackPtr := mf.valueStackPtr + 1,
      i := mf.i + ((((cs.length : Int) + 1).toNat : Nat) : Int), rest := rt ++ r,
      foldStackArg := IDLE, skipCounter := mf.skipCounter + (Pend.bin code mf.lastValue).skip,
      state := bor code BINOP } : Machine σ) _ (.bin code mf.lastValue) hSf hcode rfl
    (by simp only [Pend.pre, add_zero]) (fun _ _ => rfl)
    (by simp only [Pend.vsize])
    (fun j hj => by
      show store mf.valueStack (mf.valueStackPtr + 1) mf.lastValue j = mf.valueStack j
      simp only [store]
      rw [if_neg (by
        have : j ≤ mf.valueStackPtr := hj
        omega)])
    (fun op a he => by
      cases he
      show store mf.valueStack (mf.valueStackPtr + 1) mf.lastValue (mf.valueStackPtr + 1) = _
      simp only [store, if_true])
    rfl rfl rfl rfl rfl
  have hrd2 := hr m0 _ _ _ r hB2 hsc hbase hcl hq hk rfl hstop
    (show mf.opStackPtr ≤ 63 by omega) (show mf.valueStackPtr + 1 ≤ 63 from hvb1)
  refine reads_weaken cb _ _ _ _ _ _ hrd2 ?_ ?_
  · rintro m2 ⟨z, hA3, hr2, hp2, hv2, hp3, hv3⟩
    refine ⟨z, hA3, hr2, hp2, hv2, ?_, ?_⟩
    · have : m2.opStackPtr ≤ mf.opStackPtr + (rl : Int) := hp3
      push_cast; omega
    · have : m2.valueStackPtr ≤ mf.valueStackPtr + 1 + (rv : Int) := hv3
      push_cast; omega
  · rintro ⟨c1, c2⟩
    push_cast at c1 c2
    refine ⟨?_, ?_⟩
    · show mf.opStackPtr + (rl : Int) ≤ 63; omega
    · show mf.valueStackPtr + 1 + (rv : Int) ≤ 63; omega

theorem stops_close (r : List Char) : stops (')' :: r) = true := rfl

theorem stops_comma (r : List Char) : stops (',' :: r) = true := rfl

theorem stops_open (r : List Char) : stops ('(' :: r) = true := rfl

/-- The request of a fold at `)` after an operand. -/
theorem step_close_request {σ : Type} (call : Option (Callback σ)) (m : Machine σ)
    (r : List Char) (hrest : m.rest = ')' :: r) (hst : m.state = NUM ∨ m.state = IDENT)
    (hfsa : m.foldStackArg = IDLE) :
    step call m = .ok { m with foldStackArg := 0 } := by
  have hin : m.inCh = ch ')' := inCh_cons m ')' r hrest
  rw [step_idle_dispatch call m (by rw [hfsa]; decide),
    dispatch_after call m hst (by rw [hin]; decide) (by rw [hin]; decide)
      (by rw [hin]; decide) (by rw [hin]; decide)]
  rw [hin, if_neg (fun hh => absurd hh.1 (by decide)), if_pos rfl]
  unfold closeParen
  rw [if_pos (by rw [hfsa]; decide)]

/-- The dispatch at `)` that closes a parenthesised expression. -/
theorem dispatch_close_group {σ : Type} (call : Option (Callback σ)) (m : Machine σ)
    (r : List Char) (hrest : m.rest = ')' :: r) (hst : m.state = NUM)
    (hfsa : m.foldStackArg = FOLDED) (hb : inBounds m.opStackPtr = true)
    (hb1 : inBounds (m.opStackPtr - 1) = true) (htop : m.opStack m.opStackPtr = PAREN) :
    dispatch call m = .ok { m with
      i := m.i + 1, rest := r, foldStackArg := IDLE, opStackPtr := m.opStackPtr - 2,
      scanningArgs := m.opStack (m.opStackPtr - 1) } := by
  have hin : m.inCh = ch ')' := inCh_cons m ')' r hrest
  rw [dispatch_after call m (Or.inl hst) (by rw [hin]; decide) (by rw [hin]; decide)
      (by rw [hin]; decide) (by rw [hin]; decide)]
  rw [hin, if_neg (fun hh => absurd hh.1 (by decide)), if_pos rfl]
  unfold closeParen
  simp only [hfsa, ne_eq, not_true_eq_false, if_false, hb, htop, if_true, hb1,
    Machine.advance, hrest, List.drop_succ_cons, List.drop_zero, Nat.cast_one]

theorem notBlank_close (r : List Char) : runLength isBlank (')' :: r) = 0 := rfl

theorem notBlank_comma (r : List Char) : runLength isBlank (',' :: r) = 0 := rfl

theorem notBlank_open (r : List Char) : runLength isBlank ('(' :: r) = 0 := rfl

/-- A parenthesised skipped expression is an operand. -/
theorem pushes_group {σ : Type} (cb : Callback σ) (text g : List Char) (ol vl : Nat)
    (hg : IsGap g) (h : SkipsText cb text ol vl) :
    PushesText cb ('(' :: (text ++ (g ++ [')']))) (2 + ol) vl := by
  intro m r hfsa hcl hsc hrest hstop hp0 hp hv0 hv
  have hrest1 : m.rest = '(' :: (text ++ (g ++ ')' :: r)) := by
    rw [hrest]; simp only [List.append_assoc, List.cons_append, List.nil_append]
  by_cases hb : m.opStackPtr + 1 + 1 ≤ 63
  swap
  · exact reads_mono cb (1 + 0) _ m _ _
      (reads_fail cb 0 m _ _ (step_open_over (some cb) m _ hrest1 hfsa hcl (by omega))
        (fun hB => by
          have := hB.1
          push_cast at this
          omega))
      (by simp only [List.length_cons, List.length_append]; omega)
  have hb1 : inBounds (m.opStackPtr + 1) = true := inBounds_of (by omega) (by omega)
  have hb2 : inBounds (m.opStackPtr + 1 + 1) = true := inBounds_of (by omega) (by omega)
  have s1 := step_open (some cb) m _ hrest1 hfsa hcl hb1 hb2
  generalize hm1 : ({ m with
      opStack := store (store m.opStack (m.opStackPtr + 1) m.state) (m.opStackPtr + 1 + 1)
        m.scanningArgs,
      opStackPtr := m.opStackPtr + 1 + 1,
      i := m.i + 1, rest := text ++ (g ++ ')' :: r), scanningArgs := 0,
      state := PAREN } : Machine σ) = m1 at s1
  have e1 : m1.rest = text ++ (g ++ ')' :: r) := by rw [← hm1]
  have e2 : m1.foldStackArg = IDLE := by rw [← hm1]; exact hfsa
  have e3 : m1.state = PAREN := by rw [← hm1]
  have e4 : m1.opStackPtr = m.opStackPtr + 1 + 1 := by rw [← hm1]
  have e5 : m1.valueStackPtr = m.valueStackPtr := by rw [← hm1]
  have e6 : m1.skipCounter = m.skipCounter := by rw [← hm1]
  have e7 : m1.opStack = store (store m.opStack (m.opStackPtr + 1) m.state)
      (m.opStackPtr + 1 + 1) m.scanningArgs := by rw [← hm1]
  have e8 : m1.valueStack = m.valueStack := by rw [← hm1]
  have e9 : m1.argcOpstackPtr = m.argcOpstackPtr := by rw [← hm1]
  have e10 : m1.host = m.host := by rw [← hm1]
  have hB : BeforeOperand m1 none [] m1 :=
    ⟨⟨rfl, rfl, rfl⟩, trivial, fun _ _ => rfl, by simp [vsum], trivial, fun _ _ => rfl,
      by simp [csum], rfl, rfl, e2, rfl, by simp⟩
  have hrd := h m1 m1 none [] (g ++ ')' :: r) hB
    (by rw [e6]; exact hsc) (by rw [e3]; decide) (by rw [e3]; decide) (by omega) (by omega)
    e1 (stops_gap g _ hg (stops_close r)) (by omega) (by omega)
  refine reads_mono cb (1 + (2 * text.length + (g.length + (1 + (1 + 0))))) _ m _ _
    (reads_step cb _ m m1 _ _ s1
      (reads_trans cb _ _ m1 _ _ _ _ hrd
        (fun hb => ⟨by have := hb.1; push_cast at this; omega,
          by have := hb.2; omega⟩) ?_))
    (by simp only [List.length_cons, List.length_append, List.length_nil]; omega)
  rintro m2 ⟨y, ⟨hst, hS⟩, hr2, hp2, hv2, hp3, hv3⟩
  have hS' := hS
  obtain ⟨a1, a2, a3, a4, a5, a6, a7, a8, a9, a10, a11, a12, a13⟩ := hS'
  have hoy := osum_nonneg y
  have hvy := vsum_nonneg y
  refine reads_gap cb _ m2 g _ _ _ hg (notBlank_close r) hr2 a11 (fun i => ?_)
  have s2 := step_close_request (some cb) ({ m2 with i := i, rest := ')' :: r } : Machine σ) r
    rfl hst a11
  dsimp only at s2
  refine reads_step cb _ _ _ _ _ s2 ?_
  have hA2 : AfterOperand m1 y ({ m2 with i := i, rest := ')' :: r } : Machine σ) :=
    ⟨hst, a1, a2, a3, a4, a5, a6, a7, a8, a9, a10, a11, a12, a13⟩
  obtain ⟨mf, g0, g1, g2, g3, g4, g5, g6, g7, g8, g9, g10, g11⟩ :=
    foldPhase_pending cb m1 _ y 0 (le_refl _) hA2 (by rw [e6]; exact hsc)
      (by rw [e3]; decide) (by omega) (by show m2.opStackPtr ≤ 63; omega) (by omega)
      (by show m2.valueStackPtr ≤ 63; omega)
  rw [foldTo_zero y a13] at g3 g4 g5
  simp only [osum, vsum, csum, add_zero] at g3 g4 g5
  have g6' : mf.opStack = m2.opStack := g6
  have g7' : mf.valueStack = m2.valueStack := g7
  have g8' : mf.scanningArgs = m2.scanningArgs := g8
  have g9' : mf.argcOpstackPtr = m2.argcOpstackPtr := g9
  have g10' : mf.rest = ')' :: r := g10
  have g11' : mf.host = m2.host := g11
  have htop : mf.opStack mf.opStackPtr = PAREN := by rw [g3, g6', a2, e3]
  have s3a := dispatch_close_group (some cb) mf r g10' g1 g2
    (by rw [g3]; exact inBounds_of (by omega) (by omega))
    (by rw [g3]; exact inBounds_of (by omega) (by omega)) htop
  have s3 : step (some cb) ({ m2 with
      i := i, rest := ')' :: r, foldStackArg := 0 } : Machine σ) = _ :=
    (step_of_foldPhase (some cb) _ mf g0).trans s3a
  have hsa : mf.opStack (mf.opStackPtr - 1) = m.scanningArgs := by
    rw [g3, g6']
    have : m1.opStackPtr + 1 - 1 = m1.opStackPtr := by omega
    rw [this, a4 _ (le_refl _), e7, e4]
    simp only [store, if_true]
  have hst0 : mf.opStack (m.opStackPtr + 1) = m.state := by
    rw [g6', a4 _ (by omega), e7]
    simp only [store]
    rw [if_neg (by omega)]
    exact if_pos trivial
  refine reads_step cb _ _ _ _ _ s3 (reads_done cb _ _ _
    ⟨⟨Or.inl g1, ?_, hst0, ?_, ?_, ?_, ?_, ?_, ?_, rfl, ?_⟩, rfl, ?_⟩)
  · show mf.opStackPtr - 2 = m.opStackPtr + 1; omega
  · intro j hj
    show mf.opStack j = m.opStack j
    rw [g6', a4 j (by omega), e7]
    simp only [store]
    rw [if_neg (by omega), if_neg (by omega)]
  · show mf.valueStackPtr = m.valueStackPtr; omega
  · intro j hj
    show mf.valueStack j = m.valueStack j
    rw [g7', a7 j (by omega), e8]
  · show mf.skipCounter = m.skipCounter; omega
  · show mf.opStack (mf.opStackPtr - 1) = m.scanningArgs; exact hsa
  · show mf.argcOpstackPtr = m.argcOpstackPtr; rw [g9', a10, e9]
  · show mf.host = m.host; rw [g11', a12, e10]
  · show mf.opStackPtr - 2 ≤ 63; omega

/-- The step that opens the argument list of a call. -/
theorem step_callOpen {σ : Type} (call : Option (Callback σ)) (m : Machine σ)
    (r : List Char) (hrest : m.rest = '(' :: r) (hst : m.state = IDENT)
    (hfsa : m.foldStackArg = IDLE) (hp0 : 0 ≤ m.opStackPtr) (hp : m.opStackPtr + 5 ≤ 63) :
    step call m = .ok { m with
      opStack := store (store (store (store (store m.opStack
        (m.opStackPtr + 1) m.scanningArgs) (m.opStackPtr + 1 + 1) m.argcOpstackPtr)
        (m.opStackPtr + 1 + 1 + 1) 0) (m.opStackPtr + 1 + 1 + 1 + 1) m.lastIdent)
        (m.opStackPtr + 1 + 1 + 1 + 1 + 1) m.lastIdentLen,
      opStackPtr := m.opStackPtr + 1 + 1 + 1 + 1 + 1,
      i := m.i + 1, rest := r, argcOpstackPtr := m.opStackPtr + 1 + 1 + 1,
      state := CALL, scanningArgs := 1 } := by
  have hin : m.inCh = ch '(' := inCh_cons m '(' r hrest
  have hb1 : inBounds (m.opStackPtr + 1) = true := inBounds_of (by omega) (by omega)
  have hb2 : inBounds (m.opStackPtr + 1 + 1) = true := inBounds_of (by omega) (by omega)
  have hb3 : inBounds (m.opStackPtr + 1 + 1 + 1) = true := inBounds_of (by omega) (by omega)
  have hb4 : inBounds (m.opStackPtr + 1 + 1 + 1 + 1) = true :=
    inBounds_of (by omega) (by omega)
  have hb5 : inBounds (m.opStackPtr + 1 + 1 + 1 + 1 + 1) = true :=
    inBounds_of (by omega) (by omega)
  rw [step_idle_dispatch call m (by rw [hfsa]; decide),
    dispatch_ident call m hst (by rw [hin]; decide) (by rw [hin]; decide)]
  rw [hin, if_neg (by decide), if_neg (fun hh => absurd hh.1 (by decide)), if_neg (by decide),
    if_neg (by decide), if_pos rfl]
  unfold callOpen
  simp only [Machine.pushOp, hb1, hb2, hb3, hb4, hb5, if_true, bind, Except.bind, pure,
    Except.pure, Machine.advance, hrest, List.drop_succ_cons, List.drop_zero, Nat.cast_one]

/-- The step at `)` right after the opening of an argument list, while the call is
skipped. -/
theorem step_callNoArgs {σ : Type} (cb : Callback σ) (m : Machine σ)
    (r : List Char) (hrest : m.rest = ')' :: r) (hst : m.state = CALL)
    (hfsa : m.foldStackArg = IDLE) (hp5 : 5 ≤ m.opStackPtr) (hp : m.opStackPtr ≤ 63)
    (hcount : m.opStack (m.opStackPtr - 2) = 0) (hsc : m.skipCounter ≠ 0) :
    step (some cb) m = .ok { m with
      opStackPtr := m.opStackPtr - 5, argcOpstackPtr := m.opStack (m.opStackPtr - 3),
      scanningArgs := m.opStack (m.opStackPtr - 4), i := m.i + 1, rest := r,
      lastValue := 0, state := NUM } := by
  have hin : m.inCh = ch ')' := inCh_cons m ')' r hrest
  have hb : inBounds m.opStackPtr = true := inBounds_of (by omega) hp
  have hlb : literalBranch m = none := by
    unfold literalBranch
    rw [hin]
    rfl
  rw [step_idle_dispatch (some cb) m (by rw [hfsa]; decide)]
  unfold dispatch
  rw [hin, hlb, hst]
  simp only [show ¬ (ch ')' = 0) from by decide, show isBlank (ch ')') = false from by decide,
    if_false, ite_self, Bool.false_eq_true,
    show ¬ (band CALL CAN_STATEMENT ≠ 0 ∧ ch ')' = ch ';') from fun h => absurd h.2 (by decide),
    show band CALL AFTER_LITERAL = 0 from by decide, ne_eq, not_true_eq_false, false_and,
    true_and, if_true]
  unfold callNoArgs
  simp only [show ¬ (m.opStackPtr < 5) from by omega, hb, hcount, hsc, if_false, if_true,
    ne_eq, not_true_eq_false, not_false_eq_true, Machine.advance, hrest, List.drop_succ_cons,
    List.drop_zero, Nat.cast_one, pure, Except.pure]

/-- The request of a fold at `,` after an argument. -/
theorem step_comma_request {σ : Type} (call : Option (Callback σ)) (m : Machine σ)
    (r : List Char) (hrest : m.rest = ',' :: r) (hst : m.state = NUM ∨ m.state = IDENT)
    (hfsa : m.foldStackArg = IDLE) (hsa : m.scanningArgs ≠ 0) :
    step call m = .ok { m with foldStackArg := 0 } := by
  have hin : m.inCh = ch ',' := inCh_cons m ',' r hrest
  rw [step_idle_dispatch call m (by rw [hfsa]; decide),
    dispatch_after call m hst (by rw [hin]; decide) (by rw [hin]; decide)
      (by rw [hin]; decide) (by rw [hin]; decide)]
  rw [if_pos ⟨hin, hsa⟩]
  unfold argumentSeparator
  rw [if_pos (by rw [hfsa]; decide)]

/-- The dispatch at `,` after the fold of an argument. -/
theorem dispatch_comma {σ : Type} (call : Option (Callback σ)) (m : Machine σ)
    (r : List Char) (hrest : m.rest = ',' :: r) (hst : m.state = NUM)
    (hfsa : m.foldStackArg = FOLDED) (hsa : m.scanningArgs ≠ 0)
    (hb : inBounds m.opStackPtr = true) (htop : m.opStack m.opStackPtr = CALL)
    (hao : inBounds m.argcOpstackPtr = true) (hv : inBounds (m.valueStackPtr + 1) = true) :
    dispatch call m = .ok { m with
      foldStackArg := IDLE, opStackPtr := m.opStackPtr - 1,
      opStack := store m.opStack m.argcOpstackPtr (wrap32 (m.opStack m.argcOpstackPtr + 1)),
      valueStack := store m.valueStack (m.valueStackPtr + 1) m.lastValue,
      valueStackPtr := m.valueStackPtr + 1, i := m.i + 1, rest := r, state := CALL } := by
  have hin : m.inCh = ch ',' := inCh_cons m ',' r hrest
  rw [dispatch_after call m (Or.inl hst) (by rw [hin]; decide) (by rw [hin]; decide)
      (by rw [hin]; decide) (by rw [hin]; decide)]
  rw [if_pos ⟨hin, hsa⟩]
  unfold argumentSeparator
  simp only [hfsa, ne_eq, not_true_eq_false, if_false, hb, htop, hao, Machine.pushValue, hv,
    if_true, bind, Except.bind, pure, Except.pure, Machine.advance, hrest,
    List.drop_succ_cons, List.drop_zero, Nat.cast_one]

/-- The dispatch at `)` after the fold of the last argument, while the call is skipped. -/
theorem dispatch_close_call {σ : Type} (cb : Callback σ) (m : Machine σ)
    (r : List Char) (hrest : m.rest = ')' :: r) (hst : m.state = NUM)
    (hfsa : m.foldStackArg = FOLDED) (hsa : m.scanningArgs ≠ 0)
    (hb : inBounds m.opStackPtr = true) (htop : m.opStack m.opStackPtr = CALL)
    (hb5 : inBounds (m.opStackPtr - 5) = true) (hv : inBounds (m.valueStackPtr + 1) = true)
    (hsc : m.skipCounter ≠ 0) :
    dispatch (some cb) m = .ok { m with
      foldStackArg := IDLE, opStackPtr := m.opStackPtr - 6,
      argcOpstackPtr := m.opStack (m.opStackPtr - 4),
      scanningArgs := m.opStack (m.opStackPtr - 5),
      valueStack := store m.valueStack (m.valueStackPtr + 1) m.lastValue,
      valueStackPtr := m.valueStackPtr + 1 - wrap32 (m.opStack (m.opStackPtr - 3) + 1),
      i := m.i + 1, rest := r, lastValue := 0, state := NUM } := by
  have hin : m.inCh = ch ')' := inCh_cons m ')' r hrest
  rw [dispatch_after (some cb) m (Or.inl hst) (by rw [hin]; decide) (by rw [hin]; decide)
      (by rw [hin]; decide) (by rw [hin]; decide)]
  rw [hin, if_neg (fun hh => absurd hh.1 (by decide)), if_pos rfl]
  unfold closeParen
  simp only [hfsa, ne_eq, not_true_eq_false, if_false, hb, htop, hsa, hb5,
    show ¬ (CALL = PAREN) from by decide, not_false_eq_true, and_self, Machine.pushValue, hv,
    hsc, if_true, bind, Except.bind, pure, Except.pure, Machine.advance, hrest,
    List.drop_succ_cons, List.drop_zero, Nat.cast_one]

/-- The step that opens the argument list of a call when `opStack` has no room for the five
entries. -/
theorem step_callOpen_over {σ : Type} (call : Option (Callback σ)) (m : Machine σ)
    (r : List Char) (hrest : m.rest = '(' :: r) (hst : m.state = IDENT)
    (hfsa : m.foldStackArg = IDLE) (hp : 63 < m.opStackPtr + 5) :
    step call m = .error .undefinedBehaviour := by
  have hin : m.inCh = ch '(' := inCh_cons m '(' r hrest
  rw [step_idle_dispatch call m (by rw [hfsa]; decide),
    dispatch_ident call m hst (by rw [hin]; decide) (by rw [hin]; decide)]
  rw [hin, if_neg (by decide), if_neg (fun hh => absurd hh.1 (by decide)), if_neg (by decide),
    if_neg (by decide), if_pos rfl]
  unfold callOpen
  by_cases h1 : m.opStackPtr + 1 ≤ 63
  swap
  · simp only [Machine.pushOp, inBounds_over (show 63 < m.opStackPtr + 1 by omega), bind,
      Except.bind, Bool.false_eq_true, if_false]
  have hb1 : inBounds (m.opStackPtr + 1) = true := inBounds_of (by omega) h1
  by_cases h2 : m.opStackPtr + 1 + 1 ≤ 63
  swap
  · simp only [Machine.pushOp, hb1, inBounds_over (show 63 < m.opStackPtr + 1 + 1 by omega),
      bind, Except.bind, Bool.false_eq_true, if_false, if_true]
  have hb2 : inBounds (m.opStackPtr + 1 + 1) = true := inBounds_of (by omega) h2
  by_cases h3 : m.opStackPtr + 1 + 1 + 1 ≤ 63
  swap
  · simp only [Machine.pushOp, hb1, hb2,
      inBounds_over (show 63 < m.opStackPtr + 1 + 1 + 1 by omega),
      bind, Except.bind, Bool.false_eq_true, if_false, if_true]
  have hb3 : inBounds (m.opStackPtr + 1 + 1 + 1) = true := inBounds_of (by omega) h3
  by_cases h4 : m.opStackPtr + 1 + 1 + 1 + 1 ≤ 63
  swap
  · simp only [Machine.pushOp, hb1, hb2, hb3,
      inBounds_over (show 63 < m.opStackPtr + 1 + 1 + 1 + 1 by omega),
      bind, Except.bind, Bool.false_eq_true, if_false, if_true]
  have hb4 : inBounds (m.opStackPtr + 1 + 1 + 1 + 1) = true := inBounds_of (by omega) h4
  simp only [Machine.pushOp, hb1, hb2, hb3, hb4,
    inBounds_over (show 63 < m.opStackPtr + 1 + 1 + 1 + 1 + 1 by omega),
    bind, Except.bind, Bool.false_eq_true, if_false, if_true]

/-- The dispatch at `,` after the fold of an argument, when `valueStack` is full. -/
theorem dispatch_comma_over {σ : Type} (call : Option (Callback σ)) (m : Machine σ)
    (r : List Char) (hrest : m.rest = ',' :: r) (hst : m.state = NUM)
    (hfsa : m.foldStackArg = FOLDED) (hsa : m.scanningArgs ≠ 0)
    (hb : inBounds m.opStackPtr = true) (htop : m.opStack m.opStackPtr = CALL)
    (hao : inBounds m.argcOpstackPtr = true) (hv : 63 < m.valueStackPtr + 1) :
    dispatch call m = .error .undefinedBehaviour := by
  have hin : m.inCh = ch ',' := inCh_cons m ',' r hrest
  rw [dispatch_after call m (Or.inl hst) (by rw [hin]; decide) (by rw [hin]; decide)
      (by rw [hin]; decide) (by rw [hin]; decide)]
  rw [if_pos ⟨hin, hsa⟩]
  unfold argumentSeparator
  simp only [hfsa, ne_eq, not_true_eq_false, if_false, hb, htop, hao, Machine.pushValue,
    inBounds_over hv, if_true, bind, Except.bind, Bool.false_eq_true]

/-- The dispatch at `)` after the fold of the last argument, when `valueStack` is full. -/
theorem dispatch_close_call_over {σ : Type} (cb : Callback σ) (m : Machine σ)
    (r : List Char) (hrest : m.rest = ')' :: r) (hst : m.state = NUM)
    (hfsa : m.foldStackArg = FOLDED) (hsa : m.scanningArgs ≠ 0)
    (hb : inBounds m.opStackPtr = true) (htop : m.opStack m.opStackPtr = CALL)
    (hb5 : inBounds (m.opStackPtr - 5) = true) (hv : 63 < m.valueStackPtr + 1) :
    dispatch (some cb) m = .error .undefinedBehaviour := by
  have hin : m.inCh = ch ')' := inCh_cons m ')' r hrest
  rw [dispatch_after (some cb) m (Or.inl hst) (by rw [hin]; decide) (by rw [hin]; decide)
      (by rw [hin]; decide) (by rw [hin]; decide)]
  rw [hin, if_neg (fun hh => absurd hh.1 (by decide)), if_pos rfl]
  unfold closeParen
  simp only [hfsa, ne_eq, not_true_eq_false, if_false, hb, htop, hsa, hb5,
    show ¬ (CALL = PAREN) from by decide, not_false_eq_true, and_self, Machine.pushValue,
    inBounds_over hv, if_true, bind, Except.bind, Bool.false_eq_true]

theorem before_start {σ : Type} (m : Machine σ) (h : m.foldStackArg = IDLE) :
    BeforeOperand m none [] m :=
  ⟨⟨rfl, rfl, rfl⟩, trivial, fun _ _ => rfl, by simp [vsum], trivial, fun _ _ => rfl,
    by simp [csum], rfl, rfl, h, rfl, by simp⟩

theorem wrap32_small (j : Int) (h0 : 0 ≤ j) (h1 : j ≤ 64) : wrap32 (j + 1) = j + 1 :=
  wrap32_of_range _ (by omega) (by omega)

/-- The last argument of a skipped call and the closing parenthesis. -/
theorem last_arg_pushed {σ : Type} (cb : Callback σ) (text g : List Char) (ol vl : Nat)
    (hg : IsGap g) (h : SkipsText cb text ol vl) (m mc : Machine σ) (j : Int) (r : List Char)
    (hC : InCall m j mc) (hj : 0 ≤ j) (hrest : mc.rest = text ++ (g ++ ')' :: r))
    (hsc : 1 ≤ m.skipCounter) (hp0 : 0 ≤ m.opStackPtr) (hv0 : 0 ≤ m.valueStackPtr)
    (hpc : mc.opStackPtr ≤ 63) (hvc : mc.valueStackPtr ≤ 63) :
    Reads cb (2 * text.length + (g.length + 2)) mc
      (fun m3 => Pushed m m3 ∧ m3.rest = r ∧ m3.opStackPtr ≤ 63)
      (m.opStackPtr + 6 + (ol : Int) ≤ 63 ∧ m.valueStackPtr + j + (vl : Int) ≤ 63 ∧
        m.valueStackPtr + j + 1 ≤ 63) := by
  obtain ⟨c1, c2, c3, c4, c5, c6, c7, c8, c9, c10, c11, c12, c13, c14⟩ := hC
  have hrd := h mc mc none [] (g ++ ')' :: r)
    (before_start mc c13) (by rw [c10]; exact hsc) (by rw [c1]; decide) (by rw [c1]; decide)
    (by omega) (by omega) hrest (stops_gap g _ hg (stops_close r)) hpc hvc
  refine reads_trans cb _ _ mc _ _ _ _ hrd
    (fun hb => ⟨by have := hb.1; omega, by have := hb.2.1; omega⟩) ?_
  rintro m2 ⟨y, ⟨hst, hS⟩, hr2, hp2, hv2, hp3, hv3⟩
  have hS' := hS
  obtain ⟨a1, a2, a3, a4, a5, a6, a7, a8, a9, a10, a11, a12, a13⟩ := hS'
  have hoy := osum_nonneg y
  have hvy := vsum_nonneg y
  refine reads_mono cb (g.length + (1 + (1 + 0))) _ m2 _ _
    (reads_gap cb _ m2 g _ _ _ hg (notBlank_close r) hr2 a11 (fun i => ?_)) (by omega)
  have s2 := step_close_request (some cb) ({ m2 with i := i, rest := ')' :: r } : Machine σ) r
    rfl hst a11
  dsimp only at s2
  refine reads_step cb _ _ _ _ _ s2 ?_
  have hA2 : AfterOperand mc y ({ m2 with i := i, rest := ')' :: r } : Machine σ) :=
    ⟨hst, a1, a2, a3, a4, a5, a6, a7, a8, a9, a10, a11, a12, a13⟩
  obtain ⟨mf, g0, g1, g2, g3, g4, g5, g6, g7, g8, g9, g10, g11⟩ :=
    foldPhase_pending cb mc _ y 0 (le_refl _) hA2 (by rw [c10]; exact hsc)
      (by rw [c1]; decide) (by omega) (by show m2.opStackPtr ≤ 63; omega) (by omega)
      (by show m2.valueStackPtr ≤ 63; omega)
  rw [foldTo_zero y a13] at g3 g4 g5
  simp only [osum, vsum, csum, add_zero] at g3 g4 g5
  have g6' : mf.opStack = m2.opStack := g6
  have g7' : mf.valueStack = m2.valueStack := g7
  have g8' : mf.scanningArgs = m2.scanningArgs := g8
  have g9' : mf.argcOpstackPtr = m2.argcOpstackPtr := g9
  have g10' : mf.rest = ')' :: r := g10
  have g11' : mf.host = m2.host := g11
  have htop : mf.opStack mf.opStackPtr = CALL := by rw [g3, g6', a2, c1]
  have hfro : ∀ i, i ≤ mc.opStackPtr → mf.opStack i = mc.opStack i := by
    intro i hi; rw [g6', a4 i hi]
  by_cases hvb : mf.valueStackPtr + 1 ≤ 63
  swap
  · have s3a := dispatch_close_call_over cb mf r g10' g1 g2
      (by rw [g8', a9, c11]; decide)
      (by rw [g3]; exact inBounds_of (by omega) (by omega)) htop
      (by rw [g3]; exact inBounds_of (by omega) (by omega)) (by omega)
    have s3 : step (some cb) ({ m2 with
        i := i, rest := ')' :: r, foldStackArg := 0 } : Machine σ) = _ :=
      (step_of_foldPhase (some cb) _ mf g0).trans s3a
    exact reads_fail cb _ _ _ _ s3 (fun hb => by
      have := hb.2.2
      omega)
  have s3a := dispatch_close_call cb mf r g10' g1 g2
    (by rw [g8', a9, c11]; decide)
    (by rw [g3]; exact inBounds_of (by omega) (by omega)) htop
    (by rw [g3]; exact inBounds_of (by omega) (by omega))
    (by rw [g4]; exact inBounds_of (by omega) (by omega)) (by omega)
  have s3 : step (some cb) ({ m2 with
      i := i, rest := ')' :: r, foldStackArg := 0 } : Machine σ) = _ :=
    (step_of_foldPhase (some cb) _ mf g0).trans s3a
  have hcount : mf.opStack (mf.opStackPtr - 3) = j := by
    rw [g3, c2, hfro _ (by omega)]
    have : m.opStackPtr + 6 + 1 - 3 = m.opStackPtr + 4 := by omega
    rw [this, c6]
  refine reads_step cb _ _ _ _ _ s3 (reads_done cb _ _ _
    ⟨⟨Or.inl rfl, ?_, ?_, ?_, ?_, ?_, ?_, ?_, ?_, rfl, ?_⟩, rfl, ?_⟩)
  · show mf.opStackPtr - 6 = m.opStackPtr + 1; omega
  · show mf.opStack (m.opStackPtr + 1) = m.state
    rw [hfro _ (by omega), c3]
  · intro i hi
    show mf.opStack i = m.opStack i
    rw [hfro i (by omega), c7 i hi]
  · show mf.valueStackPtr + 1 - wrap32 (mf.opStack (mf.opStackPtr - 3) + 1) = m.valueStackPtr
    rw [hcount, wrap32_small j hj (by omega)]; omega
  · intro i hi
    show store mf.valueStack (mf.valueStackPtr + 1) mf.lastValue i = m.valueStack i
    simp only [store]
    rw [if_neg (by omega), g7', a7 i (by omega), c9 i hi]
  · show mf.skipCounter = m.skipCounter; omega
  · show mf.opStack (mf.opStackPtr - 5) = m.scanningArgs
    rw [g3, c2, hfro _ (by omega)]
    have : m.opStackPtr + 6 + 1 - 5 = m.opStackPtr + 2 := by omega
    rw [this, c4]
  · show mf.opStack (mf.opStackPtr - 4) = m.argcOpstackPtr
    rw [g3, c2, hfro _ (by omega)]
    have : m.opStackPtr + 6 + 1 - 4 = m.opStackPtr + 3 := by omega
    rw [this, c5]
  · show mf.host = m.host; rw [g11', a12, c14]
  · show mf.opStackPtr - 6 ≤ 63; omega

/-- An argument of a skipped call and the separator after it. -/
theorem next_arg {σ : Type} (cb : Callback σ) (text g : List Char) (ol vl : Nat)
    (hg : IsGap g) (h : SkipsText cb text ol vl) (m mc : Machine σ) (j : Int) (r : List Char)
    (hC : InCall m j mc) (hj : 0 ≤ j) (hrest : mc.rest = text ++ (g ++ ',' :: r))
    (hsc : 1 ≤ m.skipCounter) (hp0 : 0 ≤ m.opStackPtr) (hv0 : 0 ≤ m.valueStackPtr)
    (hpc : mc.opStackPtr ≤ 63) (hvc : mc.valueStackPtr ≤ 63) :
    Reads cb (2 * text.length + (g.length + 2)) mc
      (fun m3 => InCall m (j + 1) m3 ∧ m3.rest = r ∧ m3.valueStackPtr ≤ 63)
      (m.opStackPtr + 6 + (ol : Int) ≤ 63 ∧ m.valueStackPtr + j + (vl : Int) ≤ 63 ∧
        m.valueStackPtr + j + 1 ≤ 63) := by
  obtain ⟨c1, c2, c3, c4, c5, c6, c7, c8, c9, c10, c11, c12, c13, c14⟩ := hC
  have hrd := h mc mc none [] (g ++ ',' :: r)
    (before_start mc c13) (by rw [c10]; exact hsc) (by rw [c1]; decide) (by rw [c1]; decide)
    (by omega) (by omega) hrest (stops_gap g _ hg (stops_comma r)) hpc hvc
  refine reads_trans cb _ _ mc _ _ _ _ hrd
    (fun hb => ⟨by have := hb.1; omega, by have := hb.2.1; omega⟩) ?_
  rintro m2 ⟨y, ⟨hst, hS⟩, hr2, hp2, hv2, hp3, hv3⟩
  have hS' := hS
  obtain ⟨a1, a2, a3, a4, a5, a6, a7, a8, a9, a10, a11, a12, a13⟩ := hS'
  have hoy := osum_nonneg y
  have hvy := vsum_nonneg y
  refine reads_mono cb (g.length + (1 + (1 + 0))) _ m2 _ _
    (reads_gap cb _ m2 g _ _ _ hg (notBlank_comma r) hr2 a11 (fun i => ?_)) (by omega)
  have s2 := step_comma_request (some cb) ({ m2 with i := i, rest := ',' :: r } : Machine σ) r
    rfl hst a11 (by show m2.scanningArgs ≠ 0; rw [a9, c11]; decide)
  dsimp only at s2
  refine reads_step cb _ _ _ _ _ s2 ?_
  have hA2 : AfterOperand mc y ({ m2 with i := i, rest := ',' :: r } : Machine σ) :=
    ⟨hst, a1, a2, a3, a4, a5, a6, a7, a8, a9, a10, a11, a12, a13⟩
  obtain ⟨mf, g0, g1, g2, g3, g4, g5, g6, g7, g8, g9, g10, g11⟩ :=
    foldPhase_pending cb mc _ y 0 (le_refl _) hA2 (by rw [c10]; exact hsc)
      (by rw [c1]; decide) (by omega) (by show m2.opStackPtr ≤ 63; omega) (by omega)
      (by show m2.valueStackPtr ≤ 63; omega)
  rw [foldTo_zero y a13] at g3 g4 g5
  simp only [osum, vsum, csum, add_zero] at g3 g4 g5
  have g6' : mf.opStack = m2.opStack := g6
  have g7' : mf.valueStack = m2.valueStack := g7
  have g8' : mf.scanningArgs = m2.scanningArgs := g8
  have g9' : mf.argcOpstackPtr = m2.argcOpstackPtr := g9
  have g10' : mf.rest = ',' :: r := g10
  have g11' : mf.host = m2.host := g11
  have htop : mf.opStack mf.opStackPtr = CALL := by rw [g3, g6', a2, c1]
  have hfro : ∀ i, i ≤ mc.opStackPtr → mf.opStack i = mc.opStack i := by
    intro i hi; rw [g6', a4 i hi]
  have hao : mf.argcOpstackPtr = m.opStackPtr + 4 := by rw [g9', a10, c12]
  by_cases hvb : mf.valueStackPtr + 1 ≤ 63
  swap
  · have s3a := dispatch_comma_over (some cb) mf r g10' g1 g2
      (by rw [g8', a9, c11]; decide)
      (by rw [g3]; exact inBounds_of (by omega) (by omega)) htop
      (by rw [hao]; exact inBounds_of (by omega) (by omega)) (by omega)
    have s3 : step (some cb) ({ m2 with
        i := i, rest := ',' :: r, foldStackArg := 0 } : Machine σ) = _ :=
      (step_of_foldPhase (some cb) _ mf g0).trans s3a
    exact reads_fail cb _ _ _ _ s3 (fun hb => by
      have := hb.2.2
      omega)
  have s3a := dispatch_comma (some cb) mf r g10' g1 g2
    (by rw [g8', a9, c11]; decide)
    (by rw [g3]; exact inBounds_of (by omega) (by omega)) htop
    (by rw [hao]; exact inBounds_of (by omega) (by omega))
    (by rw [g4]; exact inBounds_of (by omega) (by omega))
  have s3 : step (some cb) ({ m2 with
      i := i, rest := ',' :: r, foldStackArg := 0 } : Machine σ) = _ :=
    (step_of_foldPhase (some cb) _ mf g0).trans s3a
  have hst2 : ∀ i, i ≠ m.opStackPtr + 4 → i ≤ mc.opStackPtr →
      store mf.opStack mf.argcOpstackPtr (wrap32 (mf.opStack mf.argcOpstackPtr + 1)) i =
        mc.opStack i := by
    intro i hi hle
    simp only [store]
    rw [if_neg (by rw [hao]; exact hi), hfro i hle]
  refine reads_step cb _ _ _ _ _ s3 (reads_done cb _ _ _
    ⟨⟨rfl, ?_, ?_, ?_, ?_, ?_, ?_, ?_, ?_, ?_, ?_, hao, rfl, ?_⟩, rfl, ?_⟩)
  · show mf.opStackPtr - 1 = m.opStackPtr + 6; omega
  · show store mf.opStack _ _ (m.opStackPtr + 1) = m.state
    rw [hst2 _ (by omega) (by omega), c3]
  · show store mf.opStack _ _ (m.opStackPtr + 2) = m.scanningArgs
    rw [hst2 _ (by omega) (by omega), c4]
  · show store mf.opStack _ _ (m.opStackPtr + 3) = m.argcOpstackPtr
    rw [hst2 _ (by omega) (by omega), c5]
  · show store mf.opStack mf.argcOpstackPtr (wrap32 (mf.opStack mf.argcOpstackPtr + 1))
      (m.opStackPtr + 4) = j + 1
    rw [hao]
    simp only [store, if_true]
    rw [hfro _ (by omega), c6, wrap32_small j hj (by omega)]
  · intro i hi
    show store mf.opStack _ _ i = m.opStack i
    rw [hst2 _ (by omega) (by omega), c7 i hi]
  · show mf.valueStackPtr + 1 = m.valueStackPtr + (j + 1); omega
  · intro i hi
    show store mf.valueStack (mf.valueStackPtr + 1) mf.lastValue i = m.valueStack i
    simp only [store]
    rw [if_neg (by omega), g7', a7 i (by omega), c9 i hi]
  · show mf.skipCounter = m.skipCounter; omega
  · show mf.scanningArgs = 1; rw [g8', a9, c11]
  · show mf.host = m.host; rw [g11', a12, c14]
  · show mf.valueStackPtr + 1 ≤ 63; exact hvb

/-! ### The text of a list of tokens -/

theorem spaced_append (a b : List (List Char)) :
    ∀ gaps, spaced gaps (a ++ b) = spaced gaps a ++ spaced (gaps.drop a.length) b := by
  induction a with
  | nil => intro gaps; rfl
  | cons t ts ih =>
    intro gaps
    have hd : gaps.tail.drop ts.length = gaps.drop (ts.length + 1) := by
      cases gaps with
      | nil => simp
      | cons g gs => rfl
    show gaps.headD [] ++ (t ++ spaced gaps.tail (ts ++ b)) =
      (gaps.headD [] ++ (t ++ spaced gaps.tail ts)) ++ spaced (gaps.drop (ts.length + 1)) b
    rw [ih gaps.tail, hd]
    simp only [List.append_assoc]

theorem gaps_head (gaps : List (List Char)) (h : Gaps gaps) : IsGap (gaps.headD []) := by
  cases gaps with
  | nil => intro c hc; exact absurd hc (List.not_mem_nil _)
  | cons g gs => exact h g (List.mem_cons_self _ _)

theorem gaps_tail (gaps : List (List Char)) (h : Gaps gaps) : Gaps gaps.tail := by
  cases gaps with
  | nil => exact h
  | cons g gs => exact fun x hx => h x (List.mem_cons_of_mem _ hx)

theorem gaps_drop (gaps : List (List Char)) (n : Nat) (h : Gaps gaps) : Gaps (gaps.drop n) :=
  fun x hx => h x (List.mem_of_mem_drop hx)

theorem spaced_close (gaps : List (List Char)) :
    spaced gaps [[')']] = gaps.headD [] ++ [')'] := rfl

theorem argsText_single (e : Ast) (gaps : List (List Char)) :
    spaced gaps (Ast.argsTokens [e] ++ [[')']]) =
      spaced gaps e.tokens ++ ((gaps.drop e.tokens.length).headD [] ++ [')']) := by
  simp only [Ast.argsTokens]
  rw [spaced_append, spaced_close]

theorem argsText_cons (e e2 : Ast) (es : List Ast) (gaps : List (List Char)) :
    spaced gaps (Ast.argsTokens (e :: e2 :: es) ++ [[')']]) =
      spaced gaps e.tokens ++ ((gaps.drop e.tokens.length).headD [] ++
        ',' :: spaced (gaps.drop e.tokens.length).tail
          (Ast.argsTokens (e2 :: es) ++ [[')']])) := by
  have : Ast.argsTokens (e :: e2 :: es) ++ [[')']] =
      e.tokens ++ ([','] :: (Ast.argsTokens (e2 :: es) ++ [[')']])) := by
    simp only [Ast.argsTokens, List.append_assoc, List.cons_append]
  rw [this, spaced_append]
  rfl

/-- The arguments of a skipped call and the closing parenthesis. -/
theorem args_pushed {σ : Type} (cb : Callback σ) :
    ∀ (es : List Ast), es ≠ [] → (∀ e ∈ es, Skips cb e) →
      ∀ (gaps : List (List Char)), Gaps gaps →
      ∀ (m mc : Machine σ) (j : Int) (r : List Char), InCall m j mc → 0 ≤ j →
      mc.rest = spaced gaps (Ast.argsTokens es ++ [[')']]) ++ r → 1 ≤ m.skipCounter →
      0 ≤ m.opStackPtr → 0 ≤ m.valueStackPtr → mc.opStackPtr ≤ 63 → mc.valueStackPtr ≤ 63 →
      Reads cb (2 * (spaced gaps (Ast.argsTokens es ++ [[')']])).length) mc
        (fun m3 => Pushed m m3 ∧ m3.rest = r ∧ m3.opStackPtr ≤ 63)
        (m.opStackPtr + 6 + (Ast.argsOload es : Nat) ≤ 63 ∧
          m.valueStackPtr + j + (Ast.argsVload es : Nat) ≤ 63)
  | [], hne, _ => absurd rfl hne
  | [e], _, hs => by
    intro gaps hG m mc j r hC hj hrest hsc hp0 hv0 hpc hvc
    rw [argsText_single] at hrest ⊢
    have hrest1 : mc.rest = spaced gaps e.tokens ++
        ((gaps.drop e.tokens.length).headD [] ++ ')' :: r) := by
      rw [hrest]; simp only [List.append_assoc, List.cons_append, List.nil_append]
    have hrd := last_arg_pushed cb (spaced gaps e.tokens)
      ((gaps.drop e.tokens.length).headD []) e.oload e.vload
      (gaps_head _ (gaps_drop gaps _ hG)) (hs e (List.mem_singleton_self e) gaps hG) m mc j r
      hC hj hrest1 hsc hp0 hv0 hpc hvc
    refine reads_mono cb _ _ mc _ _ (reads_weaken cb _ mc _ _ _ _ hrd (fun _ hq => hq) ?_)
      (by simp only [List.length_append, List.length_cons, List.length_nil]; omega)
    rintro ⟨b1, b2⟩
    simp only [Ast.argsOload, Ast.argsVload, add_zero] at b1 b2
    push_cast at b1 b2
    refine ⟨by omega, by omega, by omega⟩
  | e :: e2 :: es, _, hs => by
    intro gaps hG m mc j r hC hj hrest hsc hp0 hv0 hpc hvc
    rw [argsText_cons] at hrest ⊢
    have hoe : Ast.argsOload (e :: e2 :: es) = max e.oload (Ast.argsOload (e2 :: es)) := rfl
    have hve : Ast.argsVload (e :: e2 :: es) = max e.vload (1 + Ast.argsVload (e2 :: es)) :=
      rfl
    have hrest1 : mc.rest = spaced gaps e.tokens ++
        ((gaps.drop e.tokens.length).headD [] ++
          ',' :: (spaced (gaps.drop e.tokens.length).tail
            (Ast.argsTokens (e2 :: es) ++ [[')']]) ++ r)) := by
      rw [hrest]; simp only [List.append_assoc, List.cons_append]
    have hrd := next_arg cb (spaced gaps e.tokens)
      ((gaps.drop e.tokens.length).headD []) e.oload e.vload
      (gaps_head _ (gaps_drop gaps _ hG)) (hs e (List.mem_cons_self _ _) gaps hG) m mc j _
      hC hj hrest1 hsc hp0 hv0 hpc hvc
    refine reads_mono cb _ _ mc _ _
      (reads_trans cb _
        (2 * (spaced (gaps.drop e.tokens.length).tail
          (Ast.argsTokens (e2 :: es) ++ [[')']])).length) mc _ _ _ _ hrd ?_ ?_)
      (by simp only [List.length_append, List.length_cons]; omega)
    · rintro ⟨b1, b2⟩
      rw [hoe] at b1
      rw [hve] at b2
      push_cast at b1 b2
      refine ⟨by omega, by omega, by omega⟩
    · rintro m2 ⟨hC2, hr2, hv2⟩
      have hp2 : m2.opStackPtr ≤ 63 := by
        rw [hC2.2.1, ← hC.2.1]; exact hpc
      refine reads_weaken cb _ m2 _ _ _ _
        (args_pushed cb (e2 :: es) (List.cons_ne_nil _ _)
          (fun e1 h1 => hs e1 (List.mem_cons_of_mem _ h1)) _
          (gaps_tail _ (gaps_drop gaps _ hG)) m m2 (j + 1) r hC2 (by omega) hr2 hsc
          hp0 hv0 hp2 hv2) (fun _ hq => hq) ?_
      rintro ⟨b1, b2⟩
      rw [hoe] at b1
      rw [hve] at b2
      push_cast at b1 b2
      refine ⟨by omega, by omega⟩

/-- A call is an operand when its arguments are skipped. -/
theorem pushes_call {σ : Type} (cb : Callback σ) (name g : List Char) (args : List Ast)
    (gaps : List (List Char)) (hn : IsIdent name) (hg : IsGap g) (hG : Gaps gaps)
    (hargs : ∀ e ∈ args, Skips cb e) :
    PushesText cb (name ++ (g ++ '(' :: spaced gaps (Ast.argsTokens args ++ [[')']])))
      (6 + Ast.argsOload args) (Ast.argsVload args) := by
  intro m r hfsa hcl hsc hrest hstop hp0 hp hv0 hv
  obtain ⟨c, cs, rfl, hc, hcs⟩ := hn
  obtain ⟨i1, i2, i3⟩ := ident_head c hc
  have hrest1 : m.rest = c :: cs ++
      (g ++ '(' :: (spaced gaps (Ast.argsTokens args ++ [[')']]) ++ r)) := by
    rw [hrest]; simp only [List.append_assoc, List.cons_append, List.nil_append]
  have hin : m.inCh = ch c := inCh_cons m c _ hrest1
  by_cases hb1 : m.opStackPtr + 1 ≤ 63
  swap
  · exact reads_mono cb (1 + 0) _ m _ _
      (reads_fail cb 0 m _ _ (step_literal_over (some cb) m _ hfsa (by rw [hin]; exact i2)
        (by rw [hin]; exact i3) hcl (literalBranch_ident m c _ hrest1 hc) (by omega))
        (fun hB => by
          have := hB.1
          push_cast at this
          omega))
      (by simp only [List.length_cons, List.length_append]; omega)
  have s1 := step_ident (some cb) m c cs _ hrest1 hc hcs (stops_gap g _ hg (stops_open _))
    hfsa hcl (inBounds_of (by omega) hb1)
  generalize hm1 : ({ m with
      opStack := store m.opStack (m.opStackPtr + 1) m.state, opStackPtr := m.opStackPtr + 1,
      i := m.i + ((1 + cs.length : Nat) : Int),
      rest := g ++ '(' :: (spaced gaps (Ast.argsTokens args ++ [[')']]) ++ r),
      lastIdent := m.i, lastIdentLen := ((1 + cs.length : Nat) : Int),
      state := IDENT } : Machine σ) = m1 at s1
  have e1 : m1.rest = g ++ '(' :: (spaced gaps (Ast.argsTokens args ++ [[')']]) ++ r) := by
    rw [← hm1]
  have e2 : m1.foldStackArg = IDLE := by rw [← hm1]; exact hfsa
  have e3 : m1.state = IDENT := by rw [← hm1]
  have e4 : m1.opStackPtr = m.opStackPtr + 1 := by rw [← hm1]
  have e5 : m1.valueStackPtr = m.valueStackPtr := by rw [← hm1]
  have e6 : m1.skipCounter = m.skipCounter := by rw [← hm1]
  have e7 : m1.opStack = store m.opStack (m.opStackPtr + 1) m.state := by rw [← hm1]
  have e8 : m1.valueStack = m.valueStack := by rw [← hm1]
  have e9 : m1.argcOpstackPtr = m.argcOpstackPtr := by rw [← hm1]
  have e10 : m1.host = m.host := by rw [← hm1]
  have e11 : m1.scanningArgs = m.scanningArgs := by rw [← hm1]
  refine reads_mono cb (1 + (g.length + (1 +
      (2 * (spaced gaps (Ast.argsTokens args ++ [[')']])).length)))) _ m _ _
    (reads_step cb _ m m1 _ _ s1
      (reads_gap cb _ m1 g _ _ _ hg (notBlank_open _) e1 e2 (fun i => ?_)))
    (by simp only [List.length_cons, List.length_append]; omega)
  by_cases hb5 : m1.opStackPtr + 5 ≤ 63
  swap
  · exact reads_fail cb _ _ _ _
      (step_callOpen_over (some cb) ({ m1 with
        i := i, rest := '(' :: (spaced gaps (Ast.argsTokens args ++ [[')']]) ++ r) } :
        Machine σ) _ rfl e3 e2 (by show 63 < m1.opStackPtr + 5; omega))
      (fun hB => by
        have := hB.1
        push_cast at this
        omega)
  have s2 := step_callOpen (some cb) ({ m1 with
      i := i, rest := '(' :: (spaced gaps (Ast.argsTokens args ++ [[')']]) ++ r) } :
      Machine σ) _ rfl e3 e2
    (by show 0 ≤ m1.opStackPtr; omega) (by show m1.opStackPtr + 5 ≤ 63; exact hb5)
  dsimp only at s2
  generalize hmc : ({ m1 with
      opStack := store (store (store (store (store m1.opStack
        (m1.opStackPtr + 1) m1.scanningArgs) (m1.opStackPtr + 1 + 1) m1.argcOpstackPtr)
        (m1.opStackPtr + 1 + 1 + 1) 0) (m1.opStackPtr + 1 + 1 + 1 + 1) m1.lastIdent)
        (m1.opStackPtr + 1 + 1 + 1 + 1 + 1) m1.lastIdentLen,
      opStackPtr := m1.opStackPtr + 1 + 1 + 1 + 1 + 1,
      i := i + 1, rest := spaced gaps (Ast.argsTokens args ++ [[')']]) ++ r,
      argcOpstackPtr := m1.opStackPtr + 1 + 1 + 1,
      state := CALL, scanningArgs := 1 } : Machine σ) = mc at s2
  have hC : InCall m 0 mc := by
    rw [← hmc]
    refine ⟨rfl, by show m1.opStackPtr + 1 + 1 + 1 + 1 + 1 = _; omega, ?_, ?_, ?_, ?_, ?_,
      by show m1.valueStackPtr = _; omega, fun _ _ => by show m1.valueStack _ = _; rw [e8],
      e6, rfl, by show m1.opStackPtr + 1 + 1 + 1 = _; omega, e2, e10⟩
    · show store _ _ _ _ = _
      simp only [store]
      rw [if_neg (by omega), if_neg (by omega), if_neg (by omega), if_neg (by omega),
        if_neg (by omega), e7]
      simp only [store, if_true]
    · show store _ _ _ _ = _
      simp only [store]
      rw [if_neg (by omega), if_neg (by omega), if_neg (by omega), if_neg (by omega),
        if_pos (by omega), e11]
    · show store _ _ _ _ = _
      simp only [store]
      rw [if_neg (by omega), if_neg (by omega), if_neg (by omega), if_pos (by omega), e9]
    · show store _ _ _ _ = _
      simp only [store]
      rw [if_neg (by omega), if_neg (by omega), if_pos (by omega)]
    · intro k hk
      show store _ _ _ _ = _
      simp only [store]
      rw [if_neg (by omega), if_neg (by omega), if_neg (by omega), if_neg (by omega),
        if_neg (by omega), e7]
      simp only [store]
      rw [if_neg (by omega)]
  have em : mc.rest = spaced gaps (Ast.argsTokens args ++ [[')']]) ++ r := by rw [← hmc]
  refine reads_step cb _ _ _ _ _ s2 ?_
  obtain ⟨c1, c2, c3, c4, c5, c6, c7, c8, c9, c10, c11, c12, c13, c14⟩ := hC
  cases args with
  | nil =>
    have em1 : mc.rest = gaps.headD [] ++ ')' :: r := by
      rw [em]
      simp only [Ast.argsTokens, List.nil_append, spaced_close, List.append_assoc,
        List.cons_append]
    refine reads_mono cb ((gaps.headD []).length + (1 + 0)) _ mc _ _
      (reads_gap cb _ mc (gaps.headD []) _ _ _ (gaps_head gaps hG) (notBlank_close r) em1 c13
        (fun i2 => ?_))
      (by simp only [Ast.argsTokens, List.nil_append, spaced_close, List.length_append,
        List.length_cons, List.length_nil]; omega)
    have s3 := step_callNoArgs cb ({ mc with i := i2, rest := ')' :: r } : Machine σ) r rfl c1
      c13 (by show 5 ≤ mc.opStackPtr; omega) (by show mc.opStackPtr ≤ 63; omega)
      (by show mc.opStack (mc.opStackPtr - 2) = 0
          rw [c2]
          have : m.opStackPtr + 6 - 2 = m.opStackPtr + 4 := by omega
          rw [this, c6])
      (by show mc.skipCounter ≠ 0; omega)
    dsimp only at s3
    refine reads_step cb _ _ _ _ _ s3 (reads_done cb _ _ _
      ⟨⟨Or.inl rfl, ?_, ?_, ?_, ?_, ?_, ?_, ?_, ?_, c13, c14⟩, rfl, ?_⟩)
    · show mc.opStackPtr - 5 = m.opStackPtr + 1; omega
    · exact c3
    · exact c7
    · show mc.valueStackPtr = m.valueStackPtr; omega
    · exact c9
    · exact c10
    · show mc.opStack (mc.opStackPtr - 4) = m.scanningArgs
      rw [c2]
      have : m.opStackPtr + 6 - 4 = m.opStackPtr + 2 := by omega
      rw [this, c4]
    · show mc.opStack (mc.opStackPtr - 3) = m.argcOpstackPtr
      rw [c2]
      have : m.opStackPtr + 6 - 3 = m.opStackPtr + 3 := by omega
      rw [this, c5]
    · show mc.opStackPtr - 5 ≤ 63; omega
  | cons e es =>
    refine reads_weaken cb _ mc _ _ _ _
      (args_pushed cb (e :: es) (List.cons_ne_nil _ _) hargs gaps hG
        m mc 0 r ⟨c1, c2, c3, c4, c5, c6, c7, c8, c9, c10, c11, c12, c13, c14⟩ (le_refl _) em
        hsc hp0 hv0 (by omega) (by omega)) (fun _ hq => hq) ?_
    rintro ⟨b1, b2⟩
    push_cast at b1 b2
    refine ⟨by omega, by omega⟩

theorem binTok_token (op : BinTok) : IsOpToken op.text op.code := by
  cases op <;>
    exact ⟨_, _, rfl, by decide, by decide,
      fun rest ho => by
        first
          | exact lex_opens _ rest (by decide) (by decide) ho
          | (simp only [List.nil_append, List.cons_append, headCode, List.length_nil,
              List.length_cons]; decide)⟩

theorem pow_token : IsOpToken ['*', '*'] 80 :=
  ⟨_, _, rfl, by decide, by decide,
    fun _ _ => by simp only [List.nil_append, List.cons_append, headCode, List.length_nil,
      List.length_cons]; decide⟩

theorem head_notBlank (c : Char) (t : List Char) (h : isBlank (ch c) = false) :
    runLength isBlank (c :: t) = 0 := by
  unfold runLength
  rw [h]; rfl

theorem ident_notBlank (name r : List Char) (h : IsIdent name) :
    runLength isBlank (name ++ r) = 0 := by
  obtain ⟨c, cs, rfl, hc, _⟩ := h
  exact head_notBlank c _ (ident_head c hc).2.2

/-! ### The first character of an expression -/

theorem opens_identChar (c : Char) (r : List Char) (h : isIdentChar (ch c) = true) :
    opens (c :: r) = true := by
  unfold opens
  simp only [headCode, h, Bool.or_true, Bool.true_or]

theorem opens_gap (g t : List Char) (hg : IsGap g) (h : opens t = true) :
    opens (g ++ t) = true := by
  cases g with
  | nil => exact h
  | cons c g =>
    have hc : isBlank (ch c) = true := hg c (List.mem_cons_self _ _)
    unfold opens
    simp only [List.cons_append, headCode, hc, Bool.true_or]

theorem opens_ident (name r : List Char) (h : IsIdent name) : opens (name ++ r) = true := by
  obtain ⟨c, cs, rfl, hc, _⟩ := h
  refine opens_identChar c _ ?_
  unfold isIdentChar
  rcases hc with hc | hc
  · rw [hc]; rfl
  · subst hc; decide

theorem opens_lit (ds r : List Char) (h : IsDecLit ds) : opens (ds ++ r) = true := by
  obtain ⟨hne, hds⟩ := h
  obtain ⟨c, cs, rfl⟩ := List.exists_cons_of_ne_nil hne
  refine opens_identChar c _ ?_
  unfold isIdentChar
  rw [hds c (List.mem_cons_self _ _)]
  simp only [Bool.or_true, Bool.true_or]

theorem spaced_one (gaps : List (List Char)) (t : List Char) :
    spaced gaps [t] = gaps.headD [] ++ t := by
  show gaps.headD [] ++ (t ++ []) = _
  rw [List.append_nil]

theorem spaced_nil (gaps : List (List Char)) : spaced gaps [] = [] := by
  cases gaps <;> rfl

theorem spaced_cons (gaps : List (List Char)) (t : List Char) (ts : List (List Char)) :
    spaced gaps (t :: ts) = gaps.headD [] ++ (t ++ spaced gaps.tail ts) := rfl

/-- The text of a well-formed expression starts with a blank, a letter, a digit, `_`, `(` or
a unary operator. -/
theorem tokens_opens : ∀ (e : Ast), e.WellFormed → ∀ gaps, Gaps gaps →
    ∀ r, opens (spaced gaps e.tokens ++ r) = true
  | .lit ds, hw, gaps, hG, r => by
    simp only [Ast.tokens, spaced_one, List.append_assoc]
    exact opens_gap _ _ (gaps_head gaps hG) (opens_lit ds r hw.1)
  | .hex x hs, _, gaps, hG, r => by
    simp only [Ast.tokens, spaced_one, List.append_assoc]
    exact opens_gap _ _ (gaps_head gaps hG) (opens_identChar '0' _ (by decide))
  | .ident name, hw, gaps, hG, r => by
    simp only [Ast.tokens, spaced_one, List.append_assoc]
    exact opens_gap _ _ (gaps_head gaps hG) (opens_ident name r hw)
  | .call name args, hw, gaps, hG, r => by
    simp only [Ast.tokens, spaced_cons, List.append_assoc]
    exact opens_gap _ _ (gaps_head gaps hG) (opens_ident name _ hw.1)
  | .group e, _, gaps, hG, r => by
    simp only [Ast.tokens, spaced_cons, List.append_assoc]
    exact opens_gap _ _ (gaps_head gaps hG) rfl
  | .unary op e, _, gaps, hG, r => by
    simp only [Ast.tokens, spaced_cons, List.append_assoc]
    exact opens_gap _ _ (gaps_head gaps hG) (by cases op <;> rfl)
  | .assign name e, hw, gaps, hG, r => by
    simp only [Ast.tokens, spaced_cons, List.append_assoc]
    exact opens_gap _ _ (gaps_head gaps hG) (opens_ident name _ hw.1)
  | .binary l op r1, hw, gaps, hG, r => by
    simp only [Ast.tokens]
    rw [spaced_append, List.append_assoc]
    exact tokens_opens l hw.1 gaps hG _
  | .power l r1, hw, gaps, hG, r => by
    simp only [Ast.tokens]
    rw [spaced_append, List.append_assoc]
    exact tokens_opens l hw.1 gaps hG _

/-! ### Every well-formed expression is skipped -/

theorem group_text (e : Ast) (gaps : List (List Char)) :
    spaced gaps (Ast.group e).tokens = gaps.headD [] ++ ('(' :: (spaced gaps.tail e.tokens ++
      ((gaps.tail.drop e.tokens.length).headD [] ++ [')']))) := by
  simp only [Ast.tokens, spaced_cons, spaced_append, spaced_nil, List.cons_append,
    List.nil_append]

theorem call_text (name : List Char) (args : List Ast) (gaps : List (List Char)) :
    spaced gaps (Ast.call name args).tokens = gaps.headD [] ++ (name ++
      (gaps.tail.headD [] ++ '(' :: spaced gaps.tail.tail (Ast.argsTokens args ++ [[')']]))) := by
  simp only [Ast.tokens, spaced_cons, List.cons_append, List.nil_append]

theorem assign_text (name : List Char) (e : Ast) (gaps : List (List Char)) :
    spaced gaps (Ast.assign name e).tokens = gaps.headD [] ++ (name ++
      (gaps.tail.headD [] ++ '=' :: spaced gaps.tail.tail e.tokens)) := by
  simp only [Ast.tokens, spaced_cons, List.cons_append, List.nil_append]

theorem unary_text (op : UnTok) (e : Ast) (gaps : List (List Char)) :
    spaced gaps (Ast.unary op e).tokens =
      gaps.headD [] ++ (op.char :: spaced gaps.tail e.tokens) := by
  simp only [Ast.tokens, spaced_cons, List.cons_append, List.nil_append]

theorem binary_text (l r : Ast) (t : List Char) (gaps : List (List Char)) :
    spaced gaps (l.tokens ++ t :: r.tokens) = spaced gaps l.tokens ++
      ((gaps.drop l.tokens.length).headD [] ++
        (t ++ spaced (gaps.drop l.tokens.length).tail r.tokens)) := by
  rw [spaced_append, spaced_cons]

mutual
/-- While the right operand of `&&` or `||` is skipped, every well-formed expression is read
without an invocation of the callback, whatever blanks stand before its tokens, unless a
stack is left. -/
theorem skips_all {σ : Type} (cb : Callback σ) : ∀ (e : Ast), e.WellFormed → Skips cb e
  | .lit ds, hw => fun gaps hG => by
    simp only [Ast.tokens, spaced_one]
    exact skips_lead cb _ _ _ _ (gaps_head gaps hG)
      (fun r => isDecLit_notBlank_append ds r hw.1)
      (skips_of_pushes cb _ _ _ (le_refl _) (pushes_lit cb ds hw))
  | .hex x hs, hw => fun gaps hG => by
    simp only [Ast.tokens, spaced_one]
    exact skips_lead cb _ _ _ _ (gaps_head gaps hG)
      (fun r => head_notBlank '0' _ (by decide))
      (skips_of_pushes cb _ _ _ (le_refl _) (pushes_hex cb x hs hw))
  | .ident name, hw => fun gaps hG => by
    simp only [Ast.tokens, spaced_one]
    exact skips_lead cb _ _ _ _ (gaps_head gaps hG)
      (fun r => ident_notBlank name r hw)
      (skips_of_pushes cb _ _ _ (le_refl _) (pushes_ident cb name hw))
  | .call name args, hw => fun gaps hG => by
    rw [call_text]
    exact skips_lead cb _ _ _ _ (gaps_head gaps hG)
      (fun r => by rw [List.append_assoc]; exact ident_notBlank name _ hw.1)
      (skips_of_pushes cb _ _ _ (by simp only [Ast.oload]; omega)
        (pushes_call cb name _ args _ hw.1 (gaps_head _ (gaps_tail gaps hG))
          (gaps_tail _ (gaps_tail gaps hG)) (skips_args cb args hw.2)))
  | .group e, hw => fun gaps hG => by
    rw [group_text]
    exact skips_lead cb _ _ _ _ (gaps_head gaps hG) (fun r => rfl)
      (skips_of_pushes cb _ _ _ (by simp only [Ast.oload]; omega)
        (pushes_group cb _ _ e.oload e.vload
          (gaps_head _ (gaps_drop _ _ (gaps_tail gaps hG)))
          (skips_all cb e hw _ (gaps_tail gaps hG))))
  | .unary op e, hw => fun gaps hG => by
    rw [unary_text]
    exact skips_lead cb _ _ _ _ (gaps_head gaps hG)
      (fun r => head_notBlank _ _ (by cases op <;> decide))
      (skips_unary cb _ e.oload e.vload op (skips_all cb e hw _ (gaps_tail gaps hG)))
  | .assign name e, hw => fun gaps hG => by
    rw [assign_text]
    exact skips_lead cb _ _ _ _ (gaps_head gaps hG)
      (fun r => by rw [List.append_assoc]; exact ident_notBlank name _ hw.1)
      (skips_assign cb name _ _ e.oload e.vload hw.1 (gaps_head _ (gaps_tail gaps hG))
        (tokens_opens e hw.2 _ (gaps_tail _ (gaps_tail gaps hG)))
        (skips_all cb e hw.2 _ (gaps_tail _ (gaps_tail gaps hG))))
  | .binary l op r, hw => fun gaps hG => by
    simp only [Ast.tokens]
    rw [binary_text]
    exact skips_binop cb _ _ op.text _ l.oload l.vload r.oload r.vload op.code
      (binTok_token op) (gaps_head _ (gaps_drop gaps _ hG))
      (tokens_opens r hw.2 _ (gaps_tail _ (gaps_drop gaps _ hG)))
      (skips_all cb l hw.1 gaps hG)
      (skips_all cb r hw.2 _ (gaps_tail _ (gaps_drop gaps _ hG)))
  | .power l r, hw => fun gaps hG => by
    simp only [Ast.tokens]
    rw [binary_text]
    exact skips_binop cb _ _ ['*', '*'] _ l.oload l.vload r.oload r.vload 80
      pow_token (gaps_head _ (gaps_drop gaps _ hG))
      (tokens_opens r hw.2 _ (gaps_tail _ (gaps_drop gaps _ hG)))
      (skips_all cb l hw.1 gaps hG)
      (skips_all cb r hw.2 _ (gaps_tail _ (gaps_drop gaps _ hG)))
/-- The same for every argument of a call. -/
theorem skips_args {σ : Type} (cb : Callback σ) :
    ∀ (es : List Ast), Ast.argsWellFormed es → ∀ e ∈ es, Skips cb e
  | [], _ => fun _ h => absurd h (List.not_mem_nil _)
  | e :: es, hw => fun e1 h1 => by
    rcases List.mem_cons.1 h1 with h1 | h1
    · rw [h1]; exact skips_all cb e hw.1
    · exact skips_args cb es hw.2 e1 h1
end

/-- A well-formed operand leaves one more entry on `opStack` and invokes no callback, unless
a stack is left. -/
theorem pushes_operand {σ : Type} (cb : Callback σ) (e : Ast) (hw : e.WellFormed)
    (hop : e.IsOperand) (gaps : List (List Char)) (hG : Gaps gaps) :
    PushesText cb (spaced gaps e.tokens) e.oload e.vload := by
  cases e with
  | ident name =>
    simp only [Ast.tokens, spaced_one]
    exact pushes_lead cb _ _ _ _ (gaps_head gaps hG) (fun r => ident_notBlank name r hw)
      (pushes_ident cb name hw)
  | call name args =>
    rw [call_text]
    exact pushes_lead cb _ _ _ _ (gaps_head gaps hG)
      (fun r => by rw [List.append_assoc]; exact ident_notBlank name _ hw.1)
      (pushes_call cb name _ args _ hw.1 (gaps_head _ (gaps_tail gaps hG))
        (gaps_tail _ (gaps_tail gaps hG)) (skips_args cb args hw.2))
  | group e =>
    rw [group_text]
    exact pushes_lead cb _ _ _ _ (gaps_head gaps hG) (fun r => rfl)
      (pushes_group cb _ _ e.oload e.vload
        (gaps_head _ (gaps_drop _ _ (gaps_tail gaps hG)))
        (skips_all cb e hw _ (gaps_tail gaps hG)))
  | lit ds => exact absurd hop id
  | hex x hs => exact absurd hop id
  | unary op e => exact absurd hop id
  | assign name e => exact absurd hop id
  | binary l op r => exact absurd hop id
  | power l r => exact absurd hop id

/-- The machine after the left operand and the operator of `0 &&...` or `1 ||...`. -/
theorem sc_start {σ : Type} (call : Option (Callback σ)) (h : σ) (n : Nat) (isOr : Bool)
    (r : List Char) :
    run call (n + 4)
      (initial ((if isOr then ['1', ' ', '|', '|'] else ['0', ' ', '&', '&']) ++ r) h) =
    run call n
      { opStack := store (store (fun _ => 0) 0 START) 1 START, opStackPtr := 1,
        valueStack := store (fun _ => 0) 1 (if isOr then 1 else 0), valueStackPtr := 1,
        state := if isOr then 335 else 321, lastValue := if isOr then 1 else 0,
        lastIdent := 0, lastIdentLen := 0, scanningArgs := 0, argcOpstackPtr := 0,
        foldStackArg := IDLE, skipCounter := 1, i := 4, rest := r, host := h } := by
  unfold initial
  cases isOr
  · rw [run_succ]; simp [scanDec]
    rw [run_succ]; simp
    rw [run_succ]; simp
    rw [run_succ]; simp
  · rw [run_succ]; simp [scanDec]
    rw [run_succ]; simp
    rw [run_succ]; simp
    rw [run_succ]; simp

/-- Blanks at the end of the text cost at most one iteration. -/
theorem advances_gap {σ : Type} (call : Option (Callback σ)) (m : Machine σ) (g : List Char)
    (hg : IsGap g) (hrest : m.rest = g) (hfsa : m.foldStackArg = IDLE) :
    ∃ (n : Nat) (i : Int), n ≤ g.length ∧
      Advances call n m ({ m with i := i, rest := [] } : Machine σ) := by
  cases g with
  | nil =>
    refine ⟨0, m.i, le_refl _, ?_⟩
    have hm : ({ m with i := m.i, rest := [] } : Machine σ) = m := by
      cases m
      simp only at hrest
      subst hrest
      rfl
    rw [hm]
    exact advances_refl call m
  | cons c g =>
    have hs := step_gap call m c g [] (by rw [hrest, List.append_nil]) hg rfl hfsa
    exact ⟨1, _, by simp only [List.length_cons]; omega, advances_step call m _ hs⟩

/-- The short-circuited operand: `0 && E` returns 0 and `1 || E` returns 1 with the initial
host state, for every well-formed operand and whatever blanks stand before its tokens and at
the end of the text, unless the operand leaves a stack, which needs an operand beyond the
bounds. -/
theorem operand_skipped {σ : Type} (cb : Callback σ) (h : σ) (isOr : Bool) (e : Ast)
    (gaps : List (List Char)) (g : List Char)
    (hw : e.WellFormed) (hop : e.IsOperand) (hG : Gaps gaps) (hg : IsGap g) :
    evaluateExprInt
        ((if isOr then ['1', ' ', '|', '|'] else ['0', ' ', '&', '&']) ++
          (spaced gaps e.tokens ++ g))
        (some cb) h = .ret (if isOr then 1 else 0) none h ∨
      (evaluateExprInt
        ((if isOr then ['1', ' ', '|', '|'] else ['0', ' ', '&', '&']) ++
          (spaced gaps e.tokens ++ g))
        (some cb) h = .undefinedBehaviour ∧ ¬ (e.oload ≤ 62 ∧ e.vload ≤ 62)) := by
  have hcl : band (if isOr then 335 else 321) CAN_LITERAL ≠ 0 := by cases isOr <;> decide
  have hplen : (if isOr then ['1', ' ', '|', '|'] else ['0', ' ', '&', '&']).length
      = 4 := by cases isOr <;> rfl
  have hsg : stops g = true := by
    have := stops_gap g [] hg rfl
    rwa [List.append_nil] at this
  obtain ⟨n1, hn1, hrd⟩ := pushes_operand cb e hw hop gaps hG
    ({ opStack := store (store (fun _ => 0) 0 START) 1 START, opStackPtr := 1,
       valueStack := store (fun _ => 0) 1 (if isOr then 1 else 0), valueStackPtr := 1,
       state := if isOr then 335 else 321, lastValue := if isOr then 1 else 0,
       lastIdent := 0, lastIdentLen := 0, scanningArgs := 0, argcOpstackPtr := 0,
       foldStackArg := IDLE, skipCounter := 1, i := 4, rest := spaced gaps e.tokens ++ g,
       host := h } : Machine σ)
    g rfl hcl (le_refl _) rfl hsg
    (by show (0 : Int) ≤ 1; decide) (by show (1 : Int) ≤ 63; decide)
    (by show (0 : Int) ≤ 1; decide) (by show (1 : Int) ≤ 63; decide)
  rcases hrd with ⟨m1, hadv, ⟨hst, hP⟩, hr, _⟩ | ⟨hov, hnb⟩
  · left
    obtain ⟨p1, p2, p3, p4, p5, p6, p7, p8, p9, p10⟩ := hP
    obtain ⟨n2, i2, hn2, hadv2⟩ := advances_gap (some cb) m1 g hg hr p9
    have hfuel : n1 + n2 + 2 + 4 ≤ 2 * ((if isOr then ['1', ' ', '|', '|']
        else ['0', ' ', '&', '&']) ++ (spaced gaps e.tokens ++ g)).length + 3 := by
      rw [List.length_append, List.length_append, hplen]; omega
    apply evaluate_of_run _ _ _ _ _ hfuel _ (by simp)
    have e1 : n1 + n2 + 2 = n1 + (n2 + 2) := by omega
    rw [sc_start (some cb) h (n1 + n2 + 2) isOr, e1, hadv (n2 + 2), hadv2 2]
    obtain ⟨os1, q1, vs1, k1, st1, lv1, li1, ll1, sa1, ao1, fsa1, sc1, i1, rest1, host1⟩ := m1
    simp only at hst hr p1 p2 p3 p4 p5 p6 p7 p8 p9 p10
    have hq : q1 = 2 := by omega
    subst hq p4 p6 p9 p10
    have hos2 : os1 2 = if isOr then 335 else 321 := by
      have : (1 : Int) + 1 = 2 := by decide
      rw [← this]; exact p2
    have hos1 : os1 1 = START := by
      rw [p3 1 (le_refl _)]
      simp only [store, if_true]
    have hvs1 : vs1 1 = if isOr then 1 else 0 := by
      rw [p5 1 (le_refl _)]
      simp only [store, if_true]
    exact tail_cont cb _ isOr st1 hst os1 vs1 sa1 ao1 hos2 hos1 hvs1 os1 vs1 lv1 li1 ll1 i2
      (fun _ _ => rfl) (fun _ _ => rfl)
  · right
    refine ⟨?_, fun hb => hnb ⟨?_, ?_⟩⟩
    · have hfuel : n1 + 4 ≤ 2 * ((if isOr then ['1', ' ', '|', '|']
          else ['0', ' ', '&', '&']) ++ (spaced gaps e.tokens ++ g)).length + 3 := by
        rw [List.length_append, List.length_append, hplen]; omega
      apply evaluate_of_run _ _ _ _ _ hfuel _ (by simp)
      rw [sc_start (some cb) h n1 isOr]
      exact hov 0
    · show (1 : Int) + (e.oload : Int) ≤ 63
      have := hb.1
      omega
    · show (1 : Int) + (e.vload : Int) ≤ 63
      have := hb.2
      omega

/-- The call sites of the callback are guarded by `skipCounter`. -/
theorem skip_guard {σ : Type} (f g : Callback σ) (m : Machine σ) (hsc : m.skipCounter ≠ 0) :
    promote (some f) m = promote (some g) m ∧
      closeParen (some f) m = closeParen (some g) m ∧
      callNoArgs (some f) m = callNoArgs (some g) m ∧
      ∀ op c, foldBody (some f) m op c = foldBody (some g) m op c := by
  refine ⟨?_, ?_, ?_, ?_⟩
  · simp only [promote, hsc, ne_eq, not_false_eq_true, if_true]
  · unfold closeParen Machine.pushValue
    simp only [hsc, ne_eq, not_false_eq_true, if_true]
    split_ifs <;> simp [bind, Except.bind, hsc]
  · simp only [callNoArgs, hsc, ne_eq, not_false_eq_true, if_true]
  · intro op c
    unfold foldBody
    by_cases hb : band op BINOP = 0
    · simp only [hb, hsc, ne_eq, not_true_eq_false, false_and, if_false]
    · simp only [hb, hsc, ne_eq, not_false_eq_true, true_and, if_true, if_false]

/-- C9 (counterexample): with 32 levels of parentheses around the identifier, and likewise
with 46, `0 && E` does not return 0: the operator stack of 64 entries overflows. -/
theorem C9_deep_group_overflows :
    evaluateExprInt ("0 && ".toList ++ List.replicate 32 '(' ++ ['x'] ++ List.replicate 32 ')')
        (some (recorder 7)) [] = .undefinedBehaviour ∧
      evaluateExprInt ("0 && ".toList ++ List.replicate 46 '(' ++ ['x'] ++ List.replicate 46 ')')
        (some (recorder 7)) [] = .undefinedBehaviour :=
  ⟨by decide!, by decide!⟩

/-- The bound of 62 entries is attained: 30 levels of parentheses and 62 arguments are read,
31 levels and 63 arguments leave a stack. -/
theorem skipped_operand_capacity :
    evaluateExprInt ("0 && ".toList ++ List.replicate 30 '(' ++ ['x'] ++ List.replicate 30 ')')
        (some (recorder 7)) [] = .ret 0 none [] ∧
      evaluateExprInt ("0 && ".toList ++ List.replicate 31 '(' ++ ['x'] ++ List.replicate 31 ')')
        (some (recorder 7)) [] = .undefinedBehaviour ∧
      evaluateExprInt ("0 && f(1".toList ++ (List.replicate 61 [',', '1']).flatten ++ [')'])
        (some (recorder 7)) [] = .ret 0 none [] ∧
      evaluateExprInt ("0 && f(1".toList ++ (List.replicate 62 [',', '1']).flatten ++ [')'])
        (some (recorder 7)) [] = .undefinedBehaviour :=
  ⟨by decide!, by decide!, by decide!, by decide!⟩

/-- C9 (amended): for every callback and host state, every well-formed operand `E` that is
an identifier, a call, or a parenthesised expression (built from decimal and hexadecimal
literals below 2^31, identifiers, calls, parentheses, unary and binary operators, `**` and
assignments), and whatever blanks stand before the tokens of `E` and at the end of the text:
if `E` needs at most 62 entries on each stack, the text `0 &&` followed by `E` returns 0 and
the text `1 ||` followed by `E` returns 1, with a null diagnostic and the initial host state,
so the callback is not invoked; for every such `E`, within the bounds or not, the run returns
that result or ends with an access outside a stack; and at every call site of the callback a
non-zero `skipCounter` makes the result independent of the callback. -/
theorem C9_short_circuit_suppresses_host {σ : Type} (cb : Callback σ) (h : σ) (e : Ast)
    (gaps : List (List Char)) (g : List Char)
    (hw : e.WellFormed) (hop : e.IsOperand) (hG : Gaps gaps) (hg : IsGap g) :
    (e.oload ≤ 62 → e.vload ≤ 62 →
        evaluateExprInt (['0', ' ', '&', '&'] ++ (spaced gaps e.tokens ++ g)) (some cb) h =
            .ret 0 none h ∧
          evaluateExprInt (['1', ' ', '|', '|'] ++ (spaced gaps e.tokens ++ g)) (some cb) h =
            .ret 1 none h) ∧
      (evaluateExprInt (['0', ' ', '&', '&'] ++ (spaced gaps e.tokens ++ g)) (some cb) h =
          .ret 0 none h ∨
        evaluateExprInt (['0', ' ', '&', '&'] ++ (spaced gaps e.tokens ++ g)) (some cb) h =
          .undefinedBehaviour) ∧
      (evaluateExprInt (['1', ' ', '|', '|'] ++ (spaced gaps e.tokens ++ g)) (some cb) h =
          .ret 1 none h ∨
        evaluateExprInt (['1', ' ', '|', '|'] ++ (spaced gaps e.tokens ++ g)) (some cb) h =
          .undefinedBehaviour) ∧
      ∀ (f : Callback σ) (m : Machine σ), m.skipCounter ≠ 0 →
        promote (some cb) m = promote (some f) m ∧
          closeParen (some cb) m = closeParen (some f) m ∧
          callNoArgs (some cb) m = callNoArgs (some f) m ∧
          ∀ op c, foldBody (some cb) m op c = foldBody (some f) m op c := by
  have hand := operand_skipped cb h false e gaps g hw hop hG hg
  have hor := operand_skipped cb h true e gaps g hw hop hG hg
  refine ⟨fun ho hv => ⟨?_, ?_⟩, ?_, ?_, fun f m hsc => skip_guard cb f m hsc⟩
  · rcases hand with h1 | ⟨_, h2⟩
    · exact h1
    · exact absurd ⟨ho, hv⟩ h2
  · rcases hor with h1 | ⟨_, h2⟩
    · exact h1
    · exact absurd ⟨ho, hv⟩ h2
  · rcases hand with h1 | ⟨h1, _⟩
    · exact Or.inl h1
    · exact Or.inr h1
  · rcases hor with h1 | ⟨h1, _⟩
    · exact Or.inl h1
    · exact Or.inr h1

theorem isIdent_single (c : Char) (hc : isalpha (ch c) = true) : IsIdent [c] :=
  ⟨c, [], rfl, Or.inl hc, fun _ hx => absurd hx (List.not_mem_nil _)⟩

theorem gaps_of_all (gaps : List (List Char))
    (h : gaps.all (fun g => g.all (fun c => isBlank (ch c))) = true) : Gaps gaps := by
  intro g hg c hc
  exact List.all_eq_true.1 (List.all_eq_true.1 h g hg) c hc

/-- Witness of C9 (amended): the operand `(f(x,-2) || a = b ** 0x1F)`, written with one blank
around the binary operators and written without blanks but with blanks inside the
parentheses and at the end, with the recording callback. -/
theorem C9_short_circuit_suppresses_host_witness :
    (evaluateExprInt ("0 && (f(x,-2) || a = b ** 0x1F)".toList) (some (recorder 7)) [] =
        .ret 0 none [] ∧
      evaluateExprInt ("1 || (f(x,-2) || a = b ** 0x1F)".toList) (some (recorder 7)) [] =
        .ret 1 none []) ∧
    (evaluateExprInt ("0 &&( f(x ,-2)||a=b**0x1F )  ".toList) (some (recorder 7)) [] =
        .ret 0 none [] ∧
      evaluateExprInt ("1 ||( f(x ,-2)||a=b**0x1F )  ".toList) (some (recorder 7)) [] =
        .ret 1 none []) :=
  have hwf : (Ast.group (.binary (.call ['f'] [.ident ['x'], .unary .neg (.lit ['2'])]) .logOr
      (.assign ['a'] (.power (.ident ['b']) (.hex 'x' ['1', 'F']))))).WellFormed :=
    ⟨⟨isIdent_single 'f' (by decide),
        isIdent_single 'x' (by decide), ⟨⟨by decide, by decide⟩, by decide⟩, trivial⟩,
      isIdent_single 'a' (by decide), isIdent_single 'b' (by decide),
      Or.inl rfl, ⟨by decide, by decide⟩, by decide⟩
  have h1 := C9_short_circuit_suppresses_host (recorder 7) []
    (.group (.binary (.call ['f'] [.ident ['x'], .unary .neg (.lit ['2'])]) .logOr
      (.assign ['a'] (.power (.ident ['b']) (.hex 'x' ['1', 'F'])))))
    [[' '], [], [], [], [], [], [], [], [' '], [' '], [' '], [' '], [' '], [' '], []] []
    hwf trivial (gaps_of_all _ rfl) (fun _ hc => absurd hc (List.not_mem_nil _))
  have h2 := C9_short_circuit_suppresses_host (recorder 7) []
    (.group (.binary (.call ['f'] [.ident ['x'], .unary .neg (.lit ['2'])]) .logOr
      (.assign ['a'] (.power (.ident ['b']) (.hex 'x' ['1', 'F'])))))
    [[], [' '], [], [], [' '], [], [], [], [], [], [], [], [], [], [' ']] [' ', ' ']
    hwf trivial (gaps_of_all _ rfl) (gaps_of_all [[' ', ' ']] rfl _ (List.mem_singleton_self _))
  ⟨h1.1 (by decide) (by decide), h2.1 (by decide) (by decide)⟩

/-- C6: with the callback of example.c, `a = 10; b = 17; print(a,b); a + b` returns 0 and not
27: each assignment reaches the callback with name length 573 and the name offset 1, so
nothing is stored, `print` receives `(0, 0)`, and `a`, `b` stay 0. -/
theorem C6_assignment_round_trip_is_lost :
    observe (evaluateExprInt "a = 10; b = 17; print(a,b); a + b".toList
        (some (callHandler "a = 10; b = 17; print(a,b); a + b".toList)) Host.initial) =
      some (0, none, [.unknown 1 573 [], .unknown 1 573 [], .values [0, 0]], 0, 0) := by
  decide!

/-- C7: the fold of an assignment passes the callback the identifier's length as the name
offset and the operator entry 573 as the name length: for `a = 10` the call is
`(offset 1, length 573, [10], -1)` and for `  total = 10` it is
`(offset 5, length 573, [10], -1)`, where the identifiers are at offsets 0 and 2 with
lengths 1 and 5. -/
theorem C7_assignment_name_is_shifted :
    evaluateExprInt "a = 10".toList (some (recorder 7)) [] =
        .ret 7 none [(1, 573, [10], -1)] ∧
      evaluateExprInt "  total = 10".toList (some (recorder 7)) [] =
        .ret 7 none [(5, 573, [10], -1)] :=
  ⟨by decide!, by decide!⟩

/-- C10: with a null callback `x`, `f()`, `f(1)`, `x = 1` and `0 && x` return the sentinel
with `calling a null function`, but the short-circuited assignment `0 && a = 5` succeeds
with value 0 and a null diagnostic. -/
theorem C10_null_callback_skipped_assignment_succeeds :
    evaluateExprInt (σ := Unit) "x".toList none () =
        .ret EXPR_ERRORVAL (some "calling a null function") () ∧
      evaluateExprInt (σ := Unit) "f()".toList none () =
        .ret EXPR_ERRORVAL (some "calling a null function") () ∧
      evaluateExprInt (σ := Unit) "f(1)".toList none () =
        .ret EXPR_ERRORVAL (some "calling a null function") () ∧
      evaluateExprInt (σ := Unit) "x = 1".toList none () =
        .ret EXPR_ERRORVAL (some "calling a null function") () ∧
      evaluateExprInt (σ := Unit) "0 && x".toList none () =
        .ret EXPR_ERRORVAL (some "calling a null function") () ∧
      evaluateExprInt (σ := Unit) "0 && a = 5".toList none () = .ret 0 none () := by
  decide!

/-- C12: the inputs `1 + `, `1 && ` and `1 ** ` do not return `incomplete expression`: the
end-of-input branch passes the test `opStackPtr > 1` and fails `assert(valueStackPtr == 0)`. -/
theorem C12_trailing_operator_trips_assertion :
    evaluateExprInt (σ := Unit) "1 + ".toList none () = .assertionFailure .valueStackEmpty ∧
      evaluateExprInt (σ := Unit) "1 && ".toList none () = .assertionFailure .valueStackEmpty ∧
      evaluateExprInt (σ := Unit) "1 ** ".toList none () = .assertionFailure .valueStackEmpty := by
  decide!

/-- C13: unary plus is not evaluated: `1 + + 2` and `+2` return the sentinel with the
diagnostic `unrecognized operator`. -/
theorem C13_unary_plus_is_unrecognized :
    evaluateExprInt (σ := Unit) "1 + + 2".toList none () =
        .ret EXPR_ERRORVAL (some "unrecognized operator") () ∧
      evaluateExprInt (σ := Unit) "+2".toList none () =
        .ret EXPR_ERRORVAL (some "unrecognized operator") () := by
  decide!

/-- C14 (counterexample): `5;` returns 5, not 0.  And the value of a source is not kept by
every appended `;`: after 256 blanks, `a =;` leaves the offset 256 of the name on top of the
operator stack and returns 0 with a null diagnostic, while with one more `;` that entry is
folded as an operator and the run ends with `unrecognized operator`. -/
theorem C14_trailing_semicolon_keeps_value :
    evaluateExprInt (σ := Unit) "5;".toList none () = .ret 5 none () ∧
      evaluateExprInt (σ := Unit) (List.replicate 256 ' ' ++ "a =;".toList) none () =
        .ret 0 none () ∧
      endsCleanly (σ := Unit) (List.replicate 256 ' ' ++ "a =;".toList) none () = false ∧
      evaluateExprInt (σ := Unit) (List.replicate 256 ' ' ++ "a =;".toList ++ [';']) none () =
        .ret EXPR_ERRORVAL (some "unrecognized operator") () := by
  decide!

/-- C17 (counterexample): `1, 2` and `(1, 2)` return the sentinel with the diagnostic
`syntax error`, not `unknown state found at comma`. -/
theorem C17_comma_outside_call_is_syntax_error :
    evaluateExprInt (σ := Unit) "1, 2".toList none () =
        .ret EXPR_ERRORVAL (some "syntax error") () ∧
      evaluateExprInt (σ := Unit) "(1, 2)".toList none () =
        .ret EXPR_ERRORVAL (some "syntax error") () := by
  decide!

/-- C18 (counterexample): the lookup gives `*` the priority 20 and `P` the priority 30, not
30 and 40. -/
theorem C18_priority_of_times_is_20 : prio (ch '*') = 20 ∧ prio (ch 'P') = 30 := by
  decide!

/-- C18 (amended): the priorities the lookup assigns: `U u ! ~` 40, `P` 30, `* / %` 20,
`+ -` 15, `l r` 9, `< > L G` 8, `E N` 7, `&` 6, `^` 5, `|` 4, `A` 3, `O` 2, `=` 0. -/
theorem C18_priority_table :
    prio (ch 'U') = 40 ∧ prio (ch 'u') = 40 ∧ prio (ch '!') = 40 ∧ prio (ch '~') = 40 ∧
      prio (ch 'P') = 30 ∧ prio (ch '*') = 20 ∧ prio (ch '/') = 20 ∧ prio (ch '%') = 20 ∧
      prio (ch '+') = 15 ∧ prio (ch '-') = 15 ∧ prio (ch 'l') = 9 ∧ prio (ch 'r') = 9 ∧
      prio (ch '<') = 8 ∧ prio (ch '>') = 8 ∧ prio (ch 'L') = 8 ∧ prio (ch 'G') = 8 ∧
      prio (ch 'E') = 7 ∧ prio (ch 'N') = 7 ∧ prio (ch '&') = 6 ∧ prio (ch '^') = 5 ∧
      prio (ch '|') = 4 ∧ prio (ch 'A') = 3 ∧ prio (ch 'O') = 2 ∧ prio (ch '=') = 0 := by
  decide!

/-- C19: the operator state of `+` passes the tests `state & CAN_STATEMENT` and
`state & AFTER_LITERAL`, and `1 + ;` is accepted: it returns 1 with a null diagnostic, while
`1 + * 2` fails `assert(valueStackPtr == 0)` instead of returning a diagnostic. -/
theorem C19_operator_state_admits_statement_end :
    band (bor (ch '+') BINOP) CAN_STATEMENT ≠ 0 ∧ band (bor (ch '+') BINOP) AFTER_LITERAL ≠ 0 ∧
      evaluateExprInt (σ := Unit) "1 + ;".toList none () = .ret 1 none () ∧
      evaluateExprInt (σ := Unit) "1 + * 2".toList none () =
        .assertionFailure .valueStackEmpty := by
  decide!

/-- C20: on the input `0||1+` the fold of `||` at the end of the input decrements
`skipCounter` from 0 and fails `assert(skipCounter >= 0)`. -/
theorem C20_skipCounter_becomes_negative :
    evaluateExprInt (σ := Unit) "0||1+".toList none () =
      .assertionFailure .skipCounterNonneg := by
  decide!

end SmallExpr
